import Mathlib

/-! # Asset Processor Manager: builder dirty detection, fast skip, analysis tracker, queues
and the job pipeline

A shallow embedding of parts of
`dev/Code/Tools/AssetProcessor/native/AssetManager/assetProcessorManager.cpp`
and theorems about them.

Conventions of the embedding:
* `AZStd::string`, `QString` and `AZStd::string_view` are `List Char` (`Str`);
* hash maps and sets (`AZStd::unordered_map`, `QMap`, `QSet`) are association lists / lists
  without duplicate keys, written through `mapSet` / `setInsert`;
* the store (`m_stateData`), the disk and the platform configuration are explicit arguments;
* signals and queued invocations (`Q_EMIT`, `QMetaObject::invokeMethod`) are returned as lists
  of effects.
-/

namespace AssetProcessor

/-! ## Strings, identifiers, maps -/

/-- Text (`AZStd::string`, `QString`, `AZStd::string_view`). -/
abbrev Str := List Char

/-- The 128-bit identifier `AZ::Uuid`, by its numeric value; the null identifier is `0`. -/
abbrev Uuid := Nat

/-- The null identifier `AZ::Uuid::CreateNull()`. -/
def Uuid.CreateNull : Uuid := 0

/-- The test `AZ::Uuid::IsNull`. -/
def Uuid.IsNull (u : Uuid) : Bool := u == 0

/-- The string functions of `AZ::Uuid` (AzCore/Math/Uuid.cpp, not part of the sources at hand):
`CreateString` reads an identifier from its text (null when the text is not one), `CreateName`
hashes arbitrary text into an identifier, `ToString` prints the bracketed text. The functions of
the manager take them as a parameter. -/
structure UuidOps where
  CreateString : Str → Uuid
  CreateName : Str → Uuid
  ToString : Uuid → Str

/-- Lookup in a map (`find`). -/
def mapFind {κ ν : Type} [DecidableEq κ] : List (κ × ν) → κ → Option ν
  | [], _ => none
  | (k', v) :: rest, k => if k' = k then some v else mapFind rest k

/-- Insert-or-assign in a map (`m[k] = v`). -/
def mapSet {κ ν : Type} [DecidableEq κ] : List (κ × ν) → κ → ν → List (κ × ν)
  | [], k, v => [(k, v)]
  | (k', v') :: rest, k, v => if k' = k then (k, v) :: rest else (k', v') :: mapSet rest k v

/-- Removal of a key from a map (`erase`). -/
def mapErase {κ ν : Type} [DecidableEq κ] : List (κ × ν) → κ → List (κ × ν)
  | [], _ => []
  | (k', v') :: rest, k => if k' = k then mapErase rest k else (k', v') :: mapErase rest k

/-- The keys of a map. -/
def mapKeys {κ ν : Type} (m : List (κ × ν)) : List κ := m.map Prod.fst

/-- Insertion into a set (`QSet::insert`). -/
def setInsert {κ : Type} [DecidableEq κ] (s : List κ) (k : κ) : List κ :=
  if k ∈ s then s else s ++ [k]

/-- Removal from a set (`QSet::remove`). -/
def setRemove {κ : Type} [DecidableEq κ] (s : List κ) (k : κ) : List κ :=
  s.filter (fun x => x ≠ k)

/-! ## A reference implementation of the identifier text

Used to run the functions on concrete inputs. -/

/-- Upper-case hexadecimal digit of a value below 16. -/
def hexDigit (n : Nat) : Char :=
  if n < 10 then Char.ofNat (48 + n) else Char.ofNat (55 + n)

/-- Value of a hexadecimal digit. -/
def hexValue (c : Char) : Option Nat :=
  let n := c.toNat
  if 48 ≤ n ∧ n ≤ 57 then some (n - 48)
  else if 65 ≤ n ∧ n ≤ 70 then some (n - 55)
  else if 97 ≤ n ∧ n ≤ 102 then some (n - 87)
  else none

/-- The lowest `d` hexadecimal digits of `n`, most significant first. -/
def hexOf : Nat → Nat → Str
  | 0, _ => []
  | d + 1, n => hexDigit ((n / 16 ^ d) % 16) :: hexOf d n

/-- Reads a run of hexadecimal digits. -/
def hexParse : Str → Nat → Option Nat
  | [], acc => some acc
  | c :: rest, acc =>
    match hexValue c with
    | some v => hexParse rest (acc * 16 + v)
    | none => none

/-- Prints the canonical text of an identifier: 38 characters,
`{XXXXXXXX-XXXX-XXXX-XXXX-XXXXXXXXXXXX}`. -/
def stdToString (u : Uuid) : Str :=
  '{' :: hexOf 8 (u / 2 ^ 96) ++ '-' :: hexOf 4 (u / 2 ^ 80) ++ '-' :: hexOf 4 (u / 2 ^ 64)
    ++ '-' :: hexOf 4 (u / 2 ^ 48) ++ '-' :: hexOf 12 u ++ ['}']

/-- Reads the canonical 38-character text; anything else gives the null identifier. -/
def stdCreateString (s : Str) : Uuid :=
  if s.length = 38 ∧ s.head? = some '{' ∧ (s.drop 9).head? = some '-'
      ∧ (s.drop 14).head? = some '-' ∧ (s.drop 19).head? = some '-'
      ∧ (s.drop 24).head? = some '-' ∧ (s.drop 37).head? = some '}' then
    match hexParse ((s.drop 1).take 8 ++ (s.drop 10).take 4 ++ (s.drop 15).take 4
        ++ (s.drop 20).take 4 ++ (s.drop 25).take 12) 0 with
    | some v => v
    | none => 0
  else 0

/-- A stand-in for the hash `AZ::Uuid::CreateName`: deterministic, never null. -/
def stdCreateName (s : Str) : Uuid :=
  1 + s.foldl (fun h c => (h * 257 + c.toNat) % (2 ^ 128 - 1)) 7

/-- The reference implementation of the identifier functions. -/
def stdUuid : UuidOps where
  CreateString := stdCreateString
  CreateName := stdCreateName
  ToString := stdToString

/-! ## Builders, store and disk -/

/-- What the manager caches per builder (`BuilderData`, declared in the header): the flags of
the builder, the fingerprint of its registration and whether it changed since the last run. -/
structure BuilderData where
  m_flags : Nat := 0
  m_fingerprint : Uuid := 0
  m_isDirty : Bool := false
deriving DecidableEq, Repr

/-- The builder flag `AssetBuilderDesc::BF_EmitsNoDependencies` (bit 0 of the flags). -/
def BF_EmitsNoDependencies : Nat := 1

/-- The builder part of the manager: `m_builderDataCache`, `m_buildersAddedOrRemoved`,
`m_anyBuilderChange`. -/
structure BuilderState where
  m_builderDataCache : List (Uuid × BuilderData) := []
  m_buildersAddedOrRemoved : Bool := false
  m_anyBuilderChange : Bool := false
deriving DecidableEq, Repr

/-- A row of the source table (`SourceDatabaseEntry`); a row not yet stored has id `-1`. -/
structure SourceDatabaseEntry where
  m_sourceID : Int := -1
  m_scanFolderPK : Int := -1
  m_sourceName : Str := []
  m_analysisFingerprint : Str := []
  m_sourceGuid : Uuid := 0
deriving DecidableEq, Repr

/-- A row of the scan folder table of the store (`ScanFolderDatabaseEntry`). -/
structure ScanFolderDatabaseEntry where
  m_scanFolderID : Int := -1
  m_scanFolder : Str := []
  m_outputPrefix : Str := []
deriving DecidableEq, Repr

/-- The kind of a dependency edge (`SourceFileDependencyEntry::TypeOfDependency`). -/
inductive TypeOfDependency
  | DEP_SourceToSource
  | DEP_JobToJob
  | DEP_Any
deriving DecidableEq, Repr

/-- A row of the dependency table: `m_source` depends on `m_dependsOnSource`; the builder
that declared the dependency; a row not yet stored has id `-1`. -/
structure SourceFileDependencyEntry where
  m_source : Str
  m_dependsOnSource : Str
  m_typeOfDependency : TypeOfDependency := TypeOfDependency.DEP_SourceToSource
  m_builderGuid : Uuid := 0
  m_sourceDependencyID : Int := -1
deriving DecidableEq, Repr

/-- Modelled from the spec: the store query `QuerySourceBySourceNameScanFolderID`
(`GetFingerprint(source)` of the store interface; the store itself is not part of the sources at
hand). The callback of the manager stops at the first row, so the first matching row is
returned. -/
def QuerySourceBySourceNameScanFolderID (sources : List SourceDatabaseEntry) (name : Str)
    (scanFolderID : Int) : Option SourceDatabaseEntry :=
  sources.find? (fun e => e.m_sourceName = name ∧ e.m_scanFolderPK = scanFolderID)

/-- Modelled from the spec: the store query `QuerySourceAnalysisFingerprint`
(`GetFingerprint(source) -> opt<string>`): the fingerprint of the row of that name and scan
folder, when there is one. -/
def QuerySourceAnalysisFingerprint (sources : List SourceDatabaseEntry) (name : Str)
    (scanFolderID : Int) : Option Str :=
  (QuerySourceBySourceNameScanFolderID sources name scanFolderID).map
    (fun e => e.m_analysisFingerprint)

/-- Modelled from the spec: the store update `SetSource` (`SetFingerprint(source, string)`): a
row carrying the id of a stored row replaces it, any other row is added. -/
def SetSource (sources : List SourceDatabaseEntry) (e : SourceDatabaseEntry) :
    List SourceDatabaseEntry :=
  if sources.any (fun r => r.m_sourceID = e.m_sourceID) then
    sources.map (fun r => if r.m_sourceID = e.m_sourceID then e else r)
  else sources ++ [e]

/-- Whether an edge is of the kind asked for (`DEP_Any` asks for all). -/
def dependencyTypeMatches (asked : TypeOfDependency) (e : SourceFileDependencyEntry) : Bool :=
  asked = TypeOfDependency.DEP_Any ∨ e.m_typeOfDependency = asked

/-- Modelled from the spec: the store query `QueryDependsOnSourceBySourceDependency`
(`QueryEdges(filter)`): the edges leaving `source`. -/
def QueryDependsOnSourceBySourceDependency (edges : List SourceFileDependencyEntry)
    (source : Str) (asked : TypeOfDependency) : List SourceFileDependencyEntry :=
  edges.filter (fun e => e.m_source = source ∧ dependencyTypeMatches asked e)

/-- Modelled from the spec: the store query `QuerySourceDependencyByDependsOnSource`
(`QueryEdges(filter)`): the edges arriving at `dependsOn`. -/
def QuerySourceDependencyByDependsOnSource (edges : List SourceFileDependencyEntry)
    (dependsOn : Str) (asked : TypeOfDependency) : List SourceFileDependencyEntry :=
  edges.filter (fun e => e.m_dependsOnSource = dependsOn ∧ dependencyTypeMatches asked e)

/-- The disk, the platform configuration and the helpers of `AssetUtilities` and Qt that the
fingerprinting code calls; none of them is part of the sources at hand. -/
structure FileEnv where
  /-- The call `PlatformConfiguration::FindFirstMatchingFile`: empty when no scan folder has the file. -/
  FindFirstMatchingFile : Str → Str
  /-- The call `AssetUtilities::GetFileFingerprint(absolutePath, databasePath)`. -/
  GetFileFingerprint : Str → Str → Str
  /-- The list behind `MetaDataFileTypesCount` / `GetMetaDataFileTypeAt`: (metadata extension or file, source
  extension). -/
  metaDataFileTypes : List (Str × Str)
  /-- The call `assetRoot.filePath(gameName + "/" + name)`. -/
  gameRootFilePath : Str → Str
  /-- The test `QFileInfo::exists`. -/
  fileExists : Str → Bool
  /-- The test `QString::endsWith(suffix, Qt::CaseInsensitive)`. -/
  endsWithCaseInsensitive : Str → Str → Bool
  /-- The text `QFileInfo(path).path() + '/' + QFileInfo(path).completeBaseName()`. -/
  pathWithoutExtension : Str → Str
  /-- The database path that `PlatformConfiguration::ConvertToRelativePath` writes. -/
  ConvertToRelativePath : Str → Str
  /-- The marker `m_placeHolderFileName` that starts the name of a missing dependency. -/
  m_placeHolderFileName : Str
  /-- The test `PlatformConfiguration::IsMetaDataTypeRealFile`. -/
  IsMetaDataTypeRealFile : Str → Bool

/-- The cache of metadata files found on disk: `m_cachedMetaFilesExistMap`,
`m_metaFilesWhichActuallyExistOnDisk`. -/
structure MetaFileCache where
  m_cachedMetaFilesExistMap : Bool := false
  m_metaFilesWhichActuallyExistOnDisk : List Str := []
deriving DecidableEq, Repr

/-- Order of the keys of `SourceFilesForFingerprintingContainer`: lexicographic on the
characters. -/
def strLt : Str → Str → Bool
  | [], [] => false
  | [], _ :: _ => true
  | _ :: _, [] => false
  | a :: as, b :: bs =>
    if a.toNat < b.toNat then true else if b.toNat < a.toNat then false else strLt as bs

/-- Insertion into `SourceFilesForFingerprintingContainer`, the ordered container of (absolute
path, database path): kept sorted by absolute path, an absolute path already present is kept. -/
def containerInsert : List (Str × Str) → Str × Str → List (Str × Str)
  | [], e => [e]
  | (k, v) :: rest, e =>
    if e.1 = k then (k, v) :: rest
    else if strLt e.1 k then e :: (k, v) :: rest
    else (k, v) :: containerInsert rest e

/-- The test `QString::startsWith`. -/
def startsWith (s start : Str) : Bool := s.take start.length = start

/-! ## Recursive dependency query and metadata files -/

/-- The loop of `QueryAbsolutePathDependenciesRecursive`: `queryQueue` is worked off, a name
already in `results` is skipped, a new one is recorded and the other ends of its edges are
queued. `none` when the fuel runs out. -/
def queryLoop (edges : List SourceFileDependencyEntry) (placeHolder : Str)
    (dependencyType : TypeOfDependency) (reverseQuery : Bool) :
    Nat → List Str → List Str → Option (List Str)
  | 0, _, _ => none
  | _ + 1, [], results => some results
  | fuel + 1, first :: queryQueue, results =>
    let toSearch :=
      if startsWith first placeHolder ∧ !reverseQuery then first.drop placeHolder.length
      else first
    if toSearch ∈ results then
      queryLoop edges placeHolder dependencyType reverseQuery fuel queryQueue results
    else
      let found :=
        if reverseQuery then
          (QuerySourceDependencyByDependsOnSource edges toSearch dependencyType).map
            (fun e => e.m_source)
        else
          (QueryDependsOnSourceBySourceDependency edges toSearch dependencyType).map
            (fun e => e.m_dependsOnSource)
      queryLoop edges placeHolder dependencyType reverseQuery fuel
        (found.foldl setInsert queryQueue) (setInsert results toSearch)

/-- Fuel that the loop of `QueryAbsolutePathDependenciesRecursive` never exhausts. -/
def queryFuel (edges : List SourceFileDependencyEntry) : Nat :=
  (2 * edges.length + 1) * (edges.length + 1) + 2

/-- The last loop of `QueryAbsolutePathDependenciesRecursive`: every recorded name that is not a
placeholder and that some scan folder has goes into the list with its absolute path. -/
def addResolvedDependencies (env : FileEnv) :
    List Str → List (Str × Str) → List (Str × Str)
  | [], finalDependencyList => finalDependencyList
  | dep :: rest, finalDependencyList =>
    if startsWith dep env.m_placeHolderFileName then
      addResolvedDependencies env rest finalDependencyList
    else
      let firstMatchingFile := env.FindFirstMatchingFile dep
      if firstMatchingFile.isEmpty then addResolvedDependencies env rest finalDependencyList
      else addResolvedDependencies env rest
        (containerInsert finalDependencyList (firstMatchingFile, dep))

/-- The function `AssetProcessorManager::QueryAbsolutePathDependenciesRecursive`. -/
def QueryAbsolutePathDependenciesRecursive (env : FileEnv)
    (edges : List SourceFileDependencyEntry) (inputDatabasePath : Str)
    (finalDependencyList : List (Str × Str)) (dependencyType : TypeOfDependency)
    (reverseQuery : Bool) : Option (List (Str × Str)) :=
  (queryLoop edges env.m_placeHolderFileName dependencyType reverseQuery (queryFuel edges)
    [inputDatabasePath] []).map (fun results => addResolvedDependencies env results
      finalDependencyList)

/-- The first loop of `AddMetadataFilesForFingerprinting`: when the cache is not valid, the
metadata files that exist under the game root are looked up once. -/
def refreshMetaFileCache (env : FileEnv) (cache : MetaFileCache) : MetaFileCache :=
  if cache.m_cachedMetaFilesExistMap then cache
  else
    { m_cachedMetaFilesExistMap := true
      m_metaFilesWhichActuallyExistOnDisk :=
        (env.metaDataFileTypes.filter (fun t => env.fileExists (env.gameRootFilePath t.1))).foldl
          (fun acc t => setInsert acc t.1) cache.m_metaFilesWhichActuallyExistOnDisk }

/-- The second loop of `AddMetadataFilesForFingerprinting`, over the metadata file types. -/
def addMetadataLoop (env : FileEnv) (existing : List Str) (fullPathToFile : Str) :
    List (Str × Str) → List (Str × Str) → List (Str × Str)
  | [], outFilesToFingerprint => outFilesToFingerprint
  | metaDataFileType :: rest, outFilesToFingerprint =>
    if !metaDataFileType.2.isEmpty
        ∧ !env.endsWithCaseInsensitive fullPathToFile metaDataFileType.2 then
      addMetadataLoop env existing fullPathToFile rest outFilesToFingerprint
    else
      let metaDataFileName :=
        if metaDataFileType.1 ∈ existing then env.gameRootFilePath metaDataFileType.1
        else if metaDataFileType.2.isEmpty then fullPathToFile ++ '.' :: metaDataFileType.1
        else env.pathWithoutExtension fullPathToFile ++ '.' :: metaDataFileType.1
      addMetadataLoop env existing fullPathToFile rest
        (containerInsert outFilesToFingerprint
          (metaDataFileName, env.ConvertToRelativePath metaDataFileName))

/-- The function `AssetProcessorManager::AddMetadataFilesForFingerprinting`; the cache it
leaves is `refreshMetaFileCache env cache`. -/
def AddMetadataFilesForFingerprinting (env : FileEnv) (cache : MetaFileCache)
    (absolutePathToFileToCheck : Str) (outFilesToFingerprint : List (Str × Str)) :
    List (Str × Str) :=
  addMetadataLoop env (refreshMetaFileCache env cache).m_metaFilesWhichActuallyExistOnDisk
    absolutePathToFileToCheck env.metaDataFileTypes outFilesToFingerprint

/-- The text that is hashed into the content fingerprint: the fingerprint of every file,
each followed by a dash. -/
def modTimeArray (env : FileEnv) : List (Str × Str) → Str
  | [] => []
  | element :: rest =>
    env.GetFileFingerprint element.1 element.2 ++ '-' :: modTimeArray env rest

/-! ## The fast skip: `CanEarlyOutSourceFile` -/

/-- Length of the text of an identifier (`lengthOfUUID`). -/
def lengthOfUUID : Nat := 38

/-- Length of one builder entry, `builderID~builderFingerprint` (`sizeOfOneEntry`). -/
def sizeOfOneEntry : Nat := lengthOfUUID * 2 + 1

/-- How the loop over the builder entries ends: with `return false`, by running to the end of
the entries (with the count of builders that emit dependencies), or out of fuel. -/
inductive EntriesResult
  | returnFalse
  | finished (numBuildersEmittingSourceDependencies : Nat)
  | noFuel
deriving DecidableEq, Repr

/-- The `while (!builderEntries.empty())` loop of `CanEarlyOutSourceFile`. -/
def scanBuilderEntries (ops : UuidOps) (cache : List (Uuid × BuilderData)) :
    Nat → Str → Nat → EntriesResult
  | 0, _, _ => EntriesResult.noFuel
  | fuel + 1, builderEntries, numBuildersEmittingSourceDependencies =>
    if builderEntries.isEmpty then
      EntriesResult.finished numBuildersEmittingSourceDependencies
    else if builderEntries.length < sizeOfOneEntry then EntriesResult.returnFalse
    else
      let builderFPString := builderEntries.drop (lengthOfUUID + 1)
      if builderEntries.head? ≠ some '{' ∨ builderFPString.head? ≠ some '{' then
        EntriesResult.returnFalse
      else
        let builderID := ops.CreateString (builderEntries.take lengthOfUUID)
        let builderFP := ops.CreateString (builderFPString.take lengthOfUUID)
        if builderID.IsNull ∨ builderFP.IsNull then EntriesResult.returnFalse
        else
          match mapFind cache builderID with
          | none => EntriesResult.returnFalse
          | some data =>
            if builderFP ≠ data.m_fingerprint then EntriesResult.returnFalse
            else
              let count :=
                if data.m_flags &&& BF_EmitsNoDependencies = 0 then
                  numBuildersEmittingSourceDependencies + 1
                else numBuildersEmittingSourceDependencies
              let advanced := builderEntries.drop sizeOfOneEntry
              let next := if advanced.isEmpty then advanced else advanced.drop 1
              scanBuilderEntries ops cache fuel next count

/-- What a call of `CanEarlyOutSourceFile` does: it returns a boolean, or it reads outside the
persisted text (undefined in C++), or the model ran out of fuel. -/
inductive SkipResult
  | ret (b : Bool)
  | readOutOfBounds
  | noFuel
deriving DecidableEq, Repr

/-- The end of `CanEarlyOutSourceFile`, after the builder entries matched: the content
fingerprint of the file, its dependencies and its metadata files is recomputed and compared
with the persisted one. -/
def compareContentFingerprint (ops : UuidOps) (env : FileEnv)
    (edges : List SourceFileDependencyEntry) (cache : MetaFileCache)
    (normalizedPath databaseSourceFileName : Str) (modtimeFingerprint : Uuid)
    (numBuildersEmittingSourceDependencies : Nat) : SkipResult :=
  let queried : Option (List (Str × Str)) :=
    if numBuildersEmittingSourceDependencies > 0 then
      QueryAbsolutePathDependenciesRecursive env edges databaseSourceFileName []
        TypeOfDependency.DEP_Any false
    else some (containerInsert [] (normalizedPath, databaseSourceFileName))
  match queried with
  | none => SkipResult.noFuel
  | some allDependencies =>
    let allDependencies :=
      AddMetadataFilesForFingerprinting env cache normalizedPath allDependencies
    let finalModTimeHash := ops.CreateName (modTimeArray env allDependencies)
    if modtimeFingerprint ≠ finalModTimeHash then SkipResult.ret false
    else SkipResult.ret true

/-- The function `AssetProcessorManager::CanEarlyOutSourceFile`. -/
def CanEarlyOutSourceFile (ops : UuidOps) (env : FileEnv) (builders : BuilderState)
    (sources : List SourceDatabaseEntry) (edges : List SourceFileDependencyEntry)
    (cache : MetaFileCache) (normalizedPath databaseSourceFileName : Str)
    (scanFolderID : Int) : SkipResult :=
  if builders.m_buildersAddedOrRemoved then SkipResult.ret false
  else
    match QuerySourceAnalysisFingerprint sources databaseSourceFileName scanFolderID with
    | none => SkipResult.ret false
    | some fingerprintFromDatabase =>
      if fingerprintFromDatabase.isEmpty then SkipResult.ret false
      else if fingerprintFromDatabase.length < lengthOfUUID
          ∨ fingerprintFromDatabase.head? ≠ some '{' then SkipResult.ret false
      else
        let modtimeFingerprint :=
          ops.CreateString (fingerprintFromDatabase.take lengthOfUUID)
        if modtimeFingerprint.IsNull then SkipResult.ret false
        else if fingerprintFromDatabase.length < lengthOfUUID + 1 then
          -- `begin() + lengthOfUUID + 1` lies behind `end()`
          SkipResult.readOutOfBounds
        else
          let builderEntries := fingerprintFromDatabase.drop (lengthOfUUID + 1)
          match scanBuilderEntries ops builders.m_builderDataCache
              (builderEntries.length + 1) builderEntries 0 with
          | EntriesResult.noFuel => SkipResult.noFuel
          | EntriesResult.returnFalse => SkipResult.ret false
          | EntriesResult.finished numBuildersEmittingSourceDependencies =>
            compareContentFingerprint ops env edges cache normalizedPath
              databaseSourceFileName modtimeFingerprint numBuildersEmittingSourceDependencies

/-! ## The analysis tracker and `FinishAnalysis` -/

/-- The per-source tracker `AnalysisTracker` (declared in the header): the count of jobs
spawned and not yet finished (an `int`), the failure flag, the source it stands for and the
builders that were asked about it (the list is the iteration order of the set). -/
structure AnalysisTracker where
  m_remainingJobsSpawned : Int := 0
  failedStatus : Bool := false
  m_databaseSourceName : Str := []
  m_databaseScanFolderId : Int := -1
  m_buildersInvolved : List Uuid := []
deriving DecidableEq, Repr

/-- The kinds of tracker update, `AnalysisTrackerUpdateType`. -/
inductive AnalysisTrackerUpdateType
  | JobStarted
  | JobFinished
  | JobFailed
deriving DecidableEq, Repr

/-- A queued invocation posted with `QMetaObject::invokeMethod(..., Qt::QueuedConnection)`. -/
inductive QueuedCall
  | FinishAnalysis (fileToCheck : Str)
  | ProcessJobs
  | CheckForIdle
deriving DecidableEq, Repr

/-- The `switch` of `UpdateAnalysisTrackerForFile` on one tracker: the tracker afterwards and
whether `FinishAnalysis` is queued. -/
def updateTracker (analysisTracker : AnalysisTracker) :
    AnalysisTrackerUpdateType → AnalysisTracker × Bool
  | AnalysisTrackerUpdateType.JobFailed =>
    if !analysisTracker.failedStatus then
      ({ analysisTracker with failedStatus := true, m_remainingJobsSpawned := 0 }, true)
    else (analysisTracker, false)
  | AnalysisTrackerUpdateType.JobStarted =>
    if !analysisTracker.failedStatus then
      ({ analysisTracker with
          m_remainingJobsSpawned := analysisTracker.m_remainingJobsSpawned + 1 }, false)
    else (analysisTracker, false)
  | AnalysisTrackerUpdateType.JobFinished =>
    if !analysisTracker.failedStatus then
      let remaining := analysisTracker.m_remainingJobsSpawned - 1
      ({ analysisTracker with m_remainingJobsSpawned := remaining }, remaining == 0)
    else (analysisTracker, false)

/-- The function `AssetProcessorManager::UpdateAnalysisTrackerForFile(const char*, ...)` on
`m_remainingJobsForEachSourceFile`: the map afterwards and the invocations it queued. -/
def UpdateAnalysisTrackerForFile (trackers : List (Str × AnalysisTracker))
    (fullPathToFile : Str) (updateType : AnalysisTrackerUpdateType) :
    List (Str × AnalysisTracker) × List QueuedCall :=
  match mapFind trackers fullPathToFile with
  | none => (trackers, [])
  | some analysisTracker =>
    let updated := updateTracker analysisTracker updateType
    (mapSet trackers fullPathToFile updated.1,
      if updated.2 then [QueuedCall.FinishAnalysis fullPathToFile] else [])

/-- The text that `FinishAnalysis` appends for the builders: for each one a colon, its
identifier, a tilde and its fingerprint. -/
def encodeBuilderEntries (ops : UuidOps) : List (Uuid × Uuid) → Str
  | [] => []
  | (builderID, builderFP) :: rest =>
    ':' :: ops.ToString builderID ++ '~' :: ops.ToString builderFP
      ++ encodeBuilderEntries ops rest

/-- The analysis fingerprint that `FinishAnalysis` writes: the text of the content hash followed
by the builder entries. -/
def encodeAnalysisFingerprint (ops : UuidOps) (modTimeHash : Uuid)
    (builderPairs : List (Uuid × Uuid)) : Str :=
  ops.ToString modTimeHash ++ encodeBuilderEntries ops builderPairs

/-- The read `m_builderDataCache[builderID]`: the entry, a default one when there is none. -/
def builderDataOrDefault (cache : List (Uuid × BuilderData)) (builderID : Uuid) :
    BuilderData :=
  (mapFind cache builderID).getD {}

/-- The map `m_builderDataCache` after the reads `m_builderDataCache[builderID]`: a missing
entry is created. -/
def touchBuilderData (cache : List (Uuid × BuilderData)) (ids : List Uuid) :
    List (Uuid × BuilderData) :=
  ids.foldl (fun c builderID => mapSet c builderID (builderDataOrDefault c builderID)) cache

/-- What `FinishAnalysis` leaves: the trackers, the source table, the calls of `SetSource` it
made, the builder cache and the metadata cache. -/
structure FinishAnalysisOutcome where
  trackers : List (Str × AnalysisTracker)
  sources : List SourceDatabaseEntry
  storeWrites : List SourceDatabaseEntry
  builderDataCache : List (Uuid × BuilderData)
  metaCache : MetaFileCache
deriving DecidableEq, Repr

/-- The function `AssetProcessorManager::FinishAnalysis`; `none` when the dependency query ran
out of fuel. -/
def FinishAnalysis (ops : UuidOps) (env : FileEnv) (builderDataCache : List (Uuid × BuilderData))
    (trackers : List (Str × AnalysisTracker)) (sources : List SourceDatabaseEntry)
    (edges : List SourceFileDependencyEntry) (cache : MetaFileCache) (fileToCheck : Str) :
    Option FinishAnalysisOutcome :=
  let unchanged : FinishAnalysisOutcome :=
    { trackers := trackers, sources := sources, storeWrites := [],
      builderDataCache := builderDataCache, metaCache := cache }
  match mapFind trackers fileToCheck with
  | none => some unchanged
  | some analysisTracker =>
    if analysisTracker.failedStatus then
      some { unchanged with trackers := mapErase trackers fileToCheck }
    else if analysisTracker.m_remainingJobsSpawned > 0 then some unchanged
    else
      match QuerySourceBySourceNameScanFolderID sources analysisTracker.m_databaseSourceName
          analysisTracker.m_databaseScanFolderId with
      | none =>
        let source : SourceDatabaseEntry := {}
        some { unchanged with
          trackers := mapErase trackers fileToCheck
          sources := SetSource sources source
          storeWrites := [source] }
      | some found =>
        match QueryAbsolutePathDependenciesRecursive env edges
            analysisTracker.m_databaseSourceName [] TypeOfDependency.DEP_Any false with
        | none => none
        | some queried =>
          let knownDependenciesAbsolutePaths :=
            AddMetadataFilesForFingerprinting env cache fileToCheck queried
          let modTimeHash := ops.CreateName (modTimeArray env knownDependenciesAbsolutePaths)
          let source : SourceDatabaseEntry :=
            { found with
              m_analysisFingerprint :=
                encodeAnalysisFingerprint ops modTimeHash
                  (analysisTracker.m_buildersInvolved.map
                    (fun builderID =>
                      (builderID, (builderDataOrDefault builderDataCache builderID).m_fingerprint))) }
          some
            { trackers := mapErase trackers fileToCheck
              sources := SetSource sources source
              storeWrites := [source]
              builderDataCache :=
                touchBuilderData builderDataCache analysisTracker.m_buildersInvolved
              metaCache := refreshMetaFileCache env cache }

/-- How `CheckModifiedSourceFile` goes on after its bookkeeping (lines 1857-1881). -/
inductive CheckModifiedOutcome
  | skipped
  | processBuilders (builders : List Uuid)
  | notHandledByAnyBuilder
  | undefinedRead
  | noFuel
deriving DecidableEq, Repr

/-- The end of `AssetProcessorManager::CheckModifiedSourceFile`: a file that comes from the
scanner is dropped when it can be skipped; otherwise the matching builders (the answer of
`GetMatchingBuildersInfo`) are handed to `ProcessBuilders`, when there are any. -/
def CheckModifiedSourceFile (ops : UuidOps) (env : FileEnv) (builders : BuilderState)
    (sources : List SourceDatabaseEntry) (edges : List SourceFileDependencyEntry)
    (cache : MetaFileCache) (m_bAllowAnalysisSkippingFeature : Bool)
    (matchingBuilders : List Uuid) (normalizedPath databaseSourceFile : Str)
    (fromScanner : Bool) (scanFolderID : Int) : CheckModifiedOutcome :=
  let goOn : CheckModifiedOutcome :=
    if matchingBuilders.length ≠ 0 then CheckModifiedOutcome.processBuilders matchingBuilders
    else CheckModifiedOutcome.notHandledByAnyBuilder
  if fromScanner ∧ m_bAllowAnalysisSkippingFeature then
    match CanEarlyOutSourceFile ops env builders sources edges cache normalizedPath
        databaseSourceFile scanFolderID with
    | SkipResult.ret true => CheckModifiedOutcome.skipped
    | SkipResult.ret false => goOn
    | SkipResult.readOutOfBounds => CheckModifiedOutcome.undefinedRead
    | SkipResult.noFuel => CheckModifiedOutcome.noFuel
  else goOn

/-! ## `ComputeBuilderDirty` -/

/-- What the manager reads of a registered builder (`AssetBuilderSDK::AssetBuilderDesc`);
`m_patterns` holds the text `pattern.ToString()` of each pattern. -/
structure AssetBuilderDesc where
  m_name : Str := []
  m_busId : Uuid
  m_version : Int := 0
  m_analysisFingerprint : Str := []
  m_patterns : List Str := []
  m_flags : Nat := 0
deriving DecidableEq, Repr

/-- A row of the builder table of the store (`BuilderInfoEntry`). -/
structure BuilderInfoEntry where
  m_builderInfoID : Int := -1
  m_builderUuid : Uuid
  m_analysisFingerprint : Str := []
deriving DecidableEq, Repr

/-- A call on the store made by `ComputeBuilderDirty`. -/
inductive StoreCall
  | InvalidateSourceAnalysisFingerprints
  | SetBuilderInfoTable (newBuilders : List BuilderInfoEntry)
deriving DecidableEq, Repr

/-- The data version `currentAnalysisVersionString`. -/
def currentAnalysisVersionString : Str := ['0']

/-- The decimal digits of a natural number, least significant first, at most `fuel` of them. -/
def decimalDigitsRev : Nat → Nat → Str
  | 0, _ => []
  | fuel + 1, n =>
    Char.ofNat (48 + n % 10) :: (if n / 10 = 0 then [] else decimalDigitsRev fuel (n / 10))

/-- The text that `%i` prints. -/
def formatInt (i : Int) : Str :=
  if i < 0 then '-' :: (decimalDigitsRev (i.natAbs + 1) i.natAbs).reverse
  else (decimalDigitsRev (i.natAbs + 1) i.natAbs).reverse

/-- The splitting loop of `AzFramework::StringFunc::Tokenize` (not part of the sources at hand):
the text is cut at every delimiter and, as the comment at its call says, empty tokens are
dropped. `current` is the token being read, in reverse. -/
def tokenizeLoop (delimiters : Str) : Str → Str → List Str
  | [], current => if current.isEmpty then [] else [current.reverse]
  | c :: rest, current =>
    if c ∈ delimiters then
      if current.isEmpty then tokenizeLoop delimiters rest []
      else current.reverse :: tokenizeLoop delimiters rest []
    else tokenizeLoop delimiters rest (c :: current)

/-- The helper `AzFramework::StringFunc::Tokenize`. -/
def Tokenize (input delimiters : Str) : List Str := tokenizeLoop delimiters input []

/-- The pair (analysis fingerprint, pattern fingerprint) computed for a registered builder. -/
def newFingerprintPair (ops : UuidOps) (currentBuilder : AssetBuilderDesc) : Uuid × Uuid :=
  let analysisFingerprintString :=
    formatInt currentBuilder.m_version ++ ':' :: currentBuilder.m_analysisFingerprint
  let patternFingerprintString := currentBuilder.m_patterns.foldl (fun acc t => acc ++ t) []
  (ops.CreateName analysisFingerprintString, ops.CreateName patternFingerprintString)

/-- The text `finalFingerprintString` persisted for a registered builder:
data version, analysis fingerprint and pattern fingerprint, colon-separated. -/
def finalFingerprintString (ops : UuidOps) (currentBuilder : AssetBuilderDesc) : Str :=
  currentAnalysisVersionString ++ ':' :: ops.ToString (newFingerprintPair ops currentBuilder).1
    ++ ':' :: ops.ToString (newFingerprintPair ops currentBuilder).2

/-- The pair (analysis fingerprint, pattern fingerprint) read back from a row of the builder
table; both null when the text is not of the current form. -/
def priorFingerprintPair (ops : UuidOps) (priorBuilder : BuilderInfoEntry) : Uuid × Uuid :=
  let tokens := Tokenize priorBuilder.m_analysisFingerprint [':']
  if tokens.length = 3 ∧ tokens.head? = some currentAnalysisVersionString then
    (ops.CreateString (tokens.getD 1 []), ops.CreateString (tokens.getD 2 []))
  else (Uuid.CreateNull, Uuid.CreateNull)

/-- The map `newBuilderFingerprints` after the first loop. -/
def newBuilderFingerprints (ops : UuidOps) (currentBuilders : List AssetBuilderDesc) :
    List (Uuid × (Uuid × Uuid)) :=
  currentBuilders.foldl (fun m b => mapSet m b.m_busId (newFingerprintPair ops b)) []

/-- The map `priorBuilderFingerprints` after the second loop. -/
def priorBuilderFingerprints (ops : UuidOps) (priorBuilders : List BuilderInfoEntry) :
    List (Uuid × (Uuid × Uuid)) :=
  priorBuilders.foldl (fun m b => mapSet m b.m_builderUuid (priorFingerprintPair ops b)) []

/-- The map `m_builderDataCache` after the first loop (it was cleared before). -/
def freshBuilderDataCache (ops : UuidOps) (currentBuilders : List AssetBuilderDesc) :
    List (Uuid × BuilderData) :=
  currentBuilders.foldl
    (fun m b => mapSet m b.m_busId
      { m_fingerprint := ops.CreateName (finalFingerprintString ops b), m_flags := b.m_flags })
    []

/-- The list `newBuilders` written to the store. -/
def newBuilderTable (ops : UuidOps) (currentBuilders : List AssetBuilderDesc) :
    List BuilderInfoEntry :=
  currentBuilders.map (fun b =>
    { m_builderInfoID := -1, m_builderUuid := b.m_busId,
      m_analysisFingerprint := finalFingerprintString ops b })

/-- The assignment `m_builderDataCache[id].m_isDirty = true`. -/
def markDirty (cache : List (Uuid × BuilderData)) (builderID : Uuid) :
    List (Uuid × BuilderData) :=
  mapSet cache builderID { builderDataOrDefault cache builderID with m_isDirty := true }

/-- One round of the loop over `priorBuilderFingerprints`. -/
def comparePrior (newFingerprints : List (Uuid × (Uuid × Uuid))) (st : BuilderState)
    (priorBuilderFingerprint : Uuid × (Uuid × Uuid)) : BuilderState :=
  let priorBuilderUUID := priorBuilderFingerprint.1
  let priorBuilderAnalysisFingerprint := priorBuilderFingerprint.2.1
  let priorBuilderPatternFingerprint := priorBuilderFingerprint.2.2
  match mapFind newFingerprints priorBuilderUUID with
  | some found =>
    let patternFingerprintIsDirty : Bool := priorBuilderPatternFingerprint ≠ found.2
    let analysisFingerprintIsDirty : Bool := priorBuilderAnalysisFingerprint ≠ found.1
    let builderIsDirty := patternFingerprintIsDirty || analysisFingerprintIsDirty
    let st := { st with
      m_buildersAddedOrRemoved := st.m_buildersAddedOrRemoved || patternFingerprintIsDirty }
    if builderIsDirty then
      { st with
        m_anyBuilderChange := true
        m_builderDataCache := markDirty st.m_builderDataCache priorBuilderUUID }
    else st
  | none => { st with m_buildersAddedOrRemoved := true, m_anyBuilderChange := true }

/-- One round of the loop over `newBuilderFingerprints`. -/
def compareNew (priorFingerprints : List (Uuid × (Uuid × Uuid))) (st : BuilderState)
    (newBuilderFingerprint : Uuid × (Uuid × Uuid)) : BuilderState :=
  match mapFind priorFingerprints newBuilderFingerprint.1 with
  | none =>
    { m_buildersAddedOrRemoved := true
      m_anyBuilderChange := true
      m_builderDataCache := markDirty st.m_builderDataCache newBuilderFingerprint.1 }
  | some _ => st

/-- The function `AssetProcessorManager::ComputeBuilderDirty`: from the registered builders and
the builder table of the store, the builder part of the manager afterwards and the calls made on
the store, in order. -/
def ComputeBuilderDirty (ops : UuidOps) (currentBuilders : List AssetBuilderDesc)
    (priorBuilders : List BuilderInfoEntry) : BuilderState × List StoreCall :=
  let newFingerprints := newBuilderFingerprints ops currentBuilders
  let priorFingerprints := priorBuilderFingerprints ops priorBuilders
  let st : BuilderState :=
    { m_builderDataCache := freshBuilderDataCache ops currentBuilders
      m_buildersAddedOrRemoved := false
      m_anyBuilderChange := false }
  let st := priorFingerprints.foldl (comparePrior newFingerprints) st
  let st := newFingerprints.foldl (compareNew priorFingerprints) st
  (st,
    (if st.m_buildersAddedOrRemoved then [StoreCall.InvalidateSourceAnalysisFingerprints]
      else [])
      ++ [StoreCall.SetBuilderInfoTable (newBuilderTable ops currentBuilders)])

/-! ## Concrete inputs used to run the functions -/

/-- A registered builder for text files, version 1. -/
def demoTxtBuilderV1 : AssetBuilderDesc :=
  { m_name := "Text Builder".toList, m_busId := 0x11111111222233334444555555555555,
    m_version := 1, m_analysisFingerprint := "a".toList, m_patterns := ["*.txt".toList],
    m_flags := 0 }

/-- The same builder after its version went up to 2: only its analysis fingerprint changes. -/
def demoTxtBuilderV2 : AssetBuilderDesc := { demoTxtBuilderV1 with m_version := 2 }

/-- A second registered builder, which declares that it emits no dependencies. -/
def demoCopyBuilder : AssetBuilderDesc :=
  { m_name := "Copy Builder".toList, m_busId := 0xAAAAAAAABBBBCCCCDDDDEEEEEEEEEEEE,
    m_version := 7, m_analysisFingerprint := [], m_patterns := ["*.cfg".toList],
    m_flags := BF_EmitsNoDependencies }

/-- How many names of `U` are not yet in `results`: the measure by which the loop of
`QueryAbsolutePathDependenciesRecursive` ends. -/
def unvisitedCount (U results : List Str) : Nat :=
  (U.filter (fun y => decide (y ∉ results))).length

/-- The fingerprints of the files of a small disk, by absolute path. -/
def demoDisk : List (Str × Str) :=
  [("/dev/game/a.txt".toList, "00000000000004D2".toList),
   ("/dev/game/b.txt".toList, "000000000000162E".toList),
   ("/dev/game/c.cfg".toList, "0000000000000BB8".toList)]

/-- A small environment: one scan folder `/dev/game`, no metadata file types. -/
def demoEnv : FileEnv where
  FindFirstMatchingFile := fun name =>
    if (mapFind demoDisk ("/dev/game/".toList ++ name)).isSome then "/dev/game/".toList ++ name
    else []
  GetFileFingerprint := fun absolutePath _ => (mapFind demoDisk absolutePath).getD []
  metaDataFileTypes := []
  gameRootFilePath := fun name => "/dev/game/".toList ++ name
  fileExists := fun path => (mapFind demoDisk path).isSome
  endsWithCaseInsensitive := fun s suffix => s.reverse.take suffix.length = suffix.reverse
  pathWithoutExtension := fun path => (path.reverse.dropWhile (fun c => c ≠ '.')).drop 1 |>.reverse
  ConvertToRelativePath := fun path => path.drop 10
  m_placeHolderFileName := "$missing_dependency$:".toList
  IsMetaDataTypeRealFile := fun _ => false

/-- The builder cache that `ComputeBuilderDirty` leaves for the two demo builders when nothing
changed since the last run. -/
def demoBuilderState : BuilderState :=
  (ComputeBuilderDirty stdUuid [demoTxtBuilderV1, demoCopyBuilder]
    (newBuilderTable stdUuid [demoTxtBuilderV1, demoCopyBuilder])).1

/-- The source table with a row for `a.txt` that has no analysis fingerprint yet. -/
def demoSources : List SourceDatabaseEntry :=
  [{ m_sourceID := 1, m_scanFolderPK := 1, m_sourceName := "a.txt".toList }]

/-- The dependency table: `a.txt` depends on `b.txt`. -/
def demoEdges : List SourceFileDependencyEntry :=
  [{ m_source := "a.txt".toList, m_dependsOnSource := "b.txt".toList }]

/-- The tracker of `a.txt` after the text builder was asked about it; `remaining` jobs are
outstanding. -/
def demoTracker (remaining : Int) : AnalysisTracker :=
  { m_remainingJobsSpawned := remaining, m_databaseSourceName := "a.txt".toList,
    m_databaseScanFolderId := 1, m_buildersInvolved := [demoTxtBuilderV1.m_busId] }

/-- The builder part of the manager after the text builder went from version 1 to version 2:
its cached fingerprint is the one of version 2, no builder was added or removed. -/
def demoBuilderStateV2 : BuilderState :=
  (ComputeBuilderDirty stdUuid [demoTxtBuilderV2, demoCopyBuilder]
    (newBuilderTable stdUuid [demoTxtBuilderV1, demoCopyBuilder])).1

/-- The source table after `FinishAnalysis` committed `a.txt` while the text builder was at
version 1. -/
def demoSourcesAnalysed : List SourceDatabaseEntry :=
  [{ m_sourceID := 1, m_scanFolderPK := 1, m_sourceName := "a.txt".toList,
     m_analysisFingerprint :=
       ("{79796077-5F01-125B-8027-E5BE162C21B7}:{11111111-2222-3333-4444-555555555555}"
         ++ "~{ED097908-94CF-23C3-00A7-973BFFB8B5A8}").toList }]

/-- The layout of one builder entry that `CanEarlyOutSourceFile` checks: 77 characters, an
opening brace at positions 0 and 39, and the 38 characters from each of the two positions read
as identifiers that are not null. The character at position 38 is not looked at. -/
def FramedEntry (ops : UuidOps) (entry : Str) : Prop :=
  entry.length = sizeOfOneEntry ∧ entry.head? = some '{'
    ∧ (entry.drop (lengthOfUUID + 1)).head? = some '{'
    ∧ ops.CreateString (entry.take lengthOfUUID) ≠ 0
    ∧ ops.CreateString ((entry.drop (lengthOfUUID + 1)).take lengthOfUUID) ≠ 0

/-- The layout of the builder entries that `CanEarlyOutSourceFile` checks: framed entries, one
character of any kind between two of them, and possibly one character after the last. -/
inductive FramedEntries (ops : UuidOps) : Str → Prop
  | none : FramedEntries ops []
  | last (entry : Str) : FramedEntry ops entry → FramedEntries ops entry
  | more (entry : Str) (c : Char) (rest : Str) :
      FramedEntry ops entry → FramedEntries ops rest → FramedEntries ops (entry ++ c :: rest)

/-- The layout of a persisted analysis fingerprint that `CanEarlyOutSourceFile` checks: at
least 39 characters, an opening brace first, the first 38 characters read as an identifier that
is not null, and framed builder entries from position 39 on. The character at position 38 is
not looked at. -/
def FramedFingerprint (ops : UuidOps) (fingerprint : Str) : Prop :=
  lengthOfUUID + 1 ≤ fingerprint.length ∧ fingerprint.head? = some '{'
    ∧ ops.CreateString (fingerprint.take lengthOfUUID) ≠ 0
    ∧ FramedEntries ops (fingerprint.drop (lengthOfUUID + 1))

/-- A source table whose row for `a.txt` carries the given analysis fingerprint. -/
def demoSourcesWith (fingerprint : String) : List SourceDatabaseEntry :=
  [{ m_sourceID := 1, m_scanFolderPK := 1, m_sourceName := "a.txt".toList,
     m_analysisFingerprint := fingerprint.toList }]

/-- The text of an identifier is as `CanEarlyOutSourceFile` expects it: 38 characters, an
opening brace first, and it reads back to the identifier. -/
def TextReadsBack (ops : UuidOps) (u : Uuid) : Prop :=
  (ops.ToString u).length = 38 ∧ (ops.ToString u).head? = some '{'
    ∧ ops.CreateString (ops.ToString u) = u

instance (ops : UuidOps) (u : Uuid) : Decidable (TextReadsBack ops u) := by
  unfold TextReadsBack
  infer_instance

/-- The pairs (builder, cached fingerprint of the builder) that `FinishAnalysis` encodes for the
builders involved. -/
def involvedPairs (cache : List (Uuid × BuilderData)) (ids : List Uuid) : List (Uuid × Uuid) :=
  ids.map (fun builderID => (builderID, (builderDataOrDefault cache builderID).m_fingerprint))

/-- How many of the given builders emit dependencies (do not carry
`BF_EmitsNoDependencies`). -/
def numEmitting (cache : List (Uuid × BuilderData)) (ids : List Uuid) : Nat :=
  (ids.filter (fun builderID =>
    decide ((builderDataOrDefault cache builderID).m_flags &&& BF_EmitsNoDependencies = 0))).length

/-- The builder part of the manager on the first run, when the builder table of the store is
still empty: both demo builders count as added. -/
def demoBuilderStateFirstRun : BuilderState :=
  (ComputeBuilderDirty stdUuid [demoTxtBuilderV1, demoCopyBuilder] []).1

/-- The tracker of `c.cfg` after the copy builder, which declares that it emits no
dependencies, was asked about it and all its jobs finished. -/
def demoCfgTracker : AnalysisTracker :=
  { m_remainingJobsSpawned := 0, m_databaseSourceName := "c.cfg".toList,
    m_databaseScanFolderId := 1, m_buildersInvolved := [demoCopyBuilder.m_busId] }

/-- The source table with a row for `c.cfg`. -/
def demoCfgSources : List SourceDatabaseEntry :=
  [{ m_sourceID := 3, m_scanFolderPK := 1, m_sourceName := "c.cfg".toList }]

/-- A dependency table in which `c.cfg` depends on `b.txt`. -/
def demoCfgEdges : List SourceFileDependencyEntry :=
  [{ m_source := "c.cfg".toList, m_dependsOnSource := "b.txt".toList }]

/-! ## Jobs: `AnalyzeJob` and `ProcessJob` -/

/-- The fingerprint stored for a job that failed (`FAILED_FINGERPRINT`). -/
def FAILED_FINGERPRINT : Nat := 1

/-- What the manager reads of `JobEntry`; `m_platformIdentifier` is
`m_platformInfo.m_identifier`. -/
structure JobEntry where
  m_watchFolderPath : Str := []
  m_pathRelativeToWatchFolder : Str := []
  m_databaseSourceName : Str := []
  m_builderGuid : Uuid := 0
  m_platformIdentifier : Str := []
  m_jobKey : Str := []
  m_computedFingerprint : Nat := 0
  m_sourceFileUUID : Uuid := 0
deriving DecidableEq, Repr

/-- A product that a job reports (`AssetBuilderSDK::JobProduct`): the path of the product file
and its sub id. -/
structure JobProduct where
  m_productFileName : Str := []
  m_productSubID : Nat := 0
deriving DecidableEq, Repr

/-- A finished job waiting to be written to the store (`AssetProcessedEntry`): the job and
the products of its response (`m_response.m_outputProducts`). -/
structure AssetProcessedEntry where
  m_entry : JobEntry := {}
  m_outputProducts : List JobProduct := []
deriving DecidableEq, Repr

/-- A reference to a source file by path or by identifier
(`AssetBuilderSDK::SourceFileDependency`). -/
structure SourceFileDependency where
  m_sourceFileDependencyPath : Str := []
  m_sourceFileDependencyUUID : Uuid := 0
deriving DecidableEq, Repr

/-- A dependency on a job of another source (`AssetBuilderSDK::JobDependency`). -/
structure JobDependency where
  m_sourceFile : SourceFileDependency := {}
  m_jobKey : Str := []
  m_platformIdentifier : Str := []
deriving DecidableEq, Repr

/-- A job dependency with the builders that may produce the job depended on
(`JobDependencyInternal`). -/
structure JobDependencyInternal where
  m_jobDependency : JobDependency := {}
  m_builderUuidList : List Uuid := []
deriving DecidableEq, Repr

/-- What the manager reads of `JobDetails`. -/
structure JobDetails where
  m_jobEntry : JobEntry := {}
  m_assetBuilderDesc : AssetBuilderDesc := { m_busId := 0 }
  m_extraInformationForFingerprinting : Str := []
  m_fingerprintFiles : List (Str × Str) := []
  m_jobDependencyList : List JobDependencyInternal := []
  m_jobParam : List (Str × Str) := []
  m_autoFail : Bool := false
  m_critical : Bool := false
  m_priority : Int := 0
deriving DecidableEq, Repr

/-- A row of the job table of the store, with the identity of the job written out: source,
builder, job key, platform; its own id and the id of its source row. A row not yet stored has
id `-1`. -/
structure JobDatabaseEntry where
  m_sourceName : Str := []
  m_builderGuid : Uuid := 0
  m_jobKey : Str := []
  m_platform : Str := []
  m_fingerprint : Nat := 0
  m_jobID : Int := -1
  m_sourcePK : Int := -1
deriving DecidableEq, Repr

/-- A row of the product table of the store, with the identity of its job written out; its
own id and the id of its job row. -/
structure ProductDatabaseEntry where
  m_sourceName : Str := []
  m_builderGuid : Uuid := 0
  m_jobKey : Str := []
  m_platform : Str := []
  m_productName : Str := []
  m_productID : Int := -1
  m_jobPK : Int := -1
deriving DecidableEq, Repr

/-- Modelled from the spec: the store query `GetJobsBySourceName` with builder, job key and
platform given (the store is not part of the sources at hand): the rows whose identity (source
logical path, job key, platform identifier, builder UUID) is the one asked for. The call returns
true when there is such a row. -/
def GetJobsBySourceName (jobs : List JobDatabaseEntry) (sourceName : Str) (builderGuid : Uuid)
    (jobKey platform : Str) : List JobDatabaseEntry :=
  jobs.filter (fun j => j.m_sourceName = sourceName ∧ j.m_builderGuid = builderGuid
    ∧ j.m_jobKey = jobKey ∧ j.m_platform = platform)

/-- Modelled from the spec: the store query `GetProductsBySourceName` with builder, job key and
platform given: the products recorded for the job of that identity. The call returns true when
there is such a row. -/
def GetProductsBySourceName (products : List ProductDatabaseEntry) (sourceName : Str)
    (builderGuid : Uuid) (jobKey platform : Str) : List ProductDatabaseEntry :=
  products.filter (fun p => p.m_sourceName = sourceName ∧ p.m_builderGuid = builderGuid
    ∧ p.m_jobKey = jobKey ∧ p.m_platform = platform)

/-- The value that `AssetProcessorManager::AnalyzeJob` returns: whether the job has to be
processed. `productExists name` is `QFile::exists(m_cacheRootDir.absoluteFilePath(name))`. On
the way the function also records folders, sends a source notification and sets the destination
path of the job; none of that bears on the value. -/
def AnalyzeJob (jobsInStore : List JobDatabaseEntry) (productsInStore : List ProductDatabaseEntry)
    (productExists : Str → Bool) (jobDetails : JobDetails) : Bool :=
  let jobs := GetJobsBySourceName jobsInStore jobDetails.m_jobEntry.m_databaseSourceName
    jobDetails.m_jobEntry.m_builderGuid jobDetails.m_jobEntry.m_jobKey
    jobDetails.m_jobEntry.m_platformIdentifier
  let foundInDatabase := !jobs.isEmpty
  if foundInDatabase
      ∧ (jobs.head?.map (fun j => j.m_fingerprint))
        = some jobDetails.m_jobEntry.m_computedFingerprint then
    let products := GetProductsBySourceName productsInStore
      jobDetails.m_jobEntry.m_databaseSourceName jobDetails.m_jobEntry.m_builderGuid
      jobDetails.m_jobEntry.m_jobKey jobDetails.m_jobEntry.m_platformIdentifier
    if !products.isEmpty then
      products.foldl
        (fun shouldProcessAsset product =>
          if !productExists product.m_productName then true else shouldProcessAsset)
        false
    else false
  else true

/-- The identity of a job in `m_jobFingerprintMap` (`JobIndentifier`): source, job key,
platform and builder. -/
structure JobIndentifier where
  m_databaseSourceName : Str
  m_jobKey : Str
  m_platformIdentifier : Str
  m_builderUuid : Uuid
deriving DecidableEq, Repr

/-- What `ProcessJob` leaves: the job with its fingerprint, the fingerprint map, the trackers,
the jobs emitted with `AssetToProcess` and the invocations queued. -/
structure ProcessJobOutcome where
  job : JobDetails
  jobFingerprintMap : List (JobIndentifier × Nat)
  trackers : List (Str × AnalysisTracker)
  emitted : List JobDetails
  queued : List QueuedCall
deriving DecidableEq, Repr

/-- The function `AssetProcessorManager::ProcessJob`; `GenerateFingerprint` is the helper of
`AssetUtilities`, `absoluteFilePath` is `QDir(folder).absoluteFilePath(relative)`. `none` when
the dependency query ran out of fuel. -/
def ProcessJob (env : FileEnv) (GenerateFingerprint : JobDetails → Nat)
    (absoluteFilePath : Str → Str → Str) (productExists : Str → Bool)
    (edges : List SourceFileDependencyEntry) (cache : MetaFileCache)
    (jobsInStore : List JobDatabaseEntry) (productsInStore : List ProductDatabaseEntry)
    (jobFingerprintMap : List (JobIndentifier × Nat))
    (trackers : List (Str × AnalysisTracker)) (job : JobDetails) : Option ProcessJobOutcome :=
  match QueryAbsolutePathDependenciesRecursive env edges job.m_jobEntry.m_databaseSourceName
      job.m_fingerprintFiles TypeOfDependency.DEP_SourceToSource false with
  | none => none
  | some queried =>
    let absoluteFullPath :=
      absoluteFilePath job.m_jobEntry.m_watchFolderPath job.m_jobEntry.m_pathRelativeToWatchFolder
    let job := { job with
      m_fingerprintFiles := AddMetadataFilesForFingerprinting env cache absoluteFullPath queried }
    let job := { job with
      m_jobEntry := { job.m_jobEntry with m_computedFingerprint := GenerateFingerprint job } }
    let jobIndentifier : JobIndentifier :=
      { m_databaseSourceName := job.m_jobEntry.m_databaseSourceName
        m_jobKey := job.m_jobEntry.m_jobKey
        m_platformIdentifier := job.m_jobEntry.m_platformIdentifier
        m_builderUuid := job.m_jobEntry.m_builderGuid }
    let jobFingerprintMap :=
      mapSet jobFingerprintMap jobIndentifier job.m_jobEntry.m_computedFingerprint
    if AnalyzeJob jobsInStore productsInStore productExists job then
      some { job := job, jobFingerprintMap := jobFingerprintMap, trackers := trackers,
             emitted := [job], queued := [] }
    else
      let updated := UpdateAnalysisTrackerForFile trackers absoluteFullPath
        AnalysisTrackerUpdateType.JobFinished
      some { job := job, jobFingerprintMap := jobFingerprintMap, trackers := updated.1,
             emitted := [], queued := updated.2 }

/-- The job `compile` of `a.txt` on platform `pc`, made by the text builder, with computed
fingerprint 4242. -/
def demoJob : JobDetails :=
  { m_jobEntry :=
      { m_watchFolderPath := "/dev/game".toList, m_pathRelativeToWatchFolder := "a.txt".toList,
        m_databaseSourceName := "a.txt".toList, m_builderGuid := demoTxtBuilderV1.m_busId,
        m_platformIdentifier := "pc".toList, m_jobKey := "compile".toList,
        m_computedFingerprint := 4242 } }

/-- The row of the job table for that job after it ran with fingerprint 4242. -/
def demoJobRow : JobDatabaseEntry :=
  { m_sourceName := "a.txt".toList, m_builderGuid := demoTxtBuilderV1.m_busId,
    m_jobKey := "compile".toList, m_platform := "pc".toList, m_fingerprint := 4242 }

/-- The job table after that job ran. -/
def demoJobTable : List JobDatabaseEntry := [demoJobRow]

/-- The product of that job. -/
def demoProductRow : ProductDatabaseEntry :=
  { m_sourceName := "a.txt".toList, m_builderGuid := demoTxtBuilderV1.m_busId,
    m_jobKey := "compile".toList, m_platform := "pc".toList,
    m_productName := "pc/game/a.bin".toList }

/-- The product table after that job ran: one product. -/
def demoProductTable : List ProductDatabaseEntry := [demoProductRow]

/-! ## The file change queue -/

/-- An entry of the file queues (`FileEntry`). -/
structure FileEntry where
  m_fileName : Str
  m_isDelete : Bool := false
  m_isFromScanner : Bool := false
deriving DecidableEq, Repr

/-- What the file queue code calls besides `FileEnv`: path normalisation, the exclusion rules
and the look-up of the real casing of a file on disk. -/
structure QueueEnv where
  /-- The helper `AssetUtilities::NormalizeFilePath`. -/
  NormalizeFilePath : Str → Str
  /-- The test `PlatformConfiguration::IsFileExcluded`. -/
  IsFileExcluded : Str → Bool
  /-- The path of the file with its casing on disk
  (`newInfo.absoluteDir().entryList(...)` joined with the directory); `none` when the directory
  has no such file. -/
  actualCasing : Str → Option Str
  /-- Whether `PlatformConfiguration::ConvertToRelativePath` succeeds on a path. -/
  canConvertToRelativePath : Str → Bool

/-- The part of the manager that the file queue code works on. -/
structure QueueState where
  m_quitRequested : Bool := false
  m_AssetProcessorIsBusy : Bool := false
  m_alreadyScheduledUpdate : Bool := false
  m_queuedExamination : Bool := false
  m_activeFiles : List FileEntry := []
  m_alreadyActiveFiles : List Str := []
  m_filesToExamine : List (Str × FileEntry) := []
  m_sourceFilesInDatabase : List Str := []
  m_metaCache : MetaFileCache := {}
  m_numOfJobsToAnalyze : Int := 0
  m_processedQueued : Bool := false
  m_assetProcessedList : List AssetProcessedEntry := []
deriving DecidableEq, Repr

/-- The loop of `AssessFileInternal` over the metadata file types: a file that may be a
metadata file invalidates the cache of metadata files found on disk. -/
def invalidateMetaCache (env : FileEnv) (fullFile : Str) (cache : MetaFileCache) :
    MetaFileCache :=
  env.metaDataFileTypes.foldl
    (fun c metaDataFileType =>
      if env.endsWithCaseInsensitive fullFile metaDataFileType.1 then
        { m_cachedMetaFilesExistMap := false, m_metaFilesWhichActuallyExistOnDisk := [] }
      else c)
    cache

/-- The erasure of the first entry of that name (`std::find_if` and `erase`). -/
def eraseFirstNamed : List FileEntry → Str → List FileEntry
  | [], _ => []
  | entry :: rest, name =>
    if entry.m_fileName = name then rest else entry :: eraseFirstNamed rest name

/-- The function `AssetProcessorManager::AssessFileInternal`. -/
def AssessFileInternal (env : FileEnv) (qenv : QueueEnv) (s : QueueState) (fullFile : Str)
    (isDelete fromScanner : Bool) : QueueState :=
  if s.m_quitRequested then s
  else
    let normalizedFullFile := qenv.NormalizeFilePath fullFile
    if !fromScanner ∧ qenv.IsFileExcluded normalizedFullFile then s
    else
      let metaCache :=
        if !fromScanner then invalidateMetaCache env fullFile s.m_metaCache else s.m_metaCache
      let sourceFilesInDatabase :=
        if !s.m_sourceFilesInDatabase.isEmpty ∧ !isDelete then
          setRemove s.m_sourceFilesInDatabase normalizedFullFile
        else s.m_sourceFilesInDatabase
      let newEntry : FileEntry :=
        { m_fileName := normalizedFullFile, m_isDelete := isDelete,
          m_isFromScanner := fromScanner }
      let activeFiles :=
        if normalizedFullFile ∈ s.m_alreadyActiveFiles then
          eraseFirstNamed s.m_activeFiles normalizedFullFile
        else s.m_activeFiles
      { s with
        m_metaCache := metaCache
        m_sourceFilesInDatabase := sourceFilesInDatabase
        m_AssetProcessorIsBusy := true
        m_activeFiles := activeFiles ++ [newEntry]
        m_alreadyActiveFiles := setInsert s.m_alreadyActiveFiles normalizedFullFile
        m_alreadyScheduledUpdate := true }

/-- The function `AssetProcessorManager::GetSourceFilesWhichDependOnSourceFile`: the absolute
paths of the sources that the store records as depending on the file. -/
def GetSourceFilesWhichDependOnSourceFile (env : FileEnv) (qenv : QueueEnv)
    (edges : List SourceFileDependencyEntry) (sourcePath : Str) : List Str :=
  if qenv.canConvertToRelativePath sourcePath then
    ((QuerySourceDependencyByDependsOnSource edges (env.ConvertToRelativePath sourcePath)
        TypeOfDependency.DEP_Any).map (fun entry => env.FindFirstMatchingFile entry.m_source)).filter
      (fun absolutePath => !absolutePath.isEmpty)
  else []

/-- The loop of `CheckSource` over the metadata file types: a metadata file stands for the file
it describes. `none` when that file is not on disk. -/
def resolveMetaDataFile (env : FileEnv) (qenv : QueueEnv) (normalizedFilePath : Str) :
    List (Str × Str) → Option Str
  | [] => some normalizedFilePath
  | metaInfo :: rest =>
    if env.endsWithCaseInsensitive normalizedFilePath ('.' :: metaInfo.1) then
      let stripped := normalizedFilePath.take (normalizedFilePath.length - (metaInfo.1.length + 1))
      let original := if !metaInfo.2.isEmpty then stripped ++ '.' :: metaInfo.2 else stripped
      qenv.actualCasing original
    else resolveMetaDataFile env qenv normalizedFilePath rest

/-- The loop of `CheckSource` over the files that depend on the changed file. -/
def queueDependents (env : FileEnv) (qenv : QueueEnv) :
    List Str → QueueState → QueueState
  | [], s => s
  | absolutePath :: rest, s =>
    if (mapFind s.m_filesToExamine absolutePath).isSome then queueDependents env qenv rest s
    else if absolutePath ∈ s.m_alreadyActiveFiles then queueDependents env qenv rest s
    else if startsWith absolutePath env.m_placeHolderFileName then
      queueDependents env qenv rest s
    else queueDependents env qenv rest (AssessFileInternal env qenv s absolutePath false false)

/-- The end of `CheckSource` (lines 1363-1410), once the path to examine is known: the entry
of the path in `m_filesToExamine` is overwritten, the files that depend on a changed file are
queued, and the examination is scheduled. -/
def examineLater (env : FileEnv) (qenv : QueueEnv) (edges : List SourceFileDependencyEntry)
    (s : QueueState) (source : FileEntry) (normalizedFilePath : Str) : QueueState :=
  let examined : QueueState := { s with
    m_filesToExamine := mapSet s.m_filesToExamine normalizedFilePath
      { m_fileName := normalizedFilePath, m_isDelete := source.m_isDelete,
        m_isFromScanner := source.m_isFromScanner } }
  let queued : QueueState :=
    if !source.m_isFromScanner ∧ !source.m_isDelete then
      queueDependents env qenv
        (GetSourceFilesWhichDependOnSourceFile env qenv edges normalizedFilePath) examined
    else examined
  { queued with m_AssetProcessorIsBusy := true, m_queuedExamination := true }

/-- The function `AssetProcessorManager::CheckSource`. -/
def CheckSource (env : FileEnv) (qenv : QueueEnv) (edges : List SourceFileDependencyEntry)
    (s : QueueState) (source : FileEntry) : QueueState :=
  let normalizedFilePath := qenv.NormalizeFilePath source.m_fileName
  if !source.m_isFromScanner ∧ qenv.IsFileExcluded normalizedFilePath then s
  else
    match resolveMetaDataFile env qenv normalizedFilePath env.metaDataFileTypes with
    | none => s
    | some normalizedFilePath => examineLater env qenv edges s source normalizedFilePath

/-- The number of files that one call of `DispatchFileChange` lets into the examine queue
(`maxPerIteration`). -/
def maxPerIteration : Nat := 50

/-- How a call of `DispatchFileChange` ends: it returns, or it takes the front of an empty list
(undefined in C++), or the model ran out of fuel. -/
inductive DispatchResult
  | done (s : QueueState)
  | frontOfEmptyList
  | noFuel
deriving DecidableEq, Repr

/-- One round of the loop of `DispatchFileChange`: the path of the front entry leaves
`m_alreadyActiveFiles`, `CheckSource` works on the entry, then the front of the list is
popped. -/
def dispatchStep (env : FileEnv) (qenv : QueueEnv) (edges : List SourceFileDependencyEntry)
    (s : QueueState) (firstEntry : FileEntry) : QueueState :=
  let removed : QueueState := { s with
    m_alreadyActiveFiles := setRemove s.m_alreadyActiveFiles firstEntry.m_fileName }
  let checked := CheckSource env qenv edges removed firstEntry
  { checked with m_activeFiles := checked.m_activeFiles.tail }

/-- The `while (m_filesToExamine.size() < maxPerIteration)` loop of `DispatchFileChange`. -/
def dispatchLoop (env : FileEnv) (qenv : QueueEnv) (edges : List SourceFileDependencyEntry) :
    Nat → QueueState → DispatchResult
  | 0, _ => DispatchResult.noFuel
  | fuel + 1, s =>
    if s.m_filesToExamine.length < maxPerIteration then
      match s.m_activeFiles with
      | [] => DispatchResult.frontOfEmptyList
      | firstEntry :: _ =>
        if (dispatchStep env qenv edges s firstEntry).m_activeFiles.length = 0 then
          DispatchResult.done (dispatchStep env qenv edges s firstEntry)
        else dispatchLoop env qenv edges fuel (dispatchStep env qenv edges s firstEntry)
    else DispatchResult.done s

/-- The function `AssetProcessorManager::DispatchFileChange`, with the fuel for its loop. -/
def DispatchFileChange (env : FileEnv) (qenv : QueueEnv)
    (edges : List SourceFileDependencyEntry) (fuel : Nat) (s : QueueState) : DispatchResult :=
  if s.m_quitRequested then DispatchResult.done s
  else if s.m_activeFiles.isEmpty then DispatchResult.frontOfEmptyList
  else
    match dispatchLoop env qenv edges fuel s with
    | DispatchResult.done s => DispatchResult.done { s with m_alreadyScheduledUpdate := true }
    | other => other

/-- The names of the entries of a file list. -/
def fileNames (l : List FileEntry) : List Str := l.map (fun e => e.m_fileName)

/-- The debounce invariant of the file queues: the active-file list has at most one entry per
path, `m_alreadyActiveFiles` holds exactly the paths of the list, and `m_filesToExamine` has one
entry per path. -/
def QueueInvariant (s : QueueState) : Prop :=
  (fileNames s.m_activeFiles).Nodup
    ∧ (∀ p, p ∈ s.m_alreadyActiveFiles ↔ p ∈ fileNames s.m_activeFiles)
    ∧ (mapKeys s.m_filesToExamine).Nodup

/-- The state of the file queues inside the loop of `DispatchFileChange`, while `CheckSource`
works on the front entry: the entry is still at the front of the list and its path is no more
in `m_alreadyActiveFiles`. -/
def DispatchInvariant (firstEntry : FileEntry) (s : QueueState) : Prop :=
  ∃ rest, s.m_activeFiles = firstEntry :: rest ∧ (fileNames rest).Nodup
    ∧ (∀ p, p ∈ s.m_alreadyActiveFiles ↔ p ∈ fileNames rest)
    ∧ (mapKeys s.m_filesToExamine).Nodup

/-- A step on the file queues: a notification or a call of `DispatchFileChange`. -/
inductive QueueOp
  | assess (fullFile : Str) (isDelete fromScanner : Bool)
  | dispatch (fuel : Nat)
deriving DecidableEq, Repr

/-- A sequence of steps on the file queues; `none` when a call of `DispatchFileChange` does not
complete. -/
def runQueueOps (env : FileEnv) (qenv : QueueEnv) (edges : List SourceFileDependencyEntry) :
    List QueueOp → QueueState → Option QueueState
  | [], s => some s
  | QueueOp.assess fullFile isDelete fromScanner :: rest, s =>
    runQueueOps env qenv edges rest (AssessFileInternal env qenv s fullFile isDelete fromScanner)
  | QueueOp.dispatch fuel :: rest, s =>
    match DispatchFileChange env qenv edges fuel s with
    | DispatchResult.done s => runQueueOps env qenv edges rest s
    | _ => none

/-- A small queue environment: paths are already normalised, nothing is excluded, every file
has the casing asked for. -/
def demoQueueEnv : QueueEnv where
  NormalizeFilePath := fun path => path
  IsFileExcluded := fun _ => false
  actualCasing := fun path => some path
  canConvertToRelativePath := fun _ => true

/-! ## The job pipeline: `ProcessBuilders`, `AnalyzeJobDetail`, `ProcessJobs`, `CheckForIdle` -/

/-- The answer codes of `CreateJobs` (`AssetBuilderSDK::CreateJobsResultCode`). -/
inductive CreateJobsResultCode
  | Success
  | Failed
  | ShuttingDown
deriving DecidableEq, Repr

/-- A job as a builder describes it (`AssetBuilderSDK::JobDescriptor`). -/
structure JobDescriptor where
  m_jobKey : Str := []
  m_platformIdentifier : Str := []
  m_additionalFingerprintInfo : Str := []
  m_critical : Bool := false
  m_priority : Int := 0
  m_jobParameters : List (Str × Str) := []
  m_jobDependencyList : List JobDependency := []
deriving DecidableEq, Repr

/-- The answer of a builder to `CreateJobs` (`AssetBuilderSDK::CreateJobsResponse`). -/
structure CreateJobsResponse where
  m_result : CreateJobsResultCode := CreateJobsResultCode.Success
  m_createJobOutputs : List JobDescriptor := []
  m_sourceFileDependencyList : List SourceFileDependency := []
deriving DecidableEq, Repr

/-- What the manager reads of a scan folder (`ScanFolderInfo`). -/
structure ScanFolderInfo where
  ScanPath : Str := []
  ScanFolderID : Int := 0
  GetOutputPrefix : Str := []
  GetPlatforms : List Str := []
deriving DecidableEq, Repr

/-- The source of a batch of jobs (`JobToProcessEntry::m_sourceFileInfo`). -/
structure SourceFileInfo where
  m_databasePath : Str := []
  m_pathRelativeToScanFolder : Str := []
  m_scanFolder : ScanFolderInfo := {}
  m_uuid : Uuid := 0
deriving DecidableEq, Repr

/-- The jobs and dependencies that all builders created for one source
(`JobToProcessEntry`). -/
structure JobToProcessEntry where
  m_sourceFileInfo : SourceFileInfo := {}
  m_jobsToAnalyze : List JobDetails := []
  m_sourceFileDependencies : List (Uuid × SourceFileDependency) := []
deriving DecidableEq, Repr

/-- The key of `m_jobDescToBuilderUuidMap` (`JobDesc`): source, job key, platform. -/
structure JobDesc where
  m_databaseSourceName : Str
  m_jobKey : Str
  m_platformIdentifier : Str
deriving DecidableEq, Repr

/-- The job part of the manager: the pending batches `m_jobEntries`, the set
`m_jobsToProcess` (in its iteration order), the fingerprint map, the builders per job
description and the trackers. -/
structure JobState where
  m_jobEntries : List JobToProcessEntry := []
  m_jobsToProcess : List JobDetails := []
  m_jobFingerprintMap : List (JobIndentifier × Nat) := []
  m_jobDescToBuilderUuidMap : List (JobDesc × List Uuid) := []
  m_remainingJobsForEachSourceFile : List (Str × AnalysisTracker) := []
deriving DecidableEq, Repr

/-- The manager as the job pipeline sees it: the file queues (with the counter
`m_numOfJobsToAnalyze`), the job part, the flag `m_alreadyQueuedCheckForIdle`, the job,
product and dependency tables of the store, the product files that the manager removed
from the cache folder, and the source and scan folder tables of the store. -/
structure ManagerState where
  queue : QueueState := {}
  jobs : JobState := {}
  m_alreadyQueuedCheckForIdle : Bool := false
  jobTable : List JobDatabaseEntry := []
  productTable : List ProductDatabaseEntry := []
  edges : List SourceFileDependencyEntry := []
  removedProductFiles : List Str := []
  sourceTable : List SourceDatabaseEntry := []
  scanFolderTable : List ScanFolderDatabaseEntry := []
deriving DecidableEq, Repr

/-- What the job pipeline calls outside the manager. -/
structure JobEnv where
  /-- The call `builderInfo.m_createJobFunction(request, response)` for the source at hand. -/
  createJobs : AssetBuilderDesc → CreateJobsResponse
  /-- Whether `PlatformConfiguration::GetPlatformByIdentifier` knows the platform. -/
  platformEnabled : Str → Bool
  /-- The helper `AssetUtilities::CreateSafeSourceUUIDFromName`. -/
  CreateSafeSourceUUIDFromName : Str → Uuid
  /-- The helper `AssetUtilities::GenerateFingerprint`. -/
  GenerateFingerprint : JobDetails → Nat
  /-- The call `QDir(folder).absoluteFilePath(relative)`. -/
  absoluteFilePath : Str → Str → Str
  /-- The test `QFile::exists(m_cacheRootDir.absoluteFilePath(productName))`. -/
  productExists : Str → Bool
  /-- The job log read back for an auto-fail job (`AssetUtilities::ReadJobLog`). -/
  readJobLog : AssetBuilderDesc → Str
  /-- The database name of the source that `SearchSourceInfoBySourceUUID` finds. -/
  SearchSourceInfoBySourceUUID : Uuid → Option Str
  /-- The test `QFileInfo(path).isAbsolute()`. -/
  isAbsolute : Str → Bool
  /-- The text `JobDependencyInternal::ToString()`, the sort key of the job dependencies. -/
  jobDependencyToString : JobDependencyInternal → Str
  /-- The equality of the elements of the set `m_jobsToProcess`. -/
  sameJob : JobDetails → JobDetails → Bool
  /-- The answer of `QFile::remove(m_cacheRootDir.absoluteFilePath(productName))` for a file
  that exists. -/
  removeFile : Str → Bool
  /-- The test `QString::compare(a, b, Qt::CaseInsensitive) == 0`. -/
  equalsCaseInsensitive : Str → Str → Bool

/-- A call `ProcessJob(job)` made by `ProcessJobs`: the job, the map `m_jobFingerprintMap`
at the moment of the call, and whether it is the call on the first job that follows a scan in
which no job could be analysed. -/
structure ProcessedJob where
  job : JobDetails
  m_jobFingerprintMap : List (JobIndentifier × Nat)
  forced : Bool
deriving DecidableEq, Repr

/-- The signals and queued invocations of a step of the pipeline: the jobs emitted with
`AssetToProcess` and the invocations queued, in order; the calls of `ProcessJob` that
`ProcessJobs` made, in order; and the jobs that the scan of `ProcessJobs` passed over, each
with the map `m_jobFingerprintMap` at that moment. -/
structure PipelineEffects where
  emitted : List JobDetails := []
  queued : List QueuedCall := []
  processed : List ProcessedJob := []
  passedOver : List ProcessedJob := []
deriving DecidableEq, Repr

/-- The largest `int` (`INT_MAX`), the priority of an auto-fail job. -/
def INT_MAX : Int := 2147483647

/-- The tracker entry that `ProcessBuilders` makes for a source: `insert_key` keeps a tracker
that is there, then the source and the builders involved are written. -/
def insertTracker (trackers : List (Str × AnalysisTracker)) (normalizedPath : Str)
    (databasePathToFile : Str) (scanFolderID : Int) (builderInfoList : List AssetBuilderDesc) :
    List (Str × AnalysisTracker) :=
  let existing := (mapFind trackers normalizedPath).getD {}
  mapSet trackers normalizedPath
    { existing with
      m_databaseSourceName := databasePathToFile
      m_databaseScanFolderId := scanFolderID
      m_buildersInvolved := builderInfoList.foldl (fun ids b => setInsert ids b.m_busId) [] }

/-- The auto-fail job that `ProcessBuilders` emits for a builder whose `CreateJobs` failed. -/
def autoFailJob (ops : UuidOps) (jenv : JobEnv) (scanFolder : ScanFolderInfo)
    (actualRelativePath databasePathToFile : Str) (sourceUUID : Uuid)
    (builderInfo : AssetBuilderDesc) : JobDetails :=
  { m_jobEntry :=
      { m_watchFolderPath := scanFolder.ScanPath
        m_pathRelativeToWatchFolder := actualRelativePath
        m_databaseSourceName := databasePathToFile
        m_builderGuid := builderInfo.m_busId
        m_platformIdentifier := "all".toList
        m_jobKey := "CreateJobs_".toList ++ ops.ToString builderInfo.m_busId
        m_sourceFileUUID := sourceUUID }
    m_autoFail := true
    m_critical := true
    m_priority := INT_MAX
    m_jobParam :=
      [("AutoFailReasonKey".toList,
          "CreateJobs of ".toList ++ actualRelativePath ++
            (" has failed.\nThis is often because the asset is corrupt.\n" ++
              "Please load it in the editor to see what might be wrong.\n").toList),
       ("AutoFailLogFile".toList, jenv.readJobLog builderInfo),
       ("AutoFailOmitFromDatabaseKey".toList, "true".toList)] }

/-- The job that `ProcessBuilders` makes of a job descriptor. -/
def newJobDetails (scanFolder : ScanFolderInfo) (actualRelativePath databasePathToFile : Str)
    (sourceUUID : Uuid) (builderInfo : AssetBuilderDesc) (jobDescriptor : JobDescriptor) :
    JobDetails :=
  { m_assetBuilderDesc := builderInfo
    m_jobEntry :=
      { m_watchFolderPath := scanFolder.ScanPath
        m_pathRelativeToWatchFolder := actualRelativePath
        m_databaseSourceName := databasePathToFile
        m_builderGuid := builderInfo.m_busId
        m_platformIdentifier := jobDescriptor.m_platformIdentifier
        m_jobKey := jobDescriptor.m_jobKey
        m_sourceFileUUID := sourceUUID }
    m_critical := jobDescriptor.m_critical
    m_extraInformationForFingerprinting :=
      formatInt builderInfo.m_version ++ jobDescriptor.m_additionalFingerprintInfo
    m_jobParam := jobDescriptor.m_jobParameters
    m_priority := jobDescriptor.m_priority
    m_jobDependencyList := jobDescriptor.m_jobDependencyList.map
      (fun jobDependency => { m_jobDependency := jobDependency }) }

/-- The state of the loop of `ProcessBuilders` over the builders: the manager, the batch being
filled and the effects so far. -/
structure ProcessBuildersLoop where
  st : ManagerState
  entry : JobToProcessEntry
  effects : PipelineEffects
deriving DecidableEq, Repr

/-- The loop of `ProcessBuilders` over the job descriptors of one builder. -/
def addCreatedJobs (jenv : JobEnv) (normalizedPath : Str) (scanFolder : ScanFolderInfo)
    (actualRelativePath databasePathToFile : Str) (sourceUUID : Uuid)
    (builderInfo : AssetBuilderDesc) :
    List JobDescriptor → ProcessBuildersLoop → ProcessBuildersLoop
  | [], acc => acc
  | jobDescriptor :: rest, acc =>
    if jenv.platformEnabled jobDescriptor.m_platformIdentifier then
      let newJob := newJobDetails scanFolder actualRelativePath databasePathToFile sourceUUID
        builderInfo jobDescriptor
      let jobDesc : JobDesc :=
        { m_databaseSourceName := newJob.m_jobEntry.m_databaseSourceName
          m_jobKey := newJob.m_jobEntry.m_jobKey
          m_platformIdentifier := newJob.m_jobEntry.m_platformIdentifier }
      let jobIdentifier : JobIndentifier :=
        { m_databaseSourceName := newJob.m_jobEntry.m_databaseSourceName
          m_jobKey := newJob.m_jobEntry.m_jobKey
          m_platformIdentifier := newJob.m_jobEntry.m_platformIdentifier
          m_builderUuid := builderInfo.m_busId }
      let updated := UpdateAnalysisTrackerForFile
        acc.st.jobs.m_remainingJobsForEachSourceFile normalizedPath
        AnalysisTrackerUpdateType.JobStarted
      addCreatedJobs jenv normalizedPath scanFolder actualRelativePath databasePathToFile
        sourceUUID builderInfo rest
        { st := { acc.st with
            jobs := { acc.st.jobs with
              m_jobDescToBuilderUuidMap := mapSet acc.st.jobs.m_jobDescToBuilderUuidMap jobDesc
                (setInsert ((mapFind acc.st.jobs.m_jobDescToBuilderUuidMap jobDesc).getD [])
                  builderInfo.m_busId)
              m_jobFingerprintMap := mapErase acc.st.jobs.m_jobFingerprintMap jobIdentifier
              m_remainingJobsForEachSourceFile := updated.1 }
            queue := { acc.st.queue with
              m_numOfJobsToAnalyze := acc.st.queue.m_numOfJobsToAnalyze + 1 } }
          entry := { acc.entry with m_jobsToAnalyze := acc.entry.m_jobsToAnalyze ++ [newJob] }
          effects := { acc.effects with queued := acc.effects.queued ++ updated.2 } }
    else
      addCreatedJobs jenv normalizedPath scanFolder actualRelativePath databasePathToFile
        sourceUUID builderInfo rest acc

/-- The loop of `ProcessBuilders` over the builders; `none` when a builder answers
`ShuttingDown` and the function returns at once. -/
def processBuildersLoop (ops : UuidOps) (jenv : JobEnv) (normalizedPath : Str)
    (scanFolder : ScanFolderInfo) (actualRelativePath databasePathToFile : Str)
    (sourceUUID : Uuid) :
    List AssetBuilderDesc → ProcessBuildersLoop → ProcessBuildersLoop × Bool
  | [], acc => (acc, false)
  | builderInfo :: rest, acc =>
    if builderInfo.m_busId.IsNull then
      processBuildersLoop ops jenv normalizedPath scanFolder actualRelativePath
        databasePathToFile sourceUUID rest acc
    else
      let createJobsResponse := jenv.createJobs builderInfo
      match createJobsResponse.m_result with
      | CreateJobsResultCode.Failed =>
        let updated := UpdateAnalysisTrackerForFile
          acc.st.jobs.m_remainingJobsForEachSourceFile normalizedPath
          AnalysisTrackerUpdateType.JobFailed
        processBuildersLoop ops jenv normalizedPath scanFolder actualRelativePath
          databasePathToFile sourceUUID rest
          { acc with
            st := { acc.st with
              jobs := { acc.st.jobs with m_remainingJobsForEachSourceFile := updated.1 } }
            effects :=
              { emitted := acc.effects.emitted ++
                  [autoFailJob ops jenv scanFolder actualRelativePath databasePathToFile
                    sourceUUID builderInfo]
                queued := acc.effects.queued ++ updated.2 } }
      | CreateJobsResultCode.ShuttingDown => (acc, true)
      | CreateJobsResultCode.Success =>
        let acc := addCreatedJobs jenv normalizedPath scanFolder actualRelativePath
          databasePathToFile sourceUUID builderInfo createJobsResponse.m_createJobOutputs acc
        let numJobDependencies : Nat :=
          ((createJobsResponse.m_createJobOutputs.filter
            (fun d => jenv.platformEnabled d.m_platformIdentifier)).map
            (fun d => d.m_jobDependencyList.length)).sum
        let acc :=
          if !createJobsResponse.m_sourceFileDependencyList.isEmpty || decide (numJobDependencies > 0) then
            { acc with
              entry := { acc.entry with
                m_sourceFileDependencies := acc.entry.m_sourceFileDependencies ++
                  createJobsResponse.m_sourceFileDependencyList.map
                    (fun sourceDependency => (builderInfo.m_busId, sourceDependency)) } }
          else acc
        processBuildersLoop ops jenv normalizedPath scanFolder actualRelativePath
          databasePathToFile sourceUUID rest acc

/-- The function `AssetProcessorManager::ResolveDependencyPath`: the database source name it
writes, `none` when it returns false (the name is empty). -/
def ResolveDependencyPath (ops : UuidOps) (env : FileEnv) (qenv : QueueEnv) (jenv : JobEnv)
    (sourceDependency : SourceFileDependency) : Option Str :=
  let resultDatabaseSourceName : Str :=
    if !sourceDependency.m_sourceFileDependencyUUID.IsNull then
      match jenv.SearchSourceInfoBySourceUUID sourceDependency.m_sourceFileDependencyUUID with
      | none =>
        env.m_placeHolderFileName ++ ops.ToString sourceDependency.m_sourceFileDependencyUUID
      | some m_sourceDatabaseName => m_sourceDatabaseName
    else if !sourceDependency.m_sourceFileDependencyPath.isEmpty then
      let encodedFileData := sourceDependency.m_sourceFileDependencyPath
      if jenv.isAbsolute encodedFileData then
        if !qenv.canConvertToRelativePath encodedFileData then []
        else env.ConvertToRelativePath encodedFileData
      else
        let absolutePath := env.FindFirstMatchingFile encodedFileData
        if absolutePath.isEmpty then env.m_placeHolderFileName ++ encodedFileData
        else env.ConvertToRelativePath absolutePath
    else []
  if resultDatabaseSourceName.isEmpty then none else some resultDatabaseSourceName

/-! ## The dependency table: `UpdateSourceFileDependenciesDatabase` -/

/-- Modelled from the spec: the store call `RemoveSourceFileDependencies`, which takes the
edges of the given ids out of the dependency table (`ReplaceEdges` of the store interface; the
store is not part of the sources at hand). -/
def RemoveSourceFileDependencies (edges : List SourceFileDependencyEntry) (ids : List Int) :
    List SourceFileDependencyEntry :=
  edges.filter (fun e => e.m_sourceDependencyID ∉ ids)

/-- The id that the store gives to the next edge: one more than every id in the table. -/
def nextDependencyID (edges : List SourceFileDependencyEntry) : Int :=
  edges.foldl (fun m e => max m e.m_sourceDependencyID) 0 + 1

/-- Modelled from the spec: the store call `SetSourceFileDependencies`, which adds the edges
to the dependency table, each under a new id (`ReplaceEdges` of the store interface). -/
def SetSourceFileDependencies (edges news : List SourceFileDependencyEntry) :
    List SourceFileDependencyEntry :=
  news.foldl (fun table e => table ++ [{ e with m_sourceDependencyID := nextDependencyID table }])
    edges

/-- The first loop of `UpdateSourceFileDependenciesDatabase`: one source-to-source edge for
every declared source dependency that resolves. -/
def newSourceDependencies (ops : UuidOps) (env : FileEnv) (qenv : QueueEnv) (jenv : JobEnv)
    (entry : JobToProcessEntry) : List SourceFileDependencyEntry :=
  entry.m_sourceFileDependencies.filterMap (fun sourceDependency =>
    (ResolveDependencyPath ops env qenv jenv sourceDependency.2).map (fun resolvedDependency =>
      { m_builderGuid := sourceDependency.1
        m_source := entry.m_sourceFileInfo.m_databasePath
        m_dependsOnSource := resolvedDependency
        m_typeOfDependency := TypeOfDependency.DEP_SourceToSource }))

/-- The second loop of `UpdateSourceFileDependenciesDatabase`: one job-to-job edge for every
job dependency that resolves, under the builder of the job. -/
def newJobDependencies (ops : UuidOps) (env : FileEnv) (qenv : QueueEnv) (jenv : JobEnv)
    (entry : JobToProcessEntry) : List SourceFileDependencyEntry :=
  (entry.m_jobsToAnalyze.map (fun jobToCheck =>
    jobToCheck.m_jobDependencyList.filterMap (fun jobDependency =>
      (ResolveDependencyPath ops env qenv jenv jobDependency.m_jobDependency.m_sourceFile).map
        (fun resolvedDependency =>
          { m_builderGuid := jobToCheck.m_assetBuilderDesc.m_busId
            m_source := entry.m_sourceFileInfo.m_databasePath
            m_dependsOnSource := resolvedDependency
            m_typeOfDependency := TypeOfDependency.DEP_JobToJob })))).flatten

/-- The edges whose target is a placeholder for the source of the batch, by relative path or
by identifier (the two calls of `GetSourceFileDependenciesByDependsOnSource`). -/
def placeholderEdges (ops : UuidOps) (env : FileEnv) (edges : List SourceFileDependencyEntry)
    (entry : JobToProcessEntry) : List SourceFileDependencyEntry :=
  QuerySourceDependencyByDependsOnSource edges
      (env.m_placeHolderFileName ++ entry.m_sourceFileInfo.m_pathRelativeToScanFolder)
      TypeOfDependency.DEP_Any
    ++ QuerySourceDependencyByDependsOnSource edges
      (env.m_placeHolderFileName ++ ops.ToString entry.m_sourceFileInfo.m_uuid)
      TypeOfDependency.DEP_Any

/-- The loop of `UpdateSourceFileDependenciesDatabase` over the edges that pointed at a
placeholder: the source of each, when it is on disk, is queued for analysis. -/
def requeuePlaceholderSources (env : FileEnv) (qenv : QueueEnv) :
    List SourceFileDependencyEntry → QueueState → QueueState
  | [], queue => queue
  | resultEntry :: rest, queue =>
    let absPath := env.FindFirstMatchingFile resultEntry.m_source
    if !absPath.isEmpty then
      requeuePlaceholderSources env qenv rest (AssessFileInternal env qenv queue absPath false false)
    else requeuePlaceholderSources env qenv rest queue

/-- The function `AssetProcessorManager::UpdateSourceFileDependenciesDatabase`: the dependency
table and the file queues afterwards. -/
def UpdateSourceFileDependenciesDatabase (ops : UuidOps) (env : FileEnv) (qenv : QueueEnv)
    (jenv : JobEnv) (edges : List SourceFileDependencyEntry) (queue : QueueState)
    (entry : JobToProcessEntry) : List SourceFileDependencyEntry × QueueState :=
  let newDependencies :=
    newSourceDependencies ops env qenv jenv entry ++ newJobDependencies ops env qenv jenv entry
  let oldDependencies :=
    (QueryDependsOnSourceBySourceDependency edges entry.m_sourceFileInfo.m_databasePath
      TypeOfDependency.DEP_Any).map (fun existingEntry => existingEntry.m_sourceDependencyID)
  let edges := RemoveSourceFileDependencies edges oldDependencies
  let edges := SetSourceFileDependencies edges newDependencies
  let results := placeholderEdges ops env edges entry
  let queue := requeuePlaceholderSources env qenv results queue
  let edges := RemoveSourceFileDependencies edges
    (results.map (fun resultEntry => resultEntry.m_sourceDependencyID))
  (SetSourceFileDependencies edges
      (results.map (fun resultEntry =>
        { resultEntry with m_dependsOnSource := entry.m_sourceFileInfo.m_databasePath })),
    queue)

/-- The function `AssetProcessorManager::ProcessBuilders`, as far as the trackers, the counter
`m_numOfJobsToAnalyze`, the job maps, the dependency table, the file queues, the pending
batches and the emitted jobs go; the source identifier cache and the `JobRemoved` signals are
left out. -/
def ProcessBuilders (ops : UuidOps) (env : FileEnv) (qenv : QueueEnv) (jenv : JobEnv)
    (st : ManagerState) (normalizedPath databasePathToFile : Str) (scanFolder : ScanFolderInfo)
    (builderInfoList : List AssetBuilderDesc) : ManagerState × PipelineEffects :=
  let sourceUUID := jenv.CreateSafeSourceUUIDFromName databasePathToFile
  let sourceRelativeToWatchFolder :=
    if !scanFolder.GetOutputPrefix.isEmpty then
      databasePathToFile.drop (scanFolder.GetOutputPrefix.length + 1)
    else databasePathToFile
  let st := { st with
    jobs := { st.jobs with
      m_remainingJobsForEachSourceFile :=
        insertTracker st.jobs.m_remainingJobsForEachSourceFile normalizedPath
          databasePathToFile scanFolder.ScanFolderID builderInfoList } }
  let looped := processBuildersLoop ops jenv normalizedPath scanFolder
    sourceRelativeToWatchFolder databasePathToFile sourceUUID builderInfoList
    { st := st, entry := {}, effects := {} }
  if looped.2 then (looped.1.st, looped.1.effects)
  else
    let entry := { looped.1.entry with
      m_sourceFileInfo :=
        { m_databasePath := databasePathToFile
          m_scanFolder := scanFolder
          m_pathRelativeToScanFolder := sourceRelativeToWatchFolder
          m_uuid := sourceUUID } }
    let updated := UpdateSourceFileDependenciesDatabase ops env qenv jenv looped.1.st.edges
      looped.1.st.queue entry
    ({ looped.1.st with
        edges := updated.1
        queue := updated.2
        jobs := { looped.1.st.jobs with
          m_jobEntries := looped.1.st.jobs.m_jobEntries ++ [entry] } },
     looped.1.effects)

/-- The function `AssetProcessorManager::IsIdle`. -/
def IsIdle (st : ManagerState) : Bool :=
  if (!st.queue.m_queuedExamination) && st.queue.m_filesToExamine.isEmpty
      && st.queue.m_activeFiles.isEmpty && (!st.queue.m_processedQueued)
      && st.queue.m_assetProcessedList.isEmpty
      && decide (st.queue.m_numOfJobsToAnalyze = 0) then
    true
  else
    false

/-- The function `AssetProcessorManager::QueueIdleCheck`. -/
def QueueIdleCheck (st : ManagerState) : ManagerState × List QueuedCall :=
  if !st.m_alreadyQueuedCheckForIdle then
    ({ st with m_alreadyQueuedCheckForIdle := true }, [QueuedCall.CheckForIdle])
  else (st, [])

/-- The order of `AZStd::sort` on the job dependencies: by the text of the dependency. -/
def sortJobDependencies (jenv : JobEnv) (deps : List JobDependencyInternal) :
    List JobDependencyInternal :=
  deps.foldr
    (fun dep sorted =>
      sorted.takeWhile
          (fun other => strLt (jenv.jobDependencyToString other) (jenv.jobDependencyToString dep))
        ++ dep :: sorted.dropWhile
          (fun other => strLt (jenv.jobDependencyToString other) (jenv.jobDependencyToString dep)))
    []

/-- The loop of `UpdateJobDependency`, with the iterator as a position in the list. A
dependency with neither identifier nor path is erased (the iterator stays, the list is one
shorter); a dependency that does not resolve is `continue`d over with the iterator in place; a
resolved one is rewritten, the iterator advances and the list is sorted. `none` when the fuel
runs out. -/
def updateJobDependencyLoop (ops : UuidOps) (env : FileEnv) (qenv : QueueEnv) (jenv : JobEnv)
    (m_jobDescToBuilderUuidMap : List (JobDesc × List Uuid)) :
    Nat → List JobDependencyInternal → Nat → Option (List JobDependencyInternal)
  | 0, _, _ => none
  | fuel + 1, deps, i =>
    match deps.get? i with
    | none => some deps
    | some dep =>
      let sourceFileDependency := dep.m_jobDependency.m_sourceFile
      if sourceFileDependency.m_sourceFileDependencyUUID.IsNull
          ∧ sourceFileDependency.m_sourceFileDependencyPath.isEmpty then
        updateJobDependencyLoop ops env qenv jenv m_jobDescToBuilderUuidMap fuel
          (deps.eraseIdx i) i
      else
        match ResolveDependencyPath ops env qenv jenv sourceFileDependency with
        | none =>
          updateJobDependencyLoop ops env qenv jenv m_jobDescToBuilderUuidMap fuel deps i
        | some databaseSourceName =>
          let path := qenv.NormalizeFilePath databaseSourceName
          let jobDesc : JobDesc :=
            { m_databaseSourceName := path
              m_jobKey := dep.m_jobDependency.m_jobKey
              m_platformIdentifier := dep.m_jobDependency.m_platformIdentifier }
          let buildersFound := (mapFind m_jobDescToBuilderUuidMap jobDesc).getD []
          let updated : JobDependencyInternal :=
            { m_jobDependency :=
                { dep.m_jobDependency with
                  m_sourceFile :=
                    { sourceFileDependency with m_sourceFileDependencyPath := path } }
              m_builderUuidList := buildersFound.foldl setInsert dep.m_builderUuidList }
          updateJobDependencyLoop ops env qenv jenv m_jobDescToBuilderUuidMap fuel
            (sortJobDependencies jenv (deps.set i updated)) (i + 1)

/-- The function `AssetProcessorManager::UpdateJobDependency`: the job with its dependencies
resolved. Every step of the loop but the `continue` over an unresolved dependency brings the
iterator one nearer to the end of the list, and that one repeats for ever; so the loop gets one
step more than the list is long, and `none` says that it does not come to an end. -/
def UpdateJobDependency (ops : UuidOps) (env : FileEnv) (qenv : QueueEnv) (jenv : JobEnv)
    (m_jobDescToBuilderUuidMap : List (JobDesc × List Uuid)) (job : JobDetails) :
    Option JobDetails :=
  (updateJobDependencyLoop ops env qenv jenv m_jobDescToBuilderUuidMap
    (job.m_jobDependencyList.length + 1) job.m_jobDependencyList 0).map
    (fun deps => { job with m_jobDependencyList := deps })

/-- The replacement of the element of `m_jobsToProcess` that equals the new job
(`*jobPair.first = AZStd::move(jobDetail)`). -/
def replaceJob (jenv : JobEnv) (jobDetail : JobDetails) : List JobDetails → List JobDetails
  | [] => []
  | job :: rest =>
    if jenv.sameJob job jobDetail then jobDetail :: rest
    else job :: replaceJob jenv jobDetail rest

/-- The function `AssetProcessorManager::AnalyzeJobDetail` with the invocations it queues;
`none` when `UpdateJobDependency` does not come to an end. -/
def AnalyzeJobDetail (ops : UuidOps) (env : FileEnv) (qenv : QueueEnv) (jenv : JobEnv) :
    List JobDetails → ManagerState × List QueuedCall → Option (ManagerState × List QueuedCall)
  | [], acc => some acc
  | jobDetail :: rest, (st, queued) =>
    match UpdateJobDependency ops env qenv jenv st.jobs.m_jobDescToBuilderUuidMap jobDetail with
    | none => none
    | some jobDetail =>
      match st.jobs.m_jobsToProcess.find? (fun job => jenv.sameJob job jobDetail) with
      | none =>
        AnalyzeJobDetail ops env qenv jenv rest
          ({ st with
              jobs := { st.jobs with m_jobsToProcess := st.jobs.m_jobsToProcess ++ [jobDetail] } },
           queued)
      | some existing =>
        let updated := UpdateAnalysisTrackerForFile st.jobs.m_remainingJobsForEachSourceFile
          (jenv.absoluteFilePath existing.m_jobEntry.m_watchFolderPath
            existing.m_jobEntry.m_pathRelativeToWatchFolder)
          AnalysisTrackerUpdateType.JobFinished
        AnalyzeJobDetail ops env qenv jenv rest
          ({ st with
              jobs := { st.jobs with
                m_remainingJobsForEachSourceFile := updated.1
                m_jobsToProcess := replaceJob jenv jobDetail st.jobs.m_jobsToProcess }
              queue := { st.queue with
                m_numOfJobsToAnalyze := st.queue.m_numOfJobsToAnalyze - 1 } },
           queued ++ updated.2)

/-- The function `AssetProcessorManager::CanAnalyzeJob`: every builder of every job dependency
has its job in the fingerprint map. -/
def CanAnalyzeJob (m_jobFingerprintMap : List (JobIndentifier × Nat)) (job : JobDetails) : Bool :=
  job.m_jobDependencyList.all (fun jobDependencyInternal =>
    jobDependencyInternal.m_builderUuidList.all (fun builderUuid =>
      (mapFind m_jobFingerprintMap
        { m_databaseSourceName :=
            jobDependencyInternal.m_jobDependency.m_sourceFile.m_sourceFileDependencyPath
          m_jobKey := jobDependencyInternal.m_jobDependency.m_jobKey
          m_platformIdentifier := jobDependencyInternal.m_jobDependency.m_platformIdentifier
          m_builderUuid := builderUuid }).isSome))

/-- The call `ProcessJob(job)` on the manager. -/
def processJobOn (env : FileEnv) (jenv : JobEnv) (st : ManagerState) (job : JobDetails) :
    Option (ManagerState × PipelineEffects) :=
  (ProcessJob env jenv.GenerateFingerprint jenv.absoluteFilePath jenv.productExists st.edges
    st.queue.m_metaCache st.jobTable st.productTable st.jobs.m_jobFingerprintMap
    st.jobs.m_remainingJobsForEachSourceFile job).map
    (fun out =>
      ({ st with
          jobs := { st.jobs with
            m_jobFingerprintMap := out.jobFingerprintMap
            m_remainingJobsForEachSourceFile := out.trackers } },
       { emitted := out.emitted, queued := out.queued }))

/-- The state of the first loop of `ProcessJobs`: the manager, the jobs passed over (they stay
in `m_jobsToProcess`), `anyJobAnalyzed` and the effects so far. -/
structure ProcessJobsLoop where
  st : ManagerState
  kept : List JobDetails := []
  anyJobAnalyzed : Bool := false
  effects : PipelineEffects := {}
deriving DecidableEq, Repr

/-- The first loop of `ProcessJobs` over `m_jobsToProcess`: a job that can be analysed is
processed and erased and the counter goes down by one, the others are passed over. -/
def processJobsLoop (env : FileEnv) (jenv : JobEnv) :
    List JobDetails → ProcessJobsLoop → Option ProcessJobsLoop
  | [], acc => some acc
  | job :: rest, acc =>
    if CanAnalyzeJob acc.st.jobs.m_jobFingerprintMap job then
      match processJobOn env jenv acc.st job with
      | none => none
      | some (st, effects) =>
        processJobsLoop env jenv rest
          { acc with
            st := { st with
              queue := { st.queue with
                m_numOfJobsToAnalyze := st.queue.m_numOfJobsToAnalyze - 1 } }
            anyJobAnalyzed := true
            effects :=
              { emitted := acc.effects.emitted ++ effects.emitted
                queued := acc.effects.queued ++ effects.queued
                processed := acc.effects.processed ++
                  [{ job := job, m_jobFingerprintMap := acc.st.jobs.m_jobFingerprintMap,
                     forced := false }]
                passedOver := acc.effects.passedOver } }
    else
      processJobsLoop env jenv rest
        { acc with
          kept := acc.kept ++ [job]
          effects := { acc.effects with
            passedOver := acc.effects.passedOver ++
              [{ job := job, m_jobFingerprintMap := acc.st.jobs.m_jobFingerprintMap,
                 forced := false }] } }

/-- The function `AssetProcessorManager::ProcessJobs`; the signal `NumRemainingJobsChanged` is
left out. `none` when a dependency query of `ProcessJob` ran out of fuel. -/
def ProcessJobs (env : FileEnv) (jenv : JobEnv) (st : ManagerState) :
    Option (ManagerState × PipelineEffects) :=
  match processJobsLoop env jenv st.jobs.m_jobsToProcess { st := st } with
  | none => none
  | some looped =>
    let st := { looped.st with jobs := { looped.st.jobs with m_jobsToProcess := looped.kept } }
    match st.jobs.m_jobsToProcess with
    | job :: rest =>
      if !looped.anyJobAnalyzed then
        match processJobOn env jenv st job with
        | none => none
        | some (st, effects) =>
          some
            ({ st with
                jobs := { st.jobs with m_jobsToProcess := rest }
                queue := { st.queue with
                  m_numOfJobsToAnalyze := st.queue.m_numOfJobsToAnalyze - 1 } },
             { emitted := looped.effects.emitted ++ effects.emitted
               queued := looped.effects.queued ++ effects.queued ++ [QueuedCall.ProcessJobs]
               processed := looped.effects.processed ++
                 [{ job := job, m_jobFingerprintMap := looped.st.jobs.m_jobFingerprintMap,
                    forced := true }]
               passedOver := looped.effects.passedOver })
      else
        some (st, { looped.effects with
          queued := looped.effects.queued ++ [QueuedCall.ProcessJobs] })
    | [] =>
      let checked := QueueIdleCheck st
      some (checked.1, { looped.effects with queued := looped.effects.queued ++ checked.2 })

/-! ## Jobs of the last run: `DeleteProducts` and `CheckMissingJobs` -/

/-- Modelled from the spec: the store call `RemoveProduct(productID)`, which takes the product
record of that id out of the store (the store is not part of the sources at hand). -/
def RemoveProduct (products : List ProductDatabaseEntry) (productID : Int) :
    List ProductDatabaseEntry :=
  products.filter (fun p => p.m_productID ≠ productID)

/-- Modelled from the spec: the store call `RemoveJob(jobID)`, which takes the job record of
that id out of the store. -/
def RemoveJob (jobs : List JobDatabaseEntry) (jobID : Int) : List JobDatabaseEntry :=
  jobs.filter (fun j => j.m_jobID ≠ jobID)

/-- Modelled from the spec: the store query `GetJobInfoBySourceName` with a null builder
identifier and an empty job key: the jobs that the store records for the source on the
platform. -/
def GetJobInfoBySourceName (jobs : List JobDatabaseEntry) (sourceName platform : Str) :
    List JobDatabaseEntry :=
  jobs.filter (fun j => j.m_sourceName = sourceName ∧ j.m_platform = platform)

/-- What `DeleteProducts` leaves: its return value, the product table and the product files
removed from the cache folder so far. -/
structure DeleteProductsOutcome where
  successfullyRemoved : Bool := true
  productTable : List ProductDatabaseEntry
  removedFiles : List Str
deriving DecidableEq, Repr

/-- The loop of `DeleteProducts`: a product file that is there is removed from disk, and when
no removal has failed so far its product record is removed from the store; a product file that
is not there is passed over. The asset messages and the folders noted for clean-up are left
out. -/
def deleteProductsLoop (jenv : JobEnv) :
    List ProductDatabaseEntry → DeleteProductsOutcome → DeleteProductsOutcome
  | [], acc => acc
  | product :: rest, acc =>
    if jenv.productExists product.m_productName
        ∧ product.m_productName ∉ acc.removedFiles then
      let removed := jenv.removeFile product.m_productName
      let successfullyRemoved := acc.successfullyRemoved && removed
      let removedFiles :=
        if removed then acc.removedFiles ++ [product.m_productName] else acc.removedFiles
      if successfullyRemoved then
        deleteProductsLoop jenv rest
          { successfullyRemoved := successfullyRemoved
            productTable := RemoveProduct acc.productTable product.m_productID
            removedFiles := removedFiles }
      else
        deleteProductsLoop jenv rest
          { successfullyRemoved := successfullyRemoved
            productTable := acc.productTable
            removedFiles := removedFiles }
    else deleteProductsLoop jenv rest acc

/-- The function `AssetProcessorManager::DeleteProducts`. -/
def DeleteProducts (jenv : JobEnv) (productTable : List ProductDatabaseEntry)
    (removedFiles : List Str) (products : List ProductDatabaseEntry) : DeleteProductsOutcome :=
  deleteProductsLoop jenv products
    { successfullyRemoved := true, productTable := productTable, removedFiles := removedFiles }

/-- Whether a job of this time stands for a job of the last run (the test of the inner loop
of `CheckMissingJobs`): same builder, platform and job key, and the same source name up to
case. -/
def sameJobAsLastTime (jenv : JobEnv) (oldJobInfo : JobDatabaseEntry)
    (newJobInfo : JobDetails) : Bool :=
  newJobInfo.m_jobEntry.m_builderGuid = oldJobInfo.m_builderGuid
    ∧ newJobInfo.m_jobEntry.m_platformIdentifier = oldJobInfo.m_platform
    ∧ newJobInfo.m_jobEntry.m_jobKey = oldJobInfo.m_jobKey
    ∧ jenv.equalsCaseInsensitive newJobInfo.m_jobEntry.m_databaseSourceName
        oldJobInfo.m_sourceName

/-- What `CheckMissingJobs` leaves: the job and product tables, the product files removed so
far and the jobs announced with `JobRemoved`. -/
structure CheckMissingJobsOutcome where
  jobTable : List JobDatabaseEntry
  productTable : List ProductDatabaseEntry
  removedFiles : List Str
  jobsRemoved : List JobDatabaseEntry := []
deriving DecidableEq, Repr

/-- The last loop of `CheckMissingJobs`, over the jobs of the last run that are not created
this time: the products of the job are deleted, the job record is removed, and `JobRemoved`
is emitted with the source name without the output prefix. -/
def removeMissingJobs (jenv : JobEnv) (databasePathToFile : Str) (scanFolder : ScanFolderInfo) :
    List JobDatabaseEntry → CheckMissingJobsOutcome → CheckMissingJobsOutcome
  | [], acc => acc
  | oldJobInfo :: rest, acc =>
    let products := GetProductsBySourceName acc.productTable databasePathToFile
      oldJobInfo.m_builderGuid oldJobInfo.m_jobKey oldJobInfo.m_platform
    let deleted :=
      if !products.isEmpty then DeleteProducts jenv acc.productTable acc.removedFiles products
      else { productTable := acc.productTable, removedFiles := acc.removedFiles }
    let announced :=
      if !scanFolder.GetOutputPrefix.isEmpty then
        { oldJobInfo with
          m_sourceName := oldJobInfo.m_sourceName.drop (scanFolder.GetOutputPrefix.length + 1) }
      else oldJobInfo
    removeMissingJobs jenv databasePathToFile scanFolder rest
      { jobTable := RemoveJob acc.jobTable oldJobInfo.m_jobID
        productTable := deleted.productTable
        removedFiles := deleted.removedFiles
        jobsRemoved := acc.jobsRemoved ++ [announced] }

/-- The function `AssetProcessorManager::CheckMissingJobs`. -/
def CheckMissingJobs (jenv : JobEnv) (jobTable : List JobDatabaseEntry)
    (productTable : List ProductDatabaseEntry) (removedFiles : List Str)
    (databasePathToFile : Str) (scanFolder : ScanFolderInfo) (jobsThisTime : List JobDetails) :
    CheckMissingJobsOutcome :=
  let unchanged : CheckMissingJobsOutcome :=
    { jobTable := jobTable, productTable := productTable, removedFiles := removedFiles }
  if databasePathToFile.length = 0 ∧ jobsThisTime.isEmpty then unchanged
  else
    let jobsFromLastTime := scanFolder.GetPlatforms.foldl
      (fun found platform => found ++ GetJobInfoBySourceName jobTable databasePathToFile platform)
      []
    if jobsFromLastTime.isEmpty then unchanged
    else
      removeMissingJobs jenv databasePathToFile scanFolder
        (jobsFromLastTime.filter
          (fun oldJobInfo => !jobsThisTime.any (sameJobAsLastTime jenv oldJobInfo)))
        unchanged

/-- The loop of `CheckForIdle` over `m_jobEntries`: a batch without jobs queues
`FinishAnalysis` for its source, the others go through `CheckMissingJobs` and
`AnalyzeJobDetail`. -/
def dispatchJobEntries (ops : UuidOps) (env : FileEnv) (qenv : QueueEnv) (jenv : JobEnv) :
    List JobToProcessEntry → ManagerState × List QueuedCall →
      Option (ManagerState × List QueuedCall)
  | [], acc => some acc
  | entry :: rest, (st, queued) =>
    if entry.m_jobsToAnalyze.isEmpty then
      let absolutePath := jenv.absoluteFilePath entry.m_sourceFileInfo.m_scanFolder.ScanPath
        entry.m_sourceFileInfo.m_pathRelativeToScanFolder
      dispatchJobEntries ops env qenv jenv rest
        (st, queued ++ [QueuedCall.FinishAnalysis absolutePath])
    else
      let checked := CheckMissingJobs jenv st.jobTable st.productTable st.removedProductFiles
        entry.m_sourceFileInfo.m_databasePath entry.m_sourceFileInfo.m_scanFolder
        entry.m_jobsToAnalyze
      match AnalyzeJobDetail ops env qenv jenv entry.m_jobsToAnalyze
          ({ st with
              jobTable := checked.jobTable
              productTable := checked.productTable
              removedProductFiles := checked.removedFiles }, queued) with
      | none => none
      | some acc => dispatchJobEntries ops env qenv jenv rest acc

/-- What `CheckForIdle` leaves: the manager, the effects, and the idle state it emitted with
`AssetProcessorManagerIdleState`, if any. -/
structure CheckForIdleOutcome where
  st : ManagerState
  effects : PipelineEffects := {}
  idleState : Option Bool := none
deriving DecidableEq, Repr

/-- The function `AssetProcessorManager::CheckForIdle`. The one-time store maintenance and
metrics report, the timers (`RemoveEmptyFolders`, `ScheduleNextUpdate`) and the signal
`NumRemainingJobsChanged` are left out. `none` when `UpdateJobDependency` does not come to an
end or a dependency query ran out of fuel. -/
def CheckForIdle (ops : UuidOps) (env : FileEnv) (qenv : QueueEnv) (jenv : JobEnv)
    (st : ManagerState) : Option CheckForIdleOutcome :=
  let st := { st with m_alreadyQueuedCheckForIdle := false }
  if IsIdle st then
    if !st.queue.m_quitRequested ∧ st.queue.m_AssetProcessorIsBusy then
      some { st := { st with queue := { st.queue with m_AssetProcessorIsBusy := false } }
             idleState := some true }
    else
      some { st := st }
  else
    let st := { st with queue := { st.queue with m_AssetProcessorIsBusy := true } }
    let numWorkRemainingNow := st.queue.m_activeFiles.length + st.queue.m_filesToExamine.length
    if !st.queue.m_alreadyScheduledUpdate ∧ numWorkRemainingNow > 0 then
      some { st := { st with queue := { st.queue with m_alreadyScheduledUpdate := true } }
             idleState := some false }
    else if numWorkRemainingNow = 0 then
      match dispatchJobEntries ops env qenv jenv st.jobs.m_jobEntries (st, []) with
      | none => none
      | some (st, queued) =>
        match ProcessJobs env jenv { st with jobs := { st.jobs with m_jobEntries := [] } } with
        | none => none
        | some (st, effects) =>
          some { st := st
                 effects := { effects with queued := queued ++ effects.queued }
                 idleState := some false }
    else
      some { st := st, idleState := some false }

/-- The jobs that wait in the manager: those of the pending batches and those of
`m_jobsToProcess`. -/
def pendingJobs (st : ManagerState) : Nat :=
  (st.jobs.m_jobEntries.map (fun entry => entry.m_jobsToAnalyze.length)).sum
    + st.jobs.m_jobsToProcess.length

/-- The counter `m_numOfJobsToAnalyze` covers the jobs that wait in the manager. -/
def CounterInvariant (st : ManagerState) : Prop :=
  (pendingJobs st : Int) ≤ st.queue.m_numOfJobsToAnalyze

/-- A step of the manager: a call of `ProcessBuilders`, `CheckForIdle` or `ProcessJobs`, or
any step of the file queue code, which may write every field of the file queues but the counter
`m_numOfJobsToAnalyze`. -/
inductive PipelineOp
  | processBuilders (normalizedPath databasePathToFile : Str) (scanFolder : ScanFolderInfo)
      (builderInfoList : List AssetBuilderDesc)
  | checkForIdle
  | processJobs
  | fileQueue (queue : QueueState)
deriving DecidableEq, Repr

/-- One step of the manager; `none` when the step does not come to an end. -/
def pipelineStep (ops : UuidOps) (env : FileEnv) (qenv : QueueEnv) (jenv : JobEnv)
    (st : ManagerState) : PipelineOp → Option ManagerState
  | PipelineOp.processBuilders normalizedPath databasePathToFile scanFolder builderInfoList =>
    some (ProcessBuilders ops env qenv jenv st normalizedPath databasePathToFile scanFolder
      builderInfoList).1
  | PipelineOp.checkForIdle => (CheckForIdle ops env qenv jenv st).map (fun out => out.st)
  | PipelineOp.processJobs => (ProcessJobs env jenv st).map (fun out => out.1)
  | PipelineOp.fileQueue queue =>
    some { st with
      queue := { queue with m_numOfJobsToAnalyze := st.queue.m_numOfJobsToAnalyze } }

/-- A run of the manager: the steps one after the other. -/
def runPipeline (ops : UuidOps) (env : FileEnv) (qenv : QueueEnv) (jenv : JobEnv) :
    List PipelineOp → ManagerState → Option ManagerState
  | [], st => some st
  | op :: rest, st =>
    match pipelineStep ops env qenv jenv st op with
    | none => none
    | some st => runPipeline ops env qenv jenv rest st

/-- The scan folder `/dev/game` of the small environment. -/
def demoScanFolder : ScanFolderInfo :=
  { ScanPath := "/dev/game".toList, ScanFolderID := 1, GetPlatforms := ["pc".toList] }

/-- A small job environment: the text builder creates the job `compile` for platform `pc`, the
copy builder creates no job; the store has no job of an earlier run, the cache folder is
empty. -/
def demoJobEnv : JobEnv where
  createJobs := fun builderInfo =>
    if builderInfo.m_busId = demoTxtBuilderV1.m_busId then
      { m_createJobOutputs :=
          [{ m_jobKey := "compile".toList, m_platformIdentifier := "pc".toList }] }
    else {}
  platformEnabled := fun platform => platform = "pc".toList
  CreateSafeSourceUUIDFromName := fun name => stdUuid.CreateName name
  GenerateFingerprint := fun _ => 4242
  absoluteFilePath := fun folder relative => folder ++ '/' :: relative
  productExists := fun _ => false
  readJobLog := fun _ => []
  SearchSourceInfoBySourceUUID := fun _ => none
  isAbsolute := fun path => path.head? = some '/'
  jobDependencyToString := fun dep =>
    dep.m_jobDependency.m_sourceFile.m_sourceFileDependencyPath ++ dep.m_jobDependency.m_jobKey
      ++ dep.m_jobDependency.m_platformIdentifier
  sameJob := fun a b =>
    a.m_jobEntry.m_databaseSourceName = b.m_jobEntry.m_databaseSourceName
      ∧ a.m_jobEntry.m_jobKey = b.m_jobEntry.m_jobKey
      ∧ a.m_jobEntry.m_platformIdentifier = b.m_jobEntry.m_platformIdentifier
      ∧ a.m_jobEntry.m_builderGuid = b.m_jobEntry.m_builderGuid
  removeFile := fun _ => true
  equalsCaseInsensitive := fun a b =>
    a.map Char.toLower = b.map Char.toLower

/-- A run from the start: `a.txt` goes to the text builder and `CheckForIdle` hands its job on
for processing; then `c.cfg` goes to the copy builder, which creates no job. -/
def demoPipeline : List PipelineOp :=
  [PipelineOp.processBuilders "/dev/game/a.txt".toList "a.txt".toList demoScanFolder
     [demoTxtBuilderV1],
   PipelineOp.checkForIdle,
   PipelineOp.processBuilders "/dev/game/c.cfg".toList "c.cfg".toList demoScanFolder
     [demoCopyBuilder]]

/-- The calls of `ProcessJobs` that follow one another through the queued invocation: as long
as `m_jobsToProcess` holds a job, `ProcessJobs` runs and, if a job is left, queues itself
again. The manager at the end and the calls of `ProcessJob` made on the way, in order; `none`
when the fuel runs out or a call does not return. -/
def repeatProcessJobs (env : FileEnv) (jenv : JobEnv) :
    Nat → ManagerState → Option (ManagerState × List ProcessedJob)
  | fuel, st =>
    match st.jobs.m_jobsToProcess, fuel with
    | [], _ => some (st, [])
    | _ :: _, 0 => none
    | _ :: _, fuel + 1 =>
      match ProcessJobs env jenv st with
      | none => none
      | some r =>
        (repeatProcessJobs env jenv fuel r.1).map
          (fun rest => (rest.1, r.2.processed ++ rest.2))

/-- A job of the text builder for a source, with one job dependency on the job `compile` of
another source for platform `pc`, the builders of that job already listed. -/
def demoDependentJob (source dependsOn : Str) : JobDetails :=
  { m_jobEntry :=
      { m_watchFolderPath := "/dev/game".toList, m_pathRelativeToWatchFolder := source,
        m_databaseSourceName := source, m_builderGuid := demoTxtBuilderV1.m_busId,
        m_platformIdentifier := "pc".toList, m_jobKey := "compile".toList }
    m_jobDependencyList :=
      [{ m_jobDependency :=
           { m_sourceFile := { m_sourceFileDependencyPath := dependsOn }
             m_jobKey := "compile".toList, m_platformIdentifier := "pc".toList }
         m_builderUuidList := [demoTxtBuilderV1.m_busId] }] }

/-- A manager with three pending jobs whose job dependencies form a cycle: the job of `a.txt`
depends on that of `b.txt`, that of `b.txt` on that of `c.txt`, that of `c.txt` on that of
`a.txt`. -/
def demoCycleState : ManagerState :=
  { jobs :=
      { m_jobsToProcess :=
          [demoDependentJob "a.txt".toList "b.txt".toList,
           demoDependentJob "b.txt".toList "c.txt".toList,
           demoDependentJob "c.txt".toList "a.txt".toList] }
    queue := { m_numOfJobsToAnalyze := 3 } }

/-- The small job environment with every product file in the cache folder. -/
def demoCacheJobEnv : JobEnv := { demoJobEnv with productExists := fun _ => true }

/-- A manager whose store records, from the last run, the job `copy` of `c.cfg` on platform
`pc` with one product. -/
def demoCfgLastRunState : ManagerState :=
  { jobTable :=
      [{ m_sourceName := "c.cfg".toList, m_builderGuid := demoCopyBuilder.m_busId,
         m_jobKey := "copy".toList, m_platform := "pc".toList, m_fingerprint := 77,
         m_jobID := 7, m_sourcePK := 3 }]
    productTable :=
      [{ m_sourceName := "c.cfg".toList, m_builderGuid := demoCopyBuilder.m_busId,
         m_jobKey := "copy".toList, m_platform := "pc".toList,
         m_productName := "pc/game/c.cfg".toList, m_productID := 9, m_jobPK := 7 }] }

/-- A run on that manager: `c.cfg` goes to the copy builder, which creates no job this time,
and `a.txt` goes to the text builder, which creates one. -/
def demoCfgPipeline : List PipelineOp :=
  [PipelineOp.processBuilders "/dev/game/c.cfg".toList "c.cfg".toList demoScanFolder
     [demoCopyBuilder],
   PipelineOp.processBuilders "/dev/game/a.txt".toList "a.txt".toList demoScanFolder
     [demoTxtBuilderV1]]

/-- An edge without its id: what the manager writes of it. -/
def withoutID (e : SourceFileDependencyEntry) : SourceFileDependencyEntry :=
  { e with m_sourceDependencyID := -1 }

/-- Whether the target of an edge is a placeholder for the source of the batch: the marker
followed by its path relative to the scan folder, or by its identifier. -/
def isPlaceholderFor (ops : UuidOps) (env : FileEnv) (entry : JobToProcessEntry)
    (e : SourceFileDependencyEntry) : Bool :=
  e.m_dependsOnSource
      = env.m_placeHolderFileName ++ entry.m_sourceFileInfo.m_pathRelativeToScanFolder
    ∨ e.m_dependsOnSource
      = env.m_placeHolderFileName ++ ops.ToString entry.m_sourceFileInfo.m_uuid

/-- The small job environment in which the copy builder declares, for its source, source
dependencies on `b.txt` (on disk) and on `zzz.txt` (missing) and creates the job `copy` with a
job dependency on the job `compile` of `a.txt`. -/
def demoDependencyJobEnv : JobEnv :=
  { demoCacheJobEnv with
    createJobs := fun builderInfo =>
      if builderInfo.m_busId = demoCopyBuilder.m_busId then
        { m_sourceFileDependencyList :=
            [{ m_sourceFileDependencyPath := "b.txt".toList },
             { m_sourceFileDependencyPath := "zzz.txt".toList }]
          m_createJobOutputs :=
            [{ m_jobKey := "copy".toList, m_platformIdentifier := "pc".toList
               m_jobDependencyList :=
                 [{ m_sourceFile := { m_sourceFileDependencyPath := "a.txt".toList }
                    m_jobKey := "compile".toList, m_platformIdentifier := "pc".toList }] }] }
      else {} }

/-- A dependency table written while `c.cfg` was missing: `b.txt` depends on it by relative
path and `a.txt` by identifier, both as placeholders; an older edge of `c.cfg` itself and an
edge from `a.txt` to `b.txt` are there too. -/
def demoPlaceholderEdges : List SourceFileDependencyEntry :=
  [{ m_source := "b.txt".toList, m_dependsOnSource := "$missing_dependency$:c.cfg".toList,
     m_builderGuid := demoTxtBuilderV1.m_busId, m_sourceDependencyID := 1 },
   { m_source := "c.cfg".toList, m_dependsOnSource := "old.txt".toList,
     m_builderGuid := demoCopyBuilder.m_busId, m_sourceDependencyID := 2 },
   { m_source := "a.txt".toList,
     m_dependsOnSource :=
       "$missing_dependency$:".toList ++ stdUuid.ToString (stdUuid.CreateName "c.cfg".toList),
     m_typeOfDependency := TypeOfDependency.DEP_JobToJob,
     m_builderGuid := demoTxtBuilderV1.m_busId, m_sourceDependencyID := 3 },
   { m_source := "a.txt".toList, m_dependsOnSource := "b.txt".toList,
     m_builderGuid := demoTxtBuilderV1.m_busId, m_sourceDependencyID := 4 }]

/-- The batch that `ProcessBuilders` makes of `c.cfg` in that environment. -/
def demoCfgBatch : JobToProcessEntry :=
  ((ProcessBuilders stdUuid demoEnv demoQueueEnv demoDependencyJobEnv {}
      "/dev/game/c.cfg".toList "c.cfg".toList demoScanFolder
      [demoCopyBuilder]).1.jobs.m_jobEntries.head?).getD {}

/-- The batch of a source as `ProcessBuilders` names it, before any builder has answered:
its database path, scan folder, path relative to the scan folder and identifier. -/
def sourceBatch (jenv : JobEnv) (databasePathToFile : Str) (scanFolder : ScanFolderInfo) :
    JobToProcessEntry :=
  { m_sourceFileInfo :=
      { m_databasePath := databasePathToFile
        m_scanFolder := scanFolder
        m_pathRelativeToScanFolder :=
          if !scanFolder.GetOutputPrefix.isEmpty then
            databasePathToFile.drop (scanFolder.GetOutputPrefix.length + 1)
          else databasePathToFile
        m_uuid := jenv.CreateSafeSourceUUIDFromName databasePathToFile } }

/-- The function `CheckModifiedSourceFile` on the manager: a source that the fast skip does
not drop goes to `ProcessBuilders` when a builder matches it and is left alone when none does.
`none` when the fast skip does not return. -/
def CheckModifiedSourceFileOn (ops : UuidOps) (env : FileEnv) (qenv : QueueEnv) (jenv : JobEnv)
    (builders : BuilderState) (sources : List SourceDatabaseEntry)
    (m_bAllowAnalysisSkippingFeature : Bool) (st : ManagerState)
    (normalizedPath databaseSourceFile : Str) (fromScanner : Bool) (scanFolder : ScanFolderInfo)
    (builderInfoList : List AssetBuilderDesc) : Option (ManagerState × PipelineEffects) :=
  match CheckModifiedSourceFile ops env builders sources st.edges st.queue.m_metaCache
      m_bAllowAnalysisSkippingFeature (builderInfoList.map (fun b => b.m_busId))
      normalizedPath databaseSourceFile fromScanner scanFolder.ScanFolderID with
  | CheckModifiedOutcome.processBuilders _ =>
    some (ProcessBuilders ops env qenv jenv st normalizedPath databaseSourceFile scanFolder
      builderInfoList)
  | CheckModifiedOutcome.skipped => some (st, {})
  | CheckModifiedOutcome.notHandledByAnyBuilder => some (st, {})
  | CheckModifiedOutcome.undefinedRead => none
  | CheckModifiedOutcome.noFuel => none

/-- A manager whose dependency table is the one written while `c.cfg` was missing. -/
def demoPlaceholderState : ManagerState := { edges := demoPlaceholderEdges }

/-! ## Sources by identifier: `SearchSourceInfoBySourceUUID` -/

/-- What the manager knows of a source by its identifier (`SourceInfo`). -/
structure SourceInfo where
  m_watchFolder : Str := []
  m_sourceDatabaseName : Str := []
  m_sourceRelativeToWatchFolder : Str := []
deriving DecidableEq, Repr

/-- Modelled from the spec: the store query `GetSourceBySourceGuid` (the direct store query
behind the identity cache; the store is not part of the sources at hand): the source row of
that identifier. -/
def GetSourceBySourceGuid (sources : List SourceDatabaseEntry) (sourceGuid : Uuid) :
    Option SourceDatabaseEntry :=
  sources.find? (fun s => s.m_sourceGuid = sourceGuid)

/-- Modelled from the spec: the store query `GetScanFolderByScanFolderID`: the scan folder row
of that id. -/
def GetScanFolderByScanFolderID (scanFolders : List ScanFolderDatabaseEntry)
    (scanFolderID : Int) : Option ScanFolderDatabaseEntry :=
  scanFolders.find? (fun f => f.m_scanFolderID = scanFolderID)

/-- The function `AssetProcessorManager::SearchSourceInfoBySourceUUID`: its return value, the
`result` it leaves and the map `m_sourceUUIDToSourceInfoMap` afterwards. A source found in the
store whose scan folder is not found leaves `result` as it came in. -/
def SearchSourceInfoBySourceUUID (m_sourceUUIDToSourceInfoMap : List (Uuid × SourceInfo))
    (sources : List SourceDatabaseEntry) (scanFolders : List ScanFolderDatabaseEntry)
    (sourceUuid : Uuid) (result : SourceInfo) :
    Bool × SourceInfo × List (Uuid × SourceInfo) :=
  match mapFind m_sourceUUIDToSourceInfoMap sourceUuid with
  | some foundSource => (true, foundSource, m_sourceUUIDToSourceInfoMap)
  | none =>
    match GetSourceBySourceGuid sources sourceUuid with
    | some sourceDatabaseEntry =>
      match GetScanFolderByScanFolderID scanFolders sourceDatabaseEntry.m_scanFolderPK with
      | some scanFolder =>
        let result : SourceInfo :=
          { m_sourceDatabaseName := sourceDatabaseEntry.m_sourceName
            m_watchFolder := scanFolder.m_scanFolder
            m_sourceRelativeToWatchFolder :=
              if !scanFolder.m_outputPrefix.isEmpty then
                sourceDatabaseEntry.m_sourceName.drop (scanFolder.m_outputPrefix.length + 1)
              else sourceDatabaseEntry.m_sourceName }
        (true, result, mapSet m_sourceUUIDToSourceInfoMap sourceUuid result)
      | none => (true, result, m_sourceUUIDToSourceInfoMap)
    | none => (false, result, m_sourceUUIDToSourceInfoMap)

/-- The job environment whose search by identifier is `SearchSourceInfoBySourceUUID` on the
given map and store, called as `ResolveDependencyPath` calls it, with an empty `result`. -/
def withSourceSearch (jenv : JobEnv) (m_sourceUUIDToSourceInfoMap : List (Uuid × SourceInfo))
    (sources : List SourceDatabaseEntry) (scanFolders : List ScanFolderDatabaseEntry) :
    JobEnv :=
  { jenv with
    SearchSourceInfoBySourceUUID := fun sourceUuid =>
      let found := SearchSourceInfoBySourceUUID m_sourceUUIDToSourceInfoMap sources scanFolders
        sourceUuid {}
      if found.1 then some found.2.1.m_sourceDatabaseName else none }

/-- A queue environment in which only the paths under `/dev/game/` lie in a scan folder. -/
def demoScanQueueEnv : QueueEnv :=
  { demoQueueEnv with
    canConvertToRelativePath := fun path => startsWith path "/dev/game/".toList }

/-- A store with one source, `a.txt` of identifier 77, in the scan folder `/dev/game`. -/
def demoGuidSources : List SourceDatabaseEntry :=
  [{ m_sourceID := 1, m_scanFolderPK := 1, m_sourceName := "a.txt".toList, m_sourceGuid := 77 }]

/-- The scan folder table of the demo store. -/
def demoScanFolderTable : List ScanFolderDatabaseEntry :=
  [{ m_scanFolderID := 1, m_scanFolder := "/dev/game".toList }]

/-- The demo store with a second source, `gone.txt` of identifier 79, whose scan folder, of
id 9, has no row in the scan folder table. -/
def demoDanglingSources : List SourceDatabaseEntry :=
  demoGuidSources ++
    [{ m_sourceID := 2, m_scanFolderPK := 9, m_sourceName := "gone.txt".toList,
       m_sourceGuid := 79 }]

/-- The demo job environment searching by identifier in the demo store, with an empty map. -/
def demoSearchJobEnv : JobEnv :=
  withSourceSearch demoJobEnv [] demoGuidSources demoScanFolderTable

/-! ## Finished jobs: the checks of `AssetProcessed_Impl` -/

/-- What `AssetProcessed_Impl` knows of the cache folder: the normalised path of its root and
the lower-casing of a path (`QString::toLower`). -/
structure CacheEnv where
  m_normalizedCacheRootPath : Str
  toLower : Str → Str

/-- Modelled from the spec: the store query `GetSourcesByProductName` (the store is not part
of the sources at hand): the sources that have a job with a product of that name. -/
def GetSourcesByProductName (sources : List SourceDatabaseEntry)
    (jobs : List JobDatabaseEntry) (products : List ProductDatabaseEntry) (productName : Str) :
    List SourceDatabaseEntry :=
  sources.filter (fun s =>
    jobs.any (fun j =>
      decide (j.m_sourcePK = s.m_sourceID)
        && products.any (fun p =>
          decide (p.m_jobPK = j.m_jobID) && decide (p.m_productName = productName))))

/-- Modelled from the spec: the store query `GetJobsBySourceID` without further filter: the
jobs of the source of that id. -/
def GetJobsBySourceID (jobs : List JobDatabaseEntry) (sourceID : Int) :
    List JobDatabaseEntry :=
  jobs.filter (fun j => j.m_sourcePK = sourceID)

/-- Modelled from the spec: the store query `GetProductsByJobID`: the products of the job of
that id. -/
def GetProductsByJobID (products : List ProductDatabaseEntry) (jobID : Int) :
    List ProductDatabaseEntry :=
  products.filter (fun p => p.m_jobPK = jobID)

/-- Modelled from the spec: the store query `GetProductsBySourceID`: the products of the jobs
of the source of that id. -/
def GetProductsBySourceID (jobs : List JobDatabaseEntry) (products : List ProductDatabaseEntry)
    (sourceID : Int) : List ProductDatabaseEntry :=
  products.filter (fun p =>
    jobs.any (fun j => decide (j.m_sourcePK = sourceID) && decide (p.m_jobPK = j.m_jobID)))

/-- Modelled from the spec: the store call `SetJob`: a job with an id replaces the row of that
id, a job without one is added under a fresh id. -/
def SetJob (jobs : List JobDatabaseEntry) (job : JobDatabaseEntry) : List JobDatabaseEntry :=
  if job.m_jobID = -1 then
    jobs ++ [{ job with m_jobID := (jobs.foldl (fun m j => max m j.m_jobID) 0) + 1 }]
  else jobs.map (fun j => if j.m_jobID = job.m_jobID then job else j)

/-- The path of a reported product below the cache root
(`product.m_productFileName.substr(m_normalizedCacheRootPath.length() + 1)`), which
`m_cacheRootDir.filePath` turns into the path of the product file. -/
def productFilePath (cenv : CacheEnv) (product : JobProduct) : Str :=
  product.m_productFileName.drop (cenv.m_normalizedCacheRootPath.length + 1)

/-- The auto-fail job that `AssetProcessed_Impl` emits for a finished job that it rejects. -/
def rejectedJobDetails (entry : JobEntry) (reason : Str) : JobDetails :=
  { m_jobEntry :=
      { m_watchFolderPath := entry.m_watchFolderPath
        m_pathRelativeToWatchFolder := entry.m_pathRelativeToWatchFolder
        m_databaseSourceName := entry.m_databaseSourceName
        m_builderGuid := entry.m_builderGuid
        m_platformIdentifier := entry.m_platformIdentifier
        m_jobKey := entry.m_jobKey
        m_computedFingerprint := 0
        m_sourceFileUUID := entry.m_sourceFileUUID }
    m_autoFail := true
    m_critical := true
    m_priority := INT_MAX
    m_jobParam := [("AutoFailReasonKey".toList, reason)] }

/-- The loop of `AssetProcessed_Impl` that deletes the product files of the rejected job: a
file that is there and that `QFile::remove` removes is gone afterwards. -/
def deleteNewProductFiles (jenv : JobEnv) (cenv : CacheEnv) :
    List JobProduct → List Str → List Str
  | [], removedFiles => removedFiles
  | product :: rest, removedFiles =>
    let path := productFilePath cenv product
    if !(jenv.productExists path && decide (path ∉ removedFiles)) then
      deleteNewProductFiles jenv cenv rest removedFiles
    else if !jenv.removeFile path then deleteNewProductFiles jenv cenv rest removedFiles
    else deleteNewProductFiles jenv cenv rest (removedFiles ++ [path])

/-- The state of the checks of `AssetProcessed_Impl` on one finished job: the manager, the
effects so far, the sub ids seen and the flag `remove`. -/
structure AssetProcessedLoop where
  st : ManagerState
  effects : PipelineEffects := {}
  existingSubIDs : List Nat := []
  remove : Bool := false
deriving DecidableEq, Repr

/-- The body of the loop of `AssetProcessed_Impl` over the sources that the store records for
the product name of a finished job: a source of another name is a conflict. Its products are
deleted, its jobs get `FAILED_FINGERPRINT`, the product files of the finished job are deleted,
the source is passed to `AssessFileInternal` under the scan folder path joined with its name
in the store, the tracker of the finished job is told of the failure and an auto-fail job is
emitted. -/
def duplicateProductConflict (env : FileEnv) (qenv : QueueEnv) (jenv : JobEnv)
    (cenv : CacheEnv) (processedAsset : AssetProcessedEntry) (newProductName : Str)
    (acc : AssetProcessedLoop) (source : SourceDatabaseEntry) : AssetProcessedLoop :=
  if !jenv.equalsCaseInsensitive source.m_sourceName
      processedAsset.m_entry.m_databaseSourceName then
    let products := GetProductsBySourceID acc.st.jobTable acc.st.productTable source.m_sourceID
    let deleted := DeleteProducts jenv acc.st.productTable acc.st.removedProductFiles products
    let jobs := GetJobsBySourceID acc.st.jobTable source.m_sourceID
    let jobTable := jobs.foldl
      (fun table job => SetJob table { job with m_fingerprint := FAILED_FINGERPRINT })
      acc.st.jobTable
    let removedFiles :=
      deleteNewProductFiles jenv cenv processedAsset.m_outputProducts deleted.removedFiles
    let found := GetScanFolderByScanFolderID acc.st.scanFolderTable source.m_scanFolderPK
    let fullSourcePath : Str :=
      match found with
      | some scanfolder => scanfolder.m_scanFolder ++ '/' :: source.m_sourceName
      | none => source.m_sourceName
    let queue :=
      match found with
      | some _ => AssessFileInternal env qenv acc.st.queue fullSourcePath false false
      | none => acc.st.queue
    let duplicateProduct :=
      jenv.absoluteFilePath cenv.m_normalizedCacheRootPath newProductName
    let jobdetail := rejectedJobDetails processedAsset.m_entry
      ("A different source file\n".toList ++ fullSourcePath
        ++ "\nis already outputting the product\n".toList ++ duplicateProduct
        ++ ("\nPlease check other files in the same folder as source file and make sure no "
          ++ "two sources output the product file.\nFor example, you can't have a DDS file "
          ++ "and a TIF file in the same folder, as they would cause overwriting.\n").toList)
    let updated := UpdateAnalysisTrackerForFile acc.st.jobs.m_remainingJobsForEachSourceFile
      (jenv.absoluteFilePath processedAsset.m_entry.m_watchFolderPath
        processedAsset.m_entry.m_pathRelativeToWatchFolder)
      AnalysisTrackerUpdateType.JobFailed
    { acc with
      remove := true
      st :=
        { acc.st with
          productTable := deleted.productTable
          jobTable := jobTable
          removedProductFiles := removedFiles
          queue := queue
          jobs := { acc.st.jobs with m_remainingJobsForEachSourceFile := updated.1 } }
      effects :=
        { acc.effects with
          queued := acc.effects.queued ++ updated.2
          emitted := acc.effects.emitted ++ [jobdetail] } }
  else acc

/-- The loop of `AssetProcessed_Impl` over the products that a finished job reports: a sub id
seen before fails the job and ends the loop; a product file that is not there marks the job
for removal; otherwise every source that the store records for the product name is looked
at. -/
def checkOutputProducts (env : FileEnv) (qenv : QueueEnv) (jenv : JobEnv)
    (cenv : CacheEnv) (processedAsset : AssetProcessedEntry) :
    List JobProduct → AssetProcessedLoop → AssetProcessedLoop
  | [], acc => acc
  | product :: rest, acc =>
    if product.m_productSubID ∈ acc.existingSubIDs then
      let jobdetail := rejectedJobDetails processedAsset.m_entry
        (("More than one product was emitted for this source file with the same SubID.\n"
            ++ "Source file:\n").toList
          ++ jenv.absoluteFilePath processedAsset.m_entry.m_watchFolderPath
            processedAsset.m_entry.m_pathRelativeToWatchFolder
          ++ "\nProduct SubID ".toList ++ formatInt product.m_productSubID
          ++ " from product:\n".toList ++ product.m_productFileName
          ++ ("\nPlease check the builder code, specifically where it decides what subIds to "
            ++ "assign to its output products and make sure it assigns a unique one to "
            ++ "each.").toList)
      let updated := UpdateAnalysisTrackerForFile acc.st.jobs.m_remainingJobsForEachSourceFile
        (jenv.absoluteFilePath processedAsset.m_entry.m_watchFolderPath
          processedAsset.m_entry.m_pathRelativeToWatchFolder)
        AnalysisTrackerUpdateType.JobFailed
      { acc with
        remove := true
        st :=
          { acc.st with
            jobs := { acc.st.jobs with m_remainingJobsForEachSourceFile := updated.1 } }
        effects :=
          { acc.effects with
            queued := acc.effects.queued ++ updated.2
            emitted := acc.effects.emitted ++ [jobdetail] } }
    else
      let acc := { acc with existingSubIDs := acc.existingSubIDs ++ [product.m_productSubID] }
      let path := productFilePath cenv product
      if !(jenv.productExists path && decide (path ∉ acc.st.removedProductFiles)) then
        checkOutputProducts env qenv jenv cenv processedAsset rest
          { acc with remove := true }
      else
        let newProductName := cenv.toLower (qenv.NormalizeFilePath path)
        let sources := GetSourcesByProductName acc.st.sourceTable acc.st.jobTable
          acc.st.productTable newProductName
        checkOutputProducts env qenv jenv cenv processedAsset rest
          (sources.foldl
            (duplicateProductConflict env qenv jenv cenv processedAsset newProductName) acc)

/-- The first loop of `AssetProcessed_Impl`, over `m_assetProcessedList`: each finished job
is checked and, when the check says so, erased from the list; the jobs kept come back in
order. -/
def checkProcessedAssets (env : FileEnv) (qenv : QueueEnv) (jenv : JobEnv)
    (cenv : CacheEnv) :
    List AssetProcessedEntry → ManagerState × PipelineEffects × List AssetProcessedEntry →
      ManagerState × PipelineEffects × List AssetProcessedEntry
  | [], acc => acc
  | processedAsset :: rest, (st, effects, kept) =>
    let checked := checkOutputProducts env qenv jenv cenv processedAsset
      processedAsset.m_outputProducts { st := st, effects := effects }
    checkProcessedAssets env qenv jenv cenv rest
      (checked.st, checked.effects,
        if checked.remove then kept else kept ++ [processedAsset])

/-- The function `AssetProcessorManager::AssetProcessed_Impl` up to the end of its first
loop: the flag `m_processedQueued` is cleared, nothing more happens when quit is requested or
the list is empty, and otherwise the finished jobs are checked and the rejected ones leave
`m_assetProcessedList`. The second loop of the function, which is left out, writes the source,
job and product records of the jobs that are still in the list, and of no other. -/
def AssetProcessed_Impl (env : FileEnv) (qenv : QueueEnv) (jenv : JobEnv)
    (cenv : CacheEnv) (st : ManagerState) : ManagerState × PipelineEffects :=
  let st := { st with queue := { st.queue with m_processedQueued := false } }
  if st.queue.m_quitRequested || st.queue.m_assetProcessedList.isEmpty then (st, {})
  else
    let checked := checkProcessedAssets env qenv jenv cenv st.queue.m_assetProcessedList
      (st, {}, [])
    ({ checked.1 with queue := { checked.1.queue with m_assetProcessedList := checked.2.2 } },
      checked.2.1)

/-- The path under which `CheckDeletedProductFile` passes the source of a deleted product
to `AssessFileInternal`: the output prefix of the scan folder, when there is one, is taken
off the name in the store before the scan folder path is put in front. -/
def fullSourcePathOfDeletedProduct (scanfolder : ScanFolderDatabaseEntry)
    (source : SourceDatabaseEntry) : Str :=
  let sourceName :=
    if !scanfolder.m_outputPrefix.isEmpty then
      source.m_sourceName.drop (scanfolder.m_outputPrefix.length + 1)
    else source.m_sourceName
  scanfolder.m_scanFolder ++ '/' :: sourceName

/-- The cache folder of the demo runs: root `/cache`, paths already in lower case. -/
def demoCacheEnv : CacheEnv :=
  { m_normalizedCacheRootPath := "/cache".toList, toLower := fun path => path }

/-- A manager whose store records the source `clouds/x.tif` of the scan folder
`/dev/gems/clouds/assets` (output prefix `clouds`) with one job and its product
`pc/game/clouds/x.dds`, and whose list of finished jobs holds a job of the source
`clouds/x.dds` of the same scan folder reporting the product file of the same name. -/
def demoConflictState : ManagerState :=
  { scanFolderTable :=
      [{ m_scanFolderID := 1, m_scanFolder := "/dev/game".toList },
       { m_scanFolderID := 2, m_scanFolder := "/dev/gems/clouds/assets".toList,
         m_outputPrefix := "clouds".toList }]
    sourceTable :=
      [{ m_sourceID := 5, m_scanFolderPK := 2, m_sourceName := "clouds/x.tif".toList }]
    jobTable :=
      [{ m_sourceName := "clouds/x.tif".toList, m_builderGuid := 1, m_jobKey := "tex".toList,
         m_platform := "pc".toList, m_fingerprint := 99, m_jobID := 8, m_sourcePK := 5 }]
    productTable :=
      [{ m_sourceName := "clouds/x.tif".toList, m_builderGuid := 1, m_jobKey := "tex".toList,
         m_platform := "pc".toList, m_productName := "pc/game/clouds/x.dds".toList,
         m_productID := 3, m_jobPK := 8 }]
    queue :=
      { m_assetProcessedList :=
          [{ m_entry :=
               { m_watchFolderPath := "/dev/gems/clouds/assets".toList
                 m_pathRelativeToWatchFolder := "x.dds".toList
                 m_databaseSourceName := "clouds/x.dds".toList
                 m_builderGuid := 2
                 m_platformIdentifier := "pc".toList
                 m_jobKey := "copy".toList
                 m_computedFingerprint := 7 }
             m_outputProducts :=
               [{ m_productFileName := "/cache/pc/game/clouds/x.dds".toList }] }] } }

/-! ## Deleted sources: `CheckDeletedSourceFile` -/

/-- Modelled from the spec: the store query `GetSourcesLikeSourceName` with `EndsWith` (the
store is not part of the sources at hand): the sources whose name ends with the text. -/
def GetSourcesLikeSourceName (env : FileEnv) (sources : List SourceDatabaseEntry)
    (ending : Str) : List SourceDatabaseEntry :=
  sources.filter (fun s => env.endsWithCaseInsensitive s.m_sourceName ending)

/-- Modelled from the spec: the store query `GetSourcesBySourceName`: the sources of that
name. -/
def GetSourcesBySourceName (sources : List SourceDatabaseEntry) (sourceName : Str) :
    List SourceDatabaseEntry :=
  sources.filter (fun s => s.m_sourceName = sourceName)

/-- Modelled from the spec: the store call `RemoveSource(sourceID)`, which takes the source
record of that id out of the store; what the store does to the jobs and products of the
source is not modelled. -/
def RemoveSource (sources : List SourceDatabaseEntry) (sourceID : Int) :
    List SourceDatabaseEntry :=
  sources.filter (fun s => s.m_sourceID ≠ sourceID)

/-- The function `AssetProcessorManager::CheckMetaDataRealFiles`: when the file is a real
file that acts as metadata of a file type, the sources of that type that are on disk are
queued. -/
def CheckMetaDataRealFiles (env : FileEnv) (qenv : QueueEnv) (jenv : JobEnv)
    (sourceTable : List SourceDatabaseEntry) (queue : QueueState) (relativeSourceFile : Str) :
    QueueState :=
  if !env.IsMetaDataTypeRealFile relativeSourceFile then queue
  else
    let extensions := (env.metaDataFileTypes.filter (fun metaExt =>
      !metaExt.2.isEmpty && jenv.equalsCaseInsensitive metaExt.1 relativeSourceFile)).map
        (fun metaExt => metaExt.2)
    let sources := (extensions.map (GetSourcesLikeSourceName env sourceTable)).flatten
    sources.foldl
      (fun q source =>
        let fullMatchingSourceFile := env.FindFirstMatchingFile source.m_sourceName
        if !fullMatchingSourceFile.isEmpty then
          AssessFileInternal env qenv q fullMatchingSourceFile false false
        else q)
      queue

/-- The first loop of `CheckDeletedSourceFile`, over the edges that arrive at the deleted
source: the origin of the edge, when it is on disk, is queued, and the edge is stored again
with the placeholder of the deleted source as its target (`RemoveSourceFileDependency`, then
`SetSourceFileDependency`, modelled as the removal of the edge and its addition under a new
id). -/
def markDependencyMissing (env : FileEnv) (qenv : QueueEnv) (relativePath : Str)
    (st : ManagerState) (existingEntry : SourceFileDependencyEntry) : ManagerState :=
  let absolutePath := env.FindFirstMatchingFile existingEntry.m_source
  let queue :=
    if !absolutePath.isEmpty then AssessFileInternal env qenv st.queue absolutePath false false
    else st.queue
  let existingEntry :=
    { existingEntry with m_dependsOnSource := env.m_placeHolderFileName ++ relativePath }
  { st with
    queue := queue
    edges := SetSourceFileDependencies
      (RemoveSourceFileDependencies st.edges [existingEntry.m_sourceDependencyID])
      [existingEntry] }

/-- What `CheckDeletedSourceFile` leaves: the manager and the signals `JobRemoved` (platform
and job key) and `SourceDeleted`, in order. -/
structure CheckDeletedSourceFileOutcome where
  st : ManagerState
  jobsRemoved : List (Str × Str) := []
  sourceDeleted : List Str := []
deriving DecidableEq, Repr

/-- The body of the loop of `CheckDeletedSourceFile` over the jobs of a source: the products
of the job are deleted, and when `DeleteProducts` answers false the deletion of the source is
put back into the queue with `CheckSource`; a job without products gets
`FAILED_FINGERPRINT`. -/
def deleteProductsOfJob (env : FileEnv) (qenv : QueueEnv) (jenv : JobEnv)
    (normalizedPath : Str) (acc : CheckDeletedSourceFileOutcome) (job : JobDatabaseEntry) :
    CheckDeletedSourceFileOutcome :=
  let products := GetProductsByJobID acc.st.productTable job.m_jobID
  let st : ManagerState :=
    if !products.isEmpty then
      let deleted := DeleteProducts jenv acc.st.productTable acc.st.removedProductFiles products
      let st : ManagerState :=
        { acc.st with
          productTable := deleted.productTable
          removedProductFiles := deleted.removedFiles }
      if !deleted.successfullyRemoved then
        { st with
          queue := CheckSource env qenv st.edges st.queue
            { m_fileName := normalizedPath, m_isDelete := true } }
      else st
    else
      { acc.st with
        jobTable := SetJob acc.st.jobTable { job with m_fingerprint := FAILED_FINGERPRINT } }
  { acc with st := st, jobsRemoved := acc.jobsRemoved ++ [(job.m_platform, job.m_jobKey)] }

/-- The body of the loop of `CheckDeletedSourceFile` over the sources of the name: the
products of every job of the source are deleted, then the source record is removed. -/
def deleteSource (env : FileEnv) (qenv : QueueEnv) (jenv : JobEnv) (normalizedPath : Str)
    (acc : CheckDeletedSourceFileOutcome) (source : SourceDatabaseEntry) :
    CheckDeletedSourceFileOutcome :=
  let jobs := GetJobsBySourceID acc.st.jobTable source.m_sourceID
  let done := jobs.foldl (deleteProductsOfJob env qenv jenv normalizedPath) acc
  { done with
    st := { done.st with sourceTable := RemoveSource done.st.sourceTable source.m_sourceID } }

/-- The function `AssetProcessorManager::CheckDeletedSourceFile`. -/
def CheckDeletedSourceFile (env : FileEnv) (qenv : QueueEnv) (jenv : JobEnv)
    (st : ManagerState) (normalizedPath relativePath databaseSourceFile : Str) :
    CheckDeletedSourceFileOutcome :=
  let st : ManagerState :=
    { st with
      queue :=
        CheckMetaDataRealFiles env qenv jenv st.sourceTable st.queue normalizedPath }
  let results := QuerySourceDependencyByDependsOnSource st.edges databaseSourceFile
    TypeOfDependency.DEP_Any
  let st := results.foldl (markDependencyMissing env qenv relativePath) st
  let results := QueryDependsOnSourceBySourceDependency st.edges databaseSourceFile
    TypeOfDependency.DEP_Any
  let st : ManagerState :=
    { st with
      edges := RemoveSourceFileDependencies st.edges
        (results.map (fun e => e.m_sourceDependencyID)) }
  let sources := GetSourcesBySourceName st.sourceTable databaseSourceFile
  let done := sources.foldl (deleteSource env qenv jenv normalizedPath) { st := st }
  { done with sourceDeleted := done.sourceDeleted ++ [databaseSourceFile] }

/-- A job environment in which the product files are there and cannot be removed. -/
def demoLockedJobEnv : JobEnv := { demoCacheJobEnv with removeFile := fun _ => false }

/-- A manager whose store records the source `gone.txt` with one job and its product
`pc/game/gone.out`. -/
def demoDeletedSourceState : ManagerState :=
  { scanFolderTable := [{ m_scanFolderID := 1, m_scanFolder := "/dev/game".toList }]
    sourceTable :=
      [{ m_sourceID := 1, m_scanFolderPK := 1, m_sourceName := "gone.txt".toList }]
    jobTable :=
      [{ m_sourceName := "gone.txt".toList, m_builderGuid := 1, m_jobKey := "compile".toList,
         m_platform := "pc".toList, m_fingerprint := 4242, m_jobID := 7, m_sourcePK := 1 }]
    productTable :=
      [{ m_sourceName := "gone.txt".toList, m_builderGuid := 1, m_jobKey := "compile".toList,
         m_platform := "pc".toList, m_productName := "pc/game/gone.out".toList,
         m_productID := 3, m_jobPK := 7 }] }

/-- A job environment in which `CreateJobs` of the copy builder fails; the text builder
creates its job `compile` as before. -/
def demoFailingJobEnv : JobEnv :=
  { demoJobEnv with
    createJobs := fun builderInfo =>
      if builderInfo.m_busId = demoCopyBuilder.m_busId then
        { m_result := CreateJobsResultCode.Failed }
      else demoJobEnv.createJobs builderInfo }

/-- The function `AssetProcessorManager::QuitRequested`: the flag is set and the examine
queue is cleared; the signal `ReadyToQuit` is left out. -/
def QuitRequested (st : ManagerState) : ManagerState :=
  { st with queue := { st.queue with m_quitRequested := true, m_filesToExamine := [] } }

/-- A manager with one job waiting in `m_jobsToProcess`, the job `compile` of `a.txt`, and
one notification waiting in the active-file list. -/
def demoWaitingState : ManagerState :=
  { jobs := { m_jobsToProcess := [demoJob] }
    queue :=
      { m_numOfJobsToAnalyze := 1
        m_activeFiles := [{ m_fileName := "/dev/game/b.txt".toList }]
        m_alreadyActiveFiles := ["/dev/game/b.txt".toList] } }

/-! ## Notifications that add no key to the examine queue -/

/-- A job of `a.txt` with one job dependency, on the job `compile` of the file named by the
absolute path `/elsewhere/x.txt`, which lies in no scan folder. -/
def demoUnresolvedJob : JobDetails := demoDependentJob "a.txt".toList "/elsewhere/x.txt".toList

/-- The counter `m_numOfJobsToAnalyze` is the number of jobs that wait in the manager, in the
pending batches and in `m_jobsToProcess`. -/
def CounterExact (st : ManagerState) : Prop :=
  (pendingJobs st : Int) = st.queue.m_numOfJobsToAnalyze

/-- Whether a step is a call of `ProcessBuilders` in which a builder of the list answers
`ShuttingDown`. -/
def answersShuttingDown (jenv : JobEnv) : PipelineOp → Bool
  | PipelineOp.processBuilders _ _ _ builderInfoList =>
    builderInfoList.any
      (fun b => decide ((jenv.createJobs b).m_result = CreateJobsResultCode.ShuttingDown))
  | _ => false

/-- A job environment in which the copy builder answers `ShuttingDown`; the text builder
creates its job `compile` as before. -/
def demoShuttingDownJobEnv : JobEnv :=
  { demoJobEnv with
    createJobs := fun builderInfo =>
      if builderInfo.m_busId = demoCopyBuilder.m_busId then
        { m_result := CreateJobsResultCode.ShuttingDown }
      else demoJobEnv.createJobs builderInfo }

/-- A run in which `a.txt` goes to the builders twice before `CheckForIdle` runs: the first
time to the copy builder, whose `CreateJobs` fails, and the text builder, the second time to
the text builder alone; both batches hold the job `compile` of `a.txt`. -/
def demoTwicePipeline : List PipelineOp :=
  [PipelineOp.processBuilders "/dev/game/a.txt".toList "a.txt".toList demoScanFolder
     [demoCopyBuilder, demoTxtBuilderV1],
   PipelineOp.processBuilders "/dev/game/a.txt".toList "a.txt".toList demoScanFolder
     [demoTxtBuilderV1],
   PipelineOp.checkForIdle]

/-- A manager whose list of finished jobs holds the job `compile` of `a.txt`, reporting the
given products, while the tracker of `a.txt` counts one job spawned and not yet finished. -/
def demoFinishedJobState (products : List JobProduct) : ManagerState :=
  { jobs :=
      { m_remainingJobsForEachSourceFile :=
          [("/dev/game/a.txt".toList,
            { m_remainingJobsSpawned := 1, m_databaseSourceName := "a.txt".toList,
              m_databaseScanFolderId := 1 })] }
    queue :=
      { m_processedQueued := true
        m_assetProcessedList :=
          [{ m_entry := demoJob.m_jobEntry, m_outputProducts := products }] } }

/-- The two fingerprints computed for a builder print as texts that read back and hold no
colon, the separator of the text persisted for the builder. -/
def FingerprintsReadBack (ops : UuidOps) (b : AssetBuilderDesc) : Prop :=
  (TextReadsBack ops (newFingerprintPair ops b).1
      ∧ ':' ∉ ops.ToString (newFingerprintPair ops b).1)
    ∧ (TextReadsBack ops (newFingerprintPair ops b).2
      ∧ ':' ∉ ops.ToString (newFingerprintPair ops b).2)

instance (ops : UuidOps) (b : AssetBuilderDesc) : Decidable (FingerprintsReadBack ops b) := by
  unfold FingerprintsReadBack
  infer_instance

/-! # Theorems -/

/-! ## Lemmas on maps -/

theorem mapFind_mapSet {κ ν : Type} [DecidableEq κ] (m : List (κ × ν)) (k k' : κ) (v : ν) :
    mapFind (mapSet m k v) k' = if k = k' then some v else mapFind m k' := by
  induction m with
  | nil => simp [mapSet, mapFind]
  | cons hd tl ih =>
    obtain ⟨a, b⟩ := hd
    by_cases h : a = k
    · subst h
      by_cases h2 : a = k' <;> simp [mapSet, mapFind, h2]
    · by_cases h2 : a = k'
      · subst h2
        have : ¬ k = a := fun e => h e.symm
        simp [mapSet, mapFind, h, this]
      · simp [mapSet, mapFind, h, h2, ih]

theorem mapFind_eq_none_iff {κ ν : Type} [DecidableEq κ] (m : List (κ × ν)) (k : κ) :
    mapFind m k = none ↔ k ∉ mapKeys m := by
  induction m with
  | nil => simp [mapFind, mapKeys]
  | cons hd tl ih =>
    obtain ⟨a, b⟩ := hd
    by_cases h : a = k
    · simp [mapFind, mapKeys, h]
    · have h' : ¬ k = a := fun e => h e.symm
      simp only [mapFind, h, if_false, ih, mapKeys, List.map_cons, List.mem_cons, h', false_or]

theorem mem_of_mapFind {κ ν : Type} [DecidableEq κ] (m : List (κ × ν)) (k : κ) (v : ν)
    (h : mapFind m k = some v) : (k, v) ∈ m := by
  induction m with
  | nil => simp [mapFind] at h
  | cons hd tl ih =>
    obtain ⟨a, b⟩ := hd
    by_cases hk : a = k
    · simp [mapFind, hk] at h
      simp [hk, h]
    · simp [mapFind, hk] at h
      exact List.mem_cons_of_mem _ (ih h)

theorem mapFind_of_mem {κ ν : Type} [DecidableEq κ] (m : List (κ × ν)) (k : κ) (v : ν)
    (hn : (mapKeys m).Nodup) (h : (k, v) ∈ m) : mapFind m k = some v := by
  induction m with
  | nil => simp at h
  | cons hd tl ih =>
    obtain ⟨a, b⟩ := hd
    simp only [mapKeys, List.map_cons, List.nodup_cons] at hn
    rcases List.mem_cons.mp h with h1 | h1
    · cases h1
      simp [mapFind]
    · have hk : a ≠ k := by
        intro e
        subst e
        exact hn.1 (List.mem_map.mpr ⟨(a, v), h1, rfl⟩)
      simp only [mapFind, hk, if_false]
      exact ih hn.2 h1

theorem mapKeys_mapSet {κ ν : Type} [DecidableEq κ] (m : List (κ × ν)) (k : κ) (v : ν) :
    mapKeys (mapSet m k v) = if k ∈ mapKeys m then mapKeys m else mapKeys m ++ [k] := by
  induction m with
  | nil => simp [mapSet, mapKeys]
  | cons hd tl ih =>
    obtain ⟨a, b⟩ := hd
    by_cases h : a = k
    · subst h
      simp [mapSet, mapKeys]
    · have h' : ¬ k = a := fun e => h e.symm
      simp only [mapKeys] at ih
      simp only [mapSet, h, if_false, mapKeys, List.map_cons, List.mem_cons, h', false_or, ih]
      split <;> simp

theorem nodup_mapKeys_mapSet {κ ν : Type} [DecidableEq κ] (m : List (κ × ν)) (k : κ) (v : ν)
    (h : (mapKeys m).Nodup) : (mapKeys (mapSet m k v)).Nodup := by
  rw [mapKeys_mapSet]
  split
  · exact h
  · rename_i hk
    exact List.Nodup.append h (List.nodup_singleton k) (by simpa using hk)

theorem mem_mapKeys_mapSet {κ ν : Type} [DecidableEq κ] (m : List (κ × ν)) (k k' : κ) (v : ν) :
    k' ∈ mapKeys (mapSet m k v) ↔ k' = k ∨ k' ∈ mapKeys m := by
  rw [mapKeys_mapSet]
  split
  · rename_i hk
    constructor
    · exact Or.inr
    · rintro (h | h)
      · exact h ▸ hk
      · exact h
  · simp [or_comm]

/-- Maps built by a loop of assignments `m[key b] = val b`. -/
theorem foldl_mapSet_spec {α κ ν : Type} [DecidableEq κ] (key : α → κ) (val : α → ν)
    (l : List α) (m0 : List (κ × ν)) (h0 : (mapKeys m0).Nodup) :
    (mapKeys (l.foldl (fun m b => mapSet m (key b) (val b)) m0)).Nodup ∧
    ∀ k, (k ∈ mapKeys (l.foldl (fun m b => mapSet m (key b) (val b)) m0) ↔
      k ∈ mapKeys m0 ∨ k ∈ l.map key) := by
  induction l generalizing m0 with
  | nil => simp [h0]
  | cons b tl ih =>
    have := ih (mapSet m0 (key b) (val b)) (nodup_mapKeys_mapSet _ _ _ h0)
    refine ⟨this.1, fun k => ?_⟩
    rw [List.foldl_cons, this.2 k, mem_mapKeys_mapSet]
    simp only [List.map_cons, List.mem_cons]
    tauto

/-! ## `ComputeBuilderDirty`: the flags -/

theorem mapFind_isSome_iff {κ ν : Type} [DecidableEq κ] (m : List (κ × ν)) (k : κ) :
    (∃ v, mapFind m k = some v) ↔ k ∈ mapKeys m := by
  rw [← not_iff_not, ← mapFind_eq_none_iff]
  cases mapFind m k <;> simp

theorem mem_mapKeys_newBuilderFingerprints (ops : UuidOps) (cur : List AssetBuilderDesc)
    (u : Uuid) :
    u ∈ mapKeys (newBuilderFingerprints ops cur) ↔ ∃ b ∈ cur, b.m_busId = u := by
  have := (foldl_mapSet_spec (fun b : AssetBuilderDesc => b.m_busId)
    (newFingerprintPair ops) cur [] (by simp [mapKeys])).2 u
  simpa [mapKeys, newBuilderFingerprints] using this

theorem mem_mapKeys_priorBuilderFingerprints (ops : UuidOps) (prior : List BuilderInfoEntry)
    (u : Uuid) :
    u ∈ mapKeys (priorBuilderFingerprints ops prior) ↔ ∃ e ∈ prior, e.m_builderUuid = u := by
  have := (foldl_mapSet_spec (fun b : BuilderInfoEntry => b.m_builderUuid)
    (priorFingerprintPair ops) prior [] (by simp [mapKeys])).2 u
  simpa [mapKeys, priorBuilderFingerprints] using this

theorem nodup_mapKeys_newBuilderFingerprints (ops : UuidOps) (cur : List AssetBuilderDesc) :
    (mapKeys (newBuilderFingerprints ops cur)).Nodup :=
  (foldl_mapSet_spec (fun b : AssetBuilderDesc => b.m_busId)
    (newFingerprintPair ops) cur [] (by simp [mapKeys])).1

theorem nodup_mapKeys_priorBuilderFingerprints (ops : UuidOps)
    (prior : List BuilderInfoEntry) :
    (mapKeys (priorBuilderFingerprints ops prior)).Nodup :=
  (foldl_mapSet_spec (fun b : BuilderInfoEntry => b.m_builderUuid)
    (priorFingerprintPair ops) prior [] (by simp [mapKeys])).1

/-- The structural flag after the loop over the persisted builders. -/
theorem foldl_comparePrior_added (N : List (Uuid × (Uuid × Uuid)))
    (l : List (Uuid × (Uuid × Uuid))) (st : BuilderState) :
    (l.foldl (comparePrior N) st).m_buildersAddedOrRemoved = true ↔
      st.m_buildersAddedOrRemoved = true ∨
        ∃ e ∈ l, mapFind N e.1 = none ∨ ∃ f, mapFind N e.1 = some f ∧ e.2.2 ≠ f.2 := by
  induction l generalizing st with
  | nil => simp
  | cons e tl ih =>
    rw [List.foldl_cons, ih]
    have step : (comparePrior N st e).m_buildersAddedOrRemoved = true ↔
        st.m_buildersAddedOrRemoved = true ∨
          (mapFind N e.1 = none ∨ ∃ f, mapFind N e.1 = some f ∧ e.2.2 ≠ f.2) := by
      cases hN : mapFind N e.1 with
      | none => simp [comparePrior, hN]
      | some f =>
        simp only [comparePrior, hN, Option.some.injEq, exists_eq_left', false_or,
          reduceCtorEq]
        split <;> simp
    rw [step]
    simp only [List.mem_cons, exists_eq_or_imp]
    exact or_assoc

/-- The change flag after the loop over the persisted builders. -/
theorem foldl_comparePrior_any (N : List (Uuid × (Uuid × Uuid)))
    (l : List (Uuid × (Uuid × Uuid))) (st : BuilderState) :
    (l.foldl (comparePrior N) st).m_anyBuilderChange = true ↔
      st.m_anyBuilderChange = true ∨
        ∃ e ∈ l, mapFind N e.1 = none ∨
          ∃ f, mapFind N e.1 = some f ∧ (e.2.2 ≠ f.2 ∨ e.2.1 ≠ f.1) := by
  induction l generalizing st with
  | nil => simp
  | cons e tl ih =>
    rw [List.foldl_cons, ih]
    have step : (comparePrior N st e).m_anyBuilderChange = true ↔
        st.m_anyBuilderChange = true ∨
          (mapFind N e.1 = none ∨
            ∃ f, mapFind N e.1 = some f ∧ (e.2.2 ≠ f.2 ∨ e.2.1 ≠ f.1)) := by
      cases hN : mapFind N e.1 with
      | none => simp [comparePrior, hN]
      | some f =>
        simp only [comparePrior, hN, Option.some.injEq, exists_eq_left', false_or,
          reduceCtorEq]
        by_cases h1 : e.2.2 = f.2 <;> by_cases h2 : e.2.1 = f.1 <;> simp [h1, h2]
    rw [step]
    simp only [List.mem_cons, exists_eq_or_imp]
    exact or_assoc

/-- Both flags after the loop over the registered builders. -/
theorem foldl_compareNew_flags (P : List (Uuid × (Uuid × Uuid)))
    (l : List (Uuid × (Uuid × Uuid))) (st : BuilderState) :
    ((l.foldl (compareNew P) st).m_buildersAddedOrRemoved = true ↔
      st.m_buildersAddedOrRemoved = true ∨ ∃ e ∈ l, mapFind P e.1 = none) ∧
    ((l.foldl (compareNew P) st).m_anyBuilderChange = true ↔
      st.m_anyBuilderChange = true ∨ ∃ e ∈ l, mapFind P e.1 = none) := by
  induction l generalizing st with
  | nil => simp
  | cons e tl ih =>
    rw [List.foldl_cons]
    have step : ((compareNew P st e).m_buildersAddedOrRemoved = true ↔
        st.m_buildersAddedOrRemoved = true ∨ mapFind P e.1 = none) ∧
        ((compareNew P st e).m_anyBuilderChange = true ↔
        st.m_anyBuilderChange = true ∨ mapFind P e.1 = none) := by
      cases hP : mapFind P e.1 <;> simp [compareNew, hP]
    rw [(ih _).1, (ih _).2, step.1, step.2]
    simp only [List.mem_cons, exists_eq_or_imp]
    exact ⟨or_assoc, or_assoc⟩

theorem mem_mapKeys_of_mem {κ ν : Type} (m : List (κ × ν)) (e : κ × ν) (h : e ∈ m) :
    e.1 ∈ mapKeys m :=
  List.mem_map.mpr ⟨e, h, rfl⟩

theorem exists_mem_of_mem_mapKeys {κ ν : Type} (m : List (κ × ν)) (k : κ)
    (h : k ∈ mapKeys m) : ∃ v, (k, v) ∈ m := by
  obtain ⟨e, he, rfl⟩ := List.mem_map.mp h
  exact ⟨e.2, he⟩

/-- C4: after `ComputeBuilderDirty`, `m_buildersAddedOrRemoved` is set exactly when a persisted
builder identifier is not registered any more, or a registered builder identifier is not
persisted, or a builder that is both has a pattern fingerprint different from the persisted
one; `InvalidateSourceAnalysisFingerprints` is called on the store exactly when the flag is set,
and then before `SetBuilderInfoTable`. -/
theorem ComputeBuilderDirty_structural_flag (ops : UuidOps) (cur : List AssetBuilderDesc)
    (prior : List BuilderInfoEntry) :
    ((ComputeBuilderDirty ops cur prior).1.m_buildersAddedOrRemoved = true ↔
      (∃ e ∈ prior, ∀ b ∈ cur, b.m_busId ≠ e.m_builderUuid) ∨
      (∃ b ∈ cur, ∀ e ∈ prior, e.m_builderUuid ≠ b.m_busId) ∨
      (∃ u newPair priorPair,
        mapFind (newBuilderFingerprints ops cur) u = some newPair ∧
        mapFind (priorBuilderFingerprints ops prior) u = some priorPair ∧
        priorPair.2 ≠ newPair.2)) ∧
    ((ComputeBuilderDirty ops cur prior).1.m_buildersAddedOrRemoved = true →
      (ComputeBuilderDirty ops cur prior).2 =
        [StoreCall.InvalidateSourceAnalysisFingerprints,
          StoreCall.SetBuilderInfoTable (newBuilderTable ops cur)]) ∧
    ((ComputeBuilderDirty ops cur prior).1.m_buildersAddedOrRemoved = false →
      (ComputeBuilderDirty ops cur prior).2 =
        [StoreCall.SetBuilderInfoTable (newBuilderTable ops cur)]) := by
  refine ⟨?_, ?_, ?_⟩
  · simp only [ComputeBuilderDirty]
    rw [(foldl_compareNew_flags _ _ _).1, foldl_comparePrior_added]
    simp only [Bool.false_eq_true, false_or]
    constructor
    · rintro (⟨e, he, hN | ⟨f, hf, hne⟩⟩ | ⟨e, he, hP⟩)
      · left
        obtain ⟨e', he', hu⟩ :=
          (mem_mapKeys_priorBuilderFingerprints ops prior e.1).mp (mem_mapKeys_of_mem _ _ he)
        refine ⟨e', he', fun b hb hbe => ?_⟩
        have hk := (mapFind_eq_none_iff _ _).mp hN
        exact hk ((mem_mapKeys_newBuilderFingerprints ops cur e.1).mpr ⟨b, hb, hbe.trans hu⟩)
      · right; right
        exact ⟨e.1, f, e.2, hf,
          mapFind_of_mem _ _ _ (nodup_mapKeys_priorBuilderFingerprints ops prior) he, hne⟩
      · right; left
        obtain ⟨b, hb, hu⟩ :=
          (mem_mapKeys_newBuilderFingerprints ops cur e.1).mp (mem_mapKeys_of_mem _ _ he)
        refine ⟨b, hb, fun e' he' hbe => ?_⟩
        have hk := (mapFind_eq_none_iff _ _).mp hP
        exact hk ((mem_mapKeys_priorBuilderFingerprints ops prior e.1).mpr
          ⟨e', he', hbe.trans hu⟩)
    · rintro (⟨e', he', hall⟩ | ⟨b, hb, hall⟩ | ⟨u, newPair, priorPair, hN, hP, hne⟩)
      · left
        obtain ⟨v, hv⟩ := exists_mem_of_mem_mapKeys _ _
          ((mem_mapKeys_priorBuilderFingerprints ops prior e'.m_builderUuid).mpr ⟨e', he', rfl⟩)
        refine ⟨_, hv, Or.inl ((mapFind_eq_none_iff _ _).mpr fun hk => ?_)⟩
        obtain ⟨b, hb, hbe⟩ := (mem_mapKeys_newBuilderFingerprints ops cur _).mp hk
        exact hall b hb hbe
      · right
        obtain ⟨v, hv⟩ := exists_mem_of_mem_mapKeys _ _
          ((mem_mapKeys_newBuilderFingerprints ops cur b.m_busId).mpr ⟨b, hb, rfl⟩)
        refine ⟨_, hv, (mapFind_eq_none_iff _ _).mpr fun hk => ?_⟩
        obtain ⟨e', he', hbe⟩ := (mem_mapKeys_priorBuilderFingerprints ops prior _).mp hk
        exact hall e' he' hbe
      · left
        exact ⟨(u, priorPair), mem_of_mapFind _ _ _ hP, Or.inr ⟨newPair, hN, hne⟩⟩
  · intro h
    simp only [ComputeBuilderDirty] at h ⊢
    rw [h]
    rfl
  · intro h
    simp only [ComputeBuilderDirty] at h ⊢
    rw [h]
    rfl

/-! ## `ComputeBuilderDirty`: the dirty marks -/

theorem foldl_mapSet_values {α κ ν : Type} [DecidableEq κ] (key : α → κ) (val : α → ν)
    (Q : ν → Prop) (l : List α) (m0 : List (κ × ν))
    (h0 : ∀ k v, mapFind m0 k = some v → Q v) (hl : ∀ b ∈ l, Q (val b)) :
    ∀ k v, mapFind (l.foldl (fun m b => mapSet m (key b) (val b)) m0) k = some v → Q v := by
  induction l generalizing m0 with
  | nil => simpa using h0
  | cons b tl ih =>
    rw [List.foldl_cons]
    apply ih
    · intro k v hkv
      rw [mapFind_mapSet] at hkv
      split at hkv
      · cases hkv
        exact hl b (List.mem_cons_self _ _)
      · exact h0 k v hkv
    · intro b' hb'
      exact hl b' (List.mem_cons_of_mem _ hb')

theorem mapFind_markDirty (c : List (Uuid × BuilderData)) (k u : Uuid) :
    mapFind (markDirty c k) u =
      if k = u then some { builderDataOrDefault c k with m_isDirty := true }
      else mapFind c u := by
  simp [markDirty, mapFind_mapSet]

/-- The dirty mark of a cached builder after the loop over the persisted builders. -/
theorem foldl_comparePrior_dirty (N : List (Uuid × (Uuid × Uuid)))
    (l : List (Uuid × (Uuid × Uuid))) (st : BuilderState) (u : Uuid) (d : BuilderData)
    (hd : mapFind st.m_builderDataCache u = some d) :
    ∃ d', mapFind (l.foldl (comparePrior N) st).m_builderDataCache u = some d' ∧
      (d'.m_isDirty = true ↔ d.m_isDirty = true ∨
        ∃ e ∈ l, e.1 = u ∧ ∃ f, mapFind N e.1 = some f ∧ (e.2.2 ≠ f.2 ∨ e.2.1 ≠ f.1)) := by
  induction l generalizing st d with
  | nil => exact ⟨d, hd, by simp⟩
  | cons e tl ih =>
    rw [List.foldl_cons]
    have step : ∃ d1, mapFind (comparePrior N st e).m_builderDataCache u = some d1 ∧
        (d1.m_isDirty = true ↔ d.m_isDirty = true ∨
          (e.1 = u ∧ ∃ f, mapFind N e.1 = some f ∧ (e.2.2 ≠ f.2 ∨ e.2.1 ≠ f.1))) := by
      cases hN : mapFind N e.1 with
      | none => exact ⟨d, by simp [comparePrior, hN, hd], by simp⟩
      | some f =>
        by_cases hdirty : e.2.2 ≠ f.2 ∨ e.2.1 ≠ f.1
        · by_cases hu : e.1 = u
          · subst hu
            refine ⟨{ builderDataOrDefault st.m_builderDataCache e.1 with m_isDirty := true },
              ?_, ?_⟩
            · have hdirty' : ¬e.2.2 = f.2 ∨ ¬e.2.1 = f.1 := hdirty
              simp [comparePrior, hN, hdirty', mapFind_markDirty]
            · simp [hdirty]
          · refine ⟨d, ?_, ?_⟩
            · have hdirty' : ¬e.2.2 = f.2 ∨ ¬e.2.1 = f.1 := hdirty
              simp [comparePrior, hN, hdirty', mapFind_markDirty, hu, hd]
            · simp [hu]
        · refine ⟨d, ?_, ?_⟩
          · have hdirty' : ¬(¬e.2.2 = f.2 ∨ ¬e.2.1 = f.1) := hdirty
            simp [comparePrior, hN, hdirty', hd]
          · have : ¬(e.1 = u ∧ (e.2.2 ≠ f.2 ∨ e.2.1 ≠ f.1)) := fun h => hdirty h.2
            simp [this]
    obtain ⟨d1, hd1, hiff1⟩ := step
    obtain ⟨d', hd', hiff⟩ := ih (comparePrior N st e) d1 hd1
    refine ⟨d', hd', ?_⟩
    rw [hiff, hiff1]
    simp only [List.mem_cons, exists_eq_or_imp]
    exact or_assoc

/-- The dirty mark of a cached builder after the loop over the registered builders. -/
theorem foldl_compareNew_dirty (P : List (Uuid × (Uuid × Uuid)))
    (l : List (Uuid × (Uuid × Uuid))) (st : BuilderState) (u : Uuid) (d : BuilderData)
    (hd : mapFind st.m_builderDataCache u = some d) :
    ∃ d', mapFind (l.foldl (compareNew P) st).m_builderDataCache u = some d' ∧
      (d'.m_isDirty = true ↔ d.m_isDirty = true ∨
        ∃ e ∈ l, e.1 = u ∧ mapFind P e.1 = none) := by
  induction l generalizing st d with
  | nil => exact ⟨d, hd, by simp⟩
  | cons e tl ih =>
    rw [List.foldl_cons]
    have step : ∃ d1, mapFind (compareNew P st e).m_builderDataCache u = some d1 ∧
        (d1.m_isDirty = true ↔ d.m_isDirty = true ∨ (e.1 = u ∧ mapFind P e.1 = none)) := by
      cases hP : mapFind P e.1 with
      | some f => exact ⟨d, by simp [compareNew, hP, hd], by simp⟩
      | none =>
        by_cases hu : e.1 = u
        · subst hu
          exact ⟨{ builderDataOrDefault st.m_builderDataCache e.1 with m_isDirty := true },
            by simp [compareNew, hP, mapFind_markDirty], by simp⟩
        · exact ⟨d, by simp [compareNew, hP, mapFind_markDirty, hu, hd], by simp [hu]⟩
    obtain ⟨d1, hd1, hiff1⟩ := step
    obtain ⟨d', hd', hiff⟩ := ih (compareNew P st e) d1 hd1
    refine ⟨d', hd', ?_⟩
    rw [hiff, hiff1]
    simp only [List.mem_cons, exists_eq_or_imp]
    exact or_assoc

theorem mem_mapKeys_freshBuilderDataCache (ops : UuidOps) (cur : List AssetBuilderDesc)
    (u : Uuid) :
    u ∈ mapKeys (freshBuilderDataCache ops cur) ↔ ∃ b ∈ cur, b.m_busId = u := by
  have := (foldl_mapSet_spec (fun b : AssetBuilderDesc => b.m_busId)
    (fun b => ({ m_fingerprint := ops.CreateName (finalFingerprintString ops b),
                 m_flags := b.m_flags } : BuilderData)) cur [] (by simp [mapKeys])).2 u
  simpa [mapKeys, freshBuilderDataCache] using this

theorem freshBuilderDataCache_not_dirty (ops : UuidOps) (cur : List AssetBuilderDesc)
    (u : Uuid) (d : BuilderData) (h : mapFind (freshBuilderDataCache ops cur) u = some d) :
    d.m_isDirty = false :=
  foldl_mapSet_values (fun b : AssetBuilderDesc => b.m_busId)
    (fun b => ({ m_fingerprint := ops.CreateName (finalFingerprintString ops b),
                 m_flags := b.m_flags } : BuilderData))
    (fun d => d.m_isDirty = false) cur [] (by simp [mapFind]) (by simp) u d h

theorem mapKeys_markDirty (c : List (Uuid × BuilderData)) (k : Uuid) (hk : k ∈ mapKeys c) :
    mapKeys (markDirty c k) = mapKeys c := by
  simp [markDirty, mapKeys_mapSet, hk]

theorem foldl_comparePrior_keys (N : List (Uuid × (Uuid × Uuid)))
    (l : List (Uuid × (Uuid × Uuid))) (st : BuilderState)
    (hN : ∀ k, k ∈ mapKeys N → k ∈ mapKeys st.m_builderDataCache) :
    mapKeys (l.foldl (comparePrior N) st).m_builderDataCache
      = mapKeys st.m_builderDataCache := by
  induction l generalizing st with
  | nil => rfl
  | cons e tl ih =>
    rw [List.foldl_cons]
    have step : mapKeys (comparePrior N st e).m_builderDataCache
        = mapKeys st.m_builderDataCache := by
      cases hf : mapFind N e.1 with
      | none => simp [comparePrior, hf]
      | some f =>
        have hk : e.1 ∈ mapKeys st.m_builderDataCache :=
          hN _ ((mapFind_isSome_iff N e.1).mp ⟨f, hf⟩)
        simp only [comparePrior, hf]
        split
        · exact mapKeys_markDirty _ _ hk
        · rfl
    rw [ih _ (by rw [step]; exact hN), step]

theorem foldl_compareNew_keys (P : List (Uuid × (Uuid × Uuid)))
    (l : List (Uuid × (Uuid × Uuid))) (st : BuilderState)
    (hl : ∀ e ∈ l, e.1 ∈ mapKeys st.m_builderDataCache) :
    mapKeys (l.foldl (compareNew P) st).m_builderDataCache
      = mapKeys st.m_builderDataCache := by
  induction l generalizing st with
  | nil => rfl
  | cons e tl ih =>
    rw [List.foldl_cons]
    have step : mapKeys (compareNew P st e).m_builderDataCache
        = mapKeys st.m_builderDataCache := by
      cases hf : mapFind P e.1 with
      | some f => simp [compareNew, hf]
      | none =>
        simp only [compareNew, hf]
        exact mapKeys_markDirty _ _ (hl e (List.mem_cons_self _ _))
    rw [ih _ (by rw [step]; exact fun e' he' => hl e' (List.mem_cons_of_mem _ he')), step]

/-- The builders cached by `ComputeBuilderDirty` are the registered ones. -/
theorem mem_mapKeys_ComputeBuilderDirty_cache (ops : UuidOps) (cur : List AssetBuilderDesc)
    (prior : List BuilderInfoEntry) (u : Uuid) :
    u ∈ mapKeys (ComputeBuilderDirty ops cur prior).1.m_builderDataCache ↔
      ∃ b ∈ cur, b.m_busId = u := by
  have hkeys : ∀ k, k ∈ mapKeys (newBuilderFingerprints ops cur) →
      k ∈ mapKeys (freshBuilderDataCache ops cur) := by
    intro k hk
    rw [mem_mapKeys_freshBuilderDataCache]
    exact (mem_mapKeys_newBuilderFingerprints ops cur k).mp hk
  simp only [ComputeBuilderDirty]
  rw [foldl_compareNew_keys, foldl_comparePrior_keys _ _ _ hkeys,
    mem_mapKeys_freshBuilderDataCache]
  intro e he
  rw [foldl_comparePrior_keys _ _ _ hkeys]
  exact hkeys _ (mem_mapKeys_of_mem _ _ he)

/-- The dirty mark that `ComputeBuilderDirty` leaves on a cached builder: set exactly when the
builder is persisted with another pattern or analysis fingerprint, or is not persisted. -/
theorem ComputeBuilderDirty_dirty_iff (ops : UuidOps) (cur : List AssetBuilderDesc)
    (prior : List BuilderInfoEntry) (u : Uuid) (d : BuilderData)
    (hd : mapFind (ComputeBuilderDirty ops cur prior).1.m_builderDataCache u = some d) :
    d.m_isDirty = true ↔
      (∃ e ∈ priorBuilderFingerprints ops prior, e.1 = u ∧
        ∃ f, mapFind (newBuilderFingerprints ops cur) e.1 = some f ∧
          (e.2.2 ≠ f.2 ∨ e.2.1 ≠ f.1)) ∨
      (∃ e ∈ newBuilderFingerprints ops cur, e.1 = u ∧
        mapFind (priorBuilderFingerprints ops prior) e.1 = none) := by
  have hu : u ∈ mapKeys (freshBuilderDataCache ops cur) := by
    rw [mem_mapKeys_freshBuilderDataCache, ← mem_mapKeys_ComputeBuilderDirty_cache ops cur prior]
    exact (mapFind_isSome_iff _ _).mp ⟨d, hd⟩
  obtain ⟨d0, hd0⟩ := (mapFind_isSome_iff _ _).mpr hu
  obtain ⟨d1, hd1, hiff1⟩ := foldl_comparePrior_dirty (newBuilderFingerprints ops cur)
    (priorBuilderFingerprints ops prior)
    { m_builderDataCache := freshBuilderDataCache ops cur
      m_buildersAddedOrRemoved := false
      m_anyBuilderChange := false } u d0 hd0
  obtain ⟨d2, hd2, hiff2⟩ := foldl_compareNew_dirty (priorBuilderFingerprints ops prior)
    (newBuilderFingerprints ops cur) _ u d1 hd1
  simp only [ComputeBuilderDirty] at hd
  rw [hd] at hd2
  cases hd2
  rw [hiff2, hiff1, freshBuilderDataCache_not_dirty ops cur u d0 hd0]
  simp

theorem ComputeBuilderDirty_calls_of_not_added (ops : UuidOps) (cur : List AssetBuilderDesc)
    (prior : List BuilderInfoEntry)
    (h : (ComputeBuilderDirty ops cur prior).1.m_buildersAddedOrRemoved = false) :
    (ComputeBuilderDirty ops cur prior).2
      = [StoreCall.SetBuilderInfoTable (newBuilderTable ops cur)] := by
  simp only [ComputeBuilderDirty] at h ⊢
  rw [h]
  rfl

/-- C5: when the registered and the persisted builders have the same identifiers, every pattern
fingerprint is the persisted one and some analysis fingerprint differs, `ComputeBuilderDirty`
sets `m_anyBuilderChange`, leaves `m_buildersAddedOrRemoved` false, marks dirty in
`m_builderDataCache` exactly the builders whose analysis fingerprint differs (every registered
builder is cached), and only writes the builder table: no invalidation. -/
theorem ComputeBuilderDirty_analysis_only (ops : UuidOps) (cur : List AssetBuilderDesc)
    (prior : List BuilderInfoEntry)
    (h1 : ∀ e ∈ prior, ∃ b ∈ cur, b.m_busId = e.m_builderUuid)
    (h2 : ∀ b ∈ cur, ∃ e ∈ prior, e.m_builderUuid = b.m_busId)
    (hpat : ∀ e ∈ priorBuilderFingerprints ops prior, ∀ f ∈ newBuilderFingerprints ops cur,
      e.1 = f.1 → e.2.2 = f.2.2)
    (hana : ∃ e ∈ priorBuilderFingerprints ops prior, ∃ f ∈ newBuilderFingerprints ops cur,
      e.1 = f.1 ∧ e.2.1 ≠ f.2.1) :
    (ComputeBuilderDirty ops cur prior).1.m_anyBuilderChange = true ∧
    (ComputeBuilderDirty ops cur prior).1.m_buildersAddedOrRemoved = false ∧
    (∀ u d, mapFind (ComputeBuilderDirty ops cur prior).1.m_builderDataCache u = some d →
      (d.m_isDirty = true ↔
        ∃ e ∈ priorBuilderFingerprints ops prior, ∃ f ∈ newBuilderFingerprints ops cur,
          e.1 = u ∧ f.1 = u ∧ e.2.1 ≠ f.2.1)) ∧
    (∀ b ∈ cur, ∃ d,
      mapFind (ComputeBuilderDirty ops cur prior).1.m_builderDataCache b.m_busId = some d) ∧
    (ComputeBuilderDirty ops cur prior).2
      = [StoreCall.SetBuilderInfoTable (newBuilderTable ops cur)] := by
  have hNnd := nodup_mapKeys_newBuilderFingerprints ops cur
  have hPnd := nodup_mapKeys_priorBuilderFingerprints ops prior
  have hfoundN : ∀ e ∈ priorBuilderFingerprints ops prior,
      ∃ f, mapFind (newBuilderFingerprints ops cur) e.1 = some f := by
    intro e he
    obtain ⟨e', he', hu⟩ :=
      (mem_mapKeys_priorBuilderFingerprints ops prior e.1).mp (mem_mapKeys_of_mem _ _ he)
    obtain ⟨b, hb, hbe⟩ := h1 e' he'
    exact (mapFind_isSome_iff _ _).mpr
      ((mem_mapKeys_newBuilderFingerprints ops cur e.1).mpr ⟨b, hb, hbe.trans hu⟩)
  have hfoundP : ∀ f ∈ newBuilderFingerprints ops cur,
      ∃ e, mapFind (priorBuilderFingerprints ops prior) f.1 = some e := by
    intro f hf
    obtain ⟨b, hb, hu⟩ :=
      (mem_mapKeys_newBuilderFingerprints ops cur f.1).mp (mem_mapKeys_of_mem _ _ hf)
    obtain ⟨e', he', hbe⟩ := h2 b hb
    exact (mapFind_isSome_iff _ _).mpr
      ((mem_mapKeys_priorBuilderFingerprints ops prior f.1).mpr ⟨e', he', hbe.trans hu⟩)
  have hadded : (ComputeBuilderDirty ops cur prior).1.m_buildersAddedOrRemoved = false := by
    rw [← Bool.not_eq_true]
    intro h
    simp only [ComputeBuilderDirty] at h
    rw [(foldl_compareNew_flags _ _ _).1, foldl_comparePrior_added] at h
    simp only [Bool.false_eq_true, false_or] at h
    rcases h with ⟨e, he, hN | ⟨f, hf, hne⟩⟩ | ⟨f, hf, hP⟩
    · obtain ⟨f, hf⟩ := hfoundN e he
      rw [hf] at hN
      cases hN
    · exact hne (hpat e he (e.1, f) (mem_of_mapFind _ _ _ hf) rfl)
    · obtain ⟨e, he⟩ := hfoundP f hf
      rw [he] at hP
      cases hP
  refine ⟨?_, hadded, ?_, ?_, ?_⟩
  · obtain ⟨e, he, f, hf, hef, hne⟩ := hana
    simp only [ComputeBuilderDirty]
    rw [(foldl_compareNew_flags _ _ _).2, foldl_comparePrior_any]
    refine Or.inl (Or.inr ⟨e, he, Or.inr ⟨f.2, ?_, Or.inr hne⟩⟩)
    rw [hef]
    exact mapFind_of_mem _ _ _ hNnd hf
  · intro u d hd
    rw [ComputeBuilderDirty_dirty_iff ops cur prior u d hd]
    constructor
    · rintro (⟨e, he, hu, f, hf, hp | ha⟩ | ⟨f, hf, hu, hP⟩)
      · exact absurd (hpat e he (e.1, f) (mem_of_mapFind _ _ _ hf) rfl) hp
      · exact ⟨e, he, (e.1, f), mem_of_mapFind _ _ _ hf, hu, hu, ha⟩
      · obtain ⟨e, he⟩ := hfoundP f hf
        rw [he] at hP
        cases hP
    · rintro ⟨e, he, f, hf, hu, hfu, hne⟩
      refine Or.inl ⟨e, he, hu, f.2, ?_, Or.inr hne⟩
      rw [hu, ← hfu]
      exact mapFind_of_mem _ _ _ hNnd hf
  · intro b hb
    exact (mapFind_isSome_iff _ _).mpr
      ((mem_mapKeys_ComputeBuilderDirty_cache ops cur prior b.m_busId).mpr ⟨b, hb, rfl⟩)
  · exact ComputeBuilderDirty_calls_of_not_added ops cur prior hadded

/-- C5, on a run: the text builder went from version 1 to version 2 since the table was
written. -/
theorem ComputeBuilderDirty_analysis_only_witness :
    (∀ e ∈ newBuilderTable stdUuid [demoTxtBuilderV1, demoCopyBuilder],
      ∃ b ∈ [demoTxtBuilderV2, demoCopyBuilder], b.m_busId = e.m_builderUuid) ∧
    (∀ b ∈ [demoTxtBuilderV2, demoCopyBuilder],
      ∃ e ∈ newBuilderTable stdUuid [demoTxtBuilderV1, demoCopyBuilder],
        e.m_builderUuid = b.m_busId) ∧
    (ComputeBuilderDirty stdUuid [demoTxtBuilderV2, demoCopyBuilder]
      (newBuilderTable stdUuid [demoTxtBuilderV1, demoCopyBuilder])).1.m_anyBuilderChange
        = true ∧
    (ComputeBuilderDirty stdUuid [demoTxtBuilderV2, demoCopyBuilder]
      (newBuilderTable stdUuid [demoTxtBuilderV1, demoCopyBuilder])).1.m_buildersAddedOrRemoved
        = false :=
  have h := ComputeBuilderDirty_analysis_only stdUuid [demoTxtBuilderV2, demoCopyBuilder]
    (newBuilderTable stdUuid [demoTxtBuilderV1, demoCopyBuilder])
    (by decide) (by decide) (by decide) (by decide)
  ⟨by decide, by decide, h.1, h.2.1⟩

/-! ## The analysis tracker -/

theorem mapSet_self {κ ν : Type} [DecidableEq κ] (m : List (κ × ν)) (k : κ) (v : ν)
    (h : mapFind m k = some v) : mapSet m k v = m := by
  induction m with
  | nil => simp [mapFind] at h
  | cons hd tl ih =>
    obtain ⟨a, b⟩ := hd
    by_cases hk : a = k
    · simp [mapFind, hk] at h
      simp [mapSet, hk, h]
    · simp [mapFind, hk] at h
      simp [mapSet, hk, ih h]

/-- An update keeps "a failed tracker counts no job". -/
theorem updateTracker_failed_zero (t : AnalysisTracker) (u : AnalysisTrackerUpdateType)
    (h : t.failedStatus = true → t.m_remainingJobsSpawned = 0) :
    (updateTracker t u).1.failedStatus = true →
      (updateTracker t u).1.m_remainingJobsSpawned = 0 := by
  cases hf : t.failedStatus <;> cases u <;> simp [updateTracker, hf] <;> simpa [hf] using h

/-- C6: `UpdateAnalysisTrackerForFile` is the tracker state machine. On a tracker that has not
failed, `JobStarted` adds one to the count, `JobFinished` takes one off and queues
`FinishAnalysis` exactly when the count reaches zero, `JobFailed` sets the failure flag, zeroes
the count and queues `FinishAnalysis`; on a failed tracker every update changes nothing and
queues nothing; for a path without tracker nothing changes. Every tracker reached from a fresh
one by updates has count zero when it has failed. -/
theorem UpdateAnalysisTrackerForFile_state_machine :
    (∀ (trackers : List (Str × AnalysisTracker)) (path : Str) (t : AnalysisTracker),
      mapFind trackers path = some t → t.failedStatus = false →
        UpdateAnalysisTrackerForFile trackers path AnalysisTrackerUpdateType.JobStarted
          = (mapSet trackers path
              { t with m_remainingJobsSpawned := t.m_remainingJobsSpawned + 1 }, []) ∧
        UpdateAnalysisTrackerForFile trackers path AnalysisTrackerUpdateType.JobFinished
          = (mapSet trackers path
              { t with m_remainingJobsSpawned := t.m_remainingJobsSpawned - 1 },
             if t.m_remainingJobsSpawned - 1 = 0 then [QueuedCall.FinishAnalysis path]
             else []) ∧
        UpdateAnalysisTrackerForFile trackers path AnalysisTrackerUpdateType.JobFailed
          = (mapSet trackers path
              { t with failedStatus := true, m_remainingJobsSpawned := 0 },
             [QueuedCall.FinishAnalysis path])) ∧
    (∀ (trackers : List (Str × AnalysisTracker)) (path : Str) (t : AnalysisTracker)
      (u : AnalysisTrackerUpdateType),
      mapFind trackers path = some t → t.failedStatus = true →
        UpdateAnalysisTrackerForFile trackers path u = (trackers, [])) ∧
    (∀ (trackers : List (Str × AnalysisTracker)) (path : Str)
      (u : AnalysisTrackerUpdateType),
      mapFind trackers path = none →
        UpdateAnalysisTrackerForFile trackers path u = (trackers, [])) ∧
    (∀ (t0 : AnalysisTracker) (updates : List AnalysisTrackerUpdateType),
      t0.m_remainingJobsSpawned = 0 → t0.failedStatus = false →
        (updates.foldl (fun t u => (updateTracker t u).1) t0).failedStatus = true →
        (updates.foldl (fun t u => (updateTracker t u).1) t0).m_remainingJobsSpawned = 0) := by
  refine ⟨?_, ?_, ?_, ?_⟩
  · intro trackers path t ht hf
    refine ⟨?_, ?_, ?_⟩
    · simp [UpdateAnalysisTrackerForFile, ht, updateTracker, hf]
    · by_cases h0 : t.m_remainingJobsSpawned - 1 = 0 <;>
        simp [UpdateAnalysisTrackerForFile, ht, updateTracker, hf, h0]
    · simp [UpdateAnalysisTrackerForFile, ht, updateTracker, hf]
  · intro trackers path t u ht hf
    cases u <;> simp [UpdateAnalysisTrackerForFile, ht, updateTracker, hf, mapSet_self]
  · intro trackers path u ht
    simp [UpdateAnalysisTrackerForFile, ht]
  · intro t0 updates h0 hf0
    have key : ∀ (l : List AnalysisTrackerUpdateType) (t : AnalysisTracker),
        (t.failedStatus = true → t.m_remainingJobsSpawned = 0) →
        (l.foldl (fun t u => (updateTracker t u).1) t).failedStatus = true →
        (l.foldl (fun t u => (updateTracker t u).1) t).m_remainingJobsSpawned = 0 := by
      intro l
      induction l with
      | nil => intro t h; simpa using h
      | cons u tl ih =>
        intro t h
        rw [List.foldl_cons]
        exact ih _ (updateTracker_failed_zero t u h)
    exact key updates t0 (fun _ => h0)

/-- C6, on a run: a source with two jobs, one finishes, then one fails, then the other
finishes. -/
theorem UpdateAnalysisTrackerForFile_state_machine_witness :
    UpdateAnalysisTrackerForFile
        [("a.txt".toList, { m_remainingJobsSpawned := 2 })] "a.txt".toList
        AnalysisTrackerUpdateType.JobFailed
      = (mapSet [("a.txt".toList, { m_remainingJobsSpawned := 2 })] "a.txt".toList
          { failedStatus := true, m_remainingJobsSpawned := 0 },
         [QueuedCall.FinishAnalysis "a.txt".toList]) ∧
    UpdateAnalysisTrackerForFile
        [("a.txt".toList, { failedStatus := true })] "a.txt".toList
        AnalysisTrackerUpdateType.JobFinished
      = ([("a.txt".toList, { failedStatus := true })], []) :=
  ⟨(UpdateAnalysisTrackerForFile_state_machine.1
      [("a.txt".toList, { m_remainingJobsSpawned := 2 })] "a.txt".toList
      { m_remainingJobsSpawned := 2 } (by decide) (by decide)).2.2,
   UpdateAnalysisTrackerForFile_state_machine.2.1
      [("a.txt".toList, { failedStatus := true })] "a.txt".toList
      { failedStatus := true } AnalysisTrackerUpdateType.JobFinished (by decide) (by decide)⟩

/-! ## The recursive dependency query terminates -/

theorem length_foldl_setInsert {κ : Type} [DecidableEq κ] (found q : List κ) :
    (found.foldl setInsert q).length ≤ q.length + found.length := by
  induction found generalizing q with
  | nil => simp
  | cons x tl ih =>
    rw [List.foldl_cons]
    have h1 := ih (setInsert q x)
    have h2 : (setInsert q x).length ≤ q.length + 1 := by
      unfold setInsert
      split <;> simp
    simp only [List.length_cons]
    omega

theorem mem_foldl_setInsert {κ : Type} [DecidableEq κ] (found q : List κ) (x : κ)
    (h : x ∈ found.foldl setInsert q) : x ∈ q ∨ x ∈ found := by
  induction found generalizing q with
  | nil => exact Or.inl h
  | cons y tl ih =>
    rw [List.foldl_cons] at h
    rcases ih _ h with h1 | h1
    · unfold setInsert at h1
      split at h1
      · exact Or.inl h1
      · rcases List.mem_append.mp h1 with h2 | h2
        · exact Or.inl h2
        · exact Or.inr (by simp at h2; simp [h2])
    · exact Or.inr (List.mem_cons_of_mem _ h1)

theorem length_filter_lt_of_imp {κ : Type} (p p' : κ → Bool) (U : List κ) (x : κ)
    (himp : ∀ y, p' y = true → p y = true) (hx : x ∈ U) (hp : p x = true)
    (hp' : p' x = false) : (U.filter p').length < (U.filter p).length := by
  induction U with
  | nil => simp at hx
  | cons a tl ih =>
    have hle : (tl.filter p').length ≤ (tl.filter p).length :=
      List.Sublist.length_le (List.monotone_filter_right tl himp)
    by_cases hax : a = x
    · subst hax
      simp only [List.filter_cons, hp, hp', if_true, Bool.false_eq_true, if_false,
        List.length_cons]
      omega
    · have hx' : x ∈ tl := by
        rcases List.mem_cons.mp hx with h | h
        · exact absurd h.symm hax
        · exact h
      have := ih hx'
      cases hpa' : p' a with
      | true =>
        simp only [List.filter_cons, hpa', himp a hpa', if_true, List.length_cons]
        omega
      | false =>
        cases hpa : p a with
        | true =>
          simp only [List.filter_cons, hpa', hpa, if_true, Bool.false_eq_true, if_false,
            List.length_cons]
          omega
        | false =>
          simp only [List.filter_cons, hpa', hpa, Bool.false_eq_true, if_false]
          exact this

theorem unvisitedCount_setInsert_lt (U results : List Str) (x : Str)
    (hx : x ∈ U) (hr : x ∉ results) :
    unvisitedCount U (setInsert results x) < unvisitedCount U results := by
  unfold unvisitedCount
  apply length_filter_lt_of_imp _ _ U x _ hx
  · simpa using hr
  · simp [setInsert, hr]
  · intro y hy
    simp only [decide_eq_true_eq] at hy ⊢
    intro hmem
    apply hy
    unfold setInsert
    split
    · exact hmem
    · exact List.mem_append_left _ hmem

/-- The name that the loop looks up for a queued name: a placeholder loses its marker. -/
theorem queryLoop_total_aux (edges : List SourceFileDependencyEntry) (placeHolder : Str)
    (dependencyType : TypeOfDependency) (reverseQuery : Bool) (U : List Str)
    (hU : ∀ e ∈ edges, ∀ q, (q = e.m_source ∨ q = e.m_dependsOnSource) →
      (if startsWith q placeHolder ∧ !reverseQuery then q.drop placeHolder.length else q) ∈ U) :
    ∀ (fuel n k : Nat) (queryQueue results : List Str),
      (∀ q ∈ queryQueue,
        (if startsWith q placeHolder ∧ !reverseQuery then q.drop placeHolder.length else q)
          ∈ U) →
      queryQueue.length ≤ k →
      unvisitedCount U results ≤ n →
      k + n * (edges.length + 1) + 1 ≤ fuel →
      ∃ r, queryLoop edges placeHolder dependencyType reverseQuery fuel queryQueue results
        = some r := by
  intro fuel
  induction fuel with
  | zero => intro n k q r _ _ _ hf; omega
  | succ fuel ih =>
    intro n k queryQueue results hI hk hn hf
    cases queryQueue with
    | nil => exact ⟨results, rfl⟩
    | cons first rest =>
      simp only [List.length_cons] at hk
      have hfirst := hI first (List.mem_cons_self _ _)
      have hrest : ∀ q ∈ rest,
          (if startsWith q placeHolder ∧ !reverseQuery then q.drop placeHolder.length else q)
            ∈ U := fun q hq => hI q (List.mem_cons_of_mem _ hq)
      rw [queryLoop]
      by_cases hnot : (if startsWith first placeHolder ∧ !reverseQuery then
          first.drop placeHolder.length else first) ∈ results
      · rw [if_pos hnot]
        exact ih n (k - 1) rest results hrest (by omega) hn (by omega)
      · rw [if_neg hnot]
        have hlt := unvisitedCount_setInsert_lt U results _ hfirst hnot
        refine ih (n - 1) (k - 1 + edges.length) _ _ ?_ ?_ (by omega) ?_
        · intro q hq
          rcases mem_foldl_setInsert _ _ _ hq with h | h
          · exact hrest q h
          · split at h
            · obtain ⟨e, he, rfl⟩ := List.mem_map.mp h
              exact hU e (List.mem_of_mem_filter he) _ (Or.inl rfl)
            · obtain ⟨e, he, rfl⟩ := List.mem_map.mp h
              exact hU e (List.mem_of_mem_filter he) _ (Or.inr rfl)
        · refine le_trans (length_foldl_setInsert _ _) ?_
          have : ∀ (found : List Str), found.length ≤ edges.length →
              rest.length + found.length ≤ k - 1 + edges.length := by
            intro found hfound
            omega
          apply this
          split
          · rw [List.length_map]
            exact List.length_filter_le _ _
          · rw [List.length_map]
            exact List.length_filter_le _ _
        · have hn1 : 1 ≤ n := by omega
          have : (n - 1) * (edges.length + 1) + (edges.length + 1) = n * (edges.length + 1) := by
            rw [← Nat.succ_mul]
            congr 1
            omega
          omega

/-- The loop of `QueryAbsolutePathDependenciesRecursive` ends within `queryFuel`. -/
theorem queryLoop_total (edges : List SourceFileDependencyEntry) (placeHolder : Str)
    (dependencyType : TypeOfDependency) (reverseQuery : Bool) (input : Str) :
    ∃ r, queryLoop edges placeHolder dependencyType reverseQuery (queryFuel edges) [input] []
      = some r := by
  let norm : Str → Str := fun q =>
    if startsWith q placeHolder ∧ !reverseQuery then q.drop placeHolder.length else q
  let U : List Str :=
    (input :: (edges.map (fun e => e.m_source) ++ edges.map (fun e => e.m_dependsOnSource))).map
      norm
  have hU : ∀ e ∈ edges, ∀ q, (q = e.m_source ∨ q = e.m_dependsOnSource) → norm q ∈ U := by
    intro e he q hq
    apply List.mem_map_of_mem
    rcases hq with rfl | rfl
    · exact List.mem_cons_of_mem _ (List.mem_append_left _ (List.mem_map_of_mem _ he))
    · exact List.mem_cons_of_mem _ (List.mem_append_right _ (List.mem_map_of_mem _ he))
  refine queryLoop_total_aux edges placeHolder dependencyType reverseQuery U hU
    (queryFuel edges) (2 * edges.length + 1) 1 [input] [] ?_ (by simp) ?_ ?_
  · intro q hq
    simp only [List.mem_singleton] at hq
    subst hq
    exact List.mem_map_of_mem _ (List.mem_cons_self _ _)
  · refine le_trans (List.length_filter_le _ _) ?_
    simp only [U, List.length_map, List.length_cons, List.length_append]
    omega
  · simp only [queryFuel]
    omega

/-- The function `QueryAbsolutePathDependenciesRecursive` always returns. -/
theorem QueryAbsolutePathDependenciesRecursive_total (env : FileEnv)
    (edges : List SourceFileDependencyEntry) (input : Str) (init : List (Str × Str))
    (dependencyType : TypeOfDependency) (reverseQuery : Bool) :
    ∃ r, QueryAbsolutePathDependenciesRecursive env edges input init dependencyType
      reverseQuery = some r := by
  obtain ⟨r, hr⟩ := queryLoop_total edges env.m_placeHolderFileName dependencyType
    reverseQuery input
  exact ⟨addResolvedDependencies env r init, by
    rw [QueryAbsolutePathDependenciesRecursive, hr]
    rfl⟩

/-! ## `FinishAnalysis` -/

theorem mapFind_mapErase_self {κ ν : Type} [DecidableEq κ] (m : List (κ × ν)) (k : κ) :
    mapFind (mapErase m k) k = none := by
  induction m with
  | nil => rfl
  | cons hd tl ih =>
    obtain ⟨a, b⟩ := hd
    by_cases h : a = k <;> simp [mapErase, mapFind, h, ih]

/-- The function `FinishAnalysis` always returns. -/
theorem FinishAnalysis_total (ops : UuidOps) (env : FileEnv)
    (builderDataCache : List (Uuid × BuilderData)) (trackers : List (Str × AnalysisTracker))
    (sources : List SourceDatabaseEntry) (edges : List SourceFileDependencyEntry)
    (cache : MetaFileCache) (fileToCheck : Str) :
    ∃ out, FinishAnalysis ops env builderDataCache trackers sources edges cache fileToCheck
      = some out := by
  unfold FinishAnalysis
  cases mapFind trackers fileToCheck with
  | none => exact ⟨_, rfl⟩
  | some t =>
    simp only
    split
    · exact ⟨_, rfl⟩
    · split
      · exact ⟨_, rfl⟩
      · cases QuerySourceBySourceNameScanFolderID sources t.m_databaseSourceName
            t.m_databaseScanFolderId with
        | none => exact ⟨_, rfl⟩
        | some found =>
          obtain ⟨r, hr⟩ := QueryAbsolutePathDependenciesRecursive_total env edges
            t.m_databaseSourceName [] TypeOfDependency.DEP_Any false
          simp only [hr]
          exact ⟨_, rfl⟩

/-- C7, as the code has it: `FinishAnalysis` returns; it calls `SetSource` exactly when the
tracker of the file exists, has not failed and its count of remaining jobs is not positive
(zero or below), and when the source row is found the row written carries the new analysis
fingerprint; for a failed tracker it erases the tracker and writes nothing; for a tracker that
has not failed with a positive count, and for a file without tracker, it changes nothing; after
a write the file has no tracker. -/
theorem FinishAnalysis_store_write (ops : UuidOps) (env : FileEnv)
    (builderDataCache : List (Uuid × BuilderData)) (trackers : List (Str × AnalysisTracker))
    (sources : List SourceDatabaseEntry) (edges : List SourceFileDependencyEntry)
    (cache : MetaFileCache) (fileToCheck : Str) :
    ∃ out, FinishAnalysis ops env builderDataCache trackers sources edges cache fileToCheck
        = some out ∧
      (out.storeWrites ≠ [] ↔
        ∃ t, mapFind trackers fileToCheck = some t ∧ t.failedStatus = false ∧
          t.m_remainingJobsSpawned ≤ 0) ∧
      out.sources = out.storeWrites.foldl SetSource sources ∧
      (∀ t found, mapFind trackers fileToCheck = some t → t.failedStatus = false →
        t.m_remainingJobsSpawned ≤ 0 →
        QuerySourceBySourceNameScanFolderID sources t.m_databaseSourceName
          t.m_databaseScanFolderId = some found →
        ∃ queried, QueryAbsolutePathDependenciesRecursive env edges t.m_databaseSourceName []
            TypeOfDependency.DEP_Any false = some queried ∧
          out.storeWrites = [{ found with
            m_analysisFingerprint :=
              encodeAnalysisFingerprint ops
                (ops.CreateName (modTimeArray env
                  (AddMetadataFilesForFingerprinting env cache fileToCheck queried)))
                (t.m_buildersInvolved.map (fun builderID =>
                  (builderID, (builderDataOrDefault builderDataCache builderID).m_fingerprint))) }]) ∧
      (∀ t, mapFind trackers fileToCheck = some t → t.failedStatus = true →
        out.storeWrites = [] ∧ out.trackers = mapErase trackers fileToCheck) ∧
      (∀ t, mapFind trackers fileToCheck = some t → t.failedStatus = false →
        0 < t.m_remainingJobsSpawned → out.storeWrites = [] ∧ out.trackers = trackers) ∧
      (mapFind trackers fileToCheck = none → out.storeWrites = [] ∧ out.trackers = trackers) ∧
      (out.storeWrites ≠ [] → mapFind out.trackers fileToCheck = none) := by
  unfold FinishAnalysis
  cases ht : mapFind trackers fileToCheck with
  | none => exact ⟨_, rfl, by simp⟩
  | some t =>
    simp only
    by_cases hf : t.failedStatus = true
    · rw [if_pos hf]
      refine ⟨_, rfl, ?_⟩
      simp [hf]
      intro t1 found h1 h2
      subst h1
      rw [hf] at h2
      cases h2
    · rw [if_neg hf]
      have hf' : t.failedStatus = false := by simpa using hf
      by_cases hpos : t.m_remainingJobsSpawned > 0
      · rw [if_pos hpos]
        refine ⟨_, rfl, ?_⟩
        have : ¬ t.m_remainingJobsSpawned ≤ 0 := by omega
        simp [hf', this, hpos]
        intro t1 found h1 _ h3
        subst h1
        exact absurd h3 this
      · rw [if_neg hpos]
        have hle : t.m_remainingJobsSpawned ≤ 0 := by omega
        cases hq : QuerySourceBySourceNameScanFolderID sources t.m_databaseSourceName
            t.m_databaseScanFolderId with
        | none =>
          refine ⟨_, rfl, ?_⟩
          simp [hf', hle, hpos, mapFind_mapErase_self]
          intro t1 found h1 _ _ h4
          subst h1
          rw [hq] at h4
          cases h4
        | some found =>
          obtain ⟨r, hr⟩ := QueryAbsolutePathDependenciesRecursive_total env edges
            t.m_databaseSourceName [] TypeOfDependency.DEP_Any false
          simp only [hr]
          refine ⟨_, rfl, ?_⟩
          simp [hf', hle, hpos, mapFind_mapErase_self]
          intro t1 found1 h1 _ _ h4
          subst h1
          rw [hq] at h4
          cases h4
          exact ⟨r, hr, rfl, rfl, rfl, rfl, rfl⟩

set_option maxRecDepth 100000 in
/-- C7 fails as stated: a tracker that has not failed and whose count of remaining jobs is -1
(one `JobFinished` more than `JobStarted`) is no tracker with zero remaining jobs, yet
`FinishAnalysis` writes the analysis fingerprint of its source. -/
theorem FinishAnalysis_writes_below_zero :
    (demoTracker (-1)).failedStatus = false ∧
    (demoTracker (-1)).m_remainingJobsSpawned ≠ 0 ∧
    (updateTracker (demoTracker 0) AnalysisTrackerUpdateType.JobFinished).1 = demoTracker (-1) ∧
    (FinishAnalysis stdUuid demoEnv demoBuilderState.m_builderDataCache
        [("/dev/game/a.txt".toList, demoTracker (-1))] demoSources demoEdges {}
        "/dev/game/a.txt".toList).map (fun o => o.storeWrites)
      = some [{ m_sourceID := 1, m_scanFolderPK := 1, m_sourceName := "a.txt".toList,
                m_analysisFingerprint :=
                  ("{79796077-5F01-125B-8027-E5BE162C21B7}:{11111111-2222-3333-4444-555555555555}"
                    ++ "~{ED097908-94CF-23C3-00A7-973BFFB8B5A8}").toList }] := by
  decide

/-! ## `CanEarlyOutSourceFile`: the builder entries -/

/-- The loop over the builder entries ends before its fuel when it has more fuel than there
are characters. -/
theorem scanBuilderEntries_fuel (ops : UuidOps) (cache : List (Uuid × BuilderData)) :
    ∀ (fuel : Nat) (entries : Str) (n : Nat), entries.length < fuel →
      scanBuilderEntries ops cache fuel entries n ≠ EntriesResult.noFuel := by
  intro fuel
  induction fuel with
  | zero => intro entries n h; omega
  | succ fuel ih =>
    intro entries n h
    simp only [scanBuilderEntries]
    split
    · simp
    · split
      · simp
      · split
        · simp
        · split
          · simp
          · split
            · simp
            · split
              · simp
              · rename_i hnot _ _ _ _ _ _
                apply ih
                have h77 : sizeOfOneEntry ≤ entries.length := by omega
                have hs : sizeOfOneEntry = 77 := rfl
                split
                · simp only [List.length_drop]
                  omega
                · simp only [List.length_drop]
                  omega

/-- One builder entry as `FinishAnalysis` writes it, without the colon before it. -/
theorem encodeBuilderEntries_cons (ops : UuidOps) (p : Uuid × Uuid)
    (rest : List (Uuid × Uuid)) :
    encodeBuilderEntries ops (p :: rest)
      = ':' :: (ops.ToString p.1 ++ '~' :: ops.ToString p.2 ++ encodeBuilderEntries ops rest) := by
  obtain ⟨a, b⟩ := p
  simp [encodeBuilderEntries]

theorem drop_one_encodeBuilderEntries_isEmpty (ops : UuidOps) (pairs : List (Uuid × Uuid)) :
    (if (encodeBuilderEntries ops pairs).isEmpty then encodeBuilderEntries ops pairs
      else (encodeBuilderEntries ops pairs).drop 1)
      = (encodeBuilderEntries ops pairs).drop 1 := by
  cases pairs with
  | nil => simp [encodeBuilderEntries]
  | cons p rest => rw [encodeBuilderEntries_cons]; simp

/-- On the entries written by `FinishAnalysis`, the loop returns false as soon as one encoded
builder is not cached or is cached with another fingerprint. -/
theorem scanBuilderEntries_encoded_mismatch (ops : UuidOps)
    (cache : List (Uuid × BuilderData)) (pairs : List (Uuid × Uuid))
    (hlen : ∀ p ∈ pairs, (ops.ToString p.1).length = 38 ∧ (ops.ToString p.2).length = 38)
    (hrt : ∀ p ∈ pairs, ops.CreateString (ops.ToString p.1) = p.1 ∧
      ops.CreateString (ops.ToString p.2) = p.2)
    (hbad : ∃ p ∈ pairs, mapFind cache p.1 = none ∨
      ∃ d, mapFind cache p.1 = some d ∧ d.m_fingerprint ≠ p.2) :
    ∀ (fuel n : Nat), scanBuilderEntries ops cache fuel
        ((encodeBuilderEntries ops pairs).drop 1) n ≠ EntriesResult.noFuel →
      scanBuilderEntries ops cache fuel ((encodeBuilderEntries ops pairs).drop 1) n
        = EntriesResult.returnFalse := by
  induction pairs with
  | nil => simp at hbad
  | cons p rest ih =>
    intro fuel n hfuel
    cases fuel with
    | zero => simp [scanBuilderEntries] at hfuel
    | succ fuel =>
      obtain ⟨hl1, hl2⟩ := hlen p (List.mem_cons_self _ _)
      obtain ⟨hr1, hr2⟩ := hrt p (List.mem_cons_self _ _)
      have hentries : (encodeBuilderEntries ops (p :: rest)).drop 1
          = ops.ToString p.1 ++ ('~' :: (ops.ToString p.2 ++ encodeBuilderEntries ops rest)) := by
        rw [encodeBuilderEntries_cons]
        simp
      rw [hentries] at hfuel ⊢
      have htake1 : (ops.ToString p.1 ++ ('~' :: (ops.ToString p.2
          ++ encodeBuilderEntries ops rest))).take lengthOfUUID = ops.ToString p.1 := by
        rw [List.take_append_of_le_length (by simp [lengthOfUUID, hl1])]
        exact List.take_of_length_le (by simp [lengthOfUUID, hl1])
      have hdrop1 : (ops.ToString p.1 ++ ('~' :: (ops.ToString p.2
          ++ encodeBuilderEntries ops rest))).drop (lengthOfUUID + 1)
            = ops.ToString p.2 ++ encodeBuilderEntries ops rest := by
        rw [List.drop_append_eq_append_drop]
        simp [lengthOfUUID, hl1]
      have htake2 : (ops.ToString p.2 ++ encodeBuilderEntries ops rest).take lengthOfUUID
          = ops.ToString p.2 := by
        rw [List.take_append_of_le_length (by simp [lengthOfUUID, hl2])]
        exact List.take_of_length_le (by simp [lengthOfUUID, hl2])
      have hdrop2 : (ops.ToString p.1 ++ ('~' :: (ops.ToString p.2
          ++ encodeBuilderEntries ops rest))).drop sizeOfOneEntry
            = encodeBuilderEntries ops rest := by
        rw [List.drop_append_eq_append_drop]
        simp [sizeOfOneEntry, lengthOfUUID, hl1, hl2]
      simp only [scanBuilderEntries, hdrop1, htake1, htake2, hdrop2, hr1, hr2,
        drop_one_encodeBuilderEntries_isEmpty] at hfuel ⊢
      have hne : (ops.ToString p.1 ++ ('~' :: (ops.ToString p.2
          ++ encodeBuilderEntries ops rest))).isEmpty = false := by simp
      simp only [hne, Bool.false_eq_true, if_false] at hfuel ⊢
      by_cases h1 : (ops.ToString p.1 ++ ('~' :: (ops.ToString p.2
          ++ encodeBuilderEntries ops rest))).length < sizeOfOneEntry
      · rw [if_pos h1]
      rw [if_neg h1] at hfuel ⊢
      by_cases h2 : (ops.ToString p.1 ++ ('~' :: (ops.ToString p.2
          ++ encodeBuilderEntries ops rest))).head? ≠ some '{'
          ∨ (ops.ToString p.2 ++ encodeBuilderEntries ops rest).head? ≠ some '{'
      · rw [if_pos h2]
      rw [if_neg h2] at hfuel ⊢
      by_cases h3 : p.1.IsNull = true ∨ p.2.IsNull = true
      · rw [if_pos h3]
      rw [if_neg h3] at hfuel ⊢
      cases hfind : mapFind cache p.1 with
      | none => rfl
      | some d =>
        rw [hfind] at hfuel
        simp only at hfuel ⊢
        by_cases hfp : p.2 ≠ d.m_fingerprint
        · rw [if_pos hfp]
        rw [if_neg hfp] at hfuel ⊢
        refine ih (fun q hq => hlen q (List.mem_cons_of_mem _ hq))
          (fun q hq => hrt q (List.mem_cons_of_mem _ hq)) ?_ fuel _ hfuel
        obtain ⟨q, hq, hqbad⟩ := hbad
        rcases List.mem_cons.mp hq with rfl | hq'
        · rcases hqbad with h | ⟨d', hd', hne'⟩
          · rw [hfind] at h; cases h
          · rw [hfind] at hd'
            cases hd'
            exact absurd (fun h => hne' h.symm) hfp
        · exact ⟨q, hq', hqbad⟩

/-- C1: when the persisted analysis fingerprint of a source is the text written by
`FinishAnalysis` for a content hash and a list of (builder, builder fingerprint) pairs, and one
of the encoded builders is not in `m_builderDataCache` or is cached with another fingerprint,
`CanEarlyOutSourceFile` returns false, whatever the disk, the dependencies and the content hash
are. The identifier texts are 38 characters long and read back to the identifiers they
print. -/
theorem CanEarlyOutSourceFile_false_of_builder_mismatch (ops : UuidOps) (env : FileEnv)
    (builders : BuilderState) (sources : List SourceDatabaseEntry)
    (edges : List SourceFileDependencyEntry) (cache : MetaFileCache)
    (normalizedPath databaseSourceFileName : Str) (scanFolderID : Int)
    (modTimeHash : Uuid) (pairs : List (Uuid × Uuid))
    (hdb : QuerySourceAnalysisFingerprint sources databaseSourceFileName scanFolderID
      = some (encodeAnalysisFingerprint ops modTimeHash pairs))
    (hhash : (ops.ToString modTimeHash).length = 38)
    (hlen : ∀ p ∈ pairs, (ops.ToString p.1).length = 38 ∧ (ops.ToString p.2).length = 38)
    (hrt : ∀ p ∈ pairs, ops.CreateString (ops.ToString p.1) = p.1 ∧
      ops.CreateString (ops.ToString p.2) = p.2)
    (hbad : ∃ p ∈ pairs, mapFind builders.m_builderDataCache p.1 = none ∨
      ∃ d, mapFind builders.m_builderDataCache p.1 = some d ∧ d.m_fingerprint ≠ p.2) :
    CanEarlyOutSourceFile ops env builders sources edges cache normalizedPath
      databaseSourceFileName scanFolderID = SkipResult.ret false := by
  unfold CanEarlyOutSourceFile
  by_cases hflag : builders.m_buildersAddedOrRemoved = true
  · rw [if_pos hflag]
  rw [if_neg hflag, hdb]
  simp only
  by_cases h0 : (encodeAnalysisFingerprint ops modTimeHash pairs).isEmpty = true
  · rw [if_pos h0]
  rw [if_neg h0]
  by_cases h1 : (encodeAnalysisFingerprint ops modTimeHash pairs).length < lengthOfUUID
      ∨ (encodeAnalysisFingerprint ops modTimeHash pairs).head? ≠ some '{'
  · rw [if_pos h1]
  rw [if_neg h1]
  by_cases h2 : (ops.CreateString
      ((encodeAnalysisFingerprint ops modTimeHash pairs).take lengthOfUUID)).IsNull = true
  · rw [if_pos h2]
  rw [if_neg h2]
  obtain ⟨p0, hp0, _⟩ := hbad
  obtain ⟨p, rest, hpairs⟩ : ∃ p rest, pairs = p :: rest := by
    cases pairs with
    | nil => simp at hp0
    | cons p rest => exact ⟨p, rest, rfl⟩
  have hdrop : (encodeAnalysisFingerprint ops modTimeHash pairs).drop (lengthOfUUID + 1)
      = (encodeBuilderEntries ops pairs).drop 1 := by
    unfold encodeAnalysisFingerprint
    rw [List.drop_append_eq_append_drop]
    simp [lengthOfUUID, hhash]
  have hlong : ¬ (encodeAnalysisFingerprint ops modTimeHash pairs).length < lengthOfUUID + 1 := by
    unfold encodeAnalysisFingerprint
    rw [hpairs, encodeBuilderEntries_cons]
    simp only [lengthOfUUID, List.length_append, List.length_cons, hhash]
    omega
  rw [if_neg hlong, hdrop]
  have hfuel := scanBuilderEntries_fuel ops builders.m_builderDataCache
    (((encodeBuilderEntries ops pairs).drop 1).length + 1)
    ((encodeBuilderEntries ops pairs).drop 1) 0 (by omega)
  rw [scanBuilderEntries_encoded_mismatch ops builders.m_builderDataCache pairs hlen hrt
    ⟨p0, hp0, by assumption⟩ _ 0 hfuel]

set_option maxRecDepth 100000 in
/-- C1, on a run: `a.txt` was committed while the text builder was at version 1; the builder is
now at version 2 and the disk is unchanged. -/
theorem CanEarlyOutSourceFile_false_of_builder_mismatch_witness :
    demoBuilderStateV2.m_buildersAddedOrRemoved = false ∧
    CanEarlyOutSourceFile stdUuid demoEnv demoBuilderStateV2 demoSourcesAnalysed demoEdges {}
      "/dev/game/a.txt".toList "a.txt".toList 1 = SkipResult.ret false :=
  ⟨by decide,
   CanEarlyOutSourceFile_false_of_builder_mismatch stdUuid demoEnv demoBuilderStateV2
    demoSourcesAnalysed demoEdges {} "/dev/game/a.txt".toList "a.txt".toList 1
    0x797960775F01125B8027E5BE162C21B7
    [(0x11111111222233334444555555555555, 0xED09790894CF23C300A7973BFFB8B5A8)]
    (by decide) (by decide) (by decide) (by decide) (by decide)⟩

/-- When the loop over the builder entries runs to the end, the entries are framed. -/
theorem framed_of_scanBuilderEntries_finished (ops : UuidOps)
    (cache : List (Uuid × BuilderData)) :
    ∀ (fuel : Nat) (entries : Str) (n m : Nat),
      scanBuilderEntries ops cache fuel entries n = EntriesResult.finished m →
      FramedEntries ops entries := by
  intro fuel
  induction fuel with
  | zero => intro entries n m h; simp [scanBuilderEntries] at h
  | succ fuel ih =>
    intro entries n m h
    simp only [scanBuilderEntries] at h
    by_cases h0 : entries.isEmpty = true
    · have : entries = [] := by simpa using h0
      rw [this]
      exact FramedEntries.none
    rw [if_neg h0] at h
    by_cases h1 : entries.length < sizeOfOneEntry
    · rw [if_pos h1] at h; cases h
    rw [if_neg h1] at h
    by_cases h2 : entries.head? ≠ some '{'
        ∨ (entries.drop (lengthOfUUID + 1)).head? ≠ some '{'
    · rw [if_pos h2] at h; cases h
    rw [if_neg h2] at h
    by_cases h3 : (ops.CreateString (entries.take lengthOfUUID)).IsNull = true
        ∨ (ops.CreateString ((entries.drop (lengthOfUUID + 1)).take lengthOfUUID)).IsNull = true
    · rw [if_pos h3] at h; cases h
    rw [if_neg h3] at h
    cases hfind : mapFind cache (ops.CreateString (entries.take lengthOfUUID)) with
    | none => rw [hfind] at h; cases h
    | some d =>
      rw [hfind] at h
      simp only at h
      by_cases h4 : ops.CreateString ((entries.drop (lengthOfUUID + 1)).take lengthOfUUID)
          ≠ d.m_fingerprint
      · rw [if_pos h4] at h; cases h
      rw [if_neg h4] at h
      have hnext := ih _ _ _ h
      have h77 : sizeOfOneEntry = 77 := rfl
      have h38 : lengthOfUUID = 38 := rfl
      have hlen : sizeOfOneEntry ≤ entries.length := by omega
      have hentry : FramedEntry ops (entries.take sizeOfOneEntry) := by
        simp only [not_or, not_not] at h2
        simp only [not_or, Uuid.IsNull, beq_iff_eq] at h3
        refine ⟨?_, ?_, ?_, ?_, ?_⟩
        · rw [List.length_take]; omega
        · rw [← h2.1]
          cases entries with
          | nil => simp at hlen; omega
          | cons c tl => simp [h77]
        · rw [← h2.2, List.drop_take]
          have : (entries.drop (lengthOfUUID + 1)).length = entries.length - 39 := by
            simp [h38]
          cases hd : entries.drop (lengthOfUUID + 1) with
          | nil => rw [hd] at this; simp at this; omega
          | cons c tl => simp [h77, h38]
        · rw [List.take_take]
          have : min lengthOfUUID sizeOfOneEntry = lengthOfUUID := by simp [h77, h38]
          rw [this]
          exact h3.1
        · rw [List.drop_take, List.take_take]
          have : min lengthOfUUID (sizeOfOneEntry - (lengthOfUUID + 1)) = lengthOfUUID := by
            simp [h77, h38]
          rw [this]
          exact h3.2
      by_cases hadv : (entries.drop sizeOfOneEntry).isEmpty = true
      · have hnil : entries.drop sizeOfOneEntry = [] := by simpa using hadv
        have : entries = entries.take sizeOfOneEntry := by
          conv_lhs => rw [← List.take_append_drop sizeOfOneEntry entries, hnil]
          simp
        rw [this]
        exact FramedEntries.last _ hentry
      · rw [if_neg hadv] at hnext
        cases hd : entries.drop sizeOfOneEntry with
        | nil => simp [hd] at hadv
        | cons c tl =>
          rw [hd] at hnext
          simp only [List.drop_succ_cons, List.drop_zero] at hnext
          have : entries = entries.take sizeOfOneEntry ++ c :: tl := by
            conv_lhs => rw [← List.take_append_drop sizeOfOneEntry entries, hd]
          rw [this]
          exact FramedEntries.more _ c tl hentry hnext

/-- C2, as the code has it: `CanEarlyOutSourceFile` returns true only for a persisted
fingerprint that is framed (a 38-character identifier text with an opening brace that does not
read as null, one character, then entries of two such texts around one character, separated by
one character and possibly followed by one); for every persisted text that is not framed it
does not return true, and it returns false unless the text has exactly 38 characters. What
the separator characters are is not checked. -/
theorem CanEarlyOutSourceFile_rejects_unframed (ops : UuidOps) (env : FileEnv)
    (builders : BuilderState) (sources : List SourceDatabaseEntry)
    (edges : List SourceFileDependencyEntry) (cache : MetaFileCache)
    (normalizedPath databaseSourceFileName : Str) (scanFolderID : Int) (fingerprint : Str)
    (hdb : QuerySourceAnalysisFingerprint sources databaseSourceFileName scanFolderID
      = some fingerprint)
    (hbad : ¬ FramedFingerprint ops fingerprint) :
    CanEarlyOutSourceFile ops env builders sources edges cache normalizedPath
        databaseSourceFileName scanFolderID ≠ SkipResult.ret true ∧
    (fingerprint.length ≠ 38 →
      CanEarlyOutSourceFile ops env builders sources edges cache normalizedPath
        databaseSourceFileName scanFolderID = SkipResult.ret false) := by
  unfold CanEarlyOutSourceFile
  by_cases hflag : builders.m_buildersAddedOrRemoved = true
  · rw [if_pos hflag]; simp
  rw [if_neg hflag, hdb]
  simp only
  by_cases h0 : fingerprint.isEmpty = true
  · rw [if_pos h0]; simp
  rw [if_neg h0]
  by_cases h1 : fingerprint.length < lengthOfUUID ∨ fingerprint.head? ≠ some '{'
  · rw [if_pos h1]; simp
  rw [if_neg h1]
  by_cases h2 : (ops.CreateString (fingerprint.take lengthOfUUID)).IsNull = true
  · rw [if_pos h2]; simp
  rw [if_neg h2]
  by_cases h3 : fingerprint.length < lengthOfUUID + 1
  · rw [if_pos h3]
    refine ⟨by simp, fun h38 => ?_⟩
    simp only [not_or, not_lt] at h1
    have : lengthOfUUID = 38 := rfl
    omega
  rw [if_neg h3]
  have hfuel := scanBuilderEntries_fuel ops builders.m_builderDataCache
    ((fingerprint.drop (lengthOfUUID + 1)).length + 1)
    (fingerprint.drop (lengthOfUUID + 1)) 0 (by omega)
  cases hscan : scanBuilderEntries ops builders.m_builderDataCache
      ((fingerprint.drop (lengthOfUUID + 1)).length + 1)
      (fingerprint.drop (lengthOfUUID + 1)) 0 with
  | noFuel => exact absurd hscan hfuel
  | returnFalse => simp
  | finished m =>
    exfalso
    apply hbad
    simp only [not_or, not_not] at h1
    refine ⟨by omega, h1.2, ?_, framed_of_scanBuilderEntries_finished _ _ _ _ _ _ hscan⟩
    simpa [Uuid.IsNull] using h2

set_option maxRecDepth 100000 in
/-- C2, on a run: a text whose only builder entry is cut off after 19 characters is not framed, and it
is rejected. -/
theorem CanEarlyOutSourceFile_rejects_unframed_witness :
    CanEarlyOutSourceFile stdUuid demoEnv demoBuilderState
        (demoSourcesWith "{79796077-5F01-125B-8027-E5BE162C21B7}#\x7b11111111-2222-3333-")
        demoEdges {} "/dev/game/a.txt".toList "a.txt".toList 1 ≠ SkipResult.ret true :=
  (CanEarlyOutSourceFile_rejects_unframed stdUuid demoEnv demoBuilderState
    (demoSourcesWith "{79796077-5F01-125B-8027-E5BE162C21B7}#\x7b11111111-2222-3333-")
    demoEdges {} "/dev/game/a.txt".toList "a.txt".toList 1
    "{79796077-5F01-125B-8027-E5BE162C21B7}#\x7b11111111-2222-3333-".toList (by decide)
    (by
      rintro ⟨_, _, _, hframed⟩
      have hlen : ∀ s, FramedEntries stdUuid s → s = [] ∨ 77 ≤ s.length := by
        intro s hs
        cases hs with
        | none => exact Or.inl rfl
        | last entry he => exact Or.inr (le_of_eq he.1.symm)
        | more entry c rest he _ =>
          right
          rw [List.length_append, he.1]
          exact Nat.le_add_right _ _
      rcases hlen _ hframed with h | h
      · exact absurd h (by decide)
      · exact absurd h (by decide))).1

set_option maxRecDepth 100000 in
/-- C2 fails as stated: a persisted text with `X` in place of the colon and `Y` in place of
the tilde, and a well-formed text followed by one more character, are not of the form written
by `FinishAnalysis`, yet `CanEarlyOutSourceFile` returns true for them. -/
theorem CanEarlyOutSourceFile_true_on_wrong_separators :
    CanEarlyOutSourceFile stdUuid demoEnv demoBuilderState
        (demoSourcesWith ("{79796077-5F01-125B-8027-E5BE162C21B7}X"
          ++ "{11111111-2222-3333-4444-555555555555}Y{ED097908-94CF-23C3-00A7-973BFFB8B5A8}"))
        demoEdges {} "/dev/game/a.txt".toList "a.txt".toList 1 = SkipResult.ret true ∧
    CanEarlyOutSourceFile stdUuid demoEnv demoBuilderState
        (demoSourcesWith ("{79796077-5F01-125B-8027-E5BE162C21B7}:"
          ++ "{11111111-2222-3333-4444-555555555555}~{ED097908-94CF-23C3-00A7-973BFFB8B5A8}#"))
        demoEdges {} "/dev/game/a.txt".toList "a.txt".toList 1 = SkipResult.ret true := by
  decide

/-! ## Round trip between `FinishAnalysis` and `CanEarlyOutSourceFile` -/

/-- On the entries written by `FinishAnalysis` for builders that are cached, not null and whose
texts read back, the loop runs to the end and counts the builders that emit dependencies. -/
theorem scanBuilderEntries_involved (ops : UuidOps) (cache : List (Uuid × BuilderData))
    (ids : List Uuid)
    (hids : ∀ id ∈ ids, id ≠ 0 ∧ TextReadsBack ops id ∧
      ∃ d, mapFind cache id = some d ∧ d.m_fingerprint ≠ 0 ∧ TextReadsBack ops d.m_fingerprint) :
    ∀ (fuel n : Nat), ids.length < fuel →
      scanBuilderEntries ops cache fuel
        ((encodeBuilderEntries ops (involvedPairs cache ids)).drop 1) n
        = EntriesResult.finished (n + numEmitting cache ids) := by
  induction ids with
  | nil =>
    intro fuel n hfuel
    cases fuel with
    | zero => simp at hfuel
    | succ fuel => simp [involvedPairs, encodeBuilderEntries, scanBuilderEntries, numEmitting]
  | cons id rest ih =>
    intro fuel n hfuel
    cases fuel with
    | zero => simp at hfuel
    | succ fuel =>
      obtain ⟨hne, ⟨hl1, hh1, hr1⟩, d, hfind, hdne, hl2, hh2, hr2⟩ :=
        hids id (List.mem_cons_self _ _)
      have hdef : builderDataOrDefault cache id = d := by simp [builderDataOrDefault, hfind]
      have hpairs : involvedPairs cache (id :: rest)
          = (id, d.m_fingerprint) :: involvedPairs cache rest := by
        simp [involvedPairs, hdef]
      have hentries : (encodeBuilderEntries ops (involvedPairs cache (id :: rest))).drop 1
          = ops.ToString id ++ ('~' :: (ops.ToString d.m_fingerprint
              ++ encodeBuilderEntries ops (involvedPairs cache rest))) := by
        rw [hpairs, encodeBuilderEntries_cons]
        simp
      rw [hentries]
      have htake1 : (ops.ToString id ++ ('~' :: (ops.ToString d.m_fingerprint
          ++ encodeBuilderEntries ops (involvedPairs cache rest)))).take lengthOfUUID
            = ops.ToString id := by
        rw [List.take_append_of_le_length (by simp [lengthOfUUID, hl1])]
        exact List.take_of_length_le (by simp [lengthOfUUID, hl1])
      have hdrop1 : (ops.ToString id ++ ('~' :: (ops.ToString d.m_fingerprint
          ++ encodeBuilderEntries ops (involvedPairs cache rest)))).drop (lengthOfUUID + 1)
            = ops.ToString d.m_fingerprint
                ++ encodeBuilderEntries ops (involvedPairs cache rest) := by
        rw [List.drop_append_eq_append_drop]
        simp [lengthOfUUID, hl1]
      have htake2 : (ops.ToString d.m_fingerprint
          ++ encodeBuilderEntries ops (involvedPairs cache rest)).take lengthOfUUID
            = ops.ToString d.m_fingerprint := by
        rw [List.take_append_of_le_length (by simp [lengthOfUUID, hl2])]
        exact List.take_of_length_le (by simp [lengthOfUUID, hl2])
      have hdrop2 : (ops.ToString id ++ ('~' :: (ops.ToString d.m_fingerprint
          ++ encodeBuilderEntries ops (involvedPairs cache rest)))).drop sizeOfOneEntry
            = encodeBuilderEntries ops (involvedPairs cache rest) := by
        rw [List.drop_append_eq_append_drop]
        simp [sizeOfOneEntry, lengthOfUUID, hl1, hl2]
      have hhead1 : (ops.ToString id ++ ('~' :: (ops.ToString d.m_fingerprint
          ++ encodeBuilderEntries ops (involvedPairs cache rest)))).head? = some '{' := by
        cases hs : ops.ToString id with
        | nil => rw [hs] at hl1; simp at hl1
        | cons c tl => rw [hs] at hh1; simpa using hh1
      have hhead2 : (ops.ToString d.m_fingerprint
          ++ encodeBuilderEntries ops (involvedPairs cache rest)).head? = some '{' := by
        cases hs : ops.ToString d.m_fingerprint with
        | nil => rw [hs] at hl2; simp at hl2
        | cons c tl => rw [hs] at hh2; simpa using hh2
      have hne0 : (ops.ToString id ++ ('~' :: (ops.ToString d.m_fingerprint
          ++ encodeBuilderEntries ops (involvedPairs cache rest)))).isEmpty = false := by simp
      have hlen : ¬ (ops.ToString id ++ ('~' :: (ops.ToString d.m_fingerprint
          ++ encodeBuilderEntries ops (involvedPairs cache rest)))).length < sizeOfOneEntry := by
        simp only [List.length_append, List.length_cons, hl1, hl2, sizeOfOneEntry, lengthOfUUID]
        omega
      have hnull : ¬ (Uuid.IsNull id = true ∨ Uuid.IsNull d.m_fingerprint = true) := by
        simp [Uuid.IsNull, hne, hdne]
      simp only [scanBuilderEntries, hdrop1, htake1, htake2, hdrop2, hr1, hr2,
        drop_one_encodeBuilderEntries_isEmpty, hne0, Bool.false_eq_true, if_false, hlen,
        hhead1, hhead2, ne_eq, not_true_eq_false, or_self, hnull, hfind]
      rw [ih (fun i hi => hids i (List.mem_cons_of_mem _ hi)) fuel _
        (by simp only [List.length_cons] at hfuel; omega)]
      congr 1
      by_cases hflag : d.m_flags &&& BF_EmitsNoDependencies = 0
      · simp [numEmitting, hdef, hflag]
        omega
      · simp [numEmitting, hdef, hflag]

/-- After `SetSource` wrote a new fingerprint into the row found for a name and scan folder,
the fingerprint query for that name and scan folder gives the new fingerprint. -/
theorem QuerySourceAnalysisFingerprint_SetSource (sources : List SourceDatabaseEntry)
    (name : Str) (scanFolderID : Int) (found : SourceDatabaseEntry) (fp : Str)
    (h : QuerySourceBySourceNameScanFolderID sources name scanFolderID = some found) :
    QuerySourceAnalysisFingerprint
      (SetSource sources { found with m_analysisFingerprint := fp }) name scanFolderID
      = some fp := by
  unfold QuerySourceBySourceNameScanFolderID at h
  have hmem : found ∈ sources := List.mem_of_find?_eq_some h
  have hpred : found.m_sourceName = name ∧ found.m_scanFolderPK = scanFolderID := by
    simpa using List.find?_some h
  have hany : sources.any (fun r => decide (r.m_sourceID = found.m_sourceID)) = true := by
    rw [List.any_eq_true]
    exact ⟨found, hmem, by simp⟩
  unfold SetSource QuerySourceAnalysisFingerprint QuerySourceBySourceNameScanFolderID
  simp only [hany, if_true]
  clear hany hmem
  induction sources with
  | nil => simp at h
  | cons r tl ih =>
    rw [List.map_cons, List.find?_cons]
    by_cases hid : r.m_sourceID = found.m_sourceID
    · simp [hid, hpred]
    · rw [List.find?_cons] at h
      by_cases hr : r.m_sourceName = name ∧ r.m_scanFolderPK = scanFolderID
      · simp only [hr, and_self, decide_True] at h
        cases h
        exact absurd rfl hid
      · simp only [hr, decide_False] at h
        simp only [hid, if_false, hr, decide_False]
        exact ih h

theorem refreshMetaFileCache_idem (env : FileEnv) (cache : MetaFileCache) :
    refreshMetaFileCache env (refreshMetaFileCache env cache) = refreshMetaFileCache env cache := by
  unfold refreshMetaFileCache
  by_cases h : cache.m_cachedMetaFilesExistMap = true
  · simp [h]
  · simp [h]

theorem AddMetadataFilesForFingerprinting_refresh (env : FileEnv) (cache : MetaFileCache)
    (path : Str) (out : List (Str × Str)) :
    AddMetadataFilesForFingerprinting env (refreshMetaFileCache env cache) path out
      = AddMetadataFilesForFingerprinting env cache path out := by
  unfold AddMetadataFilesForFingerprinting
  rw [refreshMetaFileCache_idem]

theorem touchBuilderData_cached (cache : List (Uuid × BuilderData)) (ids : List Uuid)
    (h : ∀ id ∈ ids, ∃ d, mapFind cache id = some d) : touchBuilderData cache ids = cache := by
  unfold touchBuilderData
  induction ids with
  | nil => rfl
  | cons id rest ih =>
    obtain ⟨d, hd⟩ := h id (List.mem_cons_self _ _)
    rw [List.foldl_cons]
    have : mapSet cache id (builderDataOrDefault cache id) = cache := by
      apply mapSet_self
      simp [builderDataOrDefault, hd]
    rw [this]
    exact ih (fun i hi => h i (List.mem_cons_of_mem _ hi))

theorem length_encodeBuilderEntries_ge (ops : UuidOps) (pairs : List (Uuid × Uuid)) :
    2 * pairs.length ≤ (encodeBuilderEntries ops pairs).length := by
  induction pairs with
  | nil => simp
  | cons p rest ih =>
    rw [encodeBuilderEntries_cons]
    simp only [List.length_cons, List.length_append]
    omega

/-- C3, as the code has it: let `FinishAnalysis` run for a source whose tracker has not failed
and has no remaining job, whose row is in the store, with at least one builder involved, every
builder involved not null and cached with a fingerprint that is not null, and
`m_buildersAddedOrRemoved` false; let the identifier texts read back, the content hash be not
null, and, when no builder involved emits dependencies, let the recursive dependency query find
just the source under the path examined. Then `FinishAnalysis` writes the fingerprint and, with
builders, dependency edges and disk unchanged, `CanEarlyOutSourceFile` returns true, so
`CheckModifiedSourceFile` for a scanner file with skipping allowed drops the file without
handing it to `ProcessBuilders`. -/
theorem CanEarlyOutSourceFile_after_FinishAnalysis (ops : UuidOps) (env : FileEnv)
    (builders : BuilderState) (trackers : List (Str × AnalysisTracker))
    (sources : List SourceDatabaseEntry) (edges : List SourceFileDependencyEntry)
    (cache : MetaFileCache) (normalizedPath databaseSourceFileName : Str) (scanFolderID : Int)
    (matchingBuilders : List Uuid) (t : AnalysisTracker) (found : SourceDatabaseEntry)
    (hflag : builders.m_buildersAddedOrRemoved = false)
    (ht : mapFind trackers normalizedPath = some t)
    (hnf : t.failedStatus = false) (hcount : t.m_remainingJobsSpawned ≤ 0)
    (hname : t.m_databaseSourceName = databaseSourceFileName)
    (hfolder : t.m_databaseScanFolderId = scanFolderID)
    (hfound : QuerySourceBySourceNameScanFolderID sources databaseSourceFileName scanFolderID
      = some found)
    (hsome : t.m_buildersInvolved ≠ [])
    (hids : ∀ id ∈ t.m_buildersInvolved, id ≠ 0 ∧ TextReadsBack ops id ∧
      ∃ d, mapFind builders.m_builderDataCache id = some d ∧ d.m_fingerprint ≠ 0 ∧
        TextReadsBack ops d.m_fingerprint)
    (hhash : ∀ queried ∈ QueryAbsolutePathDependenciesRecursive env edges
        databaseSourceFileName [] TypeOfDependency.DEP_Any false,
      ops.CreateName (modTimeArray env
          (AddMetadataFilesForFingerprinting env cache normalizedPath queried)) ≠ 0 ∧
        TextReadsBack ops (ops.CreateName (modTimeArray env
          (AddMetadataFilesForFingerprinting env cache normalizedPath queried))))
    (hdeps : numEmitting builders.m_builderDataCache t.m_buildersInvolved = 0 →
      QueryAbsolutePathDependenciesRecursive env edges databaseSourceFileName []
        TypeOfDependency.DEP_Any false
        = some (containerInsert [] (normalizedPath, databaseSourceFileName))) :
    ∃ out, FinishAnalysis ops env builders.m_builderDataCache trackers sources edges cache
        normalizedPath = some out ∧
      out.storeWrites ≠ [] ∧
      CanEarlyOutSourceFile ops env
        { m_builderDataCache := out.builderDataCache
          m_buildersAddedOrRemoved := builders.m_buildersAddedOrRemoved
          m_anyBuilderChange := builders.m_anyBuilderChange }
        out.sources edges out.metaCache normalizedPath databaseSourceFileName scanFolderID
        = SkipResult.ret true ∧
      CheckModifiedSourceFile ops env
        { m_builderDataCache := out.builderDataCache
          m_buildersAddedOrRemoved := builders.m_buildersAddedOrRemoved
          m_anyBuilderChange := builders.m_anyBuilderChange }
        out.sources edges out.metaCache true matchingBuilders normalizedPath
        databaseSourceFileName true scanFolderID = CheckModifiedOutcome.skipped := by
  obtain ⟨queried, hq⟩ := QueryAbsolutePathDependenciesRecursive_total env edges
    databaseSourceFileName [] TypeOfDependency.DEP_Any false
  obtain ⟨hh0, hhl, hhh, hhr⟩ := hhash queried hq
  have hpos : ¬ t.m_remainingJobsSpawned > 0 := by omega
  have hnf' : ¬ t.failedStatus = true := by simp [hnf]
  have htouch : touchBuilderData builders.m_builderDataCache t.m_buildersInvolved
      = builders.m_builderDataCache :=
    touchBuilderData_cached _ _ (fun id hid => by
      obtain ⟨_, _, d, hd, _⟩ := hids id hid
      exact ⟨d, hd⟩)
  have hFA : FinishAnalysis ops env builders.m_builderDataCache trackers sources edges cache
      normalizedPath = some
        { trackers := mapErase trackers normalizedPath
          sources := SetSource sources
            { found with
              m_analysisFingerprint :=
                encodeAnalysisFingerprint ops
                  (ops.CreateName (modTimeArray env
                    (AddMetadataFilesForFingerprinting env cache normalizedPath queried)))
                  (involvedPairs builders.m_builderDataCache t.m_buildersInvolved) }
          storeWrites :=
            [{ found with
              m_analysisFingerprint :=
                encodeAnalysisFingerprint ops
                  (ops.CreateName (modTimeArray env
                    (AddMetadataFilesForFingerprinting env cache normalizedPath queried)))
                  (involvedPairs builders.m_builderDataCache t.m_buildersInvolved) }]
          builderDataCache := builders.m_builderDataCache
          metaCache := refreshMetaFileCache env cache } := by
    unfold FinishAnalysis
    simp only [ht, if_neg hnf', if_neg hpos, hname, hfolder, hfound, hq, htouch]
    rfl
  have hskip : CanEarlyOutSourceFile ops env
      { m_builderDataCache := builders.m_builderDataCache
        m_buildersAddedOrRemoved := builders.m_buildersAddedOrRemoved
        m_anyBuilderChange := builders.m_anyBuilderChange }
      (SetSource sources
        { found with
          m_analysisFingerprint :=
            encodeAnalysisFingerprint ops
              (ops.CreateName (modTimeArray env
                (AddMetadataFilesForFingerprinting env cache normalizedPath queried)))
              (involvedPairs builders.m_builderDataCache t.m_buildersInvolved) })
      edges (refreshMetaFileCache env cache) normalizedPath databaseSourceFileName scanFolderID
      = SkipResult.ret true := by
    unfold CanEarlyOutSourceFile
    rw [QuerySourceAnalysisFingerprint_SetSource sources _ _ found _ hfound]
    simp only [hflag, Bool.false_eq_true, if_false]
    obtain ⟨id0, rest0, hcons⟩ : ∃ id0 rest0, t.m_buildersInvolved = id0 :: rest0 := by
      cases hb : t.m_buildersInvolved with
      | nil => exact absurd hb hsome
      | cons a b => exact ⟨a, b, rfl⟩
    have hplen := length_encodeBuilderEntries_ge ops
      (involvedPairs builders.m_builderDataCache t.m_buildersInvolved)
    have hpl : (involvedPairs builders.m_builderDataCache t.m_buildersInvolved).length
        = t.m_buildersInvolved.length := by simp [involvedPairs]
    have hidl : 1 ≤ t.m_buildersInvolved.length := by rw [hcons]; simp
    rw [hpl] at hplen
    generalize hH : ops.CreateName (modTimeArray env
      (AddMetadataFilesForFingerprinting env cache normalizedPath queried)) = H at *
    generalize hE : encodeBuilderEntries ops
      (involvedPairs builders.m_builderDataCache t.m_buildersInvolved) = E at *
    have hfp : encodeAnalysisFingerprint ops H
        (involvedPairs builders.m_builderDataCache t.m_buildersInvolved)
        = ops.ToString H ++ E := by
      rw [encodeAnalysisFingerprint, hE]
    rw [hfp]
    have h1 : (ops.ToString H ++ E).isEmpty = false := by
      cases hs : ops.ToString H with
      | nil => rw [hs] at hhl; simp at hhl
      | cons c tl => simp
    have h2 : ¬ ((ops.ToString H ++ E).length < lengthOfUUID
        ∨ (ops.ToString H ++ E).head? ≠ some '{') := by
      have : (ops.ToString H ++ E).head? = some '{' := by
        cases hs : ops.ToString H with
        | nil => rw [hs] at hhl; simp at hhl
        | cons c tl => rw [hs] at hhh; simpa using hhh
      simp [lengthOfUUID, hhl, this]
    have h3 : (ops.ToString H ++ E).take lengthOfUUID = ops.ToString H := by
      rw [List.take_append_of_le_length (by simp [lengthOfUUID, hhl])]
      exact List.take_of_length_le (by simp [lengthOfUUID, hhl])
    have h4 : ¬ (Uuid.IsNull H = true) := by simp [Uuid.IsNull, hh0]
    have h5 : ¬ (ops.ToString H ++ E).length < lengthOfUUID + 1 := by
      simp only [List.length_append, hhl, lengthOfUUID]
      omega
    have h6 : (ops.ToString H ++ E).drop (lengthOfUUID + 1) = E.drop 1 := by
      rw [List.drop_append_eq_append_drop]
      simp [lengthOfUUID, hhl]
    have hscan := scanBuilderEntries_involved ops builders.m_builderDataCache
      t.m_buildersInvolved hids ((E.drop 1).length + 1) 0 (by
        simp only [List.length_drop]
        omega)
    rw [hE] at hscan
    simp only [h1, Bool.false_eq_true, if_false, h2, h3, hhr, h4, h5, h6, hscan, Nat.zero_add]
    unfold compareContentFingerprint
    by_cases hemit : numEmitting builders.m_builderDataCache t.m_buildersInvolved > 0
    · simp only [hemit, if_true, hq, AddMetadataFilesForFingerprinting_refresh, hH, ne_eq,
        not_true_eq_false, if_false]
    · have hzero : numEmitting builders.m_builderDataCache t.m_buildersInvolved = 0 := by omega
      have hq' := hdeps hzero
      rw [hq] at hq'
      cases hq'
      simp only [hemit, if_false, AddMetadataFilesForFingerprinting_refresh, hH, ne_eq,
        not_true_eq_false]
  refine ⟨_, hFA, by simp, hskip, ?_⟩
  unfold CheckModifiedSourceFile
  simp only [hskip, and_self, if_true]

set_option maxRecDepth 100000 in
/-- C3, on a run: `a.txt`, which depends on `b.txt`, was analysed by the text builder; nothing
changed since the builder table was written. -/
theorem CanEarlyOutSourceFile_after_FinishAnalysis_witness :
    demoBuilderState.m_buildersAddedOrRemoved = false ∧
    ∃ out, FinishAnalysis stdUuid demoEnv demoBuilderState.m_builderDataCache
        [("/dev/game/a.txt".toList, demoTracker 0)] demoSources demoEdges {}
        "/dev/game/a.txt".toList = some out ∧
      out.storeWrites ≠ [] ∧
      CanEarlyOutSourceFile stdUuid demoEnv
        { m_builderDataCache := out.builderDataCache
          m_buildersAddedOrRemoved := demoBuilderState.m_buildersAddedOrRemoved
          m_anyBuilderChange := demoBuilderState.m_anyBuilderChange }
        out.sources demoEdges out.metaCache "/dev/game/a.txt".toList "a.txt".toList 1
        = SkipResult.ret true ∧
      CheckModifiedSourceFile stdUuid demoEnv
        { m_builderDataCache := out.builderDataCache
          m_buildersAddedOrRemoved := demoBuilderState.m_buildersAddedOrRemoved
          m_anyBuilderChange := demoBuilderState.m_anyBuilderChange }
        out.sources demoEdges out.metaCache true [demoTxtBuilderV1.m_busId]
        "/dev/game/a.txt".toList "a.txt".toList true 1 = CheckModifiedOutcome.skipped :=
  ⟨by decide,
   CanEarlyOutSourceFile_after_FinishAnalysis stdUuid demoEnv demoBuilderState
    [("/dev/game/a.txt".toList, demoTracker 0)] demoSources demoEdges {}
    "/dev/game/a.txt".toList "a.txt".toList 1 [demoTxtBuilderV1.m_busId] (demoTracker 0)
    { m_sourceID := 1, m_scanFolderPK := 1, m_sourceName := "a.txt".toList }
    (by decide) (by decide) (by decide) (by decide) (by decide) (by decide) (by decide)
    (by decide) (by decide) (by decide) (by decide)⟩

set_option maxRecDepth 100000 in
/-- C3 fails as stated, in two ways. On the first run, when the builders were just registered
(`m_buildersAddedOrRemoved` is set), `FinishAnalysis` commits the fingerprint of `a.txt` and,
with nothing changed, `CanEarlyOutSourceFile` returns false and `CheckModifiedSourceFile` hands
the file to `ProcessBuilders`. And with the flag not set: `c.cfg`, whose only builder declares
that it emits no dependencies while the store holds an edge from `c.cfg` to `b.txt`, is
committed with a content hash over both files, then compared with a hash over `c.cfg` alone,
and `CanEarlyOutSourceFile` returns false. -/
theorem CanEarlyOutSourceFile_false_after_FinishAnalysis :
    (FinishAnalysis stdUuid demoEnv demoBuilderStateFirstRun.m_builderDataCache
        [("/dev/game/a.txt".toList, demoTracker 0)] demoSources demoEdges {}
        "/dev/game/a.txt".toList).map
      (fun out =>
        (out.storeWrites.map (fun e => e.m_analysisFingerprint),
         CanEarlyOutSourceFile stdUuid demoEnv
           { demoBuilderStateFirstRun with m_builderDataCache := out.builderDataCache }
           out.sources demoEdges out.metaCache "/dev/game/a.txt".toList "a.txt".toList 1,
         CheckModifiedSourceFile stdUuid demoEnv
           { demoBuilderStateFirstRun with m_builderDataCache := out.builderDataCache }
           out.sources demoEdges out.metaCache true [demoTxtBuilderV1.m_busId]
           "/dev/game/a.txt".toList "a.txt".toList true 1))
      = some
        ([("{79796077-5F01-125B-8027-E5BE162C21B7}:{11111111-2222-3333-4444-555555555555}"
            ++ "~{ED097908-94CF-23C3-00A7-973BFFB8B5A8}").toList],
         SkipResult.ret false,
         CheckModifiedOutcome.processBuilders [demoTxtBuilderV1.m_busId]) ∧
    demoBuilderState.m_buildersAddedOrRemoved = false ∧
    (FinishAnalysis stdUuid demoEnv demoBuilderState.m_builderDataCache
        [("/dev/game/c.cfg".toList, demoCfgTracker)] demoCfgSources demoCfgEdges {}
        "/dev/game/c.cfg".toList).map
      (fun out =>
        (out.storeWrites.map (fun e => e.m_analysisFingerprint),
         CanEarlyOutSourceFile stdUuid demoEnv
           { demoBuilderState with m_builderDataCache := out.builderDataCache }
           out.sources demoCfgEdges out.metaCache "/dev/game/c.cfg".toList "c.cfg".toList 1))
      = some
        ([("{4085F0A1-42DF-7C36-5116-E3AA957E67D3}:{AAAAAAAA-BBBB-CCCC-DDDD-EEEEEEEEEEEE}"
            ++ "~{32C14C84-EAE6-6E4B-2CD8-FEDD3C60B2E2}").toList],
         SkipResult.ret false) := by
  decide

/-! ## `AnalyzeJob` -/

theorem foldl_missing_product (productExists : Str → Bool)
    (products : List ProductDatabaseEntry) (init : Bool) :
    products.foldl
        (fun shouldProcessAsset product =>
          if !productExists product.m_productName then true else shouldProcessAsset) init
      = false ↔
    init = false ∧ ∀ p ∈ products, productExists p.m_productName = true := by
  induction products generalizing init with
  | nil => simp
  | cons p tl ih =>
    rw [List.foldl_cons, ih]
    cases hp : productExists p.m_productName <;> simp [hp]

/-- The function `ProcessJob` always returns. -/
theorem ProcessJob_total (env : FileEnv) (GenerateFingerprint : JobDetails → Nat)
    (absoluteFilePath : Str → Str → Str) (productExists : Str → Bool)
    (edges : List SourceFileDependencyEntry) (cache : MetaFileCache)
    (jobsInStore : List JobDatabaseEntry) (productsInStore : List ProductDatabaseEntry)
    (jobFingerprintMap : List (JobIndentifier × Nat))
    (trackers : List (Str × AnalysisTracker)) (job : JobDetails) :
    ∃ out, ProcessJob env GenerateFingerprint absoluteFilePath productExists edges cache
      jobsInStore productsInStore jobFingerprintMap trackers job = some out := by
  obtain ⟨r, hr⟩ := QueryAbsolutePathDependenciesRecursive_total env edges
    job.m_jobEntry.m_databaseSourceName job.m_fingerprintFiles
    TypeOfDependency.DEP_SourceToSource false
  unfold ProcessJob
  simp only [hr]
  split <;> exact ⟨_, rfl⟩

/-- C10: `AnalyzeJob` returns false exactly when the store holds a job row of the same
(source, builder, job key, platform) whose fingerprint is the computed one and every product
recorded for that job exists on disk; otherwise it returns true. `ProcessJob` emits the job
with `AssetToProcess` exactly when `AnalyzeJob` returns true for the fingerprinted job, and
otherwise reports `JobFinished` to the tracker of the source. The store holds at most one row
per job identity. -/
theorem AnalyzeJob_false_iff (jobsInStore : List JobDatabaseEntry)
    (productsInStore : List ProductDatabaseEntry) (productExists : Str → Bool)
    (jobDetails : JobDetails)
    (hunique : (GetJobsBySourceName jobsInStore jobDetails.m_jobEntry.m_databaseSourceName
      jobDetails.m_jobEntry.m_builderGuid jobDetails.m_jobEntry.m_jobKey
      jobDetails.m_jobEntry.m_platformIdentifier).length ≤ 1) :
    (AnalyzeJob jobsInStore productsInStore productExists jobDetails = false ↔
      (∃ j ∈ jobsInStore,
        (j.m_sourceName = jobDetails.m_jobEntry.m_databaseSourceName
          ∧ j.m_builderGuid = jobDetails.m_jobEntry.m_builderGuid
          ∧ j.m_jobKey = jobDetails.m_jobEntry.m_jobKey
          ∧ j.m_platform = jobDetails.m_jobEntry.m_platformIdentifier)
        ∧ j.m_fingerprint = jobDetails.m_jobEntry.m_computedFingerprint) ∧
      (∀ p ∈ productsInStore,
        (p.m_sourceName = jobDetails.m_jobEntry.m_databaseSourceName
          ∧ p.m_builderGuid = jobDetails.m_jobEntry.m_builderGuid
          ∧ p.m_jobKey = jobDetails.m_jobEntry.m_jobKey
          ∧ p.m_platform = jobDetails.m_jobEntry.m_platformIdentifier) →
        productExists p.m_productName = true)) ∧
    (∀ (env : FileEnv) (GenerateFingerprint : JobDetails → Nat)
      (absoluteFilePath : Str → Str → Str) (edges : List SourceFileDependencyEntry)
      (cache : MetaFileCache) (jobFingerprintMap : List (JobIndentifier × Nat))
      (trackers : List (Str × AnalysisTracker)),
      ∃ out, ProcessJob env GenerateFingerprint absoluteFilePath productExists edges cache
          jobsInStore productsInStore jobFingerprintMap trackers jobDetails = some out ∧
        (AnalyzeJob jobsInStore productsInStore productExists out.job = true →
          out.emitted = [out.job] ∧ out.trackers = trackers ∧ out.queued = []) ∧
        (AnalyzeJob jobsInStore productsInStore productExists out.job = false →
          out.emitted = [] ∧
          (out.trackers, out.queued) = UpdateAnalysisTrackerForFile trackers
            (absoluteFilePath jobDetails.m_jobEntry.m_watchFolderPath
              jobDetails.m_jobEntry.m_pathRelativeToWatchFolder)
            AnalysisTrackerUpdateType.JobFinished)) := by
  constructor
  · unfold AnalyzeJob
    generalize hJ : GetJobsBySourceName jobsInStore jobDetails.m_jobEntry.m_databaseSourceName
      jobDetails.m_jobEntry.m_builderGuid jobDetails.m_jobEntry.m_jobKey
      jobDetails.m_jobEntry.m_platformIdentifier = J at hunique ⊢
    have hJmem : ∀ j, j ∈ J ↔ j ∈ jobsInStore ∧
        (j.m_sourceName = jobDetails.m_jobEntry.m_databaseSourceName
          ∧ j.m_builderGuid = jobDetails.m_jobEntry.m_builderGuid
          ∧ j.m_jobKey = jobDetails.m_jobEntry.m_jobKey
          ∧ j.m_platform = jobDetails.m_jobEntry.m_platformIdentifier) := by
      intro j
      rw [← hJ]
      simp [GetJobsBySourceName]
    generalize hP : GetProductsBySourceName productsInStore
      jobDetails.m_jobEntry.m_databaseSourceName jobDetails.m_jobEntry.m_builderGuid
      jobDetails.m_jobEntry.m_jobKey jobDetails.m_jobEntry.m_platformIdentifier = P
    have hPmem : ∀ p, p ∈ P ↔ p ∈ productsInStore ∧
        (p.m_sourceName = jobDetails.m_jobEntry.m_databaseSourceName
          ∧ p.m_builderGuid = jobDetails.m_jobEntry.m_builderGuid
          ∧ p.m_jobKey = jobDetails.m_jobEntry.m_jobKey
          ∧ p.m_platform = jobDetails.m_jobEntry.m_platformIdentifier) := by
      intro p
      rw [← hP]
      simp [GetProductsBySourceName]
    have hprod : (∀ p ∈ productsInStore,
        (p.m_sourceName = jobDetails.m_jobEntry.m_databaseSourceName
          ∧ p.m_builderGuid = jobDetails.m_jobEntry.m_builderGuid
          ∧ p.m_jobKey = jobDetails.m_jobEntry.m_jobKey
          ∧ p.m_platform = jobDetails.m_jobEntry.m_platformIdentifier) →
        productExists p.m_productName = true) ↔ ∀ p ∈ P, productExists p.m_productName = true := by
      constructor
      · intro h p hp
        exact h p ((hPmem p).mp hp).1 ((hPmem p).mp hp).2
      · intro h p hp hid
        exact h p ((hPmem p).mpr ⟨hp, hid⟩)
    have hjob : (∃ j ∈ jobsInStore,
        (j.m_sourceName = jobDetails.m_jobEntry.m_databaseSourceName
          ∧ j.m_builderGuid = jobDetails.m_jobEntry.m_builderGuid
          ∧ j.m_jobKey = jobDetails.m_jobEntry.m_jobKey
          ∧ j.m_platform = jobDetails.m_jobEntry.m_platformIdentifier)
        ∧ j.m_fingerprint = jobDetails.m_jobEntry.m_computedFingerprint) ↔
        ∃ j ∈ J, j.m_fingerprint = jobDetails.m_jobEntry.m_computedFingerprint := by
      constructor
      · rintro ⟨j, hj, hid, hfp⟩
        exact ⟨j, (hJmem j).mpr ⟨hj, hid⟩, hfp⟩
      · rintro ⟨j, hj, hfp⟩
        exact ⟨j, ((hJmem j).mp hj).1, ((hJmem j).mp hj).2, hfp⟩
    rw [hprod, hjob]
    cases J with
    | nil => simp
    | cons j0 tl =>
      have htl : tl = [] := by
        cases tl with
        | nil => rfl
        | cons a b => simp at hunique
      subst htl
      by_cases hfp : j0.m_fingerprint = jobDetails.m_jobEntry.m_computedFingerprint
      · simp only [List.isEmpty_cons, Bool.not_false, List.head?_cons, Option.map_some',
          hfp, and_self, if_true, List.mem_singleton, exists_eq_left, true_and]
        cases hPe : P with
        | nil => simp
        | cons p0 ptl =>
          simp only [List.isEmpty_cons, Bool.not_false, if_true]
          exact foldl_missing_product productExists (p0 :: ptl) false |>.trans (by simp)
      · simp [hfp]
  · intro env GenerateFingerprint absoluteFilePath edges cache jobFingerprintMap trackers
    obtain ⟨r, hr⟩ := QueryAbsolutePathDependenciesRecursive_total env edges
      jobDetails.m_jobEntry.m_databaseSourceName jobDetails.m_fingerprintFiles
      TypeOfDependency.DEP_SourceToSource false
    unfold ProcessJob
    simp only [hr]
    split
    · rename_i h
      exact ⟨_, rfl, fun _ => ⟨rfl, rfl, rfl⟩, fun h' => by simp [h] at h'⟩
    · rename_i h
      exact ⟨_, rfl, fun h' => absurd h' h, fun _ => ⟨rfl, rfl⟩⟩

/-- C10, on a run: the job ran before with the same fingerprint and its product is on disk, so
it is dropped; when the product is gone it is processed. -/
theorem AnalyzeJob_false_iff_witness :
    AnalyzeJob demoJobTable demoProductTable (fun _ => true) demoJob = false ∧
    AnalyzeJob demoJobTable demoProductTable (fun _ => false) demoJob ≠ false :=
  ⟨(AnalyzeJob_false_iff demoJobTable demoProductTable (fun _ => true) demoJob
      (by decide)).1.mpr
    ⟨⟨demoJobRow, by decide, by decide, by decide⟩, fun _ _ _ => rfl⟩,
   fun h => by
    have := ((AnalyzeJob_false_iff demoJobTable demoProductTable (fun _ => false) demoJob
      (by decide)).1.mp h).2 demoProductRow (by decide) (by decide)
    exact absurd this (by decide)⟩

/-! ## The file change queue: the debounce invariant -/

theorem mem_setInsert {κ : Type} [DecidableEq κ] (s : List κ) (k x : κ) :
    x ∈ setInsert s k ↔ x = k ∨ x ∈ s := by
  unfold setInsert
  split
  · rename_i h
    constructor
    · exact Or.inr
    · rintro (rfl | h')
      · exact h
      · exact h'
  · simp [or_comm]

theorem mem_setRemove {κ : Type} [DecidableEq κ] (s : List κ) (k x : κ) :
    x ∈ setRemove s k ↔ x ∈ s ∧ x ≠ k := by
  simp [setRemove]

theorem eraseFirstNamed_eq_filter (l : List FileEntry) (name : Str)
    (h : (fileNames l).Nodup) :
    eraseFirstNamed l name = l.filter (fun e => decide (e.m_fileName ≠ name)) := by
  induction l with
  | nil => rfl
  | cons e tl ih =>
    simp only [fileNames, List.map_cons, List.nodup_cons] at h
    by_cases he : e.m_fileName = name
    · have hnot : ∀ x ∈ tl, x.m_fileName ≠ name := by
        intro x hx hxn
        exact h.1 (List.mem_map.mpr ⟨x, hx, by rw [hxn, he]⟩)
      simp only [eraseFirstNamed, he, if_true, List.filter_cons, ne_eq, not_true_eq_false,
        decide_False, Bool.false_eq_true, if_false]
      symm
      rw [List.filter_eq_self]
      intro x hx
      simpa using hnot x hx
    · simp only [eraseFirstNamed, he, if_false, List.filter_cons, ne_eq, not_false_eq_true,
        decide_True, if_true]
      rw [ih h.2]

theorem filter_ne_of_not_mem (l : List FileEntry) (name : Str) (h : name ∉ fileNames l) :
    l.filter (fun e => decide (e.m_fileName ≠ name)) = l := by
  rw [List.filter_eq_self]
  intro x hx
  simp only [ne_eq, decide_eq_true_eq]
  intro hxn
  exact h (List.mem_map.mpr ⟨x, hx, hxn⟩)

theorem fileNames_filter_ne (l : List FileEntry) (name : Str) :
    fileNames (l.filter (fun e => decide (e.m_fileName ≠ name)))
      = (fileNames l).filter (fun n => decide (n ≠ name)) := by
  induction l with
  | nil => rfl
  | cons e tl ih =>
    by_cases he : e.m_fileName = name
    · simp [fileNames, List.filter_cons, he] at ih ⊢
      exact ih
    · simp [fileNames, List.filter_cons, he] at ih ⊢
      exact ih

/-- The active-file list after a notification that is not dropped: the entries of other paths
in their order, then the new entry. -/
theorem AssessFileInternal_activeFiles (env : FileEnv) (qenv : QueueEnv) (s : QueueState)
    (fullFile : Str) (isDelete fromScanner : Bool) (hinv : QueueInvariant s)
    (hquit : s.m_quitRequested = false)
    (hexcl : fromScanner = true ∨ qenv.IsFileExcluded (qenv.NormalizeFilePath fullFile) = false) :
    (AssessFileInternal env qenv s fullFile isDelete fromScanner).m_activeFiles
      = s.m_activeFiles.filter
          (fun e => decide (e.m_fileName ≠ qenv.NormalizeFilePath fullFile))
        ++ [{ m_fileName := qenv.NormalizeFilePath fullFile, m_isDelete := isDelete,
              m_isFromScanner := fromScanner }] ∧
    (AssessFileInternal env qenv s fullFile isDelete fromScanner).m_alreadyActiveFiles
      = setInsert s.m_alreadyActiveFiles (qenv.NormalizeFilePath fullFile) ∧
    (AssessFileInternal env qenv s fullFile isDelete fromScanner).m_filesToExamine
      = s.m_filesToExamine := by
  have hex : ¬ ((!fromScanner) = true ∧
      qenv.IsFileExcluded (qenv.NormalizeFilePath fullFile) = true) := by
    rcases hexcl with h | h <;> simp [h]
  unfold AssessFileInternal
  simp only [hquit, Bool.false_eq_true, if_false, hex]
  refine ⟨?_, trivial, trivial⟩
  by_cases hmem : qenv.NormalizeFilePath fullFile ∈ s.m_alreadyActiveFiles
  · simp only [hmem, if_true]
    rw [eraseFirstNamed_eq_filter _ _ hinv.1]
  · simp only [hmem, if_false]
    rw [filter_ne_of_not_mem _ _ (fun h => hmem ((hinv.2.1 _).mpr h))]

/-- A notification keeps the debounce invariant. -/
theorem AssessFileInternal_invariant (env : FileEnv) (qenv : QueueEnv) (s : QueueState)
    (fullFile : Str) (isDelete fromScanner : Bool) (hinv : QueueInvariant s) :
    QueueInvariant (AssessFileInternal env qenv s fullFile isDelete fromScanner) := by
  by_cases hquit : s.m_quitRequested = true
  · simp [AssessFileInternal, hquit, hinv]
  by_cases hex : (!fromScanner) = true ∧
      qenv.IsFileExcluded (qenv.NormalizeFilePath fullFile) = true
  · simp [AssessFileInternal, hquit, hex, hinv]
  have hquit' : s.m_quitRequested = false := by simpa using hquit
  have hexcl : fromScanner = true ∨
      qenv.IsFileExcluded (qenv.NormalizeFilePath fullFile) = false := by
    cases fromScanner <;> simp_all
  obtain ⟨h1, h2, h3⟩ := AssessFileInternal_activeFiles env qenv s fullFile isDelete
    fromScanner hinv hquit' hexcl
  refine ⟨?_, ?_, ?_⟩
  · rw [h1]
    simp only [fileNames, List.map_append, List.map_cons, List.map_nil]
    have := fileNames_filter_ne s.m_activeFiles (qenv.NormalizeFilePath fullFile)
    simp only [fileNames] at this
    rw [this]
    refine List.Nodup.append (List.Nodup.filter _ hinv.1) (List.nodup_singleton _) ?_
    intro x hx hx'
    simp only [List.mem_singleton] at hx'
    subst hx'
    simp at hx
  · intro p
    rw [h1, h2, mem_setInsert]
    simp only [fileNames, List.map_append, List.map_cons, List.map_nil, List.mem_append,
      List.mem_singleton]
    have := fileNames_filter_ne s.m_activeFiles (qenv.NormalizeFilePath fullFile)
    simp only [fileNames] at this
    rw [this, List.mem_filter, hinv.2.1 p]
    simp only [fileNames, ne_eq, decide_eq_true_eq]
    by_cases hp : p = qenv.NormalizeFilePath fullFile <;> simp [hp]
  · rw [h3]
    exact hinv.2.2

/-- Inside `DispatchFileChange`, a notification for a path that is not in
`m_alreadyActiveFiles` leaves the front entry in place. -/
theorem AssessFileInternal_dispatchInvariant (env : FileEnv) (qenv : QueueEnv)
    (firstEntry : FileEntry) (s : QueueState) (fullFile : Str) (isDelete fromScanner : Bool)
    (h : DispatchInvariant firstEntry s)
    (hq : qenv.NormalizeFilePath fullFile ∉ s.m_alreadyActiveFiles) :
    DispatchInvariant firstEntry (AssessFileInternal env qenv s fullFile isDelete fromScanner) ∧
    (AssessFileInternal env qenv s fullFile isDelete fromScanner).m_filesToExamine
      = s.m_filesToExamine := by
  by_cases hquit : s.m_quitRequested = true
  · simp [AssessFileInternal, hquit, h]
  by_cases hex : (!fromScanner) = true ∧
      qenv.IsFileExcluded (qenv.NormalizeFilePath fullFile) = true
  · simp [AssessFileInternal, hquit, hex, h]
  obtain ⟨rest, hactive, hnodup, haa, hkeys⟩ := h
  have hquit' : s.m_quitRequested = false := by simpa using hquit
  unfold AssessFileInternal
  simp only [hquit', Bool.false_eq_true, if_false, hex, hq]
  refine ⟨⟨rest ++ [(⟨qenv.NormalizeFilePath fullFile, isDelete, fromScanner⟩ : FileEntry)],
    ?_, ?_, ?_, hkeys⟩, trivial⟩
  · simp [hactive]
  · simp only [fileNames, List.map_append, List.map_cons, List.map_nil]
    refine List.Nodup.append hnodup (List.nodup_singleton _) ?_
    intro x hx hx'
    simp only [List.mem_singleton] at hx'
    subst hx'
    exact hq ((haa _).mpr hx)
  · intro p
    simp only [mem_setInsert, fileNames, List.map_append, List.map_cons, List.map_nil,
      List.mem_append, List.mem_singleton]
    rw [haa p]
    simp only [fileNames]
    tauto

/-- Inside `DispatchFileChange`, queueing the dependents leaves the front entry in place and
does not touch the examine queue. -/
theorem queueDependents_dispatchInvariant (env : FileEnv) (qenv : QueueEnv)
    (firstEntry : FileEntry) (dependents : List Str)
    (hnorm : ∀ q ∈ dependents, qenv.NormalizeFilePath q = q) :
    ∀ s, DispatchInvariant firstEntry s →
      DispatchInvariant firstEntry (queueDependents env qenv dependents s) ∧
      (queueDependents env qenv dependents s).m_filesToExamine = s.m_filesToExamine := by
  induction dependents with
  | nil => intro s h; exact ⟨h, rfl⟩
  | cons q rest ih =>
    intro s h
    have ih' := ih (fun x hx => hnorm x (List.mem_cons_of_mem _ hx))
    unfold queueDependents
    split
    · exact ih' s h
    · split
      · exact ih' s h
      · split
        · exact ih' s h
        · rename_i _ hnot _
          have hq : qenv.NormalizeFilePath q ∉ s.m_alreadyActiveFiles := by
            rw [hnorm q (List.mem_cons_self _ _)]
            exact hnot
          obtain ⟨h1, h2⟩ := AssessFileInternal_dispatchInvariant env qenv firstEntry s q
            false false h hq
          obtain ⟨h3, h4⟩ := ih' _ h1
          exact ⟨h3, h4.trans h2⟩

theorem GetSourceFilesWhichDependOnSourceFile_normalized (env : FileEnv) (qenv : QueueEnv)
    (edges : List SourceFileDependencyEntry)
    (hnorm : ∀ e ∈ edges, qenv.NormalizeFilePath (env.FindFirstMatchingFile e.m_source)
      = env.FindFirstMatchingFile e.m_source) (sourcePath : Str) :
    ∀ q ∈ GetSourceFilesWhichDependOnSourceFile env qenv edges sourcePath,
      qenv.NormalizeFilePath q = q := by
  intro q hq
  unfold GetSourceFilesWhichDependOnSourceFile at hq
  split at hq
  · obtain ⟨e, he, rfl⟩ := List.mem_map.mp (List.mem_of_mem_filter hq)
    exact hnorm e (List.mem_of_mem_filter he)
  · simp at hq

theorem DispatchInvariant_congr (firstEntry : FileEntry) (s s' : QueueState)
    (h1 : s'.m_activeFiles = s.m_activeFiles)
    (h2 : s'.m_alreadyActiveFiles = s.m_alreadyActiveFiles)
    (h3 : mapKeys s'.m_filesToExamine = mapKeys s.m_filesToExamine)
    (h : DispatchInvariant firstEntry s) : DispatchInvariant firstEntry s' := by
  obtain ⟨rest, ha, hn, haa, hk⟩ := h
  exact ⟨rest, h1.trans ha, hn, by rw [h2]; exact haa, by rw [h3]; exact hk⟩

/-- Inside `DispatchFileChange`, the end of `CheckSource` leaves the front entry in place. -/
theorem examineLater_dispatchInvariant (env : FileEnv) (qenv : QueueEnv)
    (edges : List SourceFileDependencyEntry)
    (hnorm : ∀ e ∈ edges, qenv.NormalizeFilePath (env.FindFirstMatchingFile e.m_source)
      = env.FindFirstMatchingFile e.m_source)
    (firstEntry source : FileEntry) (path : Str) (s : QueueState)
    (h : DispatchInvariant firstEntry s) :
    DispatchInvariant firstEntry (examineLater env qenv edges s source path) := by
  have h1 : DispatchInvariant firstEntry
      { s with
        m_filesToExamine :=
          mapSet s.m_filesToExamine path
            ⟨path, source.m_isDelete, source.m_isFromScanner⟩ } := by
    obtain ⟨rest, ha, hn, haa, hk⟩ := h
    exact ⟨rest, ha, hn, haa, nodup_mapKeys_mapSet _ _ _ hk⟩
  unfold examineLater
  refine DispatchInvariant_congr firstEntry _ _ rfl rfl rfl ?_
  split
  · exact (queueDependents_dispatchInvariant env qenv firstEntry _
      (GetSourceFilesWhichDependOnSourceFile_normalized env qenv edges hnorm path) _ h1).1
  · exact h1

/-- Inside `DispatchFileChange`, `CheckSource` leaves the front entry in place. -/
theorem CheckSource_dispatchInvariant (env : FileEnv) (qenv : QueueEnv)
    (edges : List SourceFileDependencyEntry)
    (hnorm : ∀ e ∈ edges, qenv.NormalizeFilePath (env.FindFirstMatchingFile e.m_source)
      = env.FindFirstMatchingFile e.m_source)
    (firstEntry source : FileEntry) (s : QueueState) (h : DispatchInvariant firstEntry s) :
    DispatchInvariant firstEntry (CheckSource env qenv edges s source) := by
  unfold CheckSource
  simp only
  split
  · exact h
  · split
    · exact h
    · exact examineLater_dispatchInvariant env qenv edges hnorm firstEntry source _ s h

/-- One round of the loop of `DispatchFileChange` keeps the debounce invariant. -/
theorem dispatchStep_invariant (env : FileEnv) (qenv : QueueEnv)
    (edges : List SourceFileDependencyEntry)
    (hnorm : ∀ e ∈ edges, qenv.NormalizeFilePath (env.FindFirstMatchingFile e.m_source)
      = env.FindFirstMatchingFile e.m_source)
    (s : QueueState) (firstEntry : FileEntry) (rest : List FileEntry)
    (hinv : QueueInvariant s) (hact : s.m_activeFiles = firstEntry :: rest) :
    QueueInvariant (dispatchStep env qenv edges s firstEntry) := by
  have hd : DispatchInvariant firstEntry
      { s with m_alreadyActiveFiles :=
          setRemove s.m_alreadyActiveFiles firstEntry.m_fileName } := by
    obtain ⟨h1, h2, h3⟩ := hinv
    rw [hact] at h1
    simp only [fileNames, List.map_cons, List.nodup_cons] at h1
    refine ⟨rest, hact, h1.2, ?_, h3⟩
    intro p
    simp only [mem_setRemove]
    rw [h2 p, hact]
    simp only [fileNames, List.map_cons, List.mem_cons]
    constructor
    · rintro ⟨hp | hp, hne⟩
      · exact absurd hp hne
      · exact hp
    · intro hp
      refine ⟨Or.inr hp, ?_⟩
      rintro rfl
      exact h1.1 hp
  obtain ⟨rest', ha', hn', haa', hk'⟩ := CheckSource_dispatchInvariant env qenv edges
    hnorm firstEntry firstEntry _ hd
  unfold dispatchStep
  refine ⟨?_, ?_, hk'⟩
  · simp only [ha', List.tail_cons]
    exact hn'
  · simp only [ha', List.tail_cons]
    exact haa'

/-- The loop of `DispatchFileChange` keeps the debounce invariant. -/
theorem dispatchLoop_invariant (env : FileEnv) (qenv : QueueEnv)
    (edges : List SourceFileDependencyEntry)
    (hnorm : ∀ e ∈ edges, qenv.NormalizeFilePath (env.FindFirstMatchingFile e.m_source)
      = env.FindFirstMatchingFile e.m_source) :
    ∀ (fuel : Nat) (s s' : QueueState), QueueInvariant s →
      dispatchLoop env qenv edges fuel s = DispatchResult.done s' → QueueInvariant s' := by
  intro fuel
  induction fuel with
  | zero => intro s s' _ h; simp [dispatchLoop] at h
  | succ fuel ih =>
    intro s s' hinv h
    rw [dispatchLoop] at h
    split at h
    · cases hact : s.m_activeFiles with
      | nil => rw [hact] at h; simp at h
      | cons firstEntry rest =>
        rw [hact] at h
        simp only at h
        have hstep := dispatchStep_invariant env qenv edges hnorm s firstEntry rest hinv hact
        split at h
        · cases h
          exact hstep
        · exact ih _ _ hstep h
    · cases h
      exact hinv

/-- A completed call of `DispatchFileChange` keeps the debounce invariant. -/
theorem DispatchFileChange_invariant (env : FileEnv) (qenv : QueueEnv)
    (edges : List SourceFileDependencyEntry)
    (hnorm : ∀ e ∈ edges, qenv.NormalizeFilePath (env.FindFirstMatchingFile e.m_source)
      = env.FindFirstMatchingFile e.m_source)
    (fuel : Nat) (s s' : QueueState) (hinv : QueueInvariant s)
    (h : DispatchFileChange env qenv edges fuel s = DispatchResult.done s') :
    QueueInvariant s' := by
  unfold DispatchFileChange at h
  split at h
  · cases h
    exact hinv
  · split at h
    · cases h
    · cases hloop : dispatchLoop env qenv edges fuel s with
      | done s1 =>
        rw [hloop] at h
        simp only at h
        cases h
        have := dispatchLoop_invariant env qenv edges hnorm fuel s s1 hinv hloop
        exact ⟨this.1, this.2.1, this.2.2⟩
      | frontOfEmptyList => rw [hloop] at h; simp at h
      | noFuel => rw [hloop] at h; simp at h

theorem AssessFileInternal_filesToExamine (env : FileEnv) (qenv : QueueEnv) (s : QueueState)
    (fullFile : Str) (isDelete fromScanner : Bool) :
    (AssessFileInternal env qenv s fullFile isDelete fromScanner).m_filesToExamine
      = s.m_filesToExamine := by
  unfold AssessFileInternal
  split
  · rfl
  · simp only
    split <;> rfl

theorem queueDependents_filesToExamine (env : FileEnv) (qenv : QueueEnv)
    (dependents : List Str) :
    ∀ s, (queueDependents env qenv dependents s).m_filesToExamine = s.m_filesToExamine := by
  induction dependents with
  | nil => intro s; rfl
  | cons q rest ih =>
    intro s
    unfold queueDependents
    split
    · exact ih s
    · split
      · exact ih s
      · split
        · exact ih s
        · rw [ih, AssessFileInternal_filesToExamine]

theorem examineLater_filesToExamine (env : FileEnv) (qenv : QueueEnv)
    (edges : List SourceFileDependencyEntry) (s : QueueState) (source : FileEntry)
    (path : Str) :
    (examineLater env qenv edges s source path).m_filesToExamine
      = mapSet s.m_filesToExamine path
          { m_fileName := path, m_isDelete := source.m_isDelete,
            m_isFromScanner := source.m_isFromScanner } := by
  unfold examineLater
  simp only
  split
  · rw [queueDependents_filesToExamine]
  · rfl

/-- Sequences of notifications and completed calls of `DispatchFileChange` keep the debounce
invariant. -/
theorem runQueueOps_invariant (env : FileEnv) (qenv : QueueEnv)
    (edges : List SourceFileDependencyEntry)
    (hnorm : ∀ e ∈ edges, qenv.NormalizeFilePath (env.FindFirstMatchingFile e.m_source)
      = env.FindFirstMatchingFile e.m_source) :
    ∀ (ops : List QueueOp) (s0 s : QueueState), QueueInvariant s0 →
      runQueueOps env qenv edges ops s0 = some s → QueueInvariant s := by
  intro ops
  induction ops with
  | nil =>
    intro s0 s h0 h
    simp only [runQueueOps, Option.some.injEq] at h
    rw [← h]
    exact h0
  | cons op rest ih =>
    intro s0 s h0 h
    cases op with
    | assess fullFile isDelete fromScanner =>
      rw [runQueueOps] at h
      exact ih _ _ (AssessFileInternal_invariant env qenv s0 fullFile isDelete fromScanner h0) h
    | dispatch fuel =>
      rw [runQueueOps] at h
      cases hd : DispatchFileChange env qenv edges fuel s0 with
      | done s1 =>
        rw [hd] at h
        exact ih _ _ (DispatchFileChange_invariant env qenv edges hnorm fuel s0 s1 h0 hd) h
      | frontOfEmptyList => rw [hd] at h; simp at h
      | noFuel => rw [hd] at h; simp at h

/-- C9: the debounce invariant. From the empty queues, after any sequence of `AssessFileInternal`
calls and completed `DispatchFileChange` calls, the active-file list holds at most one entry per
normalised path and `m_alreadyActiveFiles` is exactly the set of paths of the list (and the
examine queue has one entry per path); a notification that is not dropped (quit not requested,
path not excluded) leaves the other entries in their order and puts the entry of the notified
path, with the flags of this notification, behind them; and `CheckSource` leaves in
`m_filesToExamine` one entry per path, the one of the examined path carrying the flags of the
entry just checked. The paths that `FindFirstMatchingFile` gives for the sources of the
dependency table are normalised. -/
theorem debounce_invariant (env : FileEnv) (qenv : QueueEnv)
    (edges : List SourceFileDependencyEntry)
    (hnorm : ∀ e ∈ edges, qenv.NormalizeFilePath (env.FindFirstMatchingFile e.m_source)
      = env.FindFirstMatchingFile e.m_source) :
    (∀ (ops : List QueueOp) (s : QueueState),
      runQueueOps env qenv edges ops {} = some s → QueueInvariant s) ∧
    (∀ (s : QueueState) (fullFile : Str) (isDelete fromScanner : Bool),
      QueueInvariant s → s.m_quitRequested = false →
      (fromScanner = true ∨ qenv.IsFileExcluded (qenv.NormalizeFilePath fullFile) = false) →
      (AssessFileInternal env qenv s fullFile isDelete fromScanner).m_activeFiles
        = s.m_activeFiles.filter
            (fun e => decide (e.m_fileName ≠ qenv.NormalizeFilePath fullFile))
          ++ [{ m_fileName := qenv.NormalizeFilePath fullFile, m_isDelete := isDelete,
                m_isFromScanner := fromScanner }]) ∧
    (∀ (s : QueueState) (source : FileEntry) (path : Str),
      (mapKeys s.m_filesToExamine).Nodup →
      (source.m_isFromScanner = true
        ∨ qenv.IsFileExcluded (qenv.NormalizeFilePath source.m_fileName) = false) →
      resolveMetaDataFile env qenv (qenv.NormalizeFilePath source.m_fileName)
        env.metaDataFileTypes = some path →
      (mapKeys (CheckSource env qenv edges s source).m_filesToExamine).Nodup ∧
      mapFind (CheckSource env qenv edges s source).m_filesToExamine path
        = some { m_fileName := path, m_isDelete := source.m_isDelete,
                 m_isFromScanner := source.m_isFromScanner }) := by
  refine ⟨?_, ?_, ?_⟩
  · intro ops s h
    refine runQueueOps_invariant env qenv edges hnorm ops {} s ?_ h
    refine ⟨?_, ?_, ?_⟩ <;> simp [fileNames, mapKeys]
  · intro s fullFile isDelete fromScanner hinv hquit hexcl
    exact (AssessFileInternal_activeFiles env qenv s fullFile isDelete fromScanner hinv hquit
      hexcl).1
  · intro s source path hk hexcl hres
    have hex : ¬ ((!source.m_isFromScanner) = true ∧
        qenv.IsFileExcluded (qenv.NormalizeFilePath source.m_fileName) = true) := by
      rcases hexcl with h | h <;> simp [h]
    have hcs : CheckSource env qenv edges s source
        = examineLater env qenv edges s source path := by
      unfold CheckSource
      simp only [hex, if_false, hres]
    rw [hcs, examineLater_filesToExamine]
    exact ⟨nodup_mapKeys_mapSet _ _ _ hk, by simp [mapFind_mapSet]⟩

/-- C9, on a run: `b.txt` is notified as modified, then `a.txt`, then `b.txt` as deleted; one
call of `DispatchFileChange` follows. -/
theorem debounce_invariant_witness :
    (AssessFileInternal demoEnv demoQueueEnv
        (AssessFileInternal demoEnv demoQueueEnv
          (AssessFileInternal demoEnv demoQueueEnv {} "/dev/game/b.txt".toList false false)
          "/dev/game/a.txt".toList false false)
        "/dev/game/b.txt".toList true false).m_activeFiles
      = [{ m_fileName := "/dev/game/a.txt".toList },
         { m_fileName := "/dev/game/b.txt".toList, m_isDelete := true }] ∧
    ∃ s, runQueueOps demoEnv demoQueueEnv demoEdges
        [QueueOp.assess "/dev/game/b.txt".toList false false,
         QueueOp.assess "/dev/game/a.txt".toList false false,
         QueueOp.assess "/dev/game/b.txt".toList true false,
         QueueOp.dispatch 10] {} = some s ∧ QueueInvariant s :=
  ⟨by decide,
   (runQueueOps demoEnv demoQueueEnv demoEdges
      [QueueOp.assess "/dev/game/b.txt".toList false false,
       QueueOp.assess "/dev/game/a.txt".toList false false,
       QueueOp.assess "/dev/game/b.txt".toList true false,
       QueueOp.dispatch 10] {}).get (by decide),
   (Option.some_get _).symm,
   (debounce_invariant demoEnv demoQueueEnv demoEdges (by decide)).1
      [QueueOp.assess "/dev/game/b.txt".toList false false,
       QueueOp.assess "/dev/game/a.txt".toList false false,
       QueueOp.assess "/dev/game/b.txt".toList true false,
       QueueOp.dispatch 10] _ (Option.some_get _).symm⟩

/-! ## The counter `m_numOfJobsToAnalyze` and the jobs that wait -/

theorem addCreatedJobs_counter (jenv : JobEnv) (normalizedPath : Str)
    (scanFolder : ScanFolderInfo) (actualRelativePath databasePathToFile : Str)
    (sourceUUID : Uuid) (builderInfo : AssetBuilderDesc) (descs : List JobDescriptor)
    (acc : ProcessBuildersLoop)
    (h : (pendingJobs acc.st : Int) + acc.entry.m_jobsToAnalyze.length
      ≤ acc.st.queue.m_numOfJobsToAnalyze) :
    (pendingJobs (addCreatedJobs jenv normalizedPath scanFolder actualRelativePath
        databasePathToFile sourceUUID builderInfo descs acc).st : Int)
      + (addCreatedJobs jenv normalizedPath scanFolder actualRelativePath
        databasePathToFile sourceUUID builderInfo descs acc).entry.m_jobsToAnalyze.length
      ≤ (addCreatedJobs jenv normalizedPath scanFolder actualRelativePath
        databasePathToFile sourceUUID builderInfo descs acc).st.queue.m_numOfJobsToAnalyze := by
  induction descs generalizing acc with
  | nil => simpa [addCreatedJobs] using h
  | cons d rest ih =>
    simp only [addCreatedJobs]
    split
    · apply ih
      simp only [pendingJobs, List.length_append, List.length_singleton, Nat.cast_add,
        Nat.cast_one] at h ⊢
      omega
    · exact ih acc h

theorem processBuildersLoop_counter (ops : UuidOps) (jenv : JobEnv) (normalizedPath : Str)
    (scanFolder : ScanFolderInfo) (actualRelativePath databasePathToFile : Str)
    (sourceUUID : Uuid) (builders : List AssetBuilderDesc) (acc : ProcessBuildersLoop)
    (h : (pendingJobs acc.st : Int) + acc.entry.m_jobsToAnalyze.length
      ≤ acc.st.queue.m_numOfJobsToAnalyze) :
    (pendingJobs (processBuildersLoop ops jenv normalizedPath scanFolder actualRelativePath
        databasePathToFile sourceUUID builders acc).1.st : Int)
      + (processBuildersLoop ops jenv normalizedPath scanFolder actualRelativePath
        databasePathToFile sourceUUID builders acc).1.entry.m_jobsToAnalyze.length
      ≤ (processBuildersLoop ops jenv normalizedPath scanFolder actualRelativePath
        databasePathToFile sourceUUID builders acc).1.st.queue.m_numOfJobsToAnalyze := by
  induction builders generalizing acc with
  | nil => simpa [processBuildersLoop] using h
  | cons b rest ih =>
    simp only [processBuildersLoop]
    split
    · exact ih acc h
    · split
      · apply ih
        simpa [pendingJobs] using h
      · exact h
      · apply ih
        have h2 := addCreatedJobs_counter jenv normalizedPath scanFolder actualRelativePath
          databasePathToFile sourceUUID b (jenv.createJobs b).m_createJobOutputs acc h
        split
        · simpa [pendingJobs] using h2
        · exact h2

theorem AssessFileInternal_counter (env : FileEnv) (qenv : QueueEnv) (s : QueueState)
    (fullFile : Str) (isDelete fromScanner : Bool) :
    (AssessFileInternal env qenv s fullFile isDelete fromScanner).m_numOfJobsToAnalyze
      = s.m_numOfJobsToAnalyze := by
  simp only [AssessFileInternal]
  split
  · rfl
  · split <;> rfl

theorem requeuePlaceholderSources_counter (env : FileEnv) (qenv : QueueEnv)
    (results : List SourceFileDependencyEntry) (queue : QueueState) :
    (requeuePlaceholderSources env qenv results queue).m_numOfJobsToAnalyze
      = queue.m_numOfJobsToAnalyze := by
  induction results generalizing queue with
  | nil => rfl
  | cons resultEntry rest ih =>
    simp only [requeuePlaceholderSources]
    split
    · rw [ih, AssessFileInternal_counter]
    · exact ih queue

theorem UpdateSourceFileDependenciesDatabase_counter (ops : UuidOps) (env : FileEnv)
    (qenv : QueueEnv) (jenv : JobEnv) (edges : List SourceFileDependencyEntry)
    (queue : QueueState) (entry : JobToProcessEntry) :
    (UpdateSourceFileDependenciesDatabase ops env qenv jenv edges queue
        entry).2.m_numOfJobsToAnalyze
      = queue.m_numOfJobsToAnalyze := by
  simp only [UpdateSourceFileDependenciesDatabase, requeuePlaceholderSources_counter]

theorem ProcessBuilders_counter (ops : UuidOps) (env : FileEnv) (qenv : QueueEnv)
    (jenv : JobEnv) (st : ManagerState)
    (normalizedPath databasePathToFile : Str) (scanFolder : ScanFolderInfo)
    (builderInfoList : List AssetBuilderDesc) (h : CounterInvariant st) :
    CounterInvariant (ProcessBuilders ops env qenv jenv st normalizedPath databasePathToFile
      scanFolder builderInfoList).1 := by
  unfold CounterInvariant at h ⊢
  simp only [ProcessBuilders]
  generalize (if (!scanFolder.GetOutputPrefix.isEmpty) = true then
      databasePathToFile.drop (scanFolder.GetOutputPrefix.length + 1)
    else databasePathToFile) = rel
  have h2 := processBuildersLoop_counter ops jenv normalizedPath scanFolder rel
    databasePathToFile
    (jenv.CreateSafeSourceUUIDFromName databasePathToFile) builderInfoList
    { st := { st with
        jobs := { st.jobs with
          m_remainingJobsForEachSourceFile :=
            insertTracker st.jobs.m_remainingJobsForEachSourceFile normalizedPath
              databasePathToFile scanFolder.ScanFolderID builderInfoList } },
      entry := {}, effects := {} }
    (by simpa [pendingJobs] using h)
  split
  · simp only [pendingJobs, Nat.cast_add] at h2 ⊢
    omega
  · simp only [pendingJobs, List.map_append, List.sum_append, List.map_cons, List.map_nil,
      List.sum_cons, List.sum_nil, Nat.cast_add, add_zero,
      UpdateSourceFileDependenciesDatabase_counter] at h2 ⊢
    omega

theorem length_replaceJob (jenv : JobEnv) (jobDetail : JobDetails) (jobs : List JobDetails) :
    (replaceJob jenv jobDetail jobs).length = jobs.length := by
  induction jobs with
  | nil => rfl
  | cons job rest ih =>
    simp only [replaceJob]
    split <;> simp [ih]

theorem AnalyzeJobDetail_counter (ops : UuidOps) (env : FileEnv) (qenv : QueueEnv)
    (jenv : JobEnv) (K : Int) (jobs : List JobDetails) (acc r : ManagerState × List QueuedCall)
    (hr : AnalyzeJobDetail ops env qenv jenv jobs acc = some r)
    (h : K + acc.1.jobs.m_jobsToProcess.length + jobs.length
      ≤ acc.1.queue.m_numOfJobsToAnalyze) :
    K + r.1.jobs.m_jobsToProcess.length ≤ r.1.queue.m_numOfJobsToAnalyze := by
  induction jobs generalizing acc with
  | nil =>
    simp only [AnalyzeJobDetail, Option.some.injEq] at hr
    subst hr
    simpa using h
  | cons jobDetail rest ih =>
    obtain ⟨st, queued⟩ := acc
    simp only [AnalyzeJobDetail] at hr
    split at hr
    · exact absurd hr (by simp)
    · split at hr
      · refine ih _ hr ?_
        simp only [List.length_append, List.length_singleton, List.length_cons,
          List.length_nil, Nat.cast_add, Nat.cast_one, Nat.cast_zero] at h ⊢
        omega
      · refine ih _ hr ?_
        simp only [length_replaceJob, List.length_cons, Nat.cast_add, Nat.cast_one] at h ⊢
        omega

theorem dispatchJobEntries_counter (ops : UuidOps) (env : FileEnv) (qenv : QueueEnv)
    (jenv : JobEnv) (entries : List JobToProcessEntry)
    (acc r : ManagerState × List QueuedCall)
    (hr : dispatchJobEntries ops env qenv jenv entries acc = some r)
    (h : (((entries.map (fun entry => entry.m_jobsToAnalyze.length)).sum : Nat) : Int)
      + acc.1.jobs.m_jobsToProcess.length ≤ acc.1.queue.m_numOfJobsToAnalyze) :
    (r.1.jobs.m_jobsToProcess.length : Int) ≤ r.1.queue.m_numOfJobsToAnalyze := by
  induction entries generalizing acc with
  | nil =>
    simp only [dispatchJobEntries, Option.some.injEq] at hr
    subst hr
    simpa using h
  | cons entry rest ih =>
    obtain ⟨st, queued⟩ := acc
    simp only [dispatchJobEntries] at hr
    simp only [List.map_cons, List.sum_cons, Nat.cast_add] at h
    split at hr
    · refine ih _ hr ?_
      simp only at h ⊢
      omega
    · split at hr
      · exact absurd hr (by simp)
      · rename_i acc2 hacc
        refine ih _ hr ?_
        have h2 := AnalyzeJobDetail_counter ops env qenv jenv
          (((rest.map (fun entry => entry.m_jobsToAnalyze.length)).sum : Nat) : Int)
          entry.m_jobsToAnalyze _ acc2 hacc (by simp only at h ⊢; omega)
        exact h2

theorem processJobOn_frame (env : FileEnv) (jenv : JobEnv) (st st2 : ManagerState)
    (job : JobDetails) (effects : PipelineEffects)
    (h : processJobOn env jenv st job = some (st2, effects)) :
    st2.queue = st.queue ∧ st2.jobs.m_jobEntries = st.jobs.m_jobEntries
      ∧ st2.jobs.m_jobsToProcess = st.jobs.m_jobsToProcess := by
  simp only [processJobOn, Option.map_eq_some', Prod.mk.injEq] at h
  obtain ⟨out, _, h1, _⟩ := h
  subst h1
  exact ⟨rfl, rfl, rfl⟩

theorem processJobsLoop_counter (env : FileEnv) (jenv : JobEnv) (K : Int)
    (jobs : List JobDetails) (acc r : ProcessJobsLoop)
    (hr : processJobsLoop env jenv jobs acc = some r)
    (h : K + acc.kept.length + jobs.length ≤ acc.st.queue.m_numOfJobsToAnalyze) :
    K + r.kept.length ≤ r.st.queue.m_numOfJobsToAnalyze
      ∧ r.st.jobs.m_jobEntries = acc.st.jobs.m_jobEntries := by
  induction jobs generalizing acc with
  | nil =>
    simp only [processJobsLoop, Option.some.injEq] at hr
    subst hr
    exact ⟨by simpa using h, rfl⟩
  | cons job rest ih =>
    simp only [processJobsLoop] at hr
    split at hr
    · split at hr
      · exact absurd hr (by simp)
      · rename_i st2 effects hp
        obtain ⟨hq, he, _⟩ := processJobOn_frame env jenv acc.st st2 job effects hp
        have h2 := ih _ hr (by
          simp only [hq, List.length_cons, Nat.cast_add, Nat.cast_one] at h ⊢
          omega)
        exact ⟨h2.1, by rw [h2.2]; exact he⟩
    · have h2 := ih _ hr (by
        simp only [List.length_append, List.length_singleton, List.length_cons,
          List.length_nil, Nat.cast_add, Nat.cast_one, Nat.cast_zero] at h ⊢
        omega)
      exact ⟨h2.1, h2.2⟩

theorem QueueIdleCheck_frame (st : ManagerState) :
    (QueueIdleCheck st).1.queue = st.queue ∧ (QueueIdleCheck st).1.jobs = st.jobs := by
  unfold QueueIdleCheck
  split <;> exact ⟨rfl, rfl⟩

theorem ProcessJobs_counter (env : FileEnv) (jenv : JobEnv) (st : ManagerState)
    (r : ManagerState × PipelineEffects) (hr : ProcessJobs env jenv st = some r)
    (h : CounterInvariant st) : CounterInvariant r.1 := by
  unfold CounterInvariant pendingJobs at h ⊢
  simp only [ProcessJobs] at hr
  split at hr
  · exact absurd hr (by simp)
  · rename_i looped hl
    have h2 := processJobsLoop_counter env jenv
      (((st.jobs.m_jobEntries.map (fun entry => entry.m_jobsToAnalyze.length)).sum : Nat) : Int)
      st.jobs.m_jobsToProcess { st := st } looped hl (by
        simp only [List.length_nil, Nat.cast_zero, Nat.cast_add] at h ⊢
        omega)
    obtain ⟨hc, he⟩ := h2
    split at hr
    · rename_i job rest hk
      split at hr
      · split at hr
        · exact absurd hr (by simp)
        · rename_i st2 effects hp
          obtain ⟨hq, hje, _⟩ := processJobOn_frame env jenv _ st2 job effects hp
          simp only [Option.some.injEq] at hr
          subst hr
          simp only [hq, hje, he, Nat.cast_add]
          rw [hk] at hc
          simp only [List.length_cons, Nat.cast_add, Nat.cast_one] at hc
          omega
      · simp only [Option.some.injEq] at hr
        subst hr
        simp only [he, Nat.cast_add]
        omega
    · simp only [Option.some.injEq] at hr
      subst hr
      obtain ⟨hq, hj⟩ := QueueIdleCheck_frame
        { looped.st with jobs := { looped.st.jobs with m_jobsToProcess := looped.kept } }
      rw [hq, hj]
      simp only [he, Nat.cast_add]
      omega

theorem CheckForIdle_counter (ops : UuidOps) (env : FileEnv) (qenv : QueueEnv) (jenv : JobEnv)
    (st : ManagerState) (out : CheckForIdleOutcome)
    (hr : CheckForIdle ops env qenv jenv st = some out) (h : CounterInvariant st) :
    CounterInvariant out.st := by
  simp only [CheckForIdle] at hr
  split at hr
  · split at hr <;>
    · simp only [Option.some.injEq] at hr
      subst hr
      exact h
  · split at hr
    · simp only [Option.some.injEq] at hr
      subst hr
      exact h
    · split at hr
      · split at hr
        · exact absurd hr (by simp)
        · rename_i st2 queued hd
          split at hr
          · exact absurd hr (by simp)
          · rename_i st3 effects hp
            simp only [Option.some.injEq] at hr
            subst hr
            have h2 := dispatchJobEntries_counter ops env qenv jenv _ _ _ hd (by
              unfold CounterInvariant pendingJobs at h
              simpa using h)
            exact ProcessJobs_counter env jenv _ _ hp (by
              unfold CounterInvariant pendingJobs
              simpa using h2)
      · simp only [Option.some.injEq] at hr
        subst hr
        exact h

theorem runPipeline_counter (ops : UuidOps) (env : FileEnv) (qenv : QueueEnv) (jenv : JobEnv)
    (steps : List PipelineOp) (start st : ManagerState)
    (hr : runPipeline ops env qenv jenv steps start = some st) (h : CounterInvariant start) :
    CounterInvariant st := by
  induction steps generalizing start with
  | nil =>
    simp only [runPipeline, Option.some.injEq] at hr
    subst hr
    exact h
  | cons op rest ih =>
    simp only [runPipeline] at hr
    split at hr
    · exact absurd hr (by simp)
    · rename_i st2 hs
      refine ih st2 hr ?_
      cases op with
      | processBuilders normalizedPath databasePathToFile scanFolder builderInfoList =>
        simp only [pipelineStep, Option.some.injEq] at hs
        subst hs
        exact ProcessBuilders_counter ops env qenv jenv start _ _ _ _ h
      | checkForIdle =>
        simp only [pipelineStep, Option.map_eq_some'] at hs
        obtain ⟨out, ho, rfl⟩ := hs
        exact CheckForIdle_counter ops env qenv jenv start out ho h
      | processJobs =>
        simp only [pipelineStep, Option.map_eq_some'] at hs
        obtain ⟨out, ho, rfl⟩ := hs
        exact ProcessJobs_counter env jenv start out ho h
      | fileQueue queue =>
        simp only [pipelineStep, Option.some.injEq] at hs
        subst hs
        exact h

theorem IsIdle_eq_true_iff (st : ManagerState) :
    IsIdle st = true ↔
      st.queue.m_queuedExamination = false ∧ st.queue.m_filesToExamine = []
        ∧ st.queue.m_activeFiles = [] ∧ st.queue.m_processedQueued = false
        ∧ st.queue.m_assetProcessedList = [] ∧ st.queue.m_numOfJobsToAnalyze = 0 := by
  simp only [IsIdle, Bool.and_eq_true, Bool.not_eq_true', List.isEmpty_iff, decide_eq_true_eq,
    ite_eq_left_iff, Bool.false_eq_true, imp_false, not_not]
  tauto

/-- C8 (amended): in every state that the manager reaches from its start by calls of
`ProcessBuilders`, `CheckForIdle` and `ProcessJobs` and by steps of the file queue code, if
`IsIdle` returns true then the examine queue and the active-file list are empty, no examination
is queued, no processed asset waits, the counter `m_numOfJobsToAnalyze` is zero,
`m_jobsToProcess` is empty and every batch still in `m_jobEntries` has no job to analyse; and
`CheckForIdle` then returns, takes its idle branch (it never emits the state `false`; it emits
`true` exactly when quit is not requested and the manager was busy) and leaves the batches, the
jobs and the trackers as they are. Nothing is said of `m_jobEntries` being empty or of the
remaining-job counts of the trackers: `IsIdle` reads neither. -/
theorem IsIdle_contract (ops : UuidOps) (env : FileEnv) (qenv : QueueEnv) (jenv : JobEnv)
    (steps : List PipelineOp) (st : ManagerState)
    (hrun : runPipeline ops env qenv jenv steps {} = some st)
    (hidle : IsIdle st = true) :
    st.queue.m_filesToExamine = [] ∧ st.queue.m_activeFiles = []
      ∧ st.queue.m_queuedExamination = false ∧ st.queue.m_processedQueued = false
      ∧ st.queue.m_assetProcessedList = [] ∧ st.queue.m_numOfJobsToAnalyze = 0
      ∧ st.jobs.m_jobsToProcess = []
      ∧ (∀ entry ∈ st.jobs.m_jobEntries, entry.m_jobsToAnalyze = [])
      ∧ ∃ out, CheckForIdle ops env qenv jenv st = some out
          ∧ out.st.jobs = st.jobs
          ∧ out.idleState ≠ some false
          ∧ (out.idleState = some true ↔
              (st.queue.m_quitRequested = false ∧ st.queue.m_AssetProcessorIsBusy = true))
          ∧ IsIdle out.st = true := by
  have hinv : CounterInvariant st :=
    runPipeline_counter ops env qenv jenv steps {} st hrun (by
      unfold CounterInvariant pendingJobs
      decide)
  obtain ⟨h1, h2, h3, h4, h5, h6⟩ := (IsIdle_eq_true_iff st).1 hidle
  unfold CounterInvariant pendingJobs at hinv
  rw [h6] at hinv
  have hsum : (st.jobs.m_jobEntries.map (fun entry => entry.m_jobsToAnalyze.length)).sum = 0 := by
    omega
  have hlen : st.jobs.m_jobsToProcess.length = 0 := by omega
  refine ⟨h2, h3, h1, h4, h5, h6, List.length_eq_zero.1 hlen, ?_, ?_⟩
  · intro entry he
    apply List.length_eq_zero.1
    exact List.sum_eq_zero_iff.1 hsum _ (List.mem_map_of_mem _ he)
  · have hidle2 : IsIdle { st with m_alreadyQueuedCheckForIdle := false } = true := hidle
    simp only [CheckForIdle, hidle2, if_true]
    by_cases hb : st.queue.m_quitRequested = false ∧ st.queue.m_AssetProcessorIsBusy = true
    · refine ⟨_, if_pos (by simpa using hb), rfl, by simp, by simp [hb], ?_⟩
      exact (IsIdle_eq_true_iff _).2 ⟨h1, h2, h3, h4, h5, h6⟩
    · refine ⟨_, if_neg (by simpa using hb), rfl, by simp, by simp [hb], hidle⟩

set_option maxRecDepth 100000 in
/-- C8, on a run: after `a.txt` went to the text builder, `CheckForIdle` handed its job on and
`c.cfg` went to the copy builder, `IsIdle` returns true, and nothing waits in
`m_jobsToProcess`. -/
theorem IsIdle_contract_witness :
    ∃ st, runPipeline stdUuid demoEnv demoQueueEnv demoJobEnv demoPipeline {} = some st
      ∧ IsIdle st = true
      ∧ st.queue.m_numOfJobsToAnalyze = 0
      ∧ st.jobs.m_jobsToProcess = []
      ∧ ∀ entry ∈ st.jobs.m_jobEntries, entry.m_jobsToAnalyze = [] :=
  ⟨(runPipeline stdUuid demoEnv demoQueueEnv demoJobEnv demoPipeline {}).get (by decide),
   (Option.some_get _).symm,
   by decide,
   (IsIdle_contract stdUuid demoEnv demoQueueEnv demoJobEnv demoPipeline _
      (Option.some_get _).symm (by decide)).2.2.2.2.2.1,
   (IsIdle_contract stdUuid demoEnv demoQueueEnv demoJobEnv demoPipeline _
      (Option.some_get _).symm (by decide)).2.2.2.2.2.2.1,
   (IsIdle_contract stdUuid demoEnv demoQueueEnv demoJobEnv demoPipeline _
      (Option.some_get _).symm (by decide)).2.2.2.2.2.2.2.1⟩

set_option maxRecDepth 100000 in
/-- C8 as stated fails: after `a.txt` went to the text builder, `CheckForIdle` handed its one
job on for processing and `c.cfg` went to the copy builder, which creates no job, `IsIdle`
returns true and `CheckForIdle` emits the idle state, while `m_jobEntries` still holds the batch
of `c.cfg` and the tracker of `a.txt` still counts one remaining job. -/
theorem IsIdle_true_with_pending_batch_and_tracker :
    ∃ st out, runPipeline stdUuid demoEnv demoQueueEnv demoJobEnv demoPipeline {} = some st
      ∧ IsIdle st = true
      ∧ CheckForIdle stdUuid demoEnv demoQueueEnv demoJobEnv st = some out
      ∧ out.idleState = some true
      ∧ st.jobs.m_jobEntries.length = 1
      ∧ out.st.jobs.m_jobEntries.length = 1
      ∧ (mapFind st.jobs.m_remainingJobsForEachSourceFile "/dev/game/a.txt".toList).map
          (fun tracker => tracker.m_remainingJobsSpawned) = some 1 :=
  ⟨(runPipeline stdUuid demoEnv demoQueueEnv demoJobEnv demoPipeline {}).get (by decide),
   (CheckForIdle stdUuid demoEnv demoQueueEnv demoJobEnv
      ((runPipeline stdUuid demoEnv demoQueueEnv demoJobEnv demoPipeline {}).get
        (by decide))).get (by decide),
   (Option.some_get _).symm, by decide, (Option.some_get _).symm, by decide, by decide,
   by decide, by decide⟩

/-! ## The order of job processing: `CanAnalyzeJob` and `ProcessJobs` -/

theorem processJobOn_total (env : FileEnv) (jenv : JobEnv) (st : ManagerState)
    (job : JobDetails) : ∃ r, processJobOn env jenv st job = some r := by
  obtain ⟨out, ho⟩ := ProcessJob_total env jenv.GenerateFingerprint jenv.absoluteFilePath
    jenv.productExists st.edges st.queue.m_metaCache st.jobTable st.productTable
    st.jobs.m_jobFingerprintMap st.jobs.m_remainingJobsForEachSourceFile job
  simp only [processJobOn, ho, Option.map_some']
  exact ⟨_, rfl⟩

theorem processJobsLoop_total (env : FileEnv) (jenv : JobEnv) (jobs : List JobDetails)
    (acc : ProcessJobsLoop) : ∃ r, processJobsLoop env jenv jobs acc = some r := by
  induction jobs generalizing acc with
  | nil => exact ⟨acc, rfl⟩
  | cons job rest ih =>
    simp only [processJobsLoop]
    split
    · obtain ⟨⟨st2, effects⟩, hp⟩ := processJobOn_total env jenv acc.st job
      simp only [hp]
      exact ih _
    · exact ih _

theorem ProcessJobs_total (env : FileEnv) (jenv : JobEnv) (st : ManagerState) :
    ∃ r, ProcessJobs env jenv st = some r := by
  obtain ⟨looped, hl⟩ := processJobsLoop_total env jenv st.jobs.m_jobsToProcess { st := st }
  simp only [ProcessJobs, hl]
  split
  · split
    · rename_i job rest hk hany
      obtain ⟨⟨st2, effects⟩, hp⟩ := processJobOn_total env jenv
        { looped.st with jobs := { looped.st.jobs with m_jobsToProcess := looped.kept } } job
      simp only [hp]
      exact ⟨_, rfl⟩
    · exact ⟨_, rfl⟩
  · exact ⟨_, rfl⟩

theorem processJobsLoop_trace (env : FileEnv) (jenv : JobEnv) (jobs : List JobDetails)
    (acc r : ProcessJobsLoop) (hr : processJobsLoop env jenv jobs acc = some r) :
    ∃ news passed : List ProcessedJob,
      r.effects.processed = acc.effects.processed ++ news
      ∧ r.effects.passedOver = acc.effects.passedOver ++ passed
      ∧ r.kept = acc.kept ++ passed.map (fun p => p.job)
      ∧ (news.map (fun p => p.job) ++ passed.map (fun p => p.job)).Perm jobs
      ∧ (∀ p ∈ news, p.forced = false ∧ CanAnalyzeJob p.m_jobFingerprintMap p.job = true)
      ∧ (∀ p ∈ passed, CanAnalyzeJob p.m_jobFingerprintMap p.job = false)
      ∧ (news = [] → r.anyJobAnalyzed = acc.anyJobAnalyzed
          ∧ r.st.jobs.m_jobFingerprintMap = acc.st.jobs.m_jobFingerprintMap
          ∧ passed.map (fun p => p.job) = jobs
          ∧ ∀ p ∈ passed, p.m_jobFingerprintMap = acc.st.jobs.m_jobFingerprintMap)
      ∧ (news ≠ [] → r.anyJobAnalyzed = true) := by
  induction jobs generalizing acc with
  | nil =>
    simp only [processJobsLoop, Option.some.injEq] at hr
    subst hr
    exact ⟨[], [], by simp, by simp, by simp, by simp, by simp, by simp, by simp, by simp⟩
  | cons job rest ih =>
    simp only [processJobsLoop] at hr
    split at hr
    · rename_i hcan
      split at hr
      · exact absurd hr (by simp)
      · obtain ⟨news, passed, h1, h2, h3, h4, h5, h6, h7, h8⟩ := ih _ hr
        refine ⟨⟨job, acc.st.jobs.m_jobFingerprintMap, false⟩ :: news, passed, ?_, ?_, ?_, ?_,
          ?_, h6, by simp, ?_⟩
        · simpa using h1
        · simpa using h2
        · simpa using h3
        · simpa using h4
        · intro p hp
          rcases List.mem_cons.1 hp with rfl | hp
          · exact ⟨rfl, hcan⟩
          · exact h5 p hp
        · intro _
          by_cases hn : news = []
          · exact (h7 hn).1
          · exact h8 hn
    · rename_i hcan
      obtain ⟨news, passed, h1, h2, h3, h4, h5, h6, h7, h8⟩ := ih _ hr
      refine ⟨news, ⟨job, acc.st.jobs.m_jobFingerprintMap, false⟩ :: passed, ?_, ?_, ?_, ?_,
        h5, ?_, ?_, h8⟩
      · simpa using h1
      · simpa using h2
      · simpa using h3
      · simp only [List.map_cons]
        exact (List.perm_middle.trans (List.Perm.cons job h4))
      · intro p hp
        rcases List.mem_cons.1 hp with rfl | hp
        · simpa using hcan
        · exact h6 p hp
      · intro hn
        obtain ⟨ha, hm, hj, hp⟩ := h7 hn
        refine ⟨ha, hm, by simp [hj], ?_⟩
        intro p hp2
        rcases List.mem_cons.1 hp2 with rfl | hp2
        · rfl
        · exact hp p hp2

theorem ProcessJobs_trace (env : FileEnv) (jenv : JobEnv) (st : ManagerState)
    (r : ManagerState × PipelineEffects) (hr : ProcessJobs env jenv st = some r) :
    (∀ p ∈ r.2.passedOver, CanAnalyzeJob p.m_jobFingerprintMap p.job = false)
    ∧ (∀ p ∈ r.2.processed, p.forced = false →
        CanAnalyzeJob p.m_jobFingerprintMap p.job = true)
    ∧ (∀ p ∈ r.2.processed, p.forced = true →
        r.2.processed = [p] ∧ st.jobs.m_jobsToProcess.head? = some p.job
          ∧ p.m_jobFingerprintMap = st.jobs.m_jobFingerprintMap
          ∧ (∀ job ∈ st.jobs.m_jobsToProcess,
              CanAnalyzeJob st.jobs.m_jobFingerprintMap job = false)
          ∧ r.1.jobs.m_jobsToProcess = st.jobs.m_jobsToProcess.tail)
    ∧ ((∀ p ∈ r.2.processed, p.forced = false) →
        r.1.jobs.m_jobsToProcess = r.2.passedOver.map (fun p => p.job))
    ∧ (r.2.processed.map (fun p => p.job) ++ r.1.jobs.m_jobsToProcess).Perm
        st.jobs.m_jobsToProcess
    ∧ (st.jobs.m_jobsToProcess ≠ [] → r.2.processed ≠ []) := by
  simp only [ProcessJobs] at hr
  split at hr
  · exact absurd hr (by simp)
  · rename_i looped hl
    obtain ⟨news, passed, h1, h2, h3, h4, h5, h6, h7, h8⟩ :=
      processJobsLoop_trace env jenv _ _ _ hl
    simp only [List.nil_append] at h1 h2 h3
    split at hr
    · rename_i job rest hk
      split at hr
      · rename_i hany
        split at hr
        · exact absurd hr (by simp)
        · rename_i st2 effects hp
          obtain ⟨_, _, hjp⟩ := processJobOn_frame env jenv _ st2 job effects hp
          have hn : news = [] := by
            by_contra hne
            simp [h8 hne] at hany
          obtain ⟨_, hmap, hjobs, hmaps⟩ := h7 hn
          simp only [Option.some.injEq] at hr
          subst hr
          subst hn
          simp only [h1, h2, List.nil_append, List.mem_singleton, List.map_cons, List.map_nil,
            List.singleton_append]
          have hinit : st.jobs.m_jobsToProcess = job :: rest := by
            rw [← hjobs, ← h3, hk]
          refine ⟨h6, ?_, ?_, ?_, ?_, ?_⟩
          · rintro p rfl h
            exact absurd h (by simp)
          · rintro p rfl _
            refine ⟨rfl, by simp [hinit], hmap, ?_, by simp [hinit]⟩
            intro j hj
            rw [← hjobs] at hj
            obtain ⟨q, hq, rfl⟩ := List.mem_map.1 hj
            have := h6 q hq
            rwa [hmaps q hq] at this
          · intro h
            exact absurd (h _ rfl) (by simp)
          · rw [hinit]
          · intro _
            simp
      · rename_i hany
        simp only [Option.some.injEq] at hr
        subst hr
        have hn : news ≠ [] := by
          intro hn
          have := (h7 hn).1
          simp [this] at hany
        simp only [h1, h2, h3]
        refine ⟨h6, fun p hp _ => (h5 p hp).2, ?_, fun _ => trivial, h4, fun _ => hn⟩
        intro p hp hf
        exact absurd hf (by simp [(h5 p hp).1])
    · rename_i hk
      simp only [Option.some.injEq] at hr
      subst hr
      obtain ⟨hq, hj⟩ := QueueIdleCheck_frame
        { looped.st with jobs := { looped.st.jobs with m_jobsToProcess := looped.kept } }
      simp only [hj, h1, h2]
      have hp0 : passed = [] := by
        have : passed.map (fun p => p.job) = [] := by rw [← h3, hk]
        simpa using this
      subst hp0
      simp only [List.map_nil, List.append_nil] at h4 ⊢
      refine ⟨by simp, fun p hp _ => (h5 p hp).2, ?_, fun _ => hk, ?_, ?_⟩
      · intro p hp hf
        exact absurd hf (by simp [(h5 p hp).1])
      · rw [hk]
        simpa using h4
      · intro hne hn
        subst hn
        simp at h4
        exact hne h4

theorem CanAnalyzeJob_iff (m_jobFingerprintMap : List (JobIndentifier × Nat))
    (job : JobDetails) :
    CanAnalyzeJob m_jobFingerprintMap job = true ↔
      ∀ dep ∈ job.m_jobDependencyList, ∀ builderUuid ∈ dep.m_builderUuidList,
        ({ m_databaseSourceName := dep.m_jobDependency.m_sourceFile.m_sourceFileDependencyPath
           m_jobKey := dep.m_jobDependency.m_jobKey
           m_platformIdentifier := dep.m_jobDependency.m_platformIdentifier
           m_builderUuid := builderUuid } : JobIndentifier) ∈ mapKeys m_jobFingerprintMap := by
  simp only [CanAnalyzeJob, List.all_eq_true, Option.isSome_iff_exists, mapFind_isSome_iff]

theorem repeatProcessJobs_spec (env : FileEnv) (jenv : JobEnv) (n : Nat) (st : ManagerState)
    (hn : st.jobs.m_jobsToProcess.length ≤ n) :
    ∃ fin, repeatProcessJobs env jenv n st = some fin
      ∧ fin.1.jobs.m_jobsToProcess = []
      ∧ (fin.2.map (fun p => p.job)).Perm st.jobs.m_jobsToProcess := by
  induction n generalizing st with
  | zero =>
    have h0 : st.jobs.m_jobsToProcess = [] := List.length_eq_zero.1 (Nat.le_zero.1 hn)
    refine ⟨(st, []), ?_, h0, by simp [h0]⟩
    unfold repeatProcessJobs
    simp only [h0]
  | succ n ih =>
    cases hj : st.jobs.m_jobsToProcess with
    | nil =>
      refine ⟨(st, []), ?_, hj, by simp⟩
      unfold repeatProcessJobs
      simp only [hj]
    | cons job rest =>
      obtain ⟨r, hr⟩ := ProcessJobs_total env jenv st
      obtain ⟨_, _, _, _, hperm, hne⟩ := ProcessJobs_trace env jenv st r hr
      have hlen := hperm.length_eq
      have hpos : 0 < r.2.processed.length :=
        List.length_pos.2 (hne (by simp [hj]))
      simp only [List.length_append, List.length_map] at hlen
      obtain ⟨fin, hf, he, hp⟩ := ih r.1 (by omega)
      refine ⟨(fin.1, r.2.processed ++ fin.2), ?_, he, ?_⟩
      · unfold repeatProcessJobs
        simp only [hj, hr, hf, Option.map_some']
      · rw [← hj]
        simp only [List.map_append]
        exact (List.Perm.append_left _ hp).trans hperm

/-- C11: `CanAnalyzeJob` returns true exactly when, for every job dependency of the job and
every builder listed for it, the identifier (source path of the dependency, job key, platform,
builder) is a key of `m_jobFingerprintMap`; and in a call of `ProcessJobs` every call of
`ProcessJob` made by the scan is on a job for which `CanAnalyzeJob` returned true on the map
of that moment, every job the scan passed over had `CanAnalyzeJob` false at that moment, and
a forced call is the only call of that run of `ProcessJobs` and is on the first pending job. -/
theorem CanAnalyzeJob_gates_ProcessJobs (env : FileEnv) (jenv : JobEnv) (st : ManagerState)
    (r : ManagerState × PipelineEffects) (hr : ProcessJobs env jenv st = some r) :
    (∀ (m_jobFingerprintMap : List (JobIndentifier × Nat)) (job : JobDetails),
      CanAnalyzeJob m_jobFingerprintMap job = true ↔
        ∀ dep ∈ job.m_jobDependencyList, ∀ builderUuid ∈ dep.m_builderUuidList,
          ({ m_databaseSourceName :=
               dep.m_jobDependency.m_sourceFile.m_sourceFileDependencyPath
             m_jobKey := dep.m_jobDependency.m_jobKey
             m_platformIdentifier := dep.m_jobDependency.m_platformIdentifier
             m_builderUuid := builderUuid } : JobIndentifier)
            ∈ mapKeys m_jobFingerprintMap)
    ∧ (∀ p ∈ r.2.processed, p.forced = false →
        CanAnalyzeJob p.m_jobFingerprintMap p.job = true)
    ∧ (∀ p ∈ r.2.passedOver, CanAnalyzeJob p.m_jobFingerprintMap p.job = false)
    ∧ (∀ p ∈ r.2.processed, p.forced = true →
        r.2.processed = [p] ∧ st.jobs.m_jobsToProcess.head? = some p.job) := by
  obtain ⟨h1, h2, h3, _, _, _⟩ := ProcessJobs_trace env jenv st r hr
  exact ⟨CanAnalyzeJob_iff, h2, h1, fun p hp hf => ⟨(h3 p hp hf).1, (h3 p hp hf).2.1⟩⟩

set_option maxRecDepth 100000 in
/-- C11, on the cycle of three jobs: the first call of `ProcessJobs` passes over all three
jobs and forces the job of `a.txt`. -/
theorem CanAnalyzeJob_gates_ProcessJobs_witness :
    ∃ r, ProcessJobs demoEnv demoJobEnv demoCycleState = some r
      ∧ r.2.processed.map (fun p => (p.job.m_jobEntry.m_databaseSourceName, p.forced))
          = [("a.txt".toList, true)]
      ∧ r.2.passedOver.map (fun p => p.job.m_jobEntry.m_databaseSourceName)
          = ["a.txt".toList, "b.txt".toList, "c.txt".toList]
      ∧ ∀ p ∈ r.2.passedOver, CanAnalyzeJob p.m_jobFingerprintMap p.job = false :=
  ⟨(ProcessJobs demoEnv demoJobEnv demoCycleState).get (by decide),
   (Option.some_get _).symm, by decide, by decide,
   (CanAnalyzeJob_gates_ProcessJobs demoEnv demoJobEnv demoCycleState _
      (Option.some_get _).symm).2.2.1⟩

/-- C12: every call of `ProcessJobs` returns; the jobs it processed together with the jobs it
left are the jobs that were pending (each once); when a job was pending it processed at least
one, so fewer are left; the jobs left after a scan that processed some are the jobs not
analysable at their turn, and when the scan could analyse none, the one job processed is the
first pending job and the others are left. Hence the calls of `ProcessJobs` that follow one
another, at most as many as there were pending jobs, empty `m_jobsToProcess`, and the calls
of `ProcessJob` made on the way are on the pending jobs, each once. -/
theorem ProcessJobs_terminates (env : FileEnv) (jenv : JobEnv) (st : ManagerState) :
    (∃ r, ProcessJobs env jenv st = some r
      ∧ (r.2.processed.map (fun p => p.job) ++ r.1.jobs.m_jobsToProcess).Perm
          st.jobs.m_jobsToProcess
      ∧ (st.jobs.m_jobsToProcess ≠ [] →
          r.2.processed ≠ []
            ∧ r.1.jobs.m_jobsToProcess.length < st.jobs.m_jobsToProcess.length)
      ∧ ((∀ p ∈ r.2.processed, p.forced = false) →
          r.1.jobs.m_jobsToProcess = r.2.passedOver.map (fun p => p.job)
            ∧ ∀ p ∈ r.2.passedOver, CanAnalyzeJob p.m_jobFingerprintMap p.job = false)
      ∧ (∀ p ∈ r.2.processed, p.forced = true →
          r.2.processed = [p] ∧ st.jobs.m_jobsToProcess.head? = some p.job
            ∧ (∀ job ∈ st.jobs.m_jobsToProcess,
                CanAnalyzeJob st.jobs.m_jobFingerprintMap job = false)
            ∧ r.1.jobs.m_jobsToProcess = st.jobs.m_jobsToProcess.tail))
    ∧ ∃ fin, repeatProcessJobs env jenv st.jobs.m_jobsToProcess.length st = some fin
        ∧ fin.1.jobs.m_jobsToProcess = []
        ∧ (fin.2.map (fun p => p.job)).Perm st.jobs.m_jobsToProcess := by
  refine ⟨?_, repeatProcessJobs_spec env jenv _ st (Nat.le_refl _)⟩
  obtain ⟨r, hr⟩ := ProcessJobs_total env jenv st
  obtain ⟨h1, _, h3, h4, hperm, hne⟩ := ProcessJobs_trace env jenv st r hr
  refine ⟨r, hr, hperm, ?_, fun h => ⟨h4 h, h1⟩, ?_⟩
  · intro h
    have hlen := hperm.length_eq
    have hpos : 0 < r.2.processed.length := List.length_pos.2 (hne h)
    simp only [List.length_append, List.length_map] at hlen
    exact ⟨hne h, by omega⟩
  · intro p hp hf
    obtain ⟨a, b, _, c, d⟩ := h3 p hp hf
    exact ⟨a, b, c, d⟩

set_option maxRecDepth 100000 in
/-- C12, on the cycle of three jobs: three calls of `ProcessJobs` empty `m_jobsToProcess`; the
job of `a.txt` is forced, then the job of `c.txt` and the job of `b.txt` are analysed. -/
theorem ProcessJobs_terminates_cycle :
    (repeatProcessJobs demoEnv demoJobEnv 3 demoCycleState).map
        (fun fin => (fin.1.jobs.m_jobsToProcess, fin.1.queue.m_numOfJobsToAnalyze,
          fin.2.map (fun p => (p.job.m_jobEntry.m_databaseSourceName, p.forced))))
      = some ([], 0, [("a.txt".toList, true), ("c.txt".toList, false),
          ("b.txt".toList, false)])
    ∧ (repeatProcessJobs demoEnv demoJobEnv 2 demoCycleState) = none
    ∧ ∃ fin, repeatProcessJobs demoEnv demoJobEnv 3 demoCycleState = some fin
        ∧ fin.1.jobs.m_jobsToProcess = []
        ∧ (fin.2.map (fun p => p.job)).Perm demoCycleState.jobs.m_jobsToProcess :=
  ⟨by decide, by decide, (ProcessJobs_terminates demoEnv demoJobEnv demoCycleState).2⟩

/-! ## `DeleteProducts` and `CheckMissingJobs` -/

theorem eq_of_map_nodup {α β : Type} (f : α → β) (l : List α) (h : (l.map f).Nodup)
    (a b : α) (ha : a ∈ l) (hb : b ∈ l) (hab : f a = f b) : a = b :=
  List.inj_on_of_nodup_map h ha hb hab

theorem deleteProductsLoop_subset (jenv : JobEnv) (products : List ProductDatabaseEntry)
    (acc : DeleteProductsOutcome) :
    (∀ q ∈ (deleteProductsLoop jenv products acc).productTable, q ∈ acc.productTable)
    ∧ (∀ name ∈ acc.removedFiles, name ∈ (deleteProductsLoop jenv products acc).removedFiles)
    ∧ (∀ q ∈ acc.productTable, q.m_productID ∉ products.map (fun p => p.m_productID) →
        q ∈ (deleteProductsLoop jenv products acc).productTable) := by
  induction products generalizing acc with
  | nil => exact ⟨fun _ h => h, fun _ h => h, fun _ h _ => h⟩
  | cons product rest ih =>
    simp only [deleteProductsLoop]
    split
    · split
      · obtain ⟨h1, h2, h3⟩ := ih
          { successfullyRemoved := acc.successfullyRemoved && jenv.removeFile product.m_productName
            productTable := RemoveProduct acc.productTable product.m_productID
            removedFiles :=
              if jenv.removeFile product.m_productName = true then
                acc.removedFiles ++ [product.m_productName]
              else acc.removedFiles }
        refine ⟨fun q hq => (List.mem_filter.1 (h1 q hq)).1, fun n hn => h2 n ?_, ?_⟩
        · simp only
          split
          · exact List.mem_append_left _ hn
          · exact hn
        · intro q hq hid
          simp only [List.map_cons, List.mem_cons, not_or] at hid
          exact h3 q (List.mem_filter.2 ⟨hq, by simpa using hid.1⟩) hid.2
      · obtain ⟨h1, h2, h3⟩ := ih
          { successfullyRemoved := acc.successfullyRemoved && jenv.removeFile product.m_productName
            productTable := acc.productTable
            removedFiles :=
              if jenv.removeFile product.m_productName = true then
                acc.removedFiles ++ [product.m_productName]
              else acc.removedFiles }
        refine ⟨h1, fun n hn => h2 n ?_, ?_⟩
        · simp only
          split
          · exact List.mem_append_left _ hn
          · exact hn
        · intro q hq hid
          simp only [List.map_cons, List.mem_cons, not_or] at hid
          exact h3 q hq hid.2
    · obtain ⟨h1, h2, h3⟩ := ih acc
      refine ⟨h1, h2, ?_⟩
      intro q hq hid
      simp only [List.map_cons, List.mem_cons, not_or] at hid
      exact h3 q hq hid.2

theorem nodup_map_filter {α β : Type} (f : α → β) (p : α → Bool) (l : List α)
    (h : (l.map f).Nodup) : ((l.filter p).map f).Nodup :=
  h.sublist ((List.filter_sublist l).map f)

theorem deleteProductsLoop_removes (jenv : JobEnv) (hrm : ∀ name, jenv.removeFile name = true)
    (products : List ProductDatabaseEntry) (acc : DeleteProductsOutcome)
    (hs : acc.successfullyRemoved = true)
    (hid : (acc.productTable.map (fun p => p.m_productID)).Nodup)
    (hname : (acc.productTable.map (fun p => p.m_productName)).Nodup)
    (hI : ∀ p ∈ acc.productTable, p.m_productName ∉ acc.removedFiles)
    (hsub : ∀ p ∈ products, p ∈ acc.productTable) (hnd : products.Nodup) :
    (deleteProductsLoop jenv products acc).successfullyRemoved = true
    ∧ (∀ p ∈ (deleteProductsLoop jenv products acc).productTable,
        p.m_productName ∉ (deleteProductsLoop jenv products acc).removedFiles)
    ∧ (∀ p ∈ products, jenv.productExists p.m_productName = true →
        p ∉ (deleteProductsLoop jenv products acc).productTable
          ∧ p.m_productName ∈ (deleteProductsLoop jenv products acc).removedFiles) := by
  induction products generalizing acc with
  | nil => exact ⟨hs, hI, fun _ h => absurd h (List.not_mem_nil _)⟩
  | cons product rest ih =>
    have hpT : product ∈ acc.productTable := hsub product (List.mem_cons_self _ _)
    have hrest : ∀ p ∈ rest, p ∈ acc.productTable :=
      fun p hp => hsub p (List.mem_cons_of_mem _ hp)
    obtain ⟨hpr, hndr⟩ := List.nodup_cons.1 hnd
    simp only [deleteProductsLoop, hrm, hs, Bool.and_self, if_true]
    by_cases hex : jenv.productExists product.m_productName = true
    · have hnr : product.m_productName ∉ acc.removedFiles := hI product hpT
      rw [if_pos ⟨hex, hnr⟩]
      have hfil : ∀ q ∈ acc.productTable, q ≠ product →
          q ∈ RemoveProduct acc.productTable product.m_productID := by
        intro q hq hne
        refine List.mem_filter.2 ⟨hq, ?_⟩
        simp only [ne_eq, decide_eq_true_eq]
        intro h
        exact hne (eq_of_map_nodup _ _ hid q product hq hpT h)
      obtain ⟨h1, h2, h3⟩ := ih
        { successfullyRemoved := true
          productTable := RemoveProduct acc.productTable product.m_productID
          removedFiles := acc.removedFiles ++ [product.m_productName] }
        rfl (nodup_map_filter _ _ _ hid) (nodup_map_filter _ _ _ hname)
        (by
          intro q hq
          have hqT := (List.mem_filter.1 hq).1
          have hqid : q.m_productID ≠ product.m_productID := by
            simpa using (List.mem_filter.1 hq).2
          simp only [List.mem_append, List.mem_singleton, not_or]
          refine ⟨hI q hqT, ?_⟩
          intro h
          exact hqid (congrArg _ (eq_of_map_nodup _ _ hname q product hqT hpT h)))
        (by
          intro q hq
          exact hfil q (hrest q hq) (by rintro rfl; exact hpr hq))
        hndr
      refine ⟨h1, h2, ?_⟩
      intro p hp _
      rcases List.mem_cons.1 hp with rfl | hp
      · obtain ⟨s1, s2, _⟩ := deleteProductsLoop_subset jenv rest
          { successfullyRemoved := true
            productTable := RemoveProduct acc.productTable p.m_productID
            removedFiles := acc.removedFiles ++ [p.m_productName] }
        refine ⟨?_, s2 _ (by simp)⟩
        intro hin
        have := (List.mem_filter.1 (s1 p hin)).2
        simp at this
      · exact h3 p hp ‹_›
    · rw [if_neg (by simp [hex])]
      obtain ⟨h1, h2, h3⟩ := ih acc hs hid hname hI hrest hndr
      refine ⟨h1, h2, ?_⟩
      intro p hp hpe
      rcases List.mem_cons.1 hp with rfl | hp
      · exact absurd hpe hex
      · exact h3 p hp hpe

theorem deleteProductsLoop_sublist (jenv : JobEnv) (products : List ProductDatabaseEntry)
    (acc : DeleteProductsOutcome) :
    (deleteProductsLoop jenv products acc).productTable.Sublist acc.productTable := by
  induction products generalizing acc with
  | nil => exact List.Sublist.refl _
  | cons product rest ih =>
    simp only [deleteProductsLoop]
    split
    · split
      · exact (ih _).trans (List.filter_sublist _)
      · exact ih _
    · exact ih acc

theorem removeMissingJobs_sublist (jenv : JobEnv) (databasePathToFile : Str)
    (scanFolder : ScanFolderInfo) (missing : List JobDatabaseEntry)
    (acc : CheckMissingJobsOutcome) :
    (removeMissingJobs jenv databasePathToFile scanFolder missing acc).productTable.Sublist
        acc.productTable
    ∧ ∀ name ∈ acc.removedFiles,
        name ∈ (removeMissingJobs jenv databasePathToFile scanFolder missing acc).removedFiles := by
  induction missing generalizing acc with
  | nil => exact ⟨List.Sublist.refl _, fun _ h => h⟩
  | cons o rest ih =>
    simp only [removeMissingJobs]
    split
    · obtain ⟨h1, h2⟩ := ih
        { jobTable := RemoveJob acc.jobTable o.m_jobID
          productTable := (DeleteProducts jenv acc.productTable acc.removedFiles
            (GetProductsBySourceName acc.productTable databasePathToFile o.m_builderGuid
              o.m_jobKey o.m_platform)).productTable
          removedFiles := (DeleteProducts jenv acc.productTable acc.removedFiles
            (GetProductsBySourceName acc.productTable databasePathToFile o.m_builderGuid
              o.m_jobKey o.m_platform)).removedFiles
          jobsRemoved := acc.jobsRemoved ++
            [if (!scanFolder.GetOutputPrefix.isEmpty) = true then
              { o with
                m_sourceName := o.m_sourceName.drop (scanFolder.GetOutputPrefix.length + 1) }
            else o] }
      exact ⟨h1.trans (deleteProductsLoop_sublist jenv _ _),
        fun n hn => h2 n ((deleteProductsLoop_subset jenv _ _).2.1 n hn)⟩
    · exact ih _

theorem mem_GetProductsBySourceName (products : List ProductDatabaseEntry) (sourceName : Str)
    (builderGuid : Uuid) (jobKey platform : Str) (p : ProductDatabaseEntry) :
    p ∈ GetProductsBySourceName products sourceName builderGuid jobKey platform ↔
      p ∈ products ∧ p.m_sourceName = sourceName ∧ p.m_builderGuid = builderGuid
        ∧ p.m_jobKey = jobKey ∧ p.m_platform = platform := by
  simp [GetProductsBySourceName, List.mem_filter]

theorem removeMissingJobs_step (jenv : JobEnv) (databasePathToFile : Str)
    (scanFolder : ScanFolderInfo) (o : JobDatabaseEntry) (rest : List JobDatabaseEntry)
    (acc : CheckMissingJobsOutcome) :
    ∃ next : CheckMissingJobsOutcome,
      removeMissingJobs jenv databasePathToFile scanFolder (o :: rest) acc
        = removeMissingJobs jenv databasePathToFile scanFolder rest next
      ∧ next.productTable = (deleteProductsLoop jenv
          (GetProductsBySourceName acc.productTable databasePathToFile o.m_builderGuid
            o.m_jobKey o.m_platform)
          { successfullyRemoved := true, productTable := acc.productTable,
            removedFiles := acc.removedFiles }).productTable
      ∧ next.removedFiles = (deleteProductsLoop jenv
          (GetProductsBySourceName acc.productTable databasePathToFile o.m_builderGuid
            o.m_jobKey o.m_platform)
          { successfullyRemoved := true, productTable := acc.productTable,
            removedFiles := acc.removedFiles }).removedFiles := by
  simp only [removeMissingJobs]
  by_cases hP : (GetProductsBySourceName acc.productTable databasePathToFile o.m_builderGuid
      o.m_jobKey o.m_platform).isEmpty = true
  · refine ⟨_, rfl, ?_, ?_⟩ <;>
      simp [hP, List.isEmpty_iff.1 hP, deleteProductsLoop]
  · refine ⟨_, rfl, ?_, ?_⟩ <;> simp [hP, DeleteProducts]

theorem removeMissingJobs_removes (jenv : JobEnv) (hrm : ∀ name, jenv.removeFile name = true)
    (databasePathToFile : Str) (scanFolder : ScanFolderInfo)
    (missing : List JobDatabaseEntry) (acc : CheckMissingJobsOutcome)
    (hid : (acc.productTable.map (fun p => p.m_productID)).Nodup)
    (hname : (acc.productTable.map (fun p => p.m_productName)).Nodup)
    (hI : ∀ p ∈ acc.productTable, p.m_productName ∉ acc.removedFiles)
    (p : ProductDatabaseEntry) (hp : p ∈ acc.productTable)
    (hex : jenv.productExists p.m_productName = true)
    (ho : ∃ o ∈ missing, p.m_sourceName = databasePathToFile
      ∧ p.m_builderGuid = o.m_builderGuid ∧ p.m_jobKey = o.m_jobKey
      ∧ p.m_platform = o.m_platform) :
    p ∉ (removeMissingJobs jenv databasePathToFile scanFolder missing acc).productTable
    ∧ p.m_productName
        ∈ (removeMissingJobs jenv databasePathToFile scanFolder missing acc).removedFiles := by
  induction missing generalizing acc with
  | nil =>
    obtain ⟨o, ho, _⟩ := ho
    exact absurd ho (List.not_mem_nil _)
  | cons o rest ih =>
    obtain ⟨next, hnext, hT, hR⟩ :=
      removeMissingJobs_step jenv databasePathToFile scanFolder o rest acc
    rw [hnext]
    have hsub := deleteProductsLoop_sublist jenv
      (GetProductsBySourceName acc.productTable databasePathToFile o.m_builderGuid
        o.m_jobKey o.m_platform)
      { successfullyRemoved := true, productTable := acc.productTable,
        removedFiles := acc.removedFiles }
    have hTnd : acc.productTable.Nodup := List.Nodup.of_map _ hid
    obtain ⟨_, hI2, hrem⟩ := deleteProductsLoop_removes jenv hrm
      (GetProductsBySourceName acc.productTable databasePathToFile o.m_builderGuid
        o.m_jobKey o.m_platform)
      { successfullyRemoved := true, productTable := acc.productTable,
        removedFiles := acc.removedFiles }
      rfl hid hname hI
      (fun q hq => ((mem_GetProductsBySourceName _ _ _ _ _ _).1 hq).1)
      (hTnd.sublist (List.filter_sublist _))
    rw [← hT, ← hR] at hI2 hrem
    rw [← hT] at hsub
    obtain ⟨s1, s2⟩ := removeMissingJobs_sublist jenv databasePathToFile scanFolder rest next
    by_cases hmatch : p.m_sourceName = databasePathToFile ∧ p.m_builderGuid = o.m_builderGuid
        ∧ p.m_jobKey = o.m_jobKey ∧ p.m_platform = o.m_platform
    · obtain ⟨h1, h2⟩ := hrem p ((mem_GetProductsBySourceName _ _ _ _ _ _).2 ⟨hp, hmatch⟩) hex
      exact ⟨fun h => h1 (s1.subset h), s2 _ h2⟩
    · obtain ⟨o', ho', hm'⟩ := ho
      rcases List.mem_cons.1 ho' with rfl | ho'
      · exact absurd hm' hmatch
      · apply ih next (hid.sublist (hsub.map _)) (hname.sublist (hsub.map _)) hI2 ?_
          ⟨o', ho', hm'⟩
        rw [hT]
        apply (deleteProductsLoop_subset jenv _ _).2.2 p hp
        intro hmem
        obtain ⟨q, hq, hqid⟩ := List.mem_map.1 hmem
        have hqT := ((mem_GetProductsBySourceName _ _ _ _ _ _).1 hq).1
        have : q = p := eq_of_map_nodup _ _ hid q p hqT hp hqid
        subst this
        exact hmatch ((mem_GetProductsBySourceName _ _ _ _ _ _).1 hq).2

set_option maxRecDepth 100000 in
/-- C14 at a batch without jobs: the store records the job `copy` of `c.cfg` from the last
run; this time the builder of `c.cfg` creates no job. `CheckForIdle` consumes the batch of
`c.cfg` (and that of `a.txt`), queues `FinishAnalysis` for `c.cfg`, and leaves the job `copy`
and its product in the store and its product file in the cache folder; `CheckMissingJobs`,
called for `c.cfg` with no job, would have removed them. -/
theorem CheckForIdle_keeps_jobs_of_empty_batch :
    (runPipeline stdUuid demoEnv demoQueueEnv demoCacheJobEnv demoCfgPipeline
        demoCfgLastRunState).map
      (fun st => st.jobs.m_jobEntries.map (fun entry =>
        (entry.m_sourceFileInfo.m_databasePath, entry.m_jobsToAnalyze.length)))
      = some [("c.cfg".toList, 0), ("a.txt".toList, 1)]
    ∧ ((runPipeline stdUuid demoEnv demoQueueEnv demoCacheJobEnv demoCfgPipeline
        demoCfgLastRunState).bind
      (fun st => (CheckForIdle stdUuid demoEnv demoQueueEnv demoCacheJobEnv st).map
        (fun out => (out.st.jobs.m_jobEntries.length, out.st.jobTable, out.st.productTable,
          out.st.removedProductFiles))))
      = some (0, demoCfgLastRunState.jobTable, demoCfgLastRunState.productTable, [])
    ∧ ((runPipeline stdUuid demoEnv demoQueueEnv demoCacheJobEnv demoCfgPipeline
        demoCfgLastRunState).bind
      (fun st => (CheckForIdle stdUuid demoEnv demoQueueEnv demoCacheJobEnv st).map
        (fun out => out.effects.queued)))
      = some [QueuedCall.FinishAnalysis "/dev/game/c.cfg".toList, QueuedCall.CheckForIdle]
    ∧ CheckMissingJobs demoCacheJobEnv demoCfgLastRunState.jobTable
          demoCfgLastRunState.productTable [] "c.cfg".toList demoScanFolder []
        = { jobTable := [], productTable := [], removedFiles := ["pc/game/c.cfg".toList]
            jobsRemoved := demoCfgLastRunState.jobTable } := by
  refine ⟨?_, ?_, ?_, ?_⟩ <;> decide

/-! ## The dependency table after `UpdateSourceFileDependenciesDatabase` -/

theorem le_foldl_max_id (edges : List SourceFileDependencyEntry) (m : Int) :
    m ≤ List.foldl (fun (m : Int) (e : SourceFileDependencyEntry) =>
        max m e.m_sourceDependencyID) m edges
    ∧ ∀ e : SourceFileDependencyEntry, e ∈ edges →
        e.m_sourceDependencyID ≤ List.foldl
          (fun (m : Int) (e : SourceFileDependencyEntry) => max m e.m_sourceDependencyID)
          m edges := by
  induction edges generalizing m with
  | nil => exact ⟨le_refl _, fun _ h => absurd h (List.not_mem_nil _)⟩
  | cons hd tl ih =>
    obtain ⟨h1, h2⟩ := ih (max m hd.m_sourceDependencyID)
    simp only [List.foldl_cons]
    refine ⟨le_trans (le_max_left _ _) h1, ?_⟩
    intro e he
    rcases List.mem_cons.1 he with rfl | he
    · exact le_trans (le_max_right _ _) h1
    · exact h2 e he

theorem lt_nextDependencyID (edges : List SourceFileDependencyEntry)
    (e : SourceFileDependencyEntry) (he : e ∈ edges) :
    e.m_sourceDependencyID < nextDependencyID edges := by
  have := (le_foldl_max_id edges 0).2 e he
  unfold nextDependencyID
  omega

theorem SetSourceFileDependencies_spec (news edges : List SourceFileDependencyEntry)
    (hid : (edges.map (fun e => e.m_sourceDependencyID)).Nodup) :
    ∃ added : List SourceFileDependencyEntry,
      SetSourceFileDependencies edges news = edges ++ added
      ∧ added.map withoutID = news.map withoutID
      ∧ ((edges ++ added).map (fun e => e.m_sourceDependencyID)).Nodup := by
  induction news generalizing edges with
  | nil => exact ⟨[], by simp [SetSourceFileDependencies], rfl, by simpa using hid⟩
  | cons n rest ih =>
    have hid2 : ((edges ++ [{ n with m_sourceDependencyID := nextDependencyID edges }]).map
        (fun (e : SourceFileDependencyEntry) => e.m_sourceDependencyID)).Nodup := by
      simp only [List.map_append, List.map_cons, List.map_nil]
      refine List.Nodup.append hid (List.nodup_singleton _) ?_
      intro x hx hx2
      simp only [List.mem_singleton] at hx2
      obtain ⟨e, he, rfl⟩ := List.mem_map.1 hx
      have := lt_nextDependencyID edges e he
      omega
    obtain ⟨added, h1, h2, h3⟩ := ih _ hid2
    refine ⟨{ n with m_sourceDependencyID := nextDependencyID edges } :: added, ?_, ?_, ?_⟩
    · simp only [SetSourceFileDependencies, List.foldl_cons] at h1 ⊢
      rw [h1]
      simp
    · simp only [List.map_cons, h2]
      rfl
    · simpa using h3

theorem RemoveSourceFileDependencies_of_mem (edges : List SourceFileDependencyEntry)
    (hid : (edges.map (fun e => e.m_sourceDependencyID)).Nodup)
    (chosen : List SourceFileDependencyEntry) (p : SourceFileDependencyEntry → Bool)
    (hchosen : ∀ e, e ∈ chosen ↔ e ∈ edges ∧ p e = true) :
    RemoveSourceFileDependencies edges (chosen.map (fun e => e.m_sourceDependencyID))
      = edges.filter (fun e => !p e) := by
  unfold RemoveSourceFileDependencies
  apply List.filter_congr
  intro e he
  by_cases hp : p e = true
  · have : e.m_sourceDependencyID ∈ chosen.map (fun e => e.m_sourceDependencyID) :=
      List.mem_map_of_mem _ ((hchosen e).2 ⟨he, hp⟩)
    simp [hp, this]
  · have : e.m_sourceDependencyID ∉ chosen.map (fun e => e.m_sourceDependencyID) := by
      intro hmem
      obtain ⟨o, ho, hoid⟩ := List.mem_map.1 hmem
      obtain ⟨hoT, hop⟩ := (hchosen o).1 ho
      have : o = e := eq_of_map_nodup _ _ hid o e hoT he hoid
      subst this
      exact hp hop
    simp [hp, this]

theorem isPlaceholderFor_withoutID (ops : UuidOps) (env : FileEnv) (entry : JobToProcessEntry)
    (e : SourceFileDependencyEntry) :
    isPlaceholderFor ops env entry (withoutID e) = isPlaceholderFor ops env entry e := rfl

theorem mem_placeholderEdges (ops : UuidOps) (env : FileEnv)
    (edges : List SourceFileDependencyEntry) (entry : JobToProcessEntry)
    (e : SourceFileDependencyEntry) :
    e ∈ placeholderEdges ops env edges entry ↔
      e ∈ edges ∧ isPlaceholderFor ops env entry e = true := by
  simp only [placeholderEdges, QuerySourceDependencyByDependsOnSource, dependencyTypeMatches,
    List.mem_append, List.mem_filter, isPlaceholderFor, true_or, decide_True, and_true,
    Bool.decide_or, Bool.or_eq_true, decide_eq_true_eq]
  tauto

theorem placeholderEdges_append (ops : UuidOps) (env : FileEnv)
    (edges added : List SourceFileDependencyEntry) (entry : JobToProcessEntry)
    (hadded : ∀ a ∈ added, isPlaceholderFor ops env entry a = false) :
    placeholderEdges ops env (edges ++ added) entry = placeholderEdges ops env edges entry := by
  have h1 : ∀ name, (∀ a ∈ added, a.m_dependsOnSource = name →
      isPlaceholderFor ops env entry a = true) →
      QuerySourceDependencyByDependsOnSource added name TypeOfDependency.DEP_Any = [] := by
    intro name hname
    simp only [QuerySourceDependencyByDependsOnSource, List.filter_eq_nil_iff,
      Bool.decide_and, Bool.and_eq_true, decide_eq_true_eq, not_and]
    intro a ha hn
    have := hname a ha hn
    rw [hadded a ha] at this
    exact absurd this (by simp)
  simp only [placeholderEdges, QuerySourceDependencyByDependsOnSource, List.filter_append]
  simp only [QuerySourceDependencyByDependsOnSource] at h1
  rw [h1 _ (fun a _ hn => by simp [isPlaceholderFor, hn]),
    h1 _ (fun a _ hn => by simp [isPlaceholderFor, hn])]
  simp

theorem UpdateSourceFileDependenciesDatabase_edges (ops : UuidOps) (env : FileEnv)
    (qenv : QueueEnv) (jenv : JobEnv) (edges : List SourceFileDependencyEntry)
    (queue : QueueState) (entry : JobToProcessEntry)
    (hid : (edges.map (fun e => e.m_sourceDependencyID)).Nodup)
    (hself : ∀ n ∈ newSourceDependencies ops env qenv jenv entry
        ++ newJobDependencies ops env qenv jenv entry,
      isPlaceholderFor ops env entry n = false) :
    ∃ added healed : List SourceFileDependencyEntry,
      (UpdateSourceFileDependenciesDatabase ops env qenv jenv edges queue entry).1
        = (edges.filter (fun e => !decide (e.m_source = entry.m_sourceFileInfo.m_databasePath))).filter
            (fun e => !isPlaceholderFor ops env entry e) ++ added ++ healed
      ∧ added.map withoutID
          = (newSourceDependencies ops env qenv jenv entry
              ++ newJobDependencies ops env qenv jenv entry).map withoutID
      ∧ healed.map withoutID
          = (placeholderEdges ops env
              (edges.filter
                (fun e => !decide (e.m_source = entry.m_sourceFileInfo.m_databasePath)))
              entry).map
            (fun r =>
              withoutID { r with m_dependsOnSource := entry.m_sourceFileInfo.m_databasePath }) := by
  simp only [UpdateSourceFileDependenciesDatabase]
  have hE1 : RemoveSourceFileDependencies edges
      ((QueryDependsOnSourceBySourceDependency edges entry.m_sourceFileInfo.m_databasePath
        TypeOfDependency.DEP_Any).map (fun existingEntry => existingEntry.m_sourceDependencyID))
      = edges.filter (fun e => !decide (e.m_source = entry.m_sourceFileInfo.m_databasePath)) :=
    RemoveSourceFileDependencies_of_mem edges hid _
      (fun e => decide (e.m_source = entry.m_sourceFileInfo.m_databasePath))
      (by
        intro e
        simp [QueryDependsOnSourceBySourceDependency, dependencyTypeMatches, List.mem_filter])
  rw [hE1]
  obtain ⟨added, hset, hadd, hid2⟩ := SetSourceFileDependencies_spec
    (newSourceDependencies ops env qenv jenv entry ++ newJobDependencies ops env qenv jenv entry)
    (edges.filter (fun e => !decide (e.m_source = entry.m_sourceFileInfo.m_databasePath)))
    (nodup_map_filter _ _ _ hid)
  rw [hset]
  have hno : ∀ a ∈ added, isPlaceholderFor ops env entry a = false := by
    intro a ha
    have hmem : withoutID a ∈ added.map withoutID := List.mem_map_of_mem _ ha
    rw [hadd] at hmem
    obtain ⟨n, hn, hna⟩ := List.mem_map.1 hmem
    rw [← isPlaceholderFor_withoutID, ← hna, isPlaceholderFor_withoutID]
    exact hself n hn
  have hE3 : RemoveSourceFileDependencies
      (edges.filter (fun e => !decide (e.m_source = entry.m_sourceFileInfo.m_databasePath))
        ++ added)
      ((placeholderEdges ops env
        (edges.filter (fun e => !decide (e.m_source = entry.m_sourceFileInfo.m_databasePath))
          ++ added) entry).map (fun resultEntry => resultEntry.m_sourceDependencyID))
      = (edges.filter (fun e => !decide (e.m_source = entry.m_sourceFileInfo.m_databasePath))
          ++ added).filter (fun e => !isPlaceholderFor ops env entry e) :=
    RemoveSourceFileDependencies_of_mem _ hid2 _ (isPlaceholderFor ops env entry)
      (mem_placeholderEdges ops env _ entry)
  rw [hE3, placeholderEdges_append ops env _ added entry hno]
  obtain ⟨healed, hset2, hheal, _⟩ := SetSourceFileDependencies_spec
    ((placeholderEdges ops env
      (edges.filter (fun e => !decide (e.m_source = entry.m_sourceFileInfo.m_databasePath)))
      entry).map
      (fun resultEntry =>
        { resultEntry with m_dependsOnSource := entry.m_sourceFileInfo.m_databasePath }))
    ((edges.filter (fun e => !decide (e.m_source = entry.m_sourceFileInfo.m_databasePath))
        ++ added).filter (fun e => !isPlaceholderFor ops env entry e))
    (nodup_map_filter _ _ _ hid2)
  rw [hset2]
  refine ⟨added, healed, ?_, hadd, ?_⟩
  · rw [List.filter_append]
    congr 2
    apply List.filter_eq_self.2
    intro a ha
    simp [hno a ha]
  · rw [hheal, List.map_map]
    rfl

theorem newDependencies_source (ops : UuidOps) (env : FileEnv) (qenv : QueueEnv)
    (jenv : JobEnv) (entry : JobToProcessEntry) (n : SourceFileDependencyEntry)
    (hn : n ∈ newSourceDependencies ops env qenv jenv entry
      ++ newJobDependencies ops env qenv jenv entry) :
    n.m_source = entry.m_sourceFileInfo.m_databasePath ∧ withoutID n = n := by
  rcases List.mem_append.1 hn with h | h
  · simp only [newSourceDependencies, List.mem_filterMap, Option.map_eq_some'] at h
    obtain ⟨_, _, _, _, rfl⟩ := h
    exact ⟨rfl, rfl⟩
  · simp only [newJobDependencies, List.mem_flatten, List.mem_map] at h
    obtain ⟨_, ⟨_, _, rfl⟩, h⟩ := h
    simp only [List.mem_filterMap, Option.map_eq_some'] at h
    obtain ⟨_, _, _, _, rfl⟩ := h
    exact ⟨rfl, rfl⟩

theorem source_of_withoutID_eq (a b : SourceFileDependencyEntry)
    (h : withoutID a = withoutID b) : a.m_source = b.m_source :=
  congrArg (fun e => e.m_source) h

/-- C15: on a dependency table whose ids are keys, when no freshly resolved dependency of the
batch is a placeholder for the source of the batch itself, after
`UpdateSourceFileDependenciesDatabase(entry)` the edges whose origin is the source of the
batch are, in order and up to their ids, exactly the freshly resolved ones: one
source-to-source edge per declared source dependency that resolves, then one job-to-job edge
per job dependency that resolves. An edge of another origin whose target is no placeholder for
this source is still there, unchanged; one whose target is such a placeholder is there with
the database path of the source as its target; and the table holds no other edge of another
origin. -/
theorem UpdateSourceFileDependenciesDatabase_replaces_edges (ops : UuidOps) (env : FileEnv)
    (qenv : QueueEnv) (jenv : JobEnv) (edges : List SourceFileDependencyEntry)
    (queue : QueueState) (entry : JobToProcessEntry)
    (hid : (edges.map (fun e => e.m_sourceDependencyID)).Nodup)
    (hself : ∀ n ∈ newSourceDependencies ops env qenv jenv entry
        ++ newJobDependencies ops env qenv jenv entry,
      isPlaceholderFor ops env entry n = false) :
    (((UpdateSourceFileDependenciesDatabase ops env qenv jenv edges queue entry).1.filter
        (fun e => decide (e.m_source = entry.m_sourceFileInfo.m_databasePath))).map withoutID
      = newSourceDependencies ops env qenv jenv entry
          ++ newJobDependencies ops env qenv jenv entry)
    ∧ (∀ e ∈ edges, e.m_source ≠ entry.m_sourceFileInfo.m_databasePath →
        isPlaceholderFor ops env entry e = false →
        e ∈ (UpdateSourceFileDependenciesDatabase ops env qenv jenv edges queue entry).1)
    ∧ (∀ e ∈ edges, e.m_source ≠ entry.m_sourceFileInfo.m_databasePath →
        isPlaceholderFor ops env entry e = true →
        ∃ e' ∈ (UpdateSourceFileDependenciesDatabase ops env qenv jenv edges queue entry).1,
          withoutID e' = withoutID
            { e with m_dependsOnSource := entry.m_sourceFileInfo.m_databasePath })
    ∧ (∀ e' ∈ (UpdateSourceFileDependenciesDatabase ops env qenv jenv edges queue entry).1,
        e'.m_source ≠ entry.m_sourceFileInfo.m_databasePath →
        (e' ∈ edges ∧ isPlaceholderFor ops env entry e' = false)
          ∨ ∃ e ∈ edges, e.m_source ≠ entry.m_sourceFileInfo.m_databasePath
              ∧ isPlaceholderFor ops env entry e = true
              ∧ withoutID e' = withoutID
                  { e with m_dependsOnSource := entry.m_sourceFileInfo.m_databasePath }) := by
  obtain ⟨added, healed, hE, hadd, hheal⟩ :=
    UpdateSourceFileDependenciesDatabase_edges ops env qenv jenv edges queue entry hid hself
  rw [hE]
  have haddsrc : ∀ a ∈ added, a.m_source = entry.m_sourceFileInfo.m_databasePath := by
    intro a ha
    have hmem : withoutID a ∈ added.map withoutID := List.mem_map_of_mem _ ha
    rw [hadd] at hmem
    obtain ⟨n, hn, hna⟩ := List.mem_map.1 hmem
    rw [source_of_withoutID_eq a n hna.symm]
    exact (newDependencies_source ops env qenv jenv entry n hn).1
  have hhealed : ∀ h ∈ healed, ∃ e ∈ edges,
      e.m_source ≠ entry.m_sourceFileInfo.m_databasePath
      ∧ isPlaceholderFor ops env entry e = true
      ∧ withoutID h = withoutID
          { e with m_dependsOnSource := entry.m_sourceFileInfo.m_databasePath } := by
    intro h hh
    have hmem : withoutID h ∈ healed.map withoutID := List.mem_map_of_mem _ hh
    rw [hheal] at hmem
    obtain ⟨r, hr, hrh⟩ := List.mem_map.1 hmem
    obtain ⟨hrE, hrP⟩ := (mem_placeholderEdges ops env _ entry r).1 hr
    obtain ⟨hrT, hrS⟩ := List.mem_filter.1 hrE
    exact ⟨r, hrT, by simpa using hrS, hrP, hrh.symm⟩
  refine ⟨?_, ?_, ?_, ?_⟩
  · rw [List.filter_append, List.filter_append]
    have h1 : ((edges.filter
        (fun e => !decide (e.m_source = entry.m_sourceFileInfo.m_databasePath))).filter
          (fun e => !isPlaceholderFor ops env entry e)).filter
        (fun e => decide (e.m_source = entry.m_sourceFileInfo.m_databasePath)) = [] := by
      apply List.filter_eq_nil_iff.2
      intro e he
      have := (List.mem_filter.1 (List.mem_filter.1 he).1).2
      simpa using this
    have h2 : added.filter
        (fun e => decide (e.m_source = entry.m_sourceFileInfo.m_databasePath)) = added := by
      apply List.filter_eq_self.2
      intro a ha
      simp [haddsrc a ha]
    have h3 : healed.filter
        (fun e => decide (e.m_source = entry.m_sourceFileInfo.m_databasePath)) = [] := by
      apply List.filter_eq_nil_iff.2
      intro h hh
      obtain ⟨e, _, hes, _, heq⟩ := hhealed h hh
      have : h.m_source = e.m_source := congrArg (fun e => e.m_source) heq
      simp [this, hes]
    rw [h1, h2, h3, List.nil_append, List.append_nil, hadd]
    exact (List.map_congr_left
      (fun n hn => (newDependencies_source ops env qenv jenv entry n hn).2)).trans
      (List.map_id' _)
  · intro e he hs hp
    refine List.mem_append_left _ (List.mem_append_left _ ?_)
    exact List.mem_filter.2 ⟨List.mem_filter.2 ⟨he, by simpa using hs⟩, by simp [hp]⟩
  · intro e he hs hp
    have hr : e ∈ placeholderEdges ops env
        (edges.filter (fun e => !decide (e.m_source = entry.m_sourceFileInfo.m_databasePath)))
        entry :=
      (mem_placeholderEdges ops env _ entry e).2
        ⟨List.mem_filter.2 ⟨he, by simpa using hs⟩, hp⟩
    have hmem := List.mem_map_of_mem
      (fun r => withoutID
        { r with m_dependsOnSource := entry.m_sourceFileInfo.m_databasePath }) hr
    rw [← hheal] at hmem
    obtain ⟨h, hh, hhe⟩ := List.mem_map.1 hmem
    exact ⟨h, List.mem_append_right _ hh, hhe⟩
  · intro e' he' hs
    rcases List.mem_append.1 he' with h | h
    · rcases List.mem_append.1 h with h | h
      · obtain ⟨h1, h2⟩ := List.mem_filter.1 h
        exact Or.inl ⟨(List.mem_filter.1 h1).1, by simpa using h2⟩
      · exact absurd (haddsrc e' h) hs
    · exact Or.inr (hhealed e' h)

set_option maxRecDepth 100000 in
/-- C15, on a run: the batch of `c.cfg` replaces the older edge of `c.cfg` by its three fresh
edges, leaves the edge from `a.txt` to `b.txt` as it is, and the two edges that pointed at a
placeholder for `c.cfg` now point at `c.cfg`. -/
theorem UpdateSourceFileDependenciesDatabase_replaces_edges_witness :
    (UpdateSourceFileDependenciesDatabase stdUuid demoEnv demoQueueEnv demoDependencyJobEnv
        demoPlaceholderEdges {} demoCfgBatch).1.map
      (fun e => (e.m_source, e.m_dependsOnSource, e.m_typeOfDependency))
      = [("a.txt".toList, "b.txt".toList, TypeOfDependency.DEP_SourceToSource),
         ("c.cfg".toList, "b.txt".toList, TypeOfDependency.DEP_SourceToSource),
         ("c.cfg".toList, "$missing_dependency$:zzz.txt".toList,
            TypeOfDependency.DEP_SourceToSource),
         ("c.cfg".toList, "a.txt".toList, TypeOfDependency.DEP_JobToJob),
         ("b.txt".toList, "c.cfg".toList, TypeOfDependency.DEP_SourceToSource),
         ("a.txt".toList, "c.cfg".toList, TypeOfDependency.DEP_JobToJob)]
    ∧ ((UpdateSourceFileDependenciesDatabase stdUuid demoEnv demoQueueEnv demoDependencyJobEnv
          demoPlaceholderEdges {} demoCfgBatch).1.filter
        (fun e => decide (e.m_source = demoCfgBatch.m_sourceFileInfo.m_databasePath))).map
          withoutID
        = newSourceDependencies stdUuid demoEnv demoQueueEnv demoDependencyJobEnv demoCfgBatch
            ++ newJobDependencies stdUuid demoEnv demoQueueEnv demoDependencyJobEnv
              demoCfgBatch :=
  ⟨by decide,
   (UpdateSourceFileDependenciesDatabase_replaces_edges stdUuid demoEnv demoQueueEnv
      demoDependencyJobEnv demoPlaceholderEdges {} demoCfgBatch (by decide) (by decide)).1⟩

/-! ## Placeholder healing -/

theorem mem_eraseFirstNamed_of_ne (l : List FileEntry) (name : Str) (e : FileEntry)
    (he : e ∈ l) (hne : e.m_fileName ≠ name) : e ∈ eraseFirstNamed l name := by
  induction l with
  | nil => exact absurd he (List.not_mem_nil _)
  | cons hd tl ih =>
    simp only [eraseFirstNamed]
    rcases List.mem_cons.1 he with rfl | he
    · rw [if_neg hne]
      exact List.mem_cons_self _ _
    · split
      · exact he
      · exact List.mem_cons_of_mem _ (ih he)

theorem AssessFileInternal_quitRequested (env : FileEnv) (qenv : QueueEnv) (s : QueueState)
    (fullFile : Str) (isDelete fromScanner : Bool) :
    (AssessFileInternal env qenv s fullFile isDelete fromScanner).m_quitRequested
      = s.m_quitRequested := by
  simp only [AssessFileInternal]
  split
  · rfl
  · split <;> rfl

theorem AssessFileInternal_keeps_queued (env : FileEnv) (qenv : QueueEnv) (s : QueueState)
    (fullFile name : Str)
    (h : ({ m_fileName := name, m_isDelete := false, m_isFromScanner := false } : FileEntry)
      ∈ s.m_activeFiles) :
    ({ m_fileName := name, m_isDelete := false, m_isFromScanner := false } : FileEntry)
      ∈ (AssessFileInternal env qenv s fullFile false false).m_activeFiles := by
  simp only [AssessFileInternal]
  split
  · exact h
  · split
    · exact h
    · by_cases hn : qenv.NormalizeFilePath fullFile = name
      · subst hn
        exact List.mem_append_right _ (List.mem_singleton.2 rfl)
      · apply List.mem_append_left
        split
        · exact mem_eraseFirstNamed_of_ne _ _ _ h (fun heq => hn heq.symm)
        · exact h

theorem AssessFileInternal_queues (env : FileEnv) (qenv : QueueEnv) (s : QueueState)
    (fullFile : Str) (hquit : s.m_quitRequested = false)
    (hexcl : qenv.IsFileExcluded (qenv.NormalizeFilePath fullFile) = false) :
    ({ m_fileName := qenv.NormalizeFilePath fullFile, m_isDelete := false,
       m_isFromScanner := false } : FileEntry)
      ∈ (AssessFileInternal env qenv s fullFile false false).m_activeFiles := by
  simp only [AssessFileInternal, hquit, hexcl, Bool.false_eq_true, if_false, and_false]
  exact List.mem_append_right _ (List.mem_singleton.2 rfl)

theorem requeuePlaceholderSources_quitRequested (env : FileEnv) (qenv : QueueEnv)
    (results : List SourceFileDependencyEntry) (queue : QueueState) :
    (requeuePlaceholderSources env qenv results queue).m_quitRequested
      = queue.m_quitRequested := by
  induction results generalizing queue with
  | nil => rfl
  | cons resultEntry rest ih =>
    simp only [requeuePlaceholderSources]
    split
    · rw [ih, AssessFileInternal_quitRequested]
    · exact ih queue

theorem requeuePlaceholderSources_keeps (env : FileEnv) (qenv : QueueEnv)
    (results : List SourceFileDependencyEntry) (queue : QueueState) (name : Str)
    (h : ({ m_fileName := name, m_isDelete := false, m_isFromScanner := false } : FileEntry)
      ∈ queue.m_activeFiles) :
    ({ m_fileName := name, m_isDelete := false, m_isFromScanner := false } : FileEntry)
      ∈ (requeuePlaceholderSources env qenv results queue).m_activeFiles := by
  induction results generalizing queue with
  | nil => exact h
  | cons resultEntry rest ih =>
    simp only [requeuePlaceholderSources]
    split
    · exact ih _ (AssessFileInternal_keeps_queued env qenv queue _ name h)
    · exact ih queue h

theorem requeuePlaceholderSources_queues (env : FileEnv) (qenv : QueueEnv)
    (results : List SourceFileDependencyEntry) (queue : QueueState)
    (hquit : queue.m_quitRequested = false) (r : SourceFileDependencyEntry) (hr : r ∈ results)
    (hdisk : env.FindFirstMatchingFile r.m_source ≠ [])
    (hexcl : qenv.IsFileExcluded
      (qenv.NormalizeFilePath (env.FindFirstMatchingFile r.m_source)) = false) :
    ({ m_fileName := qenv.NormalizeFilePath (env.FindFirstMatchingFile r.m_source),
       m_isDelete := false, m_isFromScanner := false } : FileEntry)
      ∈ (requeuePlaceholderSources env qenv results queue).m_activeFiles := by
  induction results generalizing queue with
  | nil => exact absurd hr (List.not_mem_nil _)
  | cons resultEntry rest ih =>
    simp only [requeuePlaceholderSources]
    rcases List.mem_cons.1 hr with rfl | hr
    · rw [if_pos (by simpa [List.isEmpty_iff] using hdisk)]
      exact requeuePlaceholderSources_keeps env qenv rest _ _
        (AssessFileInternal_queues env qenv queue _ hquit hexcl)
    · split
      · exact ih _ (by rw [AssessFileInternal_quitRequested]; exact hquit) hr
      · exact ih queue hquit hr

theorem UpdateSourceFileDependenciesDatabase_heals (ops : UuidOps) (env : FileEnv)
    (qenv : QueueEnv) (jenv : JobEnv) (edges : List SourceFileDependencyEntry)
    (queue : QueueState) (entry : JobToProcessEntry)
    (hid : (edges.map (fun e => e.m_sourceDependencyID)).Nodup)
    (hquit : queue.m_quitRequested = false) :
    (∀ e ∈ edges, e.m_source ≠ entry.m_sourceFileInfo.m_databasePath →
      isPlaceholderFor ops env entry e = true →
      (∃ e' ∈ (UpdateSourceFileDependenciesDatabase ops env qenv jenv edges queue entry).1,
        withoutID e' = withoutID
          { e with m_dependsOnSource := entry.m_sourceFileInfo.m_databasePath })
      ∧ (env.FindFirstMatchingFile e.m_source ≠ [] →
          qenv.IsFileExcluded
            (qenv.NormalizeFilePath (env.FindFirstMatchingFile e.m_source)) = false →
          ({ m_fileName := qenv.NormalizeFilePath (env.FindFirstMatchingFile e.m_source),
             m_isDelete := false, m_isFromScanner := false } : FileEntry)
            ∈ (UpdateSourceFileDependenciesDatabase ops env qenv jenv edges queue
                entry).2.m_activeFiles))
    ∧ (∀ e' ∈ (UpdateSourceFileDependenciesDatabase ops env qenv jenv edges queue entry).1,
        isPlaceholderFor ops env entry e' = true →
        e'.m_dependsOnSource = entry.m_sourceFileInfo.m_databasePath) := by
  simp only [UpdateSourceFileDependenciesDatabase]
  have hE1 : RemoveSourceFileDependencies edges
      ((QueryDependsOnSourceBySourceDependency edges entry.m_sourceFileInfo.m_databasePath
        TypeOfDependency.DEP_Any).map (fun existingEntry => existingEntry.m_sourceDependencyID))
      = edges.filter (fun e => !decide (e.m_source = entry.m_sourceFileInfo.m_databasePath)) :=
    RemoveSourceFileDependencies_of_mem edges hid _
      (fun e => decide (e.m_source = entry.m_sourceFileInfo.m_databasePath))
      (by
        intro e
        simp [QueryDependsOnSourceBySourceDependency, dependencyTypeMatches, List.mem_filter])
  rw [hE1]
  obtain ⟨added, hset, _, hid2⟩ := SetSourceFileDependencies_spec
    (newSourceDependencies ops env qenv jenv entry ++ newJobDependencies ops env qenv jenv entry)
    (edges.filter (fun e => !decide (e.m_source = entry.m_sourceFileInfo.m_databasePath)))
    (nodup_map_filter _ _ _ hid)
  rw [hset]
  have hE3 : RemoveSourceFileDependencies
      (edges.filter (fun e => !decide (e.m_source = entry.m_sourceFileInfo.m_databasePath))
        ++ added)
      ((placeholderEdges ops env
        (edges.filter (fun e => !decide (e.m_source = entry.m_sourceFileInfo.m_databasePath))
          ++ added) entry).map (fun resultEntry => resultEntry.m_sourceDependencyID))
      = (edges.filter (fun e => !decide (e.m_source = entry.m_sourceFileInfo.m_databasePath))
          ++ added).filter (fun e => !isPlaceholderFor ops env entry e) :=
    RemoveSourceFileDependencies_of_mem _ hid2 _ (isPlaceholderFor ops env entry)
      (mem_placeholderEdges ops env _ entry)
  rw [hE3]
  obtain ⟨healed, hset2, hheal, _⟩ := SetSourceFileDependencies_spec
    ((placeholderEdges ops env
      (edges.filter (fun e => !decide (e.m_source = entry.m_sourceFileInfo.m_databasePath))
        ++ added) entry).map
      (fun resultEntry =>
        { resultEntry with m_dependsOnSource := entry.m_sourceFileInfo.m_databasePath }))
    ((edges.filter (fun e => !decide (e.m_source = entry.m_sourceFileInfo.m_databasePath))
        ++ added).filter (fun e => !isPlaceholderFor ops env entry e))
    (nodup_map_filter _ _ _ hid2)
  rw [hset2]
  rw [List.map_map] at hheal
  constructor
  · intro e he hs hp
    have hr : e ∈ placeholderEdges ops env
        (edges.filter (fun e => !decide (e.m_source = entry.m_sourceFileInfo.m_databasePath))
          ++ added) entry :=
      (mem_placeholderEdges ops env _ entry e).2
        ⟨List.mem_append_left _ (List.mem_filter.2 ⟨he, by simpa using hs⟩), hp⟩
    constructor
    · have hmem := List.mem_map_of_mem
        (withoutID ∘ fun resultEntry : SourceFileDependencyEntry =>
          { resultEntry with m_dependsOnSource := entry.m_sourceFileInfo.m_databasePath }) hr
      rw [← hheal] at hmem
      obtain ⟨h, hh, hhe⟩ := List.mem_map.1 hmem
      exact ⟨h, List.mem_append_right _ hh, hhe⟩
    · intro hdisk hexcl
      exact requeuePlaceholderSources_queues env qenv _ queue hquit e hr hdisk hexcl
  · intro e' he' hp
    rcases List.mem_append.1 he' with h | h
    · have := (List.mem_filter.1 h).2
      simp [hp] at this
    · have hmem : withoutID e' ∈ healed.map withoutID := List.mem_map_of_mem _ h
      rw [hheal] at hmem
      obtain ⟨r, _, hre⟩ := List.mem_map.1 hmem
      exact (congrArg (fun e => e.m_dependsOnSource) hre).symm

theorem addCreatedJobs_frame (jenv : JobEnv) (normalizedPath : Str)
    (scanFolder : ScanFolderInfo) (actualRelativePath databasePathToFile : Str)
    (sourceUUID : Uuid) (builderInfo : AssetBuilderDesc) (descs : List JobDescriptor)
    (acc : ProcessBuildersLoop) :
    (addCreatedJobs jenv normalizedPath scanFolder actualRelativePath databasePathToFile
        sourceUUID builderInfo descs acc).st.edges = acc.st.edges
    ∧ (addCreatedJobs jenv normalizedPath scanFolder actualRelativePath databasePathToFile
        sourceUUID builderInfo descs acc).st.queue.m_quitRequested
        = acc.st.queue.m_quitRequested := by
  induction descs generalizing acc with
  | nil => exact ⟨rfl, rfl⟩
  | cons d rest ih =>
    simp only [addCreatedJobs]
    split
    · exact ih _
    · exact ih acc

theorem processBuildersLoop_frame (ops : UuidOps) (jenv : JobEnv) (normalizedPath : Str)
    (scanFolder : ScanFolderInfo) (actualRelativePath databasePathToFile : Str)
    (sourceUUID : Uuid) (builders : List AssetBuilderDesc) (acc : ProcessBuildersLoop) :
    (processBuildersLoop ops jenv normalizedPath scanFolder actualRelativePath
        databasePathToFile sourceUUID builders acc).1.st.edges = acc.st.edges
    ∧ (processBuildersLoop ops jenv normalizedPath scanFolder actualRelativePath
        databasePathToFile sourceUUID builders acc).1.st.queue.m_quitRequested
        = acc.st.queue.m_quitRequested
    ∧ ((∀ b ∈ builders,
          (jenv.createJobs b).m_result ≠ CreateJobsResultCode.ShuttingDown) →
        (processBuildersLoop ops jenv normalizedPath scanFolder actualRelativePath
          databasePathToFile sourceUUID builders acc).2 = false) := by
  induction builders generalizing acc with
  | nil => exact ⟨rfl, rfl, fun _ => rfl⟩
  | cons b rest ih =>
    simp only [processBuildersLoop]
    split
    · obtain ⟨h1, h2, h3⟩ := ih acc
      exact ⟨h1, h2, fun h => h3 (fun b' hb' => h b' (List.mem_cons_of_mem _ hb'))⟩
    · split
      · obtain ⟨h1, h2, h3⟩ := ih
          { acc with
            st := { acc.st with
              jobs := { acc.st.jobs with
                m_remainingJobsForEachSourceFile :=
                  (UpdateAnalysisTrackerForFile acc.st.jobs.m_remainingJobsForEachSourceFile
                    normalizedPath AnalysisTrackerUpdateType.JobFailed).1 } }
            effects :=
              { emitted := acc.effects.emitted ++
                  [autoFailJob ops jenv scanFolder actualRelativePath databasePathToFile
                    sourceUUID b]
                queued := acc.effects.queued ++
                  (UpdateAnalysisTrackerForFile acc.st.jobs.m_remainingJobsForEachSourceFile
                    normalizedPath AnalysisTrackerUpdateType.JobFailed).2 } }
        exact ⟨h1, h2, fun h => h3 (fun b' hb' => h b' (List.mem_cons_of_mem _ hb'))⟩
      · rename_i hres
        exact ⟨rfl, rfl, fun h => absurd hres (h b (List.mem_cons_self _ _))⟩
      · obtain ⟨f1, f2⟩ := addCreatedJobs_frame jenv normalizedPath scanFolder
          actualRelativePath databasePathToFile sourceUUID b
          (jenv.createJobs b).m_createJobOutputs acc
        split
        · obtain ⟨h1, h2, h3⟩ := ih _
          exact ⟨h1.trans f1, h2.trans f2,
            fun h => h3 (fun b' hb' => h b' (List.mem_cons_of_mem _ hb'))⟩
        · obtain ⟨h1, h2, h3⟩ := ih _
          exact ⟨h1.trans f1, h2.trans f2,
            fun h => h3 (fun b' hb' => h b' (List.mem_cons_of_mem _ hb'))⟩

/-- C16 (amended): when a source C is examined as a modified source that the fast skip does
not drop (it does not come from the scanner, or skipping is off, or `CanEarlyOutSourceFile`
returns false), at least one builder matches it and no builder answers that it is shutting
down, then, on a dependency table whose ids are keys and with quit not requested:
`CheckModifiedSourceFile` returns; every edge of another
source whose target was a placeholder for C (the marker followed by the path of C relative to
its scan folder, or by the identifier of C) is in the table with the database path of C as its
target, and its source, when it is on disk and not excluded, is in the active-file list as a
modified file; and every edge whose target is still such a placeholder text has the database
path of C as target. -/
theorem placeholder_healing (ops : UuidOps) (env : FileEnv) (qenv : QueueEnv) (jenv : JobEnv)
    (builders : BuilderState) (sources : List SourceDatabaseEntry)
    (m_bAllowAnalysisSkippingFeature : Bool) (st : ManagerState)
    (normalizedPath databaseSourceFile : Str) (fromScanner : Bool) (scanFolder : ScanFolderInfo)
    (builderInfoList : List AssetBuilderDesc)
    (hnoskip : fromScanner = false ∨ m_bAllowAnalysisSkippingFeature = false
      ∨ CanEarlyOutSourceFile ops env builders sources st.edges st.queue.m_metaCache
          normalizedPath databaseSourceFile scanFolder.ScanFolderID = SkipResult.ret false)
    (hbuilders : builderInfoList ≠ [])
    (hshut : ∀ b ∈ builderInfoList,
      (jenv.createJobs b).m_result ≠ CreateJobsResultCode.ShuttingDown)
    (hid : (st.edges.map (fun e => e.m_sourceDependencyID)).Nodup)
    (hquit : st.queue.m_quitRequested = false) :
    ∃ r, CheckModifiedSourceFileOn ops env qenv jenv builders sources
        m_bAllowAnalysisSkippingFeature st normalizedPath databaseSourceFile fromScanner
        scanFolder builderInfoList = some r
      ∧ (∀ e ∈ st.edges, e.m_source ≠ databaseSourceFile →
          isPlaceholderFor ops env (sourceBatch jenv databaseSourceFile scanFolder) e = true →
          (∃ e' ∈ r.1.edges,
            withoutID e' = withoutID { e with m_dependsOnSource := databaseSourceFile })
          ∧ (env.FindFirstMatchingFile e.m_source ≠ [] →
              qenv.IsFileExcluded
                (qenv.NormalizeFilePath (env.FindFirstMatchingFile e.m_source)) = false →
              ({ m_fileName := qenv.NormalizeFilePath (env.FindFirstMatchingFile e.m_source),
                 m_isDelete := false, m_isFromScanner := false } : FileEntry)
                ∈ r.1.queue.m_activeFiles))
      ∧ (∀ e' ∈ r.1.edges,
          isPlaceholderFor ops env (sourceBatch jenv databaseSourceFile scanFolder) e' = true →
          e'.m_dependsOnSource = databaseSourceFile) := by
  have hlen : (builderInfoList.map (fun b => b.m_busId)).length ≠ 0 := by
    simpa using hbuilders
  have hout : CheckModifiedSourceFile ops env builders sources st.edges st.queue.m_metaCache
      m_bAllowAnalysisSkippingFeature (builderInfoList.map (fun b => b.m_busId))
      normalizedPath databaseSourceFile fromScanner scanFolder.ScanFolderID
      = CheckModifiedOutcome.processBuilders (builderInfoList.map (fun b => b.m_busId)) := by
    simp only [CheckModifiedSourceFile, hlen, ne_eq, not_false_eq_true, if_true]
    rcases hnoskip with h | h | h
    · simp [h]
    · simp [h]
    · rw [h]
      simp
  simp only [CheckModifiedSourceFileOn, hout]
  refine ⟨_, rfl, ?_⟩
  simp only [ProcessBuilders, isPlaceholderFor, sourceBatch]
  obtain ⟨f1, f2, f3⟩ := processBuildersLoop_frame ops jenv normalizedPath scanFolder
    (if (!scanFolder.GetOutputPrefix.isEmpty) = true then
        databaseSourceFile.drop (scanFolder.GetOutputPrefix.length + 1)
      else databaseSourceFile)
    databaseSourceFile (jenv.CreateSafeSourceUUIDFromName databaseSourceFile) builderInfoList
    { st := { st with
        jobs := { st.jobs with
          m_remainingJobsForEachSourceFile :=
            insertTracker st.jobs.m_remainingJobsForEachSourceFile normalizedPath
              databaseSourceFile scanFolder.ScanFolderID builderInfoList } },
      entry := {}, effects := {} }
  rw [f3 hshut]
  simp only [Bool.false_eq_true, if_false, f1]
  have key := UpdateSourceFileDependenciesDatabase_heals ops env qenv jenv st.edges
    (processBuildersLoop ops jenv normalizedPath scanFolder
      (if (!scanFolder.GetOutputPrefix.isEmpty) = true then
        databaseSourceFile.drop (scanFolder.GetOutputPrefix.length + 1)
      else databaseSourceFile)
      databaseSourceFile
      (jenv.CreateSafeSourceUUIDFromName databaseSourceFile) builderInfoList
      { st := { st with
          jobs := { st.jobs with
            m_remainingJobsForEachSourceFile :=
              insertTracker st.jobs.m_remainingJobsForEachSourceFile normalizedPath
                databaseSourceFile scanFolder.ScanFolderID builderInfoList } },
        entry := {}, effects := {} }).1.st.queue
    { (processBuildersLoop ops jenv normalizedPath scanFolder
      (if (!scanFolder.GetOutputPrefix.isEmpty) = true then
        databaseSourceFile.drop (scanFolder.GetOutputPrefix.length + 1)
      else databaseSourceFile)
      databaseSourceFile
      (jenv.CreateSafeSourceUUIDFromName databaseSourceFile) builderInfoList
      { st := { st with
          jobs := { st.jobs with
            m_remainingJobsForEachSourceFile :=
              insertTracker st.jobs.m_remainingJobsForEachSourceFile normalizedPath
                databaseSourceFile scanFolder.ScanFolderID builderInfoList } },
        entry := {}, effects := {} }).1.entry with
      m_sourceFileInfo :=
        { m_databasePath := databaseSourceFile
          m_scanFolder := scanFolder
          m_pathRelativeToScanFolder :=
            (if (!scanFolder.GetOutputPrefix.isEmpty) = true then
        databaseSourceFile.drop (scanFolder.GetOutputPrefix.length + 1)
      else databaseSourceFile)
          m_uuid := jenv.CreateSafeSourceUUIDFromName databaseSourceFile } }
    hid (f2.trans hquit)
  simp only [isPlaceholderFor] at key
  exact key

set_option maxRecDepth 100000 in
/-- C16, on a run: `c.cfg` appears, is found by the scanner with skipping on, and
`CanEarlyOutSourceFile` returns false for it; the copy builder matches it; the edges of
`b.txt` and `a.txt` that pointed at a placeholder for `c.cfg` point at `c.cfg` afterwards, and
`b.txt` and `a.txt` are in the active-file list. -/
theorem placeholder_healing_witness :
    (∃ r, CheckModifiedSourceFileOn stdUuid demoEnv demoQueueEnv demoDependencyJobEnv
        demoBuilderState [] true demoPlaceholderState "/dev/game/c.cfg".toList "c.cfg".toList
        true demoScanFolder [demoCopyBuilder] = some r
      ∧ ∀ e' ∈ r.1.edges,
          isPlaceholderFor stdUuid demoEnv
            (sourceBatch demoDependencyJobEnv "c.cfg".toList demoScanFolder) e' = true →
          e'.m_dependsOnSource = "c.cfg".toList)
    ∧ (CheckModifiedSourceFileOn stdUuid demoEnv demoQueueEnv demoDependencyJobEnv
        demoBuilderState [] true demoPlaceholderState "/dev/game/c.cfg".toList "c.cfg".toList
        true demoScanFolder [demoCopyBuilder]).map
        (fun r => (r.1.edges.map (fun e => (e.m_source, e.m_dependsOnSource)),
          r.1.queue.m_activeFiles.map (fun f => f.m_fileName)))
      = some ([("a.txt".toList, "b.txt".toList), ("c.cfg".toList, "b.txt".toList),
          ("c.cfg".toList, "$missing_dependency$:zzz.txt".toList),
          ("c.cfg".toList, "a.txt".toList), ("b.txt".toList, "c.cfg".toList),
          ("a.txt".toList, "c.cfg".toList)],
          ["/dev/game/b.txt".toList, "/dev/game/a.txt".toList]) :=
  ⟨(placeholder_healing stdUuid demoEnv demoQueueEnv demoDependencyJobEnv demoBuilderState []
      true demoPlaceholderState "/dev/game/c.cfg".toList "c.cfg".toList true demoScanFolder
      [demoCopyBuilder] (Or.inr (Or.inr (by decide))) (by decide) (by decide) (by decide)
      rfl).imp
      (fun _ h => ⟨h.1, h.2.2⟩),
   by decide⟩

set_option maxRecDepth 100000 in
/-- C16 as stated fails: `c.cfg` appears and is examined as a modified source, but no builder
matches it. The edge of `b.txt` whose target is the placeholder for `c.cfg` stays as it is,
although `b.txt` is on disk, and nothing is queued. -/
theorem placeholder_not_healed_without_builder :
    (CheckModifiedSourceFileOn stdUuid demoEnv demoQueueEnv demoDependencyJobEnv
        demoBuilderState [] true demoPlaceholderState "/dev/game/c.cfg".toList "c.cfg".toList
        false demoScanFolder []).map
        (fun r => (r.1.edges, r.1.queue.m_activeFiles))
      = some (demoPlaceholderEdges, [])
    ∧ demoPlaceholderEdges.head?.map
        (fun e => (e.m_source, e.m_dependsOnSource,
          isPlaceholderFor stdUuid demoEnv
            (sourceBatch demoDependencyJobEnv "c.cfg".toList demoScanFolder) e,
          demoEnv.FindFirstMatchingFile e.m_source))
      = some ("b.txt".toList, "$missing_dependency$:c.cfg".toList, true,
          "/dev/game/b.txt".toList) := by
  constructor <;> decide

/-! ## Dependency propagation in `CheckSource` -/

theorem AssessFileInternal_alreadyActive (env : FileEnv) (qenv : QueueEnv) (s : QueueState)
    (fullFile p : Str)
    (hp : p ∈ (AssessFileInternal env qenv s fullFile false false).m_alreadyActiveFiles) :
    p ∈ s.m_alreadyActiveFiles
      ∨ ({ m_fileName := p, m_isDelete := false, m_isFromScanner := false } : FileEntry)
          ∈ (AssessFileInternal env qenv s fullFile false false).m_activeFiles := by
  simp only [AssessFileInternal] at hp ⊢
  split at hp
  · rename_i hq
    simp only [hq, if_true]
    exact Or.inl hp
  · rename_i hq
    simp only [hq, if_false]
    split at hp
    · rename_i hx
      simp only [hx, if_true]
      exact Or.inl hp
    · rename_i hx
      simp only [hx, if_false]
      rcases (mem_setInsert _ _ _).1 hp with rfl | h
      · exact Or.inr (List.mem_append_right _ (List.mem_singleton.2 rfl))
      · exact Or.inl h

theorem queueDependents_keeps_queued (env : FileEnv) (qenv : QueueEnv) (dependents : List Str)
    (s : QueueState) (name : Str)
    (h : ({ m_fileName := name, m_isDelete := false, m_isFromScanner := false } : FileEntry)
      ∈ s.m_activeFiles) :
    ({ m_fileName := name, m_isDelete := false, m_isFromScanner := false } : FileEntry)
      ∈ (queueDependents env qenv dependents s).m_activeFiles := by
  induction dependents generalizing s with
  | nil => exact h
  | cons q rest ih =>
    simp only [queueDependents]
    split
    · exact ih s h
    · split
      · exact ih s h
      · split
        · exact ih s h
        · exact ih _ (AssessFileInternal_keeps_queued env qenv s q name h)

theorem queueDependents_queues (env : FileEnv) (qenv : QueueEnv) (base : List Str)
    (dependents : List Str) (s : QueueState) (path : Str)
    (hquit : s.m_quitRequested = false)
    (hinv : ∀ p ∈ s.m_alreadyActiveFiles, p ∈ base
      ∨ ({ m_fileName := p, m_isDelete := false, m_isFromScanner := false } : FileEntry)
          ∈ s.m_activeFiles)
    (hmem : path ∈ dependents) (hex : mapFind s.m_filesToExamine path = none)
    (hbase : path ∉ base)
    (hph : startsWith path env.m_placeHolderFileName = false)
    (hexcl : qenv.IsFileExcluded (qenv.NormalizeFilePath path) = false)
    (hnorm : qenv.NormalizeFilePath path = path) :
    ({ m_fileName := path, m_isDelete := false, m_isFromScanner := false } : FileEntry)
      ∈ (queueDependents env qenv dependents s).m_activeFiles := by
  induction dependents generalizing s with
  | nil => exact absurd hmem (List.not_mem_nil _)
  | cons q rest ih =>
    simp only [queueDependents]
    by_cases hq : q = path
    · subst hq
      rw [if_neg (by simp [hex])]
      by_cases hact : q ∈ s.m_alreadyActiveFiles
      · rw [if_pos hact]
        rcases hinv q hact with h | h
        · exact absurd h hbase
        · exact queueDependents_keeps_queued env qenv rest s q h
      · rw [if_neg hact, if_neg (by simp [hph])]
        apply queueDependents_keeps_queued
        have := AssessFileInternal_queues env qenv s q hquit hexcl
        rwa [hnorm] at this
    · have hrest : path ∈ rest := by
        rcases List.mem_cons.1 hmem with h | h
        · exact absurd h.symm hq
        · exact h
      split
      · exact ih s hquit hinv hrest hex
      · split
        · exact ih s hquit hinv hrest hex
        · split
          · exact ih s hquit hinv hrest hex
          · apply ih _ (by rw [AssessFileInternal_quitRequested]; exact hquit) ?_ hrest
              (by rw [AssessFileInternal_filesToExamine]; exact hex)
            intro p hp
            rcases AssessFileInternal_alreadyActive env qenv s q p hp with h | h
            · rcases hinv p h with h2 | h2
              · exact Or.inl h2
              · exact Or.inr (AssessFileInternal_keeps_queued env qenv s q p h2)
            · exact Or.inr h

/-- C17: let the store hold an edge from B to A, let B be on disk (`FindFirstMatchingFile`
gives its path, which is normalised, not excluded and no placeholder), and let `CheckSource`
work on a notification for A that is no delete and does not come from the scanner, with quit
not requested and A not excluded. Then after the call B is in the active-file list as a
modified file, unless B was in the examine queue or in the active set before the call, or B
is A itself. -/
theorem CheckSource_queues_dependents (env : FileEnv) (qenv : QueueEnv)
    (edges : List SourceFileDependencyEntry) (s : QueueState) (source : FileEntry)
    (examined : Str) (e : SourceFileDependencyEntry)
    (hscan : source.m_isFromScanner = false) (hdel : source.m_isDelete = false)
    (hquit : s.m_quitRequested = false)
    (hexclA : qenv.IsFileExcluded (qenv.NormalizeFilePath source.m_fileName) = false)
    (hmeta : resolveMetaDataFile env qenv (qenv.NormalizeFilePath source.m_fileName)
      env.metaDataFileTypes = some examined)
    (hconv : qenv.canConvertToRelativePath examined = true)
    (he : e ∈ edges) (hdep : e.m_dependsOnSource = env.ConvertToRelativePath examined)
    (hdisk : env.FindFirstMatchingFile e.m_source ≠ [])
    (hph : startsWith (env.FindFirstMatchingFile e.m_source) env.m_placeHolderFileName = false)
    (hexclB : qenv.IsFileExcluded
      (qenv.NormalizeFilePath (env.FindFirstMatchingFile e.m_source)) = false)
    (hnorm : qenv.NormalizeFilePath (env.FindFirstMatchingFile e.m_source)
      = env.FindFirstMatchingFile e.m_source)
    (hnew : mapFind s.m_filesToExamine (env.FindFirstMatchingFile e.m_source) = none)
    (hself : env.FindFirstMatchingFile e.m_source ≠ examined)
    (hact : env.FindFirstMatchingFile e.m_source ∉ s.m_alreadyActiveFiles) :
    ({ m_fileName := env.FindFirstMatchingFile e.m_source, m_isDelete := false,
       m_isFromScanner := false } : FileEntry)
      ∈ (CheckSource env qenv edges s source).m_activeFiles := by
  simp only [CheckSource, hscan, hexclA, hmeta, examineLater, hdel, Bool.not_false,
    Bool.false_eq_true, and_false, if_false, and_self, if_true]
  apply queueDependents_queues env qenv s.m_alreadyActiveFiles _ _ _ ?_ ?_ ?_ ?_ hact hph
    hexclB hnorm
  · exact hquit
  · exact fun p hp => Or.inl hp
  · simp only [GetSourceFilesWhichDependOnSourceFile, hconv, if_true, List.mem_filter,
      List.mem_map]
    refine ⟨⟨e, ?_, rfl⟩, by simpa [List.isEmpty_iff] using hdisk⟩
    simp [QuerySourceDependencyByDependsOnSource, dependencyTypeMatches, he, hdep]
  · simp only [mapFind_mapSet]
    rw [if_neg (fun h => hself h.symm)]
    exact hnew

set_option maxRecDepth 100000 in
/-- C17, on a run: the store holds the edge from `b.txt` to `a.txt`; a notification that
`a.txt` was modified puts `b.txt` into the active-file list. -/
theorem CheckSource_queues_dependents_witness :
    (CheckSource demoEnv demoQueueEnv
        [{ m_source := "b.txt".toList, m_dependsOnSource := "a.txt".toList }] {}
        { m_fileName := "/dev/game/a.txt".toList }).m_activeFiles
      = [{ m_fileName := "/dev/game/b.txt".toList }]
    ∧ ({ m_fileName := demoEnv.FindFirstMatchingFile "b.txt".toList, m_isDelete := false,
         m_isFromScanner := false } : FileEntry)
        ∈ (CheckSource demoEnv demoQueueEnv
            [{ m_source := "b.txt".toList, m_dependsOnSource := "a.txt".toList }] {}
            { m_fileName := "/dev/game/a.txt".toList }).m_activeFiles :=
  ⟨by decide,
   CheckSource_queues_dependents demoEnv demoQueueEnv
     [{ m_source := "b.txt".toList, m_dependsOnSource := "a.txt".toList }] {}
     { m_fileName := "/dev/game/a.txt".toList } "/dev/game/a.txt".toList
     { m_source := "b.txt".toList, m_dependsOnSource := "a.txt".toList }
     rfl rfl rfl (by decide) (by decide) (by decide) (by decide) (by decide) (by decide)
     (by decide) (by decide) (by decide) (by decide) (by decide) (by decide)⟩

/-! ## Resolving a declared dependency -/

/-- The search by identifier on a store whose source names are not empty and whose sources
all have their scan folder, with a map of non-empty names, never answers an empty name. -/
theorem withSourceSearch_name_ne_nil (jenv : JobEnv)
    (m_sourceUUIDToSourceInfoMap : List (Uuid × SourceInfo))
    (sources : List SourceDatabaseEntry) (scanFolders : List ScanFolderDatabaseEntry)
    (hmap : ∀ p ∈ m_sourceUUIDToSourceInfoMap, p.2.m_sourceDatabaseName ≠ [])
    (hsources : ∀ s ∈ sources, s.m_sourceName ≠ []
      ∧ (GetScanFolderByScanFolderID scanFolders s.m_scanFolderPK).isSome = true)
    (sourceUuid : Uuid) (name : Str)
    (h : (withSourceSearch jenv m_sourceUUIDToSourceInfoMap sources
      scanFolders).SearchSourceInfoBySourceUUID sourceUuid = some name) : name ≠ [] := by
  have hfind : ∀ (m : List (Uuid × SourceInfo)) (v : SourceInfo),
      mapFind m sourceUuid = some v → ∃ p ∈ m, p.2 = v := by
    intro m
    induction m with
    | nil => intro v hv; simp [mapFind] at hv
    | cons p rest ih =>
      intro v hv
      obtain ⟨k, w⟩ := p
      simp only [mapFind] at hv
      split at hv
      · exact ⟨(k, w), List.mem_cons_self _ _, by simpa using hv⟩
      · obtain ⟨q, hq, hqv⟩ := ih v hv
        exact ⟨q, List.mem_cons_of_mem _ hq, hqv⟩
  simp only [withSourceSearch, SearchSourceInfoBySourceUUID] at h
  cases hm : mapFind m_sourceUUIDToSourceInfoMap sourceUuid with
  | some found =>
    rw [hm] at h
    simp only [if_true, Option.some.injEq] at h
    obtain ⟨p, hp, hpv⟩ := hfind _ _ hm
    rw [← h, ← hpv]
    exact hmap p hp
  | none =>
    rw [hm] at h
    cases hs : GetSourceBySourceGuid sources sourceUuid with
    | none =>
      rw [hs] at h
      simp at h
    | some entry =>
      rw [hs] at h
      have hmem : entry ∈ sources := List.mem_of_find?_eq_some hs
      obtain ⟨hne, hfolder⟩ := hsources entry hmem
      cases hf : GetScanFolderByScanFolderID scanFolders entry.m_scanFolderPK with
      | none => rw [hf] at hfolder; simp at hfolder
      | some folder =>
        simp only [hf, if_true, Option.some.injEq] at h
        rw [← h]
        exact hne

/-- C18 (amended): `ResolveDependencyPath`, with `SearchSourceInfoBySourceUUID` searching the
map and the store, fails exactly when the name it settles on is empty, and that is the case
exactly for: an identifier that the search does not find when the placeholder marker followed
by its text is empty; an identifier that the search reports found with an empty database name;
no identifier and no path; no identifier and an absolute path that `ConvertToRelativePath`
does not convert or converts to an empty path; no identifier and a relative path whose file
is found but converted to an empty path. Otherwise it answers a non-empty name, which is the
placeholder marker followed by the raw reference (the identifier that the search does not
find, or the relative path for which no file is found) or else a concrete database path. The
search reports an identifier found with an empty database name exactly when the map holds it
with an empty name, or the map does not hold it and the store has its source row with an
empty name or without its scan folder row. -/
theorem ResolveDependencyPath_contract (ops : UuidOps) (env : FileEnv) (qenv : QueueEnv)
    (jenv : JobEnv) (m_sourceUUIDToSourceInfoMap : List (Uuid × SourceInfo))
    (sources : List SourceDatabaseEntry) (scanFolders : List ScanFolderDatabaseEntry)
    (sourceDependency : SourceFileDependency) :
    (ResolveDependencyPath ops env qenv
        (withSourceSearch jenv m_sourceUUIDToSourceInfoMap sources scanFolders)
        sourceDependency = none ↔
      (sourceDependency.m_sourceFileDependencyUUID.IsNull = false
        ∧ (SearchSourceInfoBySourceUUID m_sourceUUIDToSourceInfoMap sources scanFolders
            sourceDependency.m_sourceFileDependencyUUID {}).1 = false
        ∧ env.m_placeHolderFileName
            ++ ops.ToString sourceDependency.m_sourceFileDependencyUUID = [])
      ∨ (sourceDependency.m_sourceFileDependencyUUID.IsNull = false
        ∧ (SearchSourceInfoBySourceUUID m_sourceUUIDToSourceInfoMap sources scanFolders
            sourceDependency.m_sourceFileDependencyUUID {}).1 = true
        ∧ (SearchSourceInfoBySourceUUID m_sourceUUIDToSourceInfoMap sources scanFolders
            sourceDependency.m_sourceFileDependencyUUID {}).2.1.m_sourceDatabaseName = [])
      ∨ (sourceDependency.m_sourceFileDependencyUUID.IsNull = true
        ∧ sourceDependency.m_sourceFileDependencyPath = [])
      ∨ (sourceDependency.m_sourceFileDependencyUUID.IsNull = true
        ∧ sourceDependency.m_sourceFileDependencyPath ≠ []
        ∧ jenv.isAbsolute sourceDependency.m_sourceFileDependencyPath = true
        ∧ (qenv.canConvertToRelativePath sourceDependency.m_sourceFileDependencyPath = false
          ∨ env.ConvertToRelativePath sourceDependency.m_sourceFileDependencyPath = []))
      ∨ (sourceDependency.m_sourceFileDependencyUUID.IsNull = true
        ∧ sourceDependency.m_sourceFileDependencyPath ≠ []
        ∧ jenv.isAbsolute sourceDependency.m_sourceFileDependencyPath = false
        ∧ env.FindFirstMatchingFile sourceDependency.m_sourceFileDependencyPath ≠ []
        ∧ env.ConvertToRelativePath
            (env.FindFirstMatchingFile sourceDependency.m_sourceFileDependencyPath) = []))
    ∧ (∀ result, ResolveDependencyPath ops env qenv
          (withSourceSearch jenv m_sourceUUIDToSourceInfoMap sources scanFolders)
          sourceDependency = some result →
        result ≠ []
        ∧ ((sourceDependency.m_sourceFileDependencyUUID.IsNull = false
              ∧ (SearchSourceInfoBySourceUUID m_sourceUUIDToSourceInfoMap sources scanFolders
                  sourceDependency.m_sourceFileDependencyUUID {}).1 = false
              ∧ result = env.m_placeHolderFileName
                  ++ ops.ToString sourceDependency.m_sourceFileDependencyUUID)
          ∨ (sourceDependency.m_sourceFileDependencyUUID.IsNull = true
              ∧ jenv.isAbsolute sourceDependency.m_sourceFileDependencyPath = false
              ∧ env.FindFirstMatchingFile sourceDependency.m_sourceFileDependencyPath = []
              ∧ result = env.m_placeHolderFileName
                  ++ sourceDependency.m_sourceFileDependencyPath)
          ∨ (sourceDependency.m_sourceFileDependencyUUID.IsNull = false
              ∧ (SearchSourceInfoBySourceUUID m_sourceUUIDToSourceInfoMap sources scanFolders
                  sourceDependency.m_sourceFileDependencyUUID {}).1 = true
              ∧ result = (SearchSourceInfoBySourceUUID m_sourceUUIDToSourceInfoMap sources
                  scanFolders
                  sourceDependency.m_sourceFileDependencyUUID {}).2.1.m_sourceDatabaseName)
          ∨ (sourceDependency.m_sourceFileDependencyUUID.IsNull = true
              ∧ jenv.isAbsolute sourceDependency.m_sourceFileDependencyPath = true
              ∧ qenv.canConvertToRelativePath sourceDependency.m_sourceFileDependencyPath
                = true
              ∧ result = env.ConvertToRelativePath sourceDependency.m_sourceFileDependencyPath)
          ∨ (sourceDependency.m_sourceFileDependencyUUID.IsNull = true
              ∧ jenv.isAbsolute sourceDependency.m_sourceFileDependencyPath = false
              ∧ env.FindFirstMatchingFile sourceDependency.m_sourceFileDependencyPath ≠ []
              ∧ result = env.ConvertToRelativePath
                  (env.FindFirstMatchingFile
                    sourceDependency.m_sourceFileDependencyPath))))
    ∧ (((SearchSourceInfoBySourceUUID m_sourceUUIDToSourceInfoMap sources scanFolders
            sourceDependency.m_sourceFileDependencyUUID {}).1 = true
        ∧ (SearchSourceInfoBySourceUUID m_sourceUUIDToSourceInfoMap sources scanFolders
            sourceDependency.m_sourceFileDependencyUUID {}).2.1.m_sourceDatabaseName = []) ↔
      (∃ foundSource,
          mapFind m_sourceUUIDToSourceInfoMap sourceDependency.m_sourceFileDependencyUUID
            = some foundSource
          ∧ foundSource.m_sourceDatabaseName = [])
      ∨ (mapFind m_sourceUUIDToSourceInfoMap sourceDependency.m_sourceFileDependencyUUID = none
        ∧ ∃ sourceDatabaseEntry,
            GetSourceBySourceGuid sources sourceDependency.m_sourceFileDependencyUUID
              = some sourceDatabaseEntry
            ∧ (sourceDatabaseEntry.m_sourceName = []
              ∨ GetScanFolderByScanFolderID scanFolders sourceDatabaseEntry.m_scanFolderPK
                = none))) := by
  have hemp : ∀ s : Str, s.isEmpty = true ↔ s = [] := by
    intro s
    cases s <;> simp
  refine ⟨?_, ?_, ?_⟩
  · simp only [ResolveDependencyPath, withSourceSearch]
    cases hu : sourceDependency.m_sourceFileDependencyUUID.IsNull with
    | false =>
      cases hs : (SearchSourceInfoBySourceUUID m_sourceUUIDToSourceInfoMap sources scanFolders
          sourceDependency.m_sourceFileDependencyUUID {}).1 with
      | false => simp [hemp]
      | true => simp [hemp]
    | true =>
      cases hp : sourceDependency.m_sourceFileDependencyPath with
      | nil => simp
      | cons c rest =>
        cases ha : jenv.isAbsolute (c :: rest) with
        | true =>
          cases hc : qenv.canConvertToRelativePath (c :: rest) with
          | false => simp [ha, hc]
          | true => simp [ha, hc, hemp]
        | false =>
          by_cases hf : env.FindFirstMatchingFile (c :: rest) = []
          · simp [ha, hf]
          · simp [ha, hf, hemp]
  · intro result hr
    simp only [ResolveDependencyPath, withSourceSearch] at hr
    cases hu : sourceDependency.m_sourceFileDependencyUUID.IsNull with
    | false =>
      cases hs : (SearchSourceInfoBySourceUUID m_sourceUUIDToSourceInfoMap sources
          scanFolders sourceDependency.m_sourceFileDependencyUUID {}).1 with
      | false =>
        simp [hu, hs, hemp] at hr
        obtain ⟨h1, h2⟩ := hr
        subst h2
        exact ⟨by simpa using h1, by simp⟩
      | true =>
        simp [hu, hs, hemp] at hr
        obtain ⟨h1, h2⟩ := hr
        subst h2
        exact ⟨h1, by simp⟩
    | true =>
      cases hp : sourceDependency.m_sourceFileDependencyPath with
      | nil => simp [hu, hp] at hr
      | cons c rest =>
        cases ha : jenv.isAbsolute (c :: rest) with
        | true =>
          cases hc : qenv.canConvertToRelativePath (c :: rest) with
          | false => simp [hu, hp, ha, hc] at hr
          | true =>
            simp [hu, hp, ha, hc, hemp] at hr
            obtain ⟨h1, h2⟩ := hr
            subst h2
            exact ⟨h1, by simp⟩
        | false =>
          by_cases hf : env.FindFirstMatchingFile (c :: rest) = []
          · simp [hu, hp, ha, hf, hemp] at hr
            subst hr
            exact ⟨by simp, by simp [hf]⟩
          · simp [hu, hp, ha, hf, hemp] at hr
            obtain ⟨h1, h2⟩ := hr
            subst h2
            exact ⟨h1, by simp [hf]⟩
  · simp only [SearchSourceInfoBySourceUUID]
    cases hm : mapFind m_sourceUUIDToSourceInfoMap
        sourceDependency.m_sourceFileDependencyUUID with
    | some foundSource => simp
    | none =>
      cases hg : GetSourceBySourceGuid sources
          sourceDependency.m_sourceFileDependencyUUID with
      | none => simp
      | some sourceDatabaseEntry =>
        cases hf : GetScanFolderByScanFolderID scanFolders
            sourceDatabaseEntry.m_scanFolderPK with
        | none => simp [hf]
        | some scanFolder => simp [hf]

set_option maxRecDepth 100000 in
/-- C18, on runs: an identifier that the store knows resolves to the database name, an
identifier that it does not know and a relative path that is not on disk resolve to
placeholders, a relative path on disk and an absolute path in the scan folder resolve to
database paths; and the contract at the known identifier. -/
theorem ResolveDependencyPath_contract_witness :
    ResolveDependencyPath stdUuid demoEnv demoScanQueueEnv demoSearchJobEnv
        { m_sourceFileDependencyUUID := 77 } = some "a.txt".toList
    ∧ ResolveDependencyPath stdUuid demoEnv demoScanQueueEnv demoSearchJobEnv
        { m_sourceFileDependencyUUID := 78 }
      = some ("$missing_dependency$:".toList ++ stdUuid.ToString 78)
    ∧ ResolveDependencyPath stdUuid demoEnv demoScanQueueEnv demoSearchJobEnv
        { m_sourceFileDependencyPath := "nowhere.txt".toList }
      = some "$missing_dependency$:nowhere.txt".toList
    ∧ ResolveDependencyPath stdUuid demoEnv demoScanQueueEnv demoSearchJobEnv
        { m_sourceFileDependencyPath := "a.txt".toList } = some "a.txt".toList
    ∧ ResolveDependencyPath stdUuid demoEnv demoScanQueueEnv demoSearchJobEnv
        { m_sourceFileDependencyPath := "/dev/game/new.txt".toList } = some "new.txt".toList
    ∧ ¬ ResolveDependencyPath stdUuid demoEnv demoScanQueueEnv demoSearchJobEnv
        { m_sourceFileDependencyUUID := 77 } = none :=
  ⟨by decide, by decide, by decide, by decide, by decide,
   fun h =>
    absurd
      ((ResolveDependencyPath_contract stdUuid demoEnv demoScanQueueEnv demoJobEnv []
        demoGuidSources demoScanFolderTable { m_sourceFileDependencyUUID := 77 }).1.mp h)
      (by decide)⟩

set_option maxRecDepth 100000 in
/-- C18, where the claim fails. A dependency that names, by a non-empty absolute path, a file
that lies in no scan folder is not resolved to a placeholder: `ResolveDependencyPath` fails.
And a dependency that carries the identifier of a source whose row is in the store while the
row of its scan folder is not: `SearchSourceInfoBySourceUUID` returns true and leaves the
result as it came in, empty, and `ResolveDependencyPath` fails. -/
theorem ResolveDependencyPath_fails_on_nonempty_reference :
    (({ m_sourceFileDependencyPath := "/elsewhere/x.txt".toList } :
        SourceFileDependency).m_sourceFileDependencyPath ≠ [])
    ∧ demoSearchJobEnv.isAbsolute "/elsewhere/x.txt".toList = true
    ∧ ResolveDependencyPath stdUuid demoEnv demoScanQueueEnv demoSearchJobEnv
        { m_sourceFileDependencyPath := "/elsewhere/x.txt".toList } = none
    ∧ ({ m_sourceFileDependencyUUID := 79 } :
        SourceFileDependency).m_sourceFileDependencyUUID.IsNull = false
    ∧ (GetSourceBySourceGuid demoDanglingSources 79).map
        (fun s => (s.m_sourceName, s.m_scanFolderPK)) = some ("gone.txt".toList, 9)
    ∧ GetScanFolderByScanFolderID demoScanFolderTable 9 = none
    ∧ SearchSourceInfoBySourceUUID [] demoDanglingSources demoScanFolderTable 79 {}
        = (true, {}, [])
    ∧ ResolveDependencyPath stdUuid demoEnv demoScanQueueEnv
        (withSourceSearch demoJobEnv [] demoDanglingSources demoScanFolderTable)
        { m_sourceFileDependencyUUID := 79 } = none := by
  refine ⟨by decide, by decide, by decide, by decide, by decide, by decide, by decide,
    by decide⟩

/-! ## Finished jobs whose product another source already has -/

set_option maxRecDepth 100000 in
/-- C19, on the code: the store records the product `pc/game/clouds/x.dds` for the source
`clouds/x.tif` of the scan folder `/dev/gems/clouds/assets`, whose output prefix is `clouds`,
and a job of `clouds/x.dds` reports the same product. `AssetProcessed_Impl` rejects the
finished job (it leaves the list and an auto-fail job is emitted), deletes the product of
the original source and gives its job `FAILED_FINGERPRINT`; but the path it queues for
re-examination is the scan folder path joined with the name in the store, output prefix
included, `/dev/gems/clouds/assets/clouds/x.tif`, and not the absolute path of the source,
`/dev/gems/clouds/assets/x.tif`, which is what `CheckDeletedProductFile` builds from the same
two rows. -/
theorem AssetProcessed_Impl_requeues_under_prefixed_path :
    ((AssetProcessed_Impl demoEnv demoQueueEnv demoCacheJobEnv demoCacheEnv
        demoConflictState).1.queue.m_assetProcessedList = [])
    ∧ ((AssetProcessed_Impl demoEnv demoQueueEnv demoCacheJobEnv demoCacheEnv
        demoConflictState).2.emitted.map
          (fun job => (job.m_autoFail, job.m_jobEntry.m_databaseSourceName))
        = [(true, "clouds/x.dds".toList)])
    ∧ ((AssetProcessed_Impl demoEnv demoQueueEnv demoCacheJobEnv demoCacheEnv
        demoConflictState).1.jobTable.map (fun job => (job.m_jobID, job.m_fingerprint))
        = [(8, FAILED_FINGERPRINT)])
    ∧ ((AssetProcessed_Impl demoEnv demoQueueEnv demoCacheJobEnv demoCacheEnv
        demoConflictState).1.productTable = [])
    ∧ ((AssetProcessed_Impl demoEnv demoQueueEnv demoCacheJobEnv demoCacheEnv
        demoConflictState).1.queue.m_activeFiles
        = [{ m_fileName := "/dev/gems/clouds/assets/clouds/x.tif".toList }])
    ∧ (fullSourcePathOfDeletedProduct
          { m_scanFolderID := 2, m_scanFolder := "/dev/gems/clouds/assets".toList,
            m_outputPrefix := "clouds".toList }
          { m_sourceID := 5, m_scanFolderPK := 2, m_sourceName := "clouds/x.tif".toList }
        = "/dev/gems/clouds/assets/x.tif".toList)
    ∧ (∀ entry ∈ (AssetProcessed_Impl demoEnv demoQueueEnv demoCacheJobEnv demoCacheEnv
        demoConflictState).1.queue.m_activeFiles,
        entry.m_fileName ≠ "/dev/gems/clouds/assets/x.tif".toList) := by
  refine ⟨by decide, by decide, by decide, by decide, by decide, by decide, by decide⟩

/-! ## Deleted sources whose products cannot be deleted -/

set_option maxRecDepth 100000 in
/-- C20, on the code: the store records the source `gone.txt` with one job and the product
`pc/game/gone.out`, whose file is there and cannot be removed. `CheckDeletedSourceFile` gets
false from `DeleteProducts` and puts the deletion of `/dev/game/gone.txt` back into the
examine queue; the product record and the product file stay; and the source record is
removed all the same. When the deletion is examined again and the file can be removed, the
store has no source of that name any more, so the call leaves the manager as it was: the
product record and the product file are still there. -/
theorem CheckDeletedSourceFile_removes_source_when_DeleteProducts_fails :
    ((DeleteProducts demoLockedJobEnv demoDeletedSourceState.productTable []
        (GetProductsByJobID demoDeletedSourceState.productTable 7)).successfullyRemoved
      = false)
    ∧ ((CheckDeletedSourceFile demoEnv demoQueueEnv demoLockedJobEnv demoDeletedSourceState
        "/dev/game/gone.txt".toList "gone.txt".toList "gone.txt".toList).st.queue.m_filesToExamine
      = [("/dev/game/gone.txt".toList,
          { m_fileName := "/dev/game/gone.txt".toList, m_isDelete := true })])
    ∧ ((CheckDeletedSourceFile demoEnv demoQueueEnv demoLockedJobEnv demoDeletedSourceState
        "/dev/game/gone.txt".toList "gone.txt".toList "gone.txt".toList).st.productTable
      = demoDeletedSourceState.productTable)
    ∧ ((CheckDeletedSourceFile demoEnv demoQueueEnv demoLockedJobEnv demoDeletedSourceState
        "/dev/game/gone.txt".toList "gone.txt".toList "gone.txt".toList).st.removedProductFiles
      = [])
    ∧ ((CheckDeletedSourceFile demoEnv demoQueueEnv demoLockedJobEnv demoDeletedSourceState
        "/dev/game/gone.txt".toList "gone.txt".toList "gone.txt".toList).st.sourceTable = [])
    ∧ ((CheckDeletedSourceFile demoEnv demoQueueEnv demoCacheJobEnv
        (CheckDeletedSourceFile demoEnv demoQueueEnv demoLockedJobEnv demoDeletedSourceState
          "/dev/game/gone.txt".toList "gone.txt".toList "gone.txt".toList).st
        "/dev/game/gone.txt".toList "gone.txt".toList "gone.txt".toList).st
      = (CheckDeletedSourceFile demoEnv demoQueueEnv demoLockedJobEnv demoDeletedSourceState
          "/dev/game/gone.txt".toList "gone.txt".toList "gone.txt".toList).st)
    ∧ ((CheckDeletedSourceFile demoEnv demoQueueEnv demoCacheJobEnv demoDeletedSourceState
        "/dev/game/gone.txt".toList "gone.txt".toList "gone.txt".toList).st.productTable = []) := by
  refine ⟨by decide, by decide, by decide, by decide, by decide, by decide, by decide⟩

/-! ## Builders whose `CreateJobs` fails -/

set_option maxRecDepth 100000 in
/-- C22, on the code: after `QuitRequested`, with one job waiting in `m_jobsToProcess`,
`AssessFileInternal` and `DispatchFileChange` leave the file queues as they are, but
`ProcessJobs`, which does not read `m_quitRequested`, processes the job: it emits it with
`AssetToProcess`, erases it from `m_jobsToProcess`, lowers the counter and writes its
fingerprint into `m_jobFingerprintMap`. -/
theorem ProcessJobs_emits_after_QuitRequested :
    (QuitRequested demoWaitingState).queue.m_quitRequested = true
    ∧ AssessFileInternal demoEnv demoQueueEnv (QuitRequested demoWaitingState).queue
        "/dev/game/a.txt".toList false false = (QuitRequested demoWaitingState).queue
    ∧ DispatchFileChange demoEnv demoQueueEnv [] 10 (QuitRequested demoWaitingState).queue
        = DispatchResult.done (QuitRequested demoWaitingState).queue
    ∧ (ProcessJobs demoEnv demoJobEnv (QuitRequested demoWaitingState)).map
        (fun out => (out.2.emitted.map (fun job => job.m_jobEntry), out.1.jobs.m_jobsToProcess,
          out.1.queue.m_numOfJobsToAnalyze, out.1.jobs.m_jobFingerprintMap.length))
      = some ([demoJob.m_jobEntry], [], 0, 1) := by
  refine ⟨by decide, by decide, by decide, by decide⟩

/-! ## The batch of `DispatchFileChange` -/

theorem updateJobDependencyLoop_unresolved (ops : UuidOps) (env : FileEnv) (qenv : QueueEnv)
    (jenv : JobEnv) (m_jobDescToBuilderUuidMap : List (JobDesc × List Uuid))
    (deps : List JobDependencyInternal) (i : Nat) (dep : JobDependencyInternal)
    (hdep : deps.get? i = some dep)
    (hgiven : ¬ (dep.m_jobDependency.m_sourceFile.m_sourceFileDependencyUUID.IsNull = true
      ∧ dep.m_jobDependency.m_sourceFile.m_sourceFileDependencyPath.isEmpty = true))
    (hfail : ResolveDependencyPath ops env qenv jenv dep.m_jobDependency.m_sourceFile = none) :
    ∀ fuel, updateJobDependencyLoop ops env qenv jenv m_jobDescToBuilderUuidMap fuel deps i
      = none := by
  intro fuel
  induction fuel with
  | zero => rfl
  | succ fuel ih =>
    rw [updateJobDependencyLoop]
    simp only [hdep, hgiven, if_false, hfail]
    exact ih

set_option maxRecDepth 100000 in
/-- C24, on the code: a job whose one job dependency names, by an absolute path, a file that
lies in no scan folder. `ResolveDependencyPath` fails on the dependency, the loop of
`UpdateJobDependency` goes on to its next round with the iterator where it was, and so for
ever: whatever the number of rounds allowed, the loop has not come to its end, and
`UpdateJobDependency` does not return. -/
theorem UpdateJobDependency_never_returns_on_unresolved :
    ResolveDependencyPath stdUuid demoEnv demoScanQueueEnv demoJobEnv
        { m_sourceFileDependencyPath := "/elsewhere/x.txt".toList } = none
    ∧ (∀ fuel, updateJobDependencyLoop stdUuid demoEnv demoScanQueueEnv demoJobEnv [] fuel
        demoUnresolvedJob.m_jobDependencyList 0 = none)
    ∧ UpdateJobDependency stdUuid demoEnv demoScanQueueEnv demoJobEnv [] demoUnresolvedJob
        = none := by
  have hloop := updateJobDependencyLoop_unresolved stdUuid demoEnv demoScanQueueEnv demoJobEnv
    [] demoUnresolvedJob.m_jobDependencyList 0
    { m_jobDependency :=
        { m_sourceFile := { m_sourceFileDependencyPath := "/elsewhere/x.txt".toList }
          m_jobKey := "compile".toList, m_platformIdentifier := "pc".toList }
      m_builderUuidList := [demoTxtBuilderV1.m_busId] }
    (by decide) (by decide) (by decide)
  refine ⟨by decide, hloop, ?_⟩
  simp only [UpdateJobDependency, hloop, Option.map_none']

/-! ## The counter `m_numOfJobsToAnalyze`, exactly -/

theorem addCreatedJobs_exact (jenv : JobEnv) (normalizedPath : Str)
    (scanFolder : ScanFolderInfo) (actualRelativePath databasePathToFile : Str)
    (sourceUUID : Uuid) (builderInfo : AssetBuilderDesc) (descs : List JobDescriptor)
    (acc : ProcessBuildersLoop)
    (h : (pendingJobs acc.st : Int) + acc.entry.m_jobsToAnalyze.length
      = acc.st.queue.m_numOfJobsToAnalyze) :
    (pendingJobs (addCreatedJobs jenv normalizedPath scanFolder actualRelativePath
        databasePathToFile sourceUUID builderInfo descs acc).st : Int)
      + (addCreatedJobs jenv normalizedPath scanFolder actualRelativePath
        databasePathToFile sourceUUID builderInfo descs acc).entry.m_jobsToAnalyze.length
      = (addCreatedJobs jenv normalizedPath scanFolder actualRelativePath
        databasePathToFile sourceUUID builderInfo descs acc).st.queue.m_numOfJobsToAnalyze := by
  induction descs generalizing acc with
  | nil => simpa [addCreatedJobs] using h
  | cons d rest ih =>
    simp only [addCreatedJobs]
    split
    · apply ih
      simp only [pendingJobs, List.length_append, List.length_singleton, Nat.cast_add,
        Nat.cast_one] at h ⊢
      omega
    · exact ih acc h

theorem processBuildersLoop_exact (ops : UuidOps) (jenv : JobEnv) (normalizedPath : Str)
    (scanFolder : ScanFolderInfo) (actualRelativePath databasePathToFile : Str)
    (sourceUUID : Uuid) (builders : List AssetBuilderDesc) (acc : ProcessBuildersLoop)
    (h : (pendingJobs acc.st : Int) + acc.entry.m_jobsToAnalyze.length
      = acc.st.queue.m_numOfJobsToAnalyze) :
    (pendingJobs (processBuildersLoop ops jenv normalizedPath scanFolder actualRelativePath
        databasePathToFile sourceUUID builders acc).1.st : Int)
      + (processBuildersLoop ops jenv normalizedPath scanFolder actualRelativePath
        databasePathToFile sourceUUID builders acc).1.entry.m_jobsToAnalyze.length
      = (processBuildersLoop ops jenv normalizedPath scanFolder actualRelativePath
        databasePathToFile sourceUUID builders acc).1.st.queue.m_numOfJobsToAnalyze := by
  induction builders generalizing acc with
  | nil => simpa [processBuildersLoop] using h
  | cons b rest ih =>
    simp only [processBuildersLoop]
    split
    · exact ih acc h
    · split
      · apply ih
        simpa [pendingJobs] using h
      · exact h
      · apply ih
        have h2 := addCreatedJobs_exact jenv normalizedPath scanFolder actualRelativePath
          databasePathToFile sourceUUID b (jenv.createJobs b).m_createJobOutputs acc h
        split
        · simpa [pendingJobs] using h2
        · exact h2

theorem ProcessBuilders_exact (ops : UuidOps) (env : FileEnv) (qenv : QueueEnv)
    (jenv : JobEnv) (st : ManagerState)
    (normalizedPath databasePathToFile : Str) (scanFolder : ScanFolderInfo)
    (builderInfoList : List AssetBuilderDesc) (h : CounterExact st)
    (hrun : ∀ b ∈ builderInfoList,
      (jenv.createJobs b).m_result ≠ CreateJobsResultCode.ShuttingDown) :
    CounterExact (ProcessBuilders ops env qenv jenv st normalizedPath databasePathToFile
      scanFolder builderInfoList).1 := by
  unfold CounterExact at h ⊢
  simp only [ProcessBuilders]
  generalize (if (!scanFolder.GetOutputPrefix.isEmpty) = true then
      databasePathToFile.drop (scanFolder.GetOutputPrefix.length + 1)
    else databasePathToFile) = rel
  have h2 := processBuildersLoop_exact ops jenv normalizedPath scanFolder rel
    databasePathToFile
    (jenv.CreateSafeSourceUUIDFromName databasePathToFile) builderInfoList
    { st := { st with
        jobs := { st.jobs with
          m_remainingJobsForEachSourceFile :=
            insertTracker st.jobs.m_remainingJobsForEachSourceFile normalizedPath
              databasePathToFile scanFolder.ScanFolderID builderInfoList } },
      entry := {}, effects := {} }
    (by simpa [pendingJobs] using h)
  rw [(processBuildersLoop_frame ops jenv normalizedPath scanFolder rel databasePathToFile
    (jenv.CreateSafeSourceUUIDFromName databasePathToFile) builderInfoList _).2.2 hrun]
  split
  · rename_i hf
    exact absurd hf (by simp)
  · simp only [pendingJobs, List.map_append, List.sum_append, List.map_cons, List.map_nil,
      List.sum_cons, List.sum_nil, Nat.cast_add, add_zero,
      UpdateSourceFileDependenciesDatabase_counter] at h2 ⊢
    omega

theorem AnalyzeJobDetail_exact (ops : UuidOps) (env : FileEnv) (qenv : QueueEnv)
    (jenv : JobEnv) (K : Int) (jobs : List JobDetails) (acc r : ManagerState × List QueuedCall)
    (hr : AnalyzeJobDetail ops env qenv jenv jobs acc = some r)
    (h : K + acc.1.jobs.m_jobsToProcess.length + jobs.length
      = acc.1.queue.m_numOfJobsToAnalyze) :
    K + r.1.jobs.m_jobsToProcess.length = r.1.queue.m_numOfJobsToAnalyze := by
  induction jobs generalizing acc with
  | nil =>
    simp only [AnalyzeJobDetail, Option.some.injEq] at hr
    subst hr
    simpa using h
  | cons jobDetail rest ih =>
    obtain ⟨st, queued⟩ := acc
    simp only [AnalyzeJobDetail] at hr
    split at hr
    · exact absurd hr (by simp)
    · split at hr
      · refine ih _ hr ?_
        simp only [List.length_append, List.length_singleton, List.length_cons,
          List.length_nil, Nat.cast_add, Nat.cast_one, Nat.cast_zero] at h ⊢
        omega
      · refine ih _ hr ?_
        simp only [length_replaceJob, List.length_cons, Nat.cast_add, Nat.cast_one] at h ⊢
        omega

theorem dispatchJobEntries_exact (ops : UuidOps) (env : FileEnv) (qenv : QueueEnv)
    (jenv : JobEnv) (entries : List JobToProcessEntry)
    (acc r : ManagerState × List QueuedCall)
    (hr : dispatchJobEntries ops env qenv jenv entries acc = some r)
    (h : (((entries.map (fun entry => entry.m_jobsToAnalyze.length)).sum : Nat) : Int)
      + acc.1.jobs.m_jobsToProcess.length = acc.1.queue.m_numOfJobsToAnalyze) :
    (r.1.jobs.m_jobsToProcess.length : Int) = r.1.queue.m_numOfJobsToAnalyze := by
  induction entries generalizing acc with
  | nil =>
    simp only [dispatchJobEntries, Option.some.injEq] at hr
    subst hr
    simpa using h
  | cons entry rest ih =>
    obtain ⟨st, queued⟩ := acc
    simp only [dispatchJobEntries] at hr
    simp only [List.map_cons, List.sum_cons, Nat.cast_add] at h
    split at hr
    · rename_i hempty
      have hzero : entry.m_jobsToAnalyze.length = 0 := by
        simpa using hempty
      refine ih _ hr ?_
      simp only [hzero, Nat.cast_zero] at h ⊢
      omega
    · split at hr
      · exact absurd hr (by simp)
      · rename_i acc2 hacc
        refine ih _ hr ?_
        have h2 := AnalyzeJobDetail_exact ops env qenv jenv
          (((rest.map (fun entry => entry.m_jobsToAnalyze.length)).sum : Nat) : Int)
          entry.m_jobsToAnalyze _ acc2 hacc (by simp only at h ⊢; omega)
        exact h2

theorem processJobsLoop_exact (env : FileEnv) (jenv : JobEnv) (K : Int)
    (jobs : List JobDetails) (acc r : ProcessJobsLoop)
    (hr : processJobsLoop env jenv jobs acc = some r)
    (h : K + acc.kept.length + jobs.length = acc.st.queue.m_numOfJobsToAnalyze) :
    K + r.kept.length = r.st.queue.m_numOfJobsToAnalyze
      ∧ r.st.jobs.m_jobEntries = acc.st.jobs.m_jobEntries := by
  induction jobs generalizing acc with
  | nil =>
    simp only [processJobsLoop, Option.some.injEq] at hr
    subst hr
    exact ⟨by simpa using h, rfl⟩
  | cons job rest ih =>
    simp only [processJobsLoop] at hr
    split at hr
    · split at hr
      · exact absurd hr (by simp)
      · rename_i st2 effects hp
        obtain ⟨hq, he, _⟩ := processJobOn_frame env jenv acc.st st2 job effects hp
        have h2 := ih _ hr (by
          simp only [hq, List.length_cons, Nat.cast_add, Nat.cast_one] at h ⊢
          omega)
        exact ⟨h2.1, by rw [h2.2]; exact he⟩
    · have h2 := ih _ hr (by
        simp only [List.length_append, List.length_singleton, List.length_cons,
          List.length_nil, Nat.cast_add, Nat.cast_one, Nat.cast_zero] at h ⊢
        omega)
      exact ⟨h2.1, h2.2⟩

theorem ProcessJobs_exact (env : FileEnv) (jenv : JobEnv) (st : ManagerState)
    (r : ManagerState × PipelineEffects) (hr : ProcessJobs env jenv st = some r)
    (h : CounterExact st) : CounterExact r.1 := by
  unfold CounterExact pendingJobs at h ⊢
  simp only [ProcessJobs] at hr
  split at hr
  · exact absurd hr (by simp)
  · rename_i looped hl
    have h2 := processJobsLoop_exact env jenv
      (((st.jobs.m_jobEntries.map (fun entry => entry.m_jobsToAnalyze.length)).sum : Nat) : Int)
      st.jobs.m_jobsToProcess { st := st } looped hl (by
        simp only [List.length_nil, Nat.cast_zero, Nat.cast_add] at h ⊢
        omega)
    obtain ⟨hc, he⟩ := h2
    split at hr
    · rename_i job rest hk
      split at hr
      · split at hr
        · exact absurd hr (by simp)
        · rename_i st2 effects hp
          obtain ⟨hq, hje, _⟩ := processJobOn_frame env jenv _ st2 job effects hp
          simp only [Option.some.injEq] at hr
          subst hr
          simp only [hq, hje, he, Nat.cast_add]
          rw [hk] at hc
          simp only [List.length_cons, Nat.cast_add, Nat.cast_one] at hc
          omega
      · simp only [Option.some.injEq] at hr
        subst hr
        simp only [he, Nat.cast_add]
        omega
    · simp only [Option.some.injEq] at hr
      subst hr
      obtain ⟨hq, hj⟩ := QueueIdleCheck_frame
        { looped.st with jobs := { looped.st.jobs with m_jobsToProcess := looped.kept } }
      rw [hq, hj]
      simp only [he, Nat.cast_add]
      omega

theorem CheckForIdle_exact (ops : UuidOps) (env : FileEnv) (qenv : QueueEnv) (jenv : JobEnv)
    (st : ManagerState) (out : CheckForIdleOutcome)
    (hr : CheckForIdle ops env qenv jenv st = some out) (h : CounterExact st) :
    CounterExact out.st := by
  simp only [CheckForIdle] at hr
  split at hr
  · split at hr <;>
    · simp only [Option.some.injEq] at hr
      subst hr
      exact h
  · split at hr
    · simp only [Option.some.injEq] at hr
      subst hr
      exact h
    · split at hr
      · split at hr
        · exact absurd hr (by simp)
        · rename_i st2 queued hd
          split at hr
          · exact absurd hr (by simp)
          · rename_i st3 effects hp
            simp only [Option.some.injEq] at hr
            subst hr
            have h2 := dispatchJobEntries_exact ops env qenv jenv _ _ _ hd (by
              unfold CounterExact pendingJobs at h
              simpa using h)
            exact ProcessJobs_exact env jenv _ _ hp (by
              unfold CounterExact pendingJobs
              simpa using h2)
      · simp only [Option.some.injEq] at hr
        subst hr
        exact h

theorem runPipeline_exact (ops : UuidOps) (env : FileEnv) (qenv : QueueEnv) (jenv : JobEnv)
    (steps : List PipelineOp) (start st : ManagerState)
    (hr : runPipeline ops env qenv jenv steps start = some st) (h : CounterExact start)
    (hshut : ∀ op ∈ steps, answersShuttingDown jenv op = false) :
    CounterExact st := by
  induction steps generalizing start with
  | nil =>
    simp only [runPipeline, Option.some.injEq] at hr
    subst hr
    exact h
  | cons op rest ih =>
    simp only [runPipeline] at hr
    split at hr
    · exact absurd hr (by simp)
    · rename_i st2 hs
      refine ih st2 hr ?_ (fun op' hop' => hshut op' (List.mem_cons_of_mem _ hop'))
      have hop := hshut op (List.mem_cons_self _ _)
      cases op with
      | processBuilders normalizedPath databasePathToFile scanFolder builderInfoList =>
        simp only [pipelineStep, Option.some.injEq] at hs
        subst hs
        refine ProcessBuilders_exact ops env qenv jenv start _ _ _ _ h ?_
        intro b hb hres
        simp only [answersShuttingDown, List.any_eq_false, decide_eq_true_eq] at hop
        exact hop b hb hres
      | checkForIdle =>
        simp only [pipelineStep, Option.map_eq_some'] at hs
        obtain ⟨out, ho, rfl⟩ := hs
        exact CheckForIdle_exact ops env qenv jenv start out ho h
      | processJobs =>
        simp only [pipelineStep, Option.map_eq_some'] at hs
        obtain ⟨out, ho, rfl⟩ := hs
        exact ProcessJobs_exact env jenv start out ho h
      | fileQueue queue =>
        simp only [pipelineStep, Option.some.injEq] at hs
        subst hs
        exact h

/-- C25 (amended): in every state that the manager reaches from its start by calls of
`ProcessBuilders`, `CheckForIdle` (with `AnalyzeJobDetail`) and `ProcessJobs` and by steps of
the file queue code, the counter `m_numOfJobsToAnalyze` is at least the number of jobs in the
pending batches plus the number of jobs in `m_jobsToProcess`; and when no builder answered
`ShuttingDown` on the way (whatever the builders answered otherwise, and also when a job of
the same identity is queued twice) the counter is that number, so that it is zero exactly
when no job waits. -/
theorem counter_counts_pending_jobs (ops : UuidOps) (env : FileEnv) (qenv : QueueEnv)
    (jenv : JobEnv) (steps : List PipelineOp) (st : ManagerState)
    (hrun : runPipeline ops env qenv jenv steps {} = some st) :
    (pendingJobs st : Int) ≤ st.queue.m_numOfJobsToAnalyze
    ∧ ((∀ op ∈ steps, answersShuttingDown jenv op = false) →
        (pendingJobs st : Int) = st.queue.m_numOfJobsToAnalyze
        ∧ (st.queue.m_numOfJobsToAnalyze = 0 ↔ pendingJobs st = 0)) := by
  refine ⟨runPipeline_counter ops env qenv jenv steps {} st hrun (by
    unfold CounterInvariant pendingJobs
    decide), ?_⟩
  intro hshut
  have h := runPipeline_exact ops env qenv jenv steps {} st hrun (by
    unfold CounterExact pendingJobs
    decide) hshut
  unfold CounterExact at h
  refine ⟨h, ?_⟩
  constructor
  · intro h0
    rw [h0] at h
    exact_mod_cast h
  · intro h0
    rw [h0] at h
    exact h.symm

set_option maxRecDepth 100000 in
/-- C25, on a run: `a.txt` goes to the builders twice, the first time with a builder that
fails; two jobs of the same identity wait in two batches and the counter is two; after
`CheckForIdle` nothing waits and the counter is zero. -/
theorem counter_counts_pending_jobs_witness :
    (runPipeline stdUuid demoEnv demoQueueEnv demoFailingJobEnv (demoTwicePipeline.take 2)
        {}).map (fun st => (pendingJobs st, st.queue.m_numOfJobsToAnalyze)) = some (2, 2)
    ∧ (runPipeline stdUuid demoEnv demoQueueEnv demoFailingJobEnv demoTwicePipeline {}).map
        (fun st => (pendingJobs st, st.queue.m_numOfJobsToAnalyze)) = some (0, 0)
    ∧ ∃ st, runPipeline stdUuid demoEnv demoQueueEnv demoFailingJobEnv demoTwicePipeline {}
          = some st
        ∧ (pendingJobs st : Int) = st.queue.m_numOfJobsToAnalyze :=
  ⟨by decide, by decide,
   (runPipeline stdUuid demoEnv demoQueueEnv demoFailingJobEnv demoTwicePipeline {}).get
     (by decide),
   (Option.some_get _).symm,
   ((counter_counts_pending_jobs stdUuid demoEnv demoQueueEnv demoFailingJobEnv
      demoTwicePipeline _ (Option.some_get _).symm).2 (by decide)).1⟩

set_option maxRecDepth 100000 in
/-- C25, where the claim fails: `a.txt` goes to the text builder, which creates one job, and
to the copy builder, which answers `ShuttingDown`; `ProcessBuilders` returns without pushing
the batch, so no job waits, in a batch or in `m_jobsToProcess`, and the counter is one; it is
still one after `CheckForIdle` and `ProcessJobs`. -/
theorem counter_above_pending_jobs_after_ShuttingDown :
    (runPipeline stdUuid demoEnv demoQueueEnv demoShuttingDownJobEnv
        [PipelineOp.processBuilders "/dev/game/a.txt".toList "a.txt".toList demoScanFolder
          [demoTxtBuilderV1, demoCopyBuilder]] {}).map
        (fun st => (st.jobs.m_jobEntries, st.jobs.m_jobsToProcess,
          st.queue.m_numOfJobsToAnalyze)) = some ([], [], 1)
    ∧ (runPipeline stdUuid demoEnv demoQueueEnv demoShuttingDownJobEnv
        [PipelineOp.processBuilders "/dev/game/a.txt".toList "a.txt".toList demoScanFolder
          [demoTxtBuilderV1, demoCopyBuilder],
         PipelineOp.checkForIdle, PipelineOp.processJobs] {}).map
        (fun st => (pendingJobs st, st.queue.m_numOfJobsToAnalyze)) = some (0, 1) := by
  refine ⟨by decide, by decide⟩

/-! ## Reading the persisted fingerprint -/

theorem compareContentFingerprint_ne_readOutOfBounds (ops : UuidOps) (env : FileEnv)
    (edges : List SourceFileDependencyEntry) (cache : MetaFileCache)
    (normalizedPath databaseSourceFileName : Str) (modtimeFingerprint : Uuid) (n : Nat) :
    compareContentFingerprint ops env edges cache normalizedPath databaseSourceFileName
      modtimeFingerprint n ≠ SkipResult.readOutOfBounds := by
  unfold compareContentFingerprint
  simp only
  split
  · simp
  · split <;> simp

theorem CanEarlyOutSourceFile_readOutOfBounds_iff (ops : UuidOps) (env : FileEnv)
    (builders : BuilderState) (sources : List SourceDatabaseEntry)
    (edges : List SourceFileDependencyEntry) (cache : MetaFileCache)
    (normalizedPath databaseSourceFileName : Str) (scanFolderID : Int) :
    CanEarlyOutSourceFile ops env builders sources edges cache normalizedPath
        databaseSourceFileName scanFolderID = SkipResult.readOutOfBounds
      ↔ builders.m_buildersAddedOrRemoved = false
        ∧ ∃ fingerprintFromDatabase,
            QuerySourceAnalysisFingerprint sources databaseSourceFileName scanFolderID
              = some fingerprintFromDatabase
            ∧ fingerprintFromDatabase.length = lengthOfUUID
            ∧ fingerprintFromDatabase.head? = some '{'
            ∧ (ops.CreateString (fingerprintFromDatabase.take lengthOfUUID)).IsNull
              = false := by
  unfold CanEarlyOutSourceFile
  by_cases hb : builders.m_buildersAddedOrRemoved = true
  · simp [hb]
  · simp only [hb, Bool.false_eq_true, if_false]
    have hb' : builders.m_buildersAddedOrRemoved = false := by simpa using hb
    cases hq : QuerySourceAnalysisFingerprint sources databaseSourceFileName scanFolderID with
    | none => simp
    | some fp =>
      simp only [Option.some.injEq, exists_eq_left', hb', true_and]
      by_cases he : fp.isEmpty = true
      · have : fp = [] := List.isEmpty_iff.1 he
        subst this
        simp [lengthOfUUID]
      · simp only [he, Bool.false_eq_true, if_false]
        by_cases hshort : fp.length < lengthOfUUID ∨ fp.head? ≠ some '{'
        · simp only [hshort, if_true]
          constructor
          · intro h; cases h
          · rintro ⟨h1, h2, _⟩
            rcases hshort with h | h
            · omega
            · exact absurd h2 h
        · simp only [hshort, if_false]
          have hlen : ¬ fp.length < lengthOfUUID := fun h => hshort (Or.inl h)
          have hhead : fp.head? = some '{' := by
            by_contra h
            exact hshort (Or.inr h)
          by_cases hnull : (ops.CreateString (fp.take lengthOfUUID)).IsNull = true
          · simp [hnull]
          · simp only [hnull, Bool.false_eq_true, if_false]
            by_cases h39 : fp.length < lengthOfUUID + 1
            · simp only [h39, if_true, true_iff]
              exact ⟨by omega, hhead, trivial⟩
            · simp only [h39, if_false]
              constructor
              · intro h
                split at h
                · cases h
                · cases h
                · exact absurd h (compareContentFingerprint_ne_readOutOfBounds _ _ _ _ _ _ _ _)
              · rintro ⟨h1, _, _⟩
                omega

set_option maxRecDepth 100000 in
/-- C26, on the code: the store holds for `a.txt` an analysis fingerprint of exactly 38
characters, a bracketed identifier and nothing more. `CanEarlyOutSourceFile` passes the length
check `databaseFingerprintLength < lengthOfUUID` and then forms the view of the builder
entries from `begin() + lengthOfUUID + 1`, one position behind `end()`. With one more
character the call returns. And in general the call reads behind the text exactly when the
builder set is unchanged and the persisted text is an opening brace and 37 more characters
that read as a non-null identifier. -/
theorem CanEarlyOutSourceFile_reads_behind_38_characters :
    "{79796077-5F01-125B-8027-E5BE162C21B7}".toList.length = lengthOfUUID
    ∧ CanEarlyOutSourceFile stdUuid demoEnv demoBuilderState
        (demoSourcesWith "{79796077-5F01-125B-8027-E5BE162C21B7}")
        demoEdges {} "/dev/game/a.txt".toList "a.txt".toList 1 = SkipResult.readOutOfBounds
    ∧ CanEarlyOutSourceFile stdUuid demoEnv demoBuilderState
        (demoSourcesWith "{79796077-5F01-125B-8027-E5BE162C21B7}:")
        demoEdges {} "/dev/game/a.txt".toList "a.txt".toList 1 ≠ SkipResult.readOutOfBounds
    ∧ ∀ (ops : UuidOps) (env : FileEnv) (builders : BuilderState)
        (sources : List SourceDatabaseEntry) (edges : List SourceFileDependencyEntry)
        (cache : MetaFileCache) (normalizedPath databaseSourceFileName : Str)
        (scanFolderID : Int),
        CanEarlyOutSourceFile ops env builders sources edges cache normalizedPath
            databaseSourceFileName scanFolderID = SkipResult.readOutOfBounds
          ↔ builders.m_buildersAddedOrRemoved = false
            ∧ ∃ fingerprintFromDatabase,
                QuerySourceAnalysisFingerprint sources databaseSourceFileName scanFolderID
                  = some fingerprintFromDatabase
                ∧ fingerprintFromDatabase.length = lengthOfUUID
                ∧ fingerprintFromDatabase.head? = some '{'
                ∧ (ops.CreateString (fingerprintFromDatabase.take lengthOfUUID)).IsNull
                  = false := by
  refine ⟨by decide, by decide, by decide, ?_⟩
  intro ops env builders sources edges cache normalizedPath databaseSourceFileName scanFolderID
  exact CanEarlyOutSourceFile_readOutOfBounds_iff ops env builders sources edges cache
    normalizedPath databaseSourceFileName scanFolderID

/-! ## Finished jobs and the tracker of their source -/

set_option maxRecDepth 100000 in
/-- C27, on the code: the finished job `compile` of `a.txt` claims the product file
`pc/game/a.bin`, which is not on disk, while the tracker of `a.txt` counts this one job.
The first loop of `AssetProcessed_Impl` only sets `remove` and erases the job from
`m_assetProcessedList`, so that the second loop, which alone reports `JobFinished`, never
sees it: the tracker is left as it was, with one job remaining and not failed, no auto-fail
job is emitted and `FinishAnalysis` is not queued. On the sibling path of a duplicate product
sub id (two products with sub id 0, the files on disk) the job is erased as well, but the
tracker is told `JobFailed`, an auto-fail job is emitted and `FinishAnalysis` is queued. -/
theorem AssetProcessed_Impl_missing_product_leaves_tracker :
    ((AssetProcessed_Impl demoEnv demoQueueEnv demoJobEnv demoCacheEnv
        (demoFinishedJobState
          [{ m_productFileName := "/cache/pc/game/a.bin".toList }])).1.queue.m_assetProcessedList
      = [])
    ∧ ((AssetProcessed_Impl demoEnv demoQueueEnv demoJobEnv demoCacheEnv
        (demoFinishedJobState
          [{ m_productFileName := "/cache/pc/game/a.bin".toList }])).1.jobs.m_remainingJobsForEachSourceFile
      = (demoFinishedJobState []).jobs.m_remainingJobsForEachSourceFile)
    ∧ ((AssetProcessed_Impl demoEnv demoQueueEnv demoJobEnv demoCacheEnv
        (demoFinishedJobState
          [{ m_productFileName := "/cache/pc/game/a.bin".toList }])).2 = {})
    ∧ ((AssetProcessed_Impl demoEnv demoQueueEnv demoCacheJobEnv demoCacheEnv
        (demoFinishedJobState
          [{ m_productFileName := "/cache/pc/game/a.bin".toList },
           { m_productFileName := "/cache/pc/game/a2.bin".toList }])).1.queue.m_assetProcessedList
      = [])
    ∧ ((AssetProcessed_Impl demoEnv demoQueueEnv demoCacheJobEnv demoCacheEnv
        (demoFinishedJobState
          [{ m_productFileName := "/cache/pc/game/a.bin".toList },
           { m_productFileName := "/cache/pc/game/a2.bin".toList }])).1.jobs.m_remainingJobsForEachSourceFile.map
          (fun tracker => (tracker.1, tracker.2.m_remainingJobsSpawned, tracker.2.failedStatus))
      = [("/dev/game/a.txt".toList, 0, true)])
    ∧ ((AssetProcessed_Impl demoEnv demoQueueEnv demoCacheJobEnv demoCacheEnv
        (demoFinishedJobState
          [{ m_productFileName := "/cache/pc/game/a.bin".toList },
           { m_productFileName := "/cache/pc/game/a2.bin".toList }])).2.emitted.map
          (fun job => job.m_autoFail) = [true])
    ∧ ((AssetProcessed_Impl demoEnv demoQueueEnv demoCacheJobEnv demoCacheEnv
        (demoFinishedJobState
          [{ m_productFileName := "/cache/pc/game/a.bin".toList },
           { m_productFileName := "/cache/pc/game/a2.bin".toList }])).2.queued
      = [QueuedCall.FinishAnalysis "/dev/game/a.txt".toList]) := by
  refine ⟨by decide, by decide, by decide, by decide, by decide, by decide, by decide⟩

/-! ## Jobs recorded with `FAILED_FINGERPRINT` -/

/-- C28 (amended): for a job whose rows in the store all carry `FAILED_FINGERPRINT`,
`AnalyzeJob` returns true whenever the computed fingerprint is another value than
`FAILED_FINGERPRINT`; when the computed fingerprint is `FAILED_FINGERPRINT` itself and the
store has a row of the job, `AnalyzeJob` returns true exactly when a product recorded for the
job is missing from the cache. -/
theorem AnalyzeJob_of_FAILED_FINGERPRINT (jobsInStore : List JobDatabaseEntry)
    (productsInStore : List ProductDatabaseEntry) (productExists : Str → Bool)
    (jobDetails : JobDetails)
    (hfailed : ∀ j ∈ GetJobsBySourceName jobsInStore jobDetails.m_jobEntry.m_databaseSourceName
      jobDetails.m_jobEntry.m_builderGuid jobDetails.m_jobEntry.m_jobKey
      jobDetails.m_jobEntry.m_platformIdentifier, j.m_fingerprint = FAILED_FINGERPRINT) :
    (jobDetails.m_jobEntry.m_computedFingerprint ≠ FAILED_FINGERPRINT →
      AnalyzeJob jobsInStore productsInStore productExists jobDetails = true)
    ∧ (jobDetails.m_jobEntry.m_computedFingerprint = FAILED_FINGERPRINT →
        GetJobsBySourceName jobsInStore jobDetails.m_jobEntry.m_databaseSourceName
          jobDetails.m_jobEntry.m_builderGuid jobDetails.m_jobEntry.m_jobKey
          jobDetails.m_jobEntry.m_platformIdentifier ≠ [] →
        (AnalyzeJob jobsInStore productsInStore productExists jobDetails = true ↔
          ∃ p ∈ GetProductsBySourceName productsInStore
              jobDetails.m_jobEntry.m_databaseSourceName jobDetails.m_jobEntry.m_builderGuid
              jobDetails.m_jobEntry.m_jobKey jobDetails.m_jobEntry.m_platformIdentifier,
            productExists p.m_productName = false)) := by
  unfold AnalyzeJob
  generalize GetJobsBySourceName jobsInStore jobDetails.m_jobEntry.m_databaseSourceName
    jobDetails.m_jobEntry.m_builderGuid jobDetails.m_jobEntry.m_jobKey
    jobDetails.m_jobEntry.m_platformIdentifier = J at hfailed ⊢
  generalize GetProductsBySourceName productsInStore
    jobDetails.m_jobEntry.m_databaseSourceName jobDetails.m_jobEntry.m_builderGuid
    jobDetails.m_jobEntry.m_jobKey jobDetails.m_jobEntry.m_platformIdentifier = P
  cases J with
  | nil => simp
  | cons row rest =>
    have hrow : row.m_fingerprint = FAILED_FINGERPRINT := hfailed row (List.mem_cons_self _ _)
    constructor
    · intro hne
      have : ¬ FAILED_FINGERPRINT = jobDetails.m_jobEntry.m_computedFingerprint :=
        fun h => hne h.symm
      simp [hrow, this]
    · intro heq _
      simp only [List.isEmpty_cons, Bool.not_false, List.head?_cons, Option.map_some', hrow,
        heq, and_self, if_true]
      have key := foldl_missing_product productExists P false
      cases hP : P with
      | nil => simp
      | cons p tl =>
        rw [hP] at key
        simp only [List.isEmpty_cons, Bool.not_false, if_true]
        constructor
        · intro h
          by_contra hall
          have hall' : ∀ q ∈ p :: tl, productExists q.m_productName = true := by
            intro q hq
            by_contra hq'
            exact hall ⟨q, hq, by simpa using hq'⟩
          have := key.2 ⟨rfl, hall'⟩
          rw [this] at h
          exact absurd h (by simp)
        · rintro ⟨q, hq, hmissing⟩
          by_contra hfalse
          have hf := key.1 (by simpa using hfalse)
          have := hf.2 q hq
          rw [hmissing] at this
          exact absurd this (by simp)

set_option maxRecDepth 100000 in
/-- C28, on a run: the job `compile` of `a.txt` is recorded with `FAILED_FINGERPRINT` and its
product is on disk; with the computed fingerprint 4242 `AnalyzeJob` returns true. -/
theorem AnalyzeJob_of_FAILED_FINGERPRINT_witness :
    demoJob.m_jobEntry.m_computedFingerprint ≠ FAILED_FINGERPRINT
    ∧ AnalyzeJob [{ demoJobRow with m_fingerprint := FAILED_FINGERPRINT }] demoProductTable
        (fun _ => true) demoJob = true :=
  ⟨by decide,
   (AnalyzeJob_of_FAILED_FINGERPRINT [{ demoJobRow with m_fingerprint := FAILED_FINGERPRINT }]
      demoProductTable (fun _ => true) demoJob (by decide)).1 (by decide)⟩

set_option maxRecDepth 100000 in
/-- C28, where the claim fails: the job is recorded with `FAILED_FINGERPRINT`, its product is
on disk and the fingerprint computed for it is 1, the value of `FAILED_FINGERPRINT`;
`AnalyzeJob` returns false and `ProcessJob` emits nothing. -/
theorem AnalyzeJob_false_on_computed_FAILED_FINGERPRINT :
    FAILED_FINGERPRINT = 1
    ∧ AnalyzeJob [{ demoJobRow with m_fingerprint := FAILED_FINGERPRINT }] demoProductTable
        (fun _ => true)
        { demoJob with
          m_jobEntry := { demoJob.m_jobEntry with m_computedFingerprint := 1 } } = false
    ∧ (ProcessJob demoEnv (fun _ => 1) demoJobEnv.absoluteFilePath (fun _ => true) [] {}
        [{ demoJobRow with m_fingerprint := FAILED_FINGERPRINT }] demoProductTable [] []
        demoJob).map (fun out => out.emitted) = some [] := by
  refine ⟨by decide, by decide, by decide⟩

/-! ## `ComputeBuilderDirty` on the table it wrote -/

theorem tokenizeLoop_append (s rest current : Str) (hs : ':' ∉ s) :
    tokenizeLoop [':'] (s ++ rest) current = tokenizeLoop [':'] rest (s.reverse ++ current) := by
  induction s generalizing current with
  | nil => rfl
  | cons c tl ih =>
    have hc : c ≠ ':' := fun h => hs (by simp [h])
    have htl : ':' ∉ tl := fun h => hs (List.mem_cons_of_mem _ h)
    simp only [List.cons_append, tokenizeLoop, List.mem_singleton, hc, if_false,
      List.append_eq]
    rw [ih _ htl]
    simp

theorem Tokenize_three (A B : Str) (hA : A ≠ []) (hB : B ≠ []) (hAc : ':' ∉ A)
    (hBc : ':' ∉ B) :
    Tokenize (currentAnalysisVersionString ++ ':' :: A ++ ':' :: B) [':']
      = [currentAnalysisVersionString, A, B] := by
  have hAe : A.reverse.isEmpty = false := by
    cases A with
    | nil => exact absurd rfl hA
    | cons a t => simp
  have hBe : B.reverse.isEmpty = false := by
    cases B with
    | nil => exact absurd rfl hB
    | cons a t => simp
  have h1 := tokenizeLoop_append A (':' :: B) [] hAc
  have h2 := tokenizeLoop_append B [] [] hBc
  simp only [List.append_nil] at h1 h2
  simp only [Tokenize, currentAnalysisVersionString, List.cons_append, List.nil_append,
    List.append_assoc, tokenizeLoop]
  simp only [List.mem_singleton, Char.reduceEq, if_false, if_true, List.isEmpty_cons,
    Bool.false_eq_true, List.reverse_cons, List.reverse_nil, List.nil_append,
    List.append_eq]
  rw [h1]
  simp only [tokenizeLoop, List.mem_singleton, if_true, hAe, Bool.false_eq_true, if_false,
    List.reverse_reverse]
  rw [h2]
  simp only [tokenizeLoop, hBe, Bool.false_eq_true, if_false, List.reverse_reverse]

theorem priorFingerprintPair_finalFingerprintString (ops : UuidOps) (b : AssetBuilderDesc)
    (id : Int)
    (h1 : TextReadsBack ops (newFingerprintPair ops b).1
      ∧ ':' ∉ ops.ToString (newFingerprintPair ops b).1)
    (h2 : TextReadsBack ops (newFingerprintPair ops b).2
      ∧ ':' ∉ ops.ToString (newFingerprintPair ops b).2) :
    priorFingerprintPair ops
        { m_builderInfoID := id, m_builderUuid := b.m_busId,
          m_analysisFingerprint := finalFingerprintString ops b }
      = newFingerprintPair ops b := by
  obtain ⟨⟨l1, _, r1⟩, c1⟩ := h1
  obtain ⟨⟨l2, _, r2⟩, c2⟩ := h2
  have n1 : ops.ToString (newFingerprintPair ops b).1 ≠ [] := by
    intro h; rw [h] at l1; simp at l1
  have n2 : ops.ToString (newFingerprintPair ops b).2 ≠ [] := by
    intro h; rw [h] at l2; simp at l2
  simp only [priorFingerprintPair, finalFingerprintString, Tokenize_three _ _ n1 n2 c1 c2]
  simp [r1, r2]

theorem priorBuilderFingerprints_newBuilderTable (ops : UuidOps)
    (currentBuilders : List AssetBuilderDesc)
    (hread : ∀ b ∈ currentBuilders, FingerprintsReadBack ops b) :
    priorBuilderFingerprints ops (newBuilderTable ops currentBuilders)
      = newBuilderFingerprints ops currentBuilders := by
  have key : ∀ (l : List AssetBuilderDesc) (m : List (Uuid × (Uuid × Uuid))),
      (∀ b ∈ l, FingerprintsReadBack ops b) →
      (newBuilderTable ops l).foldl
          (fun m b => mapSet m b.m_builderUuid (priorFingerprintPair ops b)) m
        = l.foldl (fun m b => mapSet m b.m_busId (newFingerprintPair ops b)) m := by
    intro l
    induction l with
    | nil => intro m _; rfl
    | cons b tl ih =>
      intro m h
      have hb := h b (List.mem_cons_self _ _)
      simp only [newBuilderTable, List.map_cons, List.foldl_cons]
      rw [priorFingerprintPair_finalFingerprintString ops b (-1) hb.1 hb.2]
      exact ih _ (fun b' hb' => h b' (List.mem_cons_of_mem _ hb'))
  exact key currentBuilders [] hread

theorem foldl_comparePrior_self (M : List (Uuid × (Uuid × Uuid))) (hM : (mapKeys M).Nodup)
    (l : List (Uuid × (Uuid × Uuid))) (hl : ∀ e ∈ l, e ∈ M) (st : BuilderState) :
    l.foldl (comparePrior M) st = st := by
  induction l generalizing st with
  | nil => rfl
  | cons e tl ih =>
    have he : mapFind M e.1 = some e.2 :=
      mapFind_of_mem M e.1 e.2 hM (hl e (List.mem_cons_self _ _))
    rw [List.foldl_cons]
    have hstep : comparePrior M st e = st := by
      simp only [comparePrior, he, ne_eq, not_true_eq_false, decide_False, Bool.or_false,
        Bool.false_eq_true, if_false]
    rw [hstep]
    exact ih (fun e' he' => hl e' (List.mem_cons_of_mem _ he')) st

theorem foldl_compareNew_self (M : List (Uuid × (Uuid × Uuid))) (hM : (mapKeys M).Nodup)
    (l : List (Uuid × (Uuid × Uuid))) (hl : ∀ e ∈ l, e ∈ M) (st : BuilderState) :
    l.foldl (compareNew M) st = st := by
  induction l generalizing st with
  | nil => rfl
  | cons e tl ih =>
    have he : mapFind M e.1 = some e.2 :=
      mapFind_of_mem M e.1 e.2 hM (hl e (List.mem_cons_self _ _))
    rw [List.foldl_cons]
    have hstep : compareNew M st e = st := by
      simp only [compareNew, he]
    rw [hstep]
    exact ih (fun e' he' => hl e' (List.mem_cons_of_mem _ he')) st

/-- C29: when the fingerprints of the registered builders print as texts that read back and
hold no colon, `ComputeBuilderDirty` run with the same builders against the builder table
that a first run wrote finds no difference: `m_anyBuilderChange` and
`m_buildersAddedOrRemoved` are false, no builder of the cache is dirty, the source
fingerprints are not invalidated and the same table is written again; the pair read back from
each persisted text is the pair computed for the builder. -/
theorem ComputeBuilderDirty_idempotent (ops : UuidOps)
    (currentBuilders : List AssetBuilderDesc) (priorBuilders : List BuilderInfoEntry)
    (hread : ∀ b ∈ currentBuilders, FingerprintsReadBack ops b) :
    ∃ table, (ComputeBuilderDirty ops currentBuilders priorBuilders).2.getLast?
        = some (StoreCall.SetBuilderInfoTable table)
      ∧ (ComputeBuilderDirty ops currentBuilders table).1.m_anyBuilderChange = false
      ∧ (ComputeBuilderDirty ops currentBuilders table).1.m_buildersAddedOrRemoved = false
      ∧ (∀ u d, mapFind (ComputeBuilderDirty ops currentBuilders table).1.m_builderDataCache u
            = some d → d.m_isDirty = false)
      ∧ (ComputeBuilderDirty ops currentBuilders table).2
          = [StoreCall.SetBuilderInfoTable table]
      ∧ ∀ b ∈ currentBuilders,
          priorFingerprintPair ops
              { m_builderInfoID := -1, m_builderUuid := b.m_busId,
                m_analysisFingerprint := finalFingerprintString ops b }
            = newFingerprintPair ops b := by
  refine ⟨newBuilderTable ops currentBuilders, by simp [ComputeBuilderDirty], ?_⟩
  have hrun : (ComputeBuilderDirty ops currentBuilders (newBuilderTable ops currentBuilders)).1
      = { m_builderDataCache := freshBuilderDataCache ops currentBuilders
          m_buildersAddedOrRemoved := false
          m_anyBuilderChange := false } := by
    simp only [ComputeBuilderDirty,
      priorBuilderFingerprints_newBuilderTable ops currentBuilders hread]
    rw [foldl_comparePrior_self _ (nodup_mapKeys_newBuilderFingerprints ops currentBuilders)
      _ (fun e he => he),
      foldl_compareNew_self _ (nodup_mapKeys_newBuilderFingerprints ops currentBuilders)
      _ (fun e he => he)]
  refine ⟨by rw [hrun], by rw [hrun], ?_, ?_, ?_⟩
  · intro u d hd
    rw [hrun] at hd
    exact freshBuilderDataCache_not_dirty ops currentBuilders u d hd
  · have h2 : (ComputeBuilderDirty ops currentBuilders
        (newBuilderTable ops currentBuilders)).2
        = (if (ComputeBuilderDirty ops currentBuilders
              (newBuilderTable ops currentBuilders)).1.m_buildersAddedOrRemoved = true then
            [StoreCall.InvalidateSourceAnalysisFingerprints] else [])
          ++ [StoreCall.SetBuilderInfoTable (newBuilderTable ops currentBuilders)] := rfl
    rw [h2, hrun]
    simp
  · intro b hb
    exact priorFingerprintPair_finalFingerprintString ops b (-1) (hread b hb).1 (hread b hb).2

set_option maxRecDepth 100000 in
/-- C29, on a run: with the text builder and the copy builder registered, the run against the
table written for them reports no change, and the first run from an empty table wrote that
table. -/
theorem ComputeBuilderDirty_idempotent_witness :
    (demoBuilderState.m_anyBuilderChange = false
      ∧ demoBuilderState.m_buildersAddedOrRemoved = false)
    ∧ (ComputeBuilderDirty stdUuid [demoTxtBuilderV1, demoCopyBuilder] []).1.m_anyBuilderChange
      = true
    ∧ ∃ table, (ComputeBuilderDirty stdUuid [demoTxtBuilderV1, demoCopyBuilder] []).2.getLast?
        = some (StoreCall.SetBuilderInfoTable table)
      ∧ (ComputeBuilderDirty stdUuid [demoTxtBuilderV1, demoCopyBuilder]
          table).1.m_anyBuilderChange = false
      ∧ (ComputeBuilderDirty stdUuid [demoTxtBuilderV1, demoCopyBuilder]
          table).1.m_buildersAddedOrRemoved = false
      ∧ (ComputeBuilderDirty stdUuid [demoTxtBuilderV1, demoCopyBuilder] table).2
          = [StoreCall.SetBuilderInfoTable table] :=
  ⟨by decide, by decide,
   (ComputeBuilderDirty_idempotent stdUuid [demoTxtBuilderV1, demoCopyBuilder] []
      (by decide)).imp
      (fun _ h => ⟨h.1, h.2.1, h.2.2.1, h.2.2.2.2.1⟩)⟩

/-! ## `FinishAnalysis` for a source that the store does not know -/

set_option maxRecDepth 100000 in
/-- C30, on the code: from the start, `c.cfg` goes to the copy builder, which creates no job,
and `a.txt` to the text builder; `CheckForIdle` queues `FinishAnalysis` for `c.cfg`, whose
tracker has not failed and counts no job, while the store has no source record at all.
`FinishAnalysis` does not find the source and calls `SetSource` all the same, with the
source it declared and never filled: a record with id -1, scan folder -1, no name and no
fingerprint is in the store afterwards. -/
theorem FinishAnalysis_writes_default_source :
    (((runPipeline stdUuid demoEnv demoQueueEnv demoJobEnv demoCfgPipeline {}).bind
        (fun st => CheckForIdle stdUuid demoEnv demoQueueEnv demoJobEnv st)).map
        (fun out => (out.effects.queued.head?, out.st.sourceTable,
          mapFind out.st.jobs.m_remainingJobsForEachSourceFile "/dev/game/c.cfg".toList))
      = some (some (QueuedCall.FinishAnalysis "/dev/game/c.cfg".toList), [],
          some demoCfgTracker))
    ∧ ((((runPipeline stdUuid demoEnv demoQueueEnv demoJobEnv demoCfgPipeline {}).bind
          (fun st => CheckForIdle stdUuid demoEnv demoQueueEnv demoJobEnv st)).bind
        (fun out => FinishAnalysis stdUuid demoEnv demoBuilderState.m_builderDataCache
          out.st.jobs.m_remainingJobsForEachSourceFile out.st.sourceTable out.st.edges
          out.st.queue.m_metaCache "/dev/game/c.cfg".toList)).map
        (fun done => (done.storeWrites, done.sources))
      = some ([{ m_sourceID := -1, m_scanFolderPK := -1, m_sourceName := [],
                 m_analysisFingerprint := [], m_sourceGuid := 0 }],
              [{ m_sourceID := -1, m_scanFolderPK := -1, m_sourceName := [],
                 m_analysisFingerprint := [], m_sourceGuid := 0 }]))
    ∧ ((FinishAnalysis stdUuid demoEnv demoBuilderState.m_builderDataCache
          [("/dev/game/c.cfg".toList, demoCfgTracker)] [] [] {}
          "/dev/game/c.cfg".toList).map (fun done => done.sources)
      = some [{}]) := by
  refine ⟨by decide, by decide, by decide⟩

end AssetProcessor
